import Mathlib

/-!
# hub3 faceted search: filter codec, request construction and scroll pager

A shallow embedding of `hub3/fragments/api.go`.

* A Go `string` is modelled as the list of its characters (`GoString`).  Every
  delimiter the code looks at (`[`, `]`, `:`, the hexadecimal digits, the
  decimal digits) is ASCII, so splitting by character and splitting by byte
  agree.
* `int32` and `int64` values are integers; every place where the Go code
  narrows or can overflow goes through `wrapInt32`.
* Pointer results `(*T, error)` are pairs `Option T × Option GoError`.
* A method with a pointer receiver that mutates the receiver returns the new
  receiver next to its results.
-/

namespace Hub3

/-! ## Strings and the Go library functions used by the code -/

/-- A Go string, as the sequence of its characters. -/
abbrev GoString := List Char

/-- A byte of a Go byte slice. -/
abbrev Byte := Fin 256

/-- The Go error values the modelled functions can return. -/
inductive GoError where
  /-- The error of NewQueryFilter: no query field specified in the given filter. -/
  | noQueryField (filter : GoString)
  /-- The error hex.InvalidByteError of encoding/hex. -/
  | hexInvalidByte (c : Char)
  /-- The error hex.ErrLength of encoding/hex. -/
  | hexLength
  /-- The error strconv.NumError of strconv.Atoi. -/
  | numError (input : GoString)
  /-- An error of the wire codec or of the JSON decoder. -/
  | codec (code : Nat)
  /-- The error of TypeClassAsURI for a shorthand that has no underscore. -/
  | typeClassShorthand (uri : GoString)
  /-- The error of TypeClassAsURI for a namespace that is not registered. -/
  | unknownNamespace (name : GoString)
  /-- The error of Echo for an echo type it does not know. -/
  | unknownEchoType (echoType : GoString)
  /-- The result of errors.Wrap. -/
  | wrap (message : GoString) (cause : GoError)
  deriving DecidableEq, Repr

/-- Conversion to `int32`: keeps the low 32 bits, read as a signed value. -/
def wrapInt32 (x : Int) : Int :=
  (x + 2147483648) % 4294967296 - 2147483648

/-- The function strings.Replace for a non-empty `old`; the helper skips the
remaining characters of a match that has just been replaced.  A negative `n`
replaces every occurrence, otherwise at most `n` (counted as `limit`). -/
def stringsReplaceAux (old new : GoString) : Option Nat → Nat → GoString → GoString
  | _, _, [] => []
  | limit, skip + 1, _ :: cs => stringsReplaceAux old new limit skip cs
  | limit, 0, c :: cs =>
    if limit ≠ some 0 ∧ old <+: (c :: cs) then
      new ++ stringsReplaceAux old new (limit.map Nat.pred) (old.length - 1) cs
    else
      c :: stringsReplaceAux old new limit 0 cs

/-- The function strings.Replace(s, old, new, n), for a non-empty `old`. -/
def stringsReplace (s old new : GoString) (n : Int) : GoString :=
  stringsReplaceAux old new (if n < 0 then none else some n.toNat) 0 s

/-- The function strings.SplitN(s, sep, n) for a one-character separator and `n ≥ 0`. -/
def stringsSplitN (sep : Char) : Nat → GoString → List GoString
  | 0, _ => []
  | 1, s => [s]
  | n + 2, s =>
    match s.span (fun c => c != sep) with
    | (pre, []) => [pre]
    | (pre, _ :: rest) => pre :: stringsSplitN sep (n + 1) rest

/-- The function strings.FieldsFunc: the maximal runs of characters that do not
satisfy `f`; `cur` holds the run being read, in reverse. -/
def stringsFieldsFuncAux (f : Char → Bool) : GoString → GoString → List GoString
  | [], cur => if cur = [] then [] else [cur.reverse]
  | c :: cs, cur =>
    if f c then
      if cur = [] then stringsFieldsFuncAux f cs []
      else cur.reverse :: stringsFieldsFuncAux f cs []
    else stringsFieldsFuncAux f cs (c :: cur)

/-- The function strings.FieldsFunc(s, f). -/
def stringsFieldsFunc (s : GoString) (f : Char → Bool) : List GoString :=
  stringsFieldsFuncAux f s []

/-! ## Data model -/

/-- Modelled from the spec: the generated message type ContextQueryFilter
(api.pb.go is not among the sources); the fields are the ones api.go reads. -/
structure ContextQueryFilter where
  SearchLabel : GoString := []
  TypeClass : GoString := []
  deriving DecidableEq, Repr

/-- Modelled from the spec: the generated message type QueryFilter (api.pb.go is
not among the sources); the fields are the ones api.go reads and writes. -/
structure QueryFilter where
  Level1 : Option ContextQueryFilter := none
  Level2 : Option ContextQueryFilter := none
  SearchLabel : GoString := []
  TypeClass : GoString := []
  Value : GoString := []
  Exclude : Bool := false
  deriving DecidableEq, Repr

/-! ## FilterCodec -/

/-- The function qfSplit. -/
def qfSplit (r : Char) : Bool :=
  r == ']' || r == '['

/-- The function validateTypeClass. -/
def validateTypeClass (tc : GoString) : GoString :=
  if tc = "a".toList then [] else tc

/-- The function NewQueryFilter: parses the filter string and creates a QueryFilter. -/
def NewQueryFilter (filter : GoString) : Option QueryFilter × Option GoError :=
  let filter := stringsReplace filter "[]".toList "[a]".toList (-1)
  match stringsSplitN ':' 2 filter with
  | [head, value] =>
    let qf : QueryFilter := { Value := value }
    match stringsFieldsFunc head qfSplit with
    | [p0] => (some { qf with SearchLabel := p0 }, none)
    | [p0, p1] =>
      (some { qf with SearchLabel := p1, TypeClass := validateTypeClass p0 }, none)
    | [p0, p1, p2] =>
      (some { qf with
        SearchLabel := p2, TypeClass := validateTypeClass p1,
        Level2 := some { SearchLabel := p0 } }, none)
    | [p0, p1, p2, p3] =>
      (some { qf with
        SearchLabel := p3, TypeClass := validateTypeClass p2,
        Level2 := some { SearchLabel := p1, TypeClass := validateTypeClass p0 } }, none)
    | [p0, p1, p2, p3, p4] =>
      (some { qf with
        SearchLabel := p4, TypeClass := validateTypeClass p3,
        Level2 := some { SearchLabel := p2, TypeClass := validateTypeClass p1 },
        Level1 := some { SearchLabel := p0 } }, none)
    | [p0, p1, p2, p3, p4, p5] =>
      (some { qf with
        SearchLabel := p5, TypeClass := validateTypeClass p4,
        Level2 := some { SearchLabel := p3, TypeClass := validateTypeClass p2 },
        Level1 := some { SearchLabel := p1, TypeClass := validateTypeClass p0 } }, none)
    | _ => (some qf, none)
  | _ => (none, some (GoError.noQueryField filter))

/-- The method QueryFilter.AsString: the filter formatted as a string. -/
def QueryFilter.AsString (qf : QueryFilter) : GoString :=
  let base := "[".toList ++ qf.TypeClass ++ "]".toList ++ qf.SearchLabel ++ ":".toList ++ qf.Value
  let level2 :=
    match qf.Level2 with
    | some l2 => "[".toList ++ l2.TypeClass ++ "]".toList ++ l2.SearchLabel
    | none => []
  let level1 :=
    match qf.Level1 with
    | some l1 => "[".toList ++ l1.TypeClass ++ "]".toList ++ l1.SearchLabel
    | none => []
  level1 ++ level2 ++ base

/-- A token of the filter grammar: a non-empty string without `[`, `]` or `:`. -/
abbrev isToken (s : GoString) : Prop :=
  s ≠ [] ∧ ∀ c ∈ s, c ≠ '[' ∧ c ≠ ']' ∧ c ≠ ':'

/-- A type class that AsString and NewQueryFilter carry unchanged: empty, or a
token other than the wildcard `a`. -/
abbrev isTypeClass (s : GoString) : Prop :=
  s = [] ∨ (isToken s ∧ s ≠ "a".toList)

/-- The text `[tc]label` that AsString writes for one level. -/
def bracketed (tc label : GoString) : GoString :=
  '[' :: tc ++ ']' :: label

/-- The type class token that stands for `tc` once empty brackets are filled. -/
def filledTypeClass (tc : GoString) : GoString :=
  if tc = [] then "a".toList else tc

/-! ## Request model -/

/-- Modelled from the spec: the generated message type FacetField (api.pb.go is
not among the sources); the fields are the ones api.go reads and writes. -/
structure FacetField where
  Field : GoString := []
  Name : GoString := []
  Size : Int := 0
  ByName : Bool := false
  ById : Bool := false
  Asc : Bool := false
  deriving DecidableEq, Repr

/-- Modelled from the spec: the generated message type TreeQuery (api.pb.go is
not among the sources); the fields are the ones api.go reads and writes. -/
structure TreeQuery where
  Leaf : GoString := []
  Parent : GoString := []
  ChildCount : GoString := []
  Type_ : GoString := []
  Label : GoString := []
  Depth : List GoString := []
  FillTree : Bool := false
  deriving DecidableEq, Repr

/-- Modelled from the spec: the generated enumeration ResponseFormatType
(api.pb.go is not among the sources), with the values api.go names; the first
one is the zero value. -/
inductive ResponseFormatType where
  | JSON
  | PROTOBUF
  | LDJSON
  | BULKACTION
  deriving DecidableEq, Repr

/-- Modelled from the spec: the generated enumeration ItemFormatType
(api.pb.go is not among the sources), with the values api.go names; the first
one is the zero value. -/
inductive ItemFormatType where
  | SUMMARY
  | FRAGMENTGRAPH
  | GROUPED
  | JSONLD
  | FLAT
  | TREE
  deriving DecidableEq, Repr

/-- Modelled from the spec: the generated message type SearchRequest
(api.pb.go is not among the sources); the fields are the ones api.go reads and
writes.  ResponseSize, Start and CollapseSize are `int32`. -/
structure SearchRequest where
  Query : GoString := []
  ResponseSize : Int := 0
  Start : Int := 0
  QueryFilter : List QueryFilter := []
  ResponseFormatType : ResponseFormatType := ResponseFormatType.JSON
  FacetField : List FacetField := []
  FacetAndBoolType : Bool := false
  SortBy : GoString := []
  SortAsc : Bool := false
  SearchAfter : List Byte := []
  ItemFormat : ItemFormatType := ItemFormatType.SUMMARY
  Paging : Bool := false
  CollapseOn : GoString := []
  CollapseSort : GoString := []
  CollapseSize : Int := 0
  Peek : GoString := []
  Tree : Option TreeQuery := none
  deriving DecidableEq, Repr

/-- Modelled from the spec: the generated message type ScrollPager (api.pb.go is
not among the sources): Cursor and Rows are `int32`, Total is `int64`. -/
structure ScrollPager where
  Cursor : Int := 0
  Total : Int := 0
  Rows : Int := 0
  ScrollID : GoString := []
  deriving DecidableEq, Repr

/-- The type url.Values: the parameter names with their values.  A Go map has
each key once; the order of the list is the order in which a `range` loop
visits the keys. -/
abbrev Values := List (GoString × List GoString)

/-- The method url.Values.Get: the first value of the key, or the empty string. -/
def Values.Get (params : Values) (key : GoString) : GoString :=
  match params.lookup key with
  | some (v :: _) => v
  | _ => []

/-- What api.go takes from outside the repository sources: the wire codec of
SearchRequest (proto.Marshal and proto.Unmarshal over the generated schema),
json.Unmarshal into a FacetField, and the configured facet size. -/
structure Env where
  /-- The call proto.Marshal(sr): the output and the error. -/
  protoMarshal : SearchRequest → List Byte × Option GoError
  /-- The call proto.Unmarshal(decoded, newSr) on a fresh request. -/
  protoUnmarshal : List Byte → SearchRequest × Option GoError
  /-- The call json.Unmarshal([]byte(field), &ff). -/
  jsonUnmarshalFacetField : GoString → FacetField → FacetField × Option GoError
  /-- The value c.Config.ElasticSearch.FacetSize. -/
  FacetSize : Int

/-! ## Library functions of the cursor codec and of parameter parsing -/

/-- One lower-case hexadecimal digit. -/
def hexDigit (n : Nat) : Char :=
  if n < 10 then Char.ofNat (48 + n) else Char.ofNat (87 + n)

/-- The call fmt.Sprintf("%x", output) on a byte slice: two lower-case
hexadecimal digits per byte. -/
def fmtSprintfHex (output : List Byte) : GoString :=
  output.flatMap (fun b => [hexDigit (b.val / 16), hexDigit (b.val % 16)])

/-- The value of a hexadecimal digit (the reverseHexTable of encoding/hex). -/
def fromHexChar (c : Char) : Option Nat :=
  if '0' ≤ c ∧ c ≤ '9' then some (c.toNat - 48)
  else if 'a' ≤ c ∧ c ≤ 'f' then some (c.toNat - 87)
  else if 'A' ≤ c ∧ c ≤ 'F' then some (c.toNat - 55)
  else none

/-- The function hex.DecodeString: the bytes decoded so far and the error. -/
def hexDecodeString : GoString → List Byte × Option GoError
  | [] => ([], none)
  | [p] =>
    match fromHexChar p with
    | none => ([], some (GoError.hexInvalidByte p))
    | some _ => ([], some GoError.hexLength)
  | p :: q :: rest =>
    match fromHexChar p, fromHexChar q with
    | none, _ => ([], some (GoError.hexInvalidByte p))
    | some _, none => ([], some (GoError.hexInvalidByte q))
    | some a, some b =>
      let r := hexDecodeString rest
      (Fin.ofNat (a * 16 + b) :: r.1, r.2)

/-- The digits of strconv.Atoi: the value of a run of decimal digits, none when
a character is not a decimal digit. -/
def atoiDigits : Nat → GoString → Option Nat
  | acc, [] => some acc
  | acc, c :: cs =>
    if '0' ≤ c ∧ c ≤ '9' then atoiDigits (acc * 10 + (c.toNat - 48)) cs else none

/-- The function strconv.Atoi with a 64-bit `int`: an optional sign, then at
least one decimal digit.  A syntax error returns 0 with the error, a value
outside the `int` range returns the nearest bound with the error. -/
def strconvAtoi (s : GoString) : Int × Option GoError :=
  let neg := s.head? = some '-'
  let digits := if s.head? = some '-' ∨ s.head? = some '+' then s.tail else s
  if digits = [] then (0, some (GoError.numError s))
  else
    match atoiDigits 0 digits with
    | none => (0, some (GoError.numError s))
    | some n =>
      if neg then
        if n ≤ 9223372036854775808 then (-(n : Int), none)
        else (-9223372036854775808, some (GoError.numError s))
      else
        if n ≤ 9223372036854775807 then ((n : Int), none)
        else (9223372036854775807, some (GoError.numError s))

/-- The function strconv.Itoa: the decimal text of an integer. -/
def strconvItoa (n : Int) : GoString :=
  if n < 0 then '-' :: Nat.toDigits 10 n.natAbs else Nat.toDigits 10 n.natAbs

/-- The function strings.ToLower on the ASCII letters.  The code only compares
the result with the words true and false, whose letters no other character
lower-cases to. -/
def stringsToLower (s : GoString) : GoString :=
  s.map Char.toLower

/-- The function strings.HasPrefix. -/
def stringsHasPrefix (s pre : GoString) : Bool :=
  pre.isPrefixOf s

/-! ## CursorCodec -/

/-- The function DefaultSearchRequest. -/
def DefaultSearchRequest : SearchRequest :=
  { ResponseSize := 16 }

/-- The function SearchRequestToHex: the marshalling error is dropped and the
returned error is always nil. -/
def SearchRequestToHex (env : Env) (sr : SearchRequest) : GoString × Option GoError :=
  let output := (env.protoMarshal sr).1
  (fmtSprintfHex output, none)

/-- The function SearchRequestFromHex. -/
def SearchRequestFromHex (env : Env) (s : GoString) : SearchRequest × Option GoError :=
  let decoded := hexDecodeString s
  let newSr : SearchRequest := {}
  match decoded.2 with
  | some err => (newSr, some err)
  | none => env.protoUnmarshal decoded.1

/-- The function NewScrollPager. -/
def NewScrollPager : ScrollPager :=
  let sp : ScrollPager := {}
  let sp := { sp with Total := 0 }
  { sp with Cursor := 0 }

/-- The method SearchRequest.NextScrollID: the pager and the error, and the
request as the call leaves it. -/
def SearchRequest.NextScrollID (env : Env) (sr : SearchRequest) (total : Int) :
    (Option ScrollPager × Option GoError) × SearchRequest :=
  let sp := NewScrollPager
  if total = 0 then ((some sp, none), sr)
  else
    let sp := { sp with Cursor := sr.Start }
    let sr := { sr with Start := wrapInt32 (sr.Start + sr.ResponseSize) }
    let sp := { sp with Rows := sr.ResponseSize }
    let sp := { sp with Total := total }
    if sr.Start ≥ wrapInt32 total then ((some sp, none), sr)
    else
      match SearchRequestToHex env sr with
      | (_, some err) => ((none, some err), sr)
      | (hex, none) => ((some { sp with ScrollID := hex }, none), sr)

/-! ## SearchRequest construction -/

/-- The function NewFacetField: parses the query string and creates a FacetField. -/
def NewFacetField (env : Env) (field : GoString) : Option FacetField × Option GoError :=
  let ff : FacetField := { Size := wrapInt32 env.FacetSize }
  if !stringsHasPrefix field "\x7b".toList then
    (some { ff with Field := field, Name := field }, none)
  else
    match env.jsonUnmarshalFacetField field ff with
    | (_, some err) =>
      (none, some (GoError.wrap "Unable to unmarshal facetfield".toList err))
    | (ff, none) => (some ff, none)

/-- The method SearchRequest.AddQueryFilter: the error, and the request as the
call leaves it. -/
def SearchRequest.AddQueryFilter (sr : SearchRequest) (filter : GoString) :
    Option GoError × SearchRequest :=
  match NewQueryFilter filter with
  | (_, some err) => (some err, sr)
  | (some qf, none) => (none, { sr with QueryFilter := sr.QueryFilter ++ [qf] })
  | (none, none) => (none, sr)

/-- The state of the parameter loop of NewSearchRequest: the request being
built and the TreeQuery that `sr.Tree` points to once a tree parameter is seen. -/
abbrev LoopState := SearchRequest × TreeQuery

/-- An early return of NewSearchRequest: the returned request and the error. -/
abbrev LoopExit := Option SearchRequest × GoError

/-- The inner loop of the cases qf and qf[]: stops at the first filter that
does not parse and returns the request built so far with the error. -/
def NewSearchRequest.queryFilters (sr : SearchRequest) :
    List GoString → Except LoopExit SearchRequest
  | [] => Except.ok sr
  | qf :: rest =>
    match sr.AddQueryFilter qf with
    | (some err, sr) => Except.error (some sr, err)
    | (none, sr) => NewSearchRequest.queryFilters sr rest

/-- The inner loop of the case facet.field: stops at the first field that does
not parse and returns no request with the error. -/
def NewSearchRequest.facetFields (env : Env) (sr : SearchRequest) :
    List GoString → Except LoopExit SearchRequest
  | [] => Except.ok sr
  | ff :: rest =>
    match NewFacetField env ff with
    | (_, some err) => Except.error (none, err)
    | (some facet, none) =>
      NewSearchRequest.facetFields env { sr with FacetField := sr.FacetField ++ [facet] } rest
    | (none, none) => NewSearchRequest.facetFields env sr rest

/-- The cases of the switch on the parameter name in NewSearchRequest. -/
inductive ParamCase where
  | query
  | qf
  | facetField
  | facetBoolType
  | format
  | rows
  | itemFormat
  | sortBy
  | sortAsc
  | sortOrder
  | collapseOn
  | collapseSort
  | collapseSize
  | peek
  | byLeaf
  | byDepth
  | byChildCount
  | byParent
  | byType
  | byLabel
  | other
  deriving DecidableEq, Repr

/-- The case of the switch that the parameter name `p` selects. -/
def paramCase (p : GoString) : ParamCase :=
  if p = "q".toList ∨ p = "query".toList then ParamCase.query
  else if p = "qf".toList ∨ p = "qf[]".toList then ParamCase.qf
  else if p = "facet.field".toList then ParamCase.facetField
  else if p = "facetBoolType".toList then ParamCase.facetBoolType
  else if p = "format".toList then ParamCase.format
  else if p = "rows".toList then ParamCase.rows
  else if p = "itemFormat".toList then ParamCase.itemFormat
  else if p = "sortBy".toList then ParamCase.sortBy
  else if p = "sortAsc".toList then ParamCase.sortAsc
  else if p = "sortOrder".toList then ParamCase.sortOrder
  else if p = "collapseOn".toList then ParamCase.collapseOn
  else if p = "collapseSort".toList then ParamCase.collapseSort
  else if p = "collapseSize".toList then ParamCase.collapseSize
  else if p = "peek".toList then ParamCase.peek
  else if p = "byLeaf".toList then ParamCase.byLeaf
  else if p = "byDepth".toList then ParamCase.byDepth
  else if p = "byChildCount".toList then ParamCase.byChildCount
  else if p = "byParent".toList then ParamCase.byParent
  else if p = "byType".toList then ParamCase.byType
  else if p = "byLabel".toList then ParamCase.byLabel
  else ParamCase.other

/-- One iteration of the parameter loop of NewSearchRequest: the body of the
case that the parameter name `p` selects, with the values `v` of `p`. -/
def NewSearchRequest.param (env : Env) (params : Values) (st : LoopState)
    (pv : GoString × List GoString) : Except LoopExit LoopState :=
  let sr := st.1
  let tree := st.2
  let p := pv.1
  let v := pv.2
  match paramCase p with
  | ParamCase.query => Except.ok ({ sr with Query := params.Get p }, tree)
  | ParamCase.qf =>
    match NewSearchRequest.queryFilters sr v with
    | Except.error e => Except.error e
    | Except.ok sr => Except.ok (sr, tree)
  | ParamCase.facetField =>
    match NewSearchRequest.facetFields env sr v with
    | Except.error e => Except.error e
    | Except.ok sr => Except.ok (sr, tree)
  | ParamCase.facetBoolType =>
    let fbt := params.Get p
    if fbt ≠ [] then
      Except.ok ({ sr with FacetAndBoolType := stringsToLower fbt = "false".toList }, tree)
    else Except.ok (sr, tree)
  | ParamCase.format =>
    if params.Get p = "protobuf".toList then
      Except.ok ({ sr with ResponseFormatType := ResponseFormatType.PROTOBUF }, tree)
    else if params.Get p = "jsonld".toList then
      Except.ok ({ sr with ResponseFormatType := ResponseFormatType.LDJSON }, tree)
    else if params.Get p = "bulkaction".toList then
      Except.ok ({ sr with ResponseFormatType := ResponseFormatType.BULKACTION }, tree)
    else Except.ok (sr, tree)
  | ParamCase.rows =>
    match strconvAtoi (params.Get p) with
    | (_, some err) => Except.error (some sr, err)
    | (size, none) =>
      let size := if size > 1000 then 1000 else size
      Except.ok ({ sr with ResponseSize := wrapInt32 size }, tree)
  | ParamCase.itemFormat =>
    let format := params.Get "itemFormat".toList
    if format = "fragmentGraph".toList then
      Except.ok ({ sr with ItemFormat := ItemFormatType.FRAGMENTGRAPH }, tree)
    else if format = "grouped".toList then
      Except.ok ({ sr with ItemFormat := ItemFormatType.GROUPED }, tree)
    else if format = "jsonld".toList then
      Except.ok ({ sr with ItemFormat := ItemFormatType.JSONLD }, tree)
    else if format = "flat".toList then
      Except.ok ({ sr with ItemFormat := ItemFormatType.FLAT }, tree)
    else if format = "tree".toList then
      Except.ok ({ sr with ItemFormat := ItemFormatType.TREE }, tree)
    else Except.ok ({ sr with ItemFormat := ItemFormatType.SUMMARY }, tree)
  | ParamCase.sortBy => Except.ok ({ sr with SortBy := params.Get p }, tree)
  | ParamCase.sortAsc =>
    if params.Get p = "true".toList then Except.ok ({ sr with SortAsc := true }, tree)
    else Except.ok (sr, tree)
  | ParamCase.sortOrder =>
    if params.Get p = "asc".toList then Except.ok ({ sr with SortAsc := true }, tree)
    else Except.ok (sr, tree)
  | ParamCase.collapseOn => Except.ok ({ sr with CollapseOn := params.Get p }, tree)
  | ParamCase.collapseSort => Except.ok ({ sr with CollapseSort := params.Get p }, tree)
  | ParamCase.collapseSize =>
    match strconvAtoi (params.Get p) with
    | (_, some err) => Except.error (some sr, err)
    | (size, none) => Except.ok ({ sr with CollapseSize := wrapInt32 size }, tree)
  | ParamCase.peek => Except.ok ({ sr with Peek := params.Get p }, tree)
  | ParamCase.byLeaf =>
    let tree := { tree with Leaf := params.Get p }
    let tree :=
      { tree with FillTree := stringsToLower (params.Get "fillTree".toList) = "true".toList }
    Except.ok ({ sr with Tree := some tree }, tree)
  | ParamCase.byDepth =>
    let tree := { tree with Depth := v }
    Except.ok ({ sr with Tree := some tree }, tree)
  | ParamCase.byChildCount =>
    let tree := { tree with ChildCount := params.Get p }
    Except.ok ({ sr with Tree := some tree }, tree)
  | ParamCase.byParent =>
    let tree := { tree with Parent := params.Get p }
    Except.ok ({ sr with Tree := some tree }, tree)
  | ParamCase.byType =>
    let tree := { tree with Type_ := params.Get p }
    Except.ok ({ sr with Tree := some tree }, tree)
  | ParamCase.byLabel =>
    let tree := { tree with Label := params.Get p }
    Except.ok ({ sr with Tree := some tree }, tree)
  | ParamCase.other => Except.ok (sr, tree)

/-- The names of the tree-navigation parameters: the cases of the parameter
switch that attach the TreeQuery to the request. -/
def treeParameters : List GoString :=
  ["byLeaf".toList, "byDepth".toList, "byChildCount".toList, "byParent".toList,
    "byType".toList, "byLabel".toList]

/-- The parameter loop of NewSearchRequest over the names still to visit. -/
def NewSearchRequest.loop (env : Env) (params : Values) :
    List (GoString × List GoString) → LoopState → Except LoopExit LoopState
  | [], st => Except.ok st
  | pv :: rest, st =>
    match NewSearchRequest.param env params st pv with
    | Except.error e => Except.error e
    | Except.ok st => NewSearchRequest.loop env params rest st

/-- The cursor token NewSearchRequest looks at: the parameter scrollID, and the
parameter qs when scrollID is empty. -/
def NewSearchRequest.hexRequest (params : Values) : GoString :=
  let hexRequest := params.Get "scrollID".toList
  if hexRequest = [] then params.Get "qs".toList else hexRequest

/-- The function NewSearchRequest: builds a search request from URL parameters. -/
def NewSearchRequest (env : Env) (params : Values) : Option SearchRequest × Option GoError :=
  let hexRequest := NewSearchRequest.hexRequest params
  if hexRequest ≠ [] then
    let r := SearchRequestFromHex env hexRequest
    let sr := { r.1 with Paging := true }
    match r.2 with
    | some err => (none, some err)
    | none => (some sr, none)
  else
    let tree : TreeQuery := {}
    let sr := DefaultSearchRequest
    match NewSearchRequest.loop env params params (sr, tree) with
    | Except.error (sr, err) => (sr, some err)
    | Except.ok (sr, _) =>
      if sr.Tree ≠ none ∧ sr.ResponseSize ≠ 1 then
        (some { sr with ResponseSize := 1000 }, none)
      else (some sr, none)

/-! ## A reference wire codec

The cursor codec treats the serialization of SearchRequest as an opaque
contract.  The definitions above take it as part of `Env`; the instance below
is the proto3 wire format over the modelled fields, used to evaluate the code
on concrete requests. -/

/-- The UTF-8 bytes of a character. -/
def utf8EncodeChar (c : Char) : List Byte :=
  let n := c.toNat
  if n < 128 then [Fin.ofNat n]
  else if n < 2048 then [Fin.ofNat (192 + n / 64), Fin.ofNat (128 + n % 64)]
  else if n < 65536 then
    [Fin.ofNat (224 + n / 4096), Fin.ofNat (128 + n / 64 % 64), Fin.ofNat (128 + n % 64)]
  else
    [Fin.ofNat (240 + n / 262144), Fin.ofNat (128 + n / 4096 % 64),
      Fin.ofNat (128 + n / 64 % 64), Fin.ofNat (128 + n % 64)]

/-- The UTF-8 bytes of a string. -/
def utf8Encode (s : GoString) : List Byte :=
  s.flatMap utf8EncodeChar

/-- A continuation byte of UTF-8. -/
def utf8Cont (b : Byte) : Bool :=
  decide (128 ≤ b.val ∧ b.val < 192)

/-- The character with code point `n`, when `n` needs at least `lo` to be encoded. -/
def utf8Char (lo n : Nat) : Option Char :=
  if lo ≤ n ∧ n.isValidChar then some (Char.ofNat n) else none

/-- The string encoded by UTF-8 bytes, none when the bytes are not valid UTF-8. -/
def utf8Decode : List Byte → Option GoString
  | [] => some []
  | [b0] =>
    if b0.val < 128 then some [Char.ofNat b0.val] else none
  | [b0, b1] =>
    if b0.val < 128 then (utf8Decode [b1]).map (fun s => Char.ofNat b0.val :: s)
    else if 192 ≤ b0.val ∧ b0.val < 224 ∧ utf8Cont b1 then
      (utf8Char 128 ((b0.val - 192) * 64 + (b1.val - 128))).map (fun c => [c])
    else none
  | [b0, b1, b2] =>
    if b0.val < 128 then (utf8Decode [b1, b2]).map (fun s => Char.ofNat b0.val :: s)
    else if 192 ≤ b0.val ∧ b0.val < 224 ∧ utf8Cont b1 then
      match utf8Char 128 ((b0.val - 192) * 64 + (b1.val - 128)), utf8Decode [b2] with
      | some c, some s => some (c :: s)
      | _, _ => none
    else if 224 ≤ b0.val ∧ b0.val < 240 ∧ utf8Cont b1 ∧ utf8Cont b2 then
      (utf8Char 2048 ((b0.val - 224) * 4096 + (b1.val - 128) * 64 + (b2.val - 128))).map
        (fun c => [c])
    else none
  | b0 :: b1 :: b2 :: b3 :: rest =>
    if b0.val < 128 then
      (utf8Decode (b1 :: b2 :: b3 :: rest)).map (fun s => Char.ofNat b0.val :: s)
    else if 192 ≤ b0.val ∧ b0.val < 224 ∧ utf8Cont b1 then
      match utf8Char 128 ((b0.val - 192) * 64 + (b1.val - 128)),
          utf8Decode (b2 :: b3 :: rest) with
      | some c, some s => some (c :: s)
      | _, _ => none
    else if 224 ≤ b0.val ∧ b0.val < 240 ∧ utf8Cont b1 ∧ utf8Cont b2 then
      match utf8Char 2048 ((b0.val - 224) * 4096 + (b1.val - 128) * 64 + (b2.val - 128)),
          utf8Decode (b3 :: rest) with
      | some c, some s => some (c :: s)
      | _, _ => none
    else if 240 ≤ b0.val ∧ b0.val < 248 ∧ utf8Cont b1 ∧ utf8Cont b2 ∧ utf8Cont b3 then
      match utf8Char 65536 ((b0.val - 240) * 262144 + (b1.val - 128) * 4096
          + (b2.val - 128) * 64 + (b3.val - 128)), utf8Decode rest with
      | some c, some s => some (c :: s)
      | _, _ => none
    else none

/-- The base-128 varint of an unsigned number, at most `fuel` bytes. -/
def putUvarintAux : Nat → Nat → List Byte
  | 0, _ => []
  | fuel + 1, n =>
    if n < 128 then [Fin.ofNat n]
    else Fin.ofNat (n % 128 + 128) :: putUvarintAux fuel (n / 128)

/-- The base-128 varint of a 64-bit unsigned number. -/
def putUvarint (n : Nat) : List Byte :=
  putUvarintAux 10 n

/-- Reads a base-128 varint of at most `fuel` bytes: the number and the rest. -/
def getUvarint : Nat → List Byte → Option (Nat × List Byte)
  | 0, _ => none
  | _, [] => none
  | fuel + 1, b :: bs =>
    if b.val < 128 then some (b.val, bs)
    else
      match getUvarint fuel bs with
      | none => none
      | some (n, rest) => some (b.val - 128 + 128 * n, rest)

/-- The key of a field: its number and its wire type. -/
def putTag (field wire : Nat) : List Byte :=
  putUvarint (field * 8 + wire)

/-- A numeric field (int32 as the 64-bit two-complement varint); zero is omitted. -/
def putInt (field : Nat) (v : Int) : List Byte :=
  if v = 0 then [] else putTag field 0 ++ putUvarint (v % 18446744073709551616).toNat

/-- A boolean field; false is omitted. -/
def putBool (field : Nat) (b : Bool) : List Byte :=
  if b then putTag field 0 ++ [1] else []

/-- A length-delimited record: key, length, payload. -/
def putRecord (field : Nat) (payload : List Byte) : List Byte :=
  putTag field 2 ++ putUvarint payload.length ++ payload

/-- A bytes field; the empty value is omitted. -/
def putBytes (field : Nat) (bs : List Byte) : List Byte :=
  if bs = [] then [] else putRecord field bs

/-- A string field; the empty string is omitted. -/
def putString (field : Nat) (s : GoString) : List Byte :=
  putBytes field (utf8Encode s)

/-- A decoded field value: a varint or a length-delimited payload. -/
inductive WireValue where
  | varint (n : Nat)
  | bytes (b : List Byte)
  deriving DecidableEq, Repr

/-- Splits a message into its fields; fixed-width fields are skipped, groups
are rejected. -/
def getFields : Nat → List Byte → Option (List (Nat × WireValue))
  | 0, _ => none
  | _, [] => some []
  | fuel + 1, b :: bs =>
    match getUvarint 10 (b :: bs) with
    | none => none
    | some (key, rest) =>
      if key % 8 = 0 then
        match getUvarint 10 rest with
        | none => none
        | some (n, rest) =>
          (getFields fuel rest).map (fun fs => (key / 8, WireValue.varint n) :: fs)
      else if key % 8 = 2 then
        match getUvarint 10 rest with
        | none => none
        | some (len, rest) =>
          if len ≤ rest.length then
            (getFields fuel (rest.drop len)).map
              (fun fs => (key / 8, WireValue.bytes (rest.take len)) :: fs)
          else none
      else if key % 8 = 1 then
        if 8 ≤ rest.length then getFields fuel (rest.drop 8) else none
      else if key % 8 = 5 then
        if 4 ≤ rest.length then getFields fuel (rest.drop 4) else none
      else none

/-- Merges the fields of a message, in order, into `m`. -/
def mergeFields {M : Type} (merge : M → Nat × WireValue → Option M) :
    M → List (Nat × WireValue) → Option M
  | m, [] => some m
  | m, f :: fs =>
    match merge m f with
    | none => none
    | some m => mergeFields merge m fs

/-- Decodes a message into `m` with the given field merger. -/
def decodeMessage {M : Type} (merge : M → Nat × WireValue → Option M) (m : M)
    (b : List Byte) : Option M :=
  match getFields (b.length + 1) b with
  | none => none
  | some fs => mergeFields merge m fs

/-- The int32 value of a varint. -/
def wireInt32 (n : Nat) : Int :=
  wrapInt32 (n : Int)

/-- The wire form of a ContextQueryFilter. -/
def ContextQueryFilter.encode (m : ContextQueryFilter) : List Byte :=
  putString 1 m.SearchLabel ++ putString 2 m.TypeClass

/-- Merges one field into a ContextQueryFilter. -/
def ContextQueryFilter.merge (m : ContextQueryFilter) :
    Nat × WireValue → Option ContextQueryFilter
  | (1, WireValue.bytes b) => (utf8Decode b).map (fun s => { m with SearchLabel := s })
  | (2, WireValue.bytes b) => (utf8Decode b).map (fun s => { m with TypeClass := s })
  | _ => some m

/-- An optional embedded message: absent when none, a record otherwise. -/
def putOptional {M : Type} (field : Nat) (enc : M → List Byte) : Option M → List Byte
  | none => []
  | some m => putRecord field (enc m)

/-- The wire form of a QueryFilter. -/
def QueryFilter.encode (m : QueryFilter) : List Byte :=
  putOptional 1 ContextQueryFilter.encode m.Level1
    ++ putOptional 2 ContextQueryFilter.encode m.Level2
    ++ putString 3 m.SearchLabel ++ putString 4 m.TypeClass ++ putString 5 m.Value
    ++ putBool 6 m.Exclude

/-- Merges one field into a QueryFilter. -/
def QueryFilter.merge (m : QueryFilter) : Nat × WireValue → Option QueryFilter
  | (1, WireValue.bytes b) =>
    (decodeMessage ContextQueryFilter.merge (m.Level1.getD {}) b).map
      (fun c => { m with Level1 := some c })
  | (2, WireValue.bytes b) =>
    (decodeMessage ContextQueryFilter.merge (m.Level2.getD {}) b).map
      (fun c => { m with Level2 := some c })
  | (3, WireValue.bytes b) => (utf8Decode b).map (fun s => { m with SearchLabel := s })
  | (4, WireValue.bytes b) => (utf8Decode b).map (fun s => { m with TypeClass := s })
  | (5, WireValue.bytes b) => (utf8Decode b).map (fun s => { m with Value := s })
  | (6, WireValue.varint n) => some { m with Exclude := decide (n ≠ 0) }
  | _ => some m

/-- The wire form of a FacetField. -/
def FacetField.encode (m : FacetField) : List Byte :=
  putString 1 m.Field ++ putString 2 m.Name ++ putInt 3 m.Size ++ putBool 4 m.ByName
    ++ putBool 5 m.ById ++ putBool 6 m.Asc

/-- Merges one field into a FacetField. -/
def FacetField.merge (m : FacetField) : Nat × WireValue → Option FacetField
  | (1, WireValue.bytes b) => (utf8Decode b).map (fun s => { m with Field := s })
  | (2, WireValue.bytes b) => (utf8Decode b).map (fun s => { m with Name := s })
  | (3, WireValue.varint n) => some { m with Size := wireInt32 n }
  | (4, WireValue.varint n) => some { m with ByName := decide (n ≠ 0) }
  | (5, WireValue.varint n) => some { m with ById := decide (n ≠ 0) }
  | (6, WireValue.varint n) => some { m with Asc := decide (n ≠ 0) }
  | _ => some m

/-- The wire form of a TreeQuery; every element of Depth is written. -/
def TreeQuery.encode (m : TreeQuery) : List Byte :=
  putString 1 m.Leaf ++ putString 2 m.Parent ++ putString 3 m.ChildCount
    ++ putString 4 m.Type_ ++ putString 5 m.Label
    ++ m.Depth.flatMap (fun d => putRecord 6 (utf8Encode d))
    ++ putBool 7 m.FillTree

/-- Merges one field into a TreeQuery. -/
def TreeQuery.merge (m : TreeQuery) : Nat × WireValue → Option TreeQuery
  | (1, WireValue.bytes b) => (utf8Decode b).map (fun s => { m with Leaf := s })
  | (2, WireValue.bytes b) => (utf8Decode b).map (fun s => { m with Parent := s })
  | (3, WireValue.bytes b) => (utf8Decode b).map (fun s => { m with ChildCount := s })
  | (4, WireValue.bytes b) => (utf8Decode b).map (fun s => { m with Type_ := s })
  | (5, WireValue.bytes b) => (utf8Decode b).map (fun s => { m with Label := s })
  | (6, WireValue.bytes b) => (utf8Decode b).map (fun s => { m with Depth := m.Depth ++ [s] })
  | (7, WireValue.varint n) => some { m with FillTree := decide (n ≠ 0) }
  | _ => some m

/-- The number of a ResponseFormatType value. -/
def ResponseFormatType.number : ResponseFormatType → Nat
  | ResponseFormatType.JSON => 0
  | ResponseFormatType.PROTOBUF => 1
  | ResponseFormatType.LDJSON => 2
  | ResponseFormatType.BULKACTION => 3

/-- The ResponseFormatType value of a number; other numbers leave `d`. -/
def ResponseFormatType.ofNumber (d : ResponseFormatType) : Nat → ResponseFormatType
  | 0 => ResponseFormatType.JSON
  | 1 => ResponseFormatType.PROTOBUF
  | 2 => ResponseFormatType.LDJSON
  | 3 => ResponseFormatType.BULKACTION
  | _ => d

/-- The number of an ItemFormatType value. -/
def ItemFormatType.number : ItemFormatType → Nat
  | ItemFormatType.SUMMARY => 0
  | ItemFormatType.FRAGMENTGRAPH => 1
  | ItemFormatType.GROUPED => 2
  | ItemFormatType.JSONLD => 3
  | ItemFormatType.FLAT => 4
  | ItemFormatType.TREE => 5

/-- The ItemFormatType value of a number; other numbers leave `d`. -/
def ItemFormatType.ofNumber (d : ItemFormatType) : Nat → ItemFormatType
  | 0 => ItemFormatType.SUMMARY
  | 1 => ItemFormatType.FRAGMENTGRAPH
  | 2 => ItemFormatType.GROUPED
  | 3 => ItemFormatType.JSONLD
  | 4 => ItemFormatType.FLAT
  | 5 => ItemFormatType.TREE
  | _ => d

/-- The wire form of a SearchRequest: the fields in the order of the
structure, numbered from 1; a field holding its zero value is omitted. -/
def SearchRequest.encode (m : SearchRequest) : List Byte :=
  putString 1 m.Query ++ putInt 2 m.ResponseSize ++ putInt 3 m.Start
    ++ m.QueryFilter.flatMap (fun f => putRecord 4 f.encode)
    ++ putInt 5 m.ResponseFormatType.number
    ++ m.FacetField.flatMap (fun f => putRecord 6 f.encode)
    ++ putBool 7 m.FacetAndBoolType ++ putString 8 m.SortBy ++ putBool 9 m.SortAsc
    ++ putBytes 10 m.SearchAfter ++ putInt 11 m.ItemFormat.number ++ putBool 12 m.Paging
    ++ putString 13 m.CollapseOn ++ putString 14 m.CollapseSort ++ putInt 15 m.CollapseSize
    ++ putString 16 m.Peek ++ putOptional 17 TreeQuery.encode m.Tree

/-- Merges one field into a SearchRequest. -/
def SearchRequest.merge (m : SearchRequest) : Nat × WireValue → Option SearchRequest
  | (1, WireValue.bytes b) => (utf8Decode b).map (fun s => { m with Query := s })
  | (2, WireValue.varint n) => some { m with ResponseSize := wireInt32 n }
  | (3, WireValue.varint n) => some { m with Start := wireInt32 n }
  | (4, WireValue.bytes b) =>
    (decodeMessage QueryFilter.merge {} b).map
      (fun f => { m with QueryFilter := m.QueryFilter ++ [f] })
  | (5, WireValue.varint n) =>
    some { m with ResponseFormatType := ResponseFormatType.ofNumber m.ResponseFormatType n }
  | (6, WireValue.bytes b) =>
    (decodeMessage FacetField.merge {} b).map
      (fun f => { m with FacetField := m.FacetField ++ [f] })
  | (7, WireValue.varint n) => some { m with FacetAndBoolType := decide (n ≠ 0) }
  | (8, WireValue.bytes b) => (utf8Decode b).map (fun s => { m with SortBy := s })
  | (9, WireValue.varint n) => some { m with SortAsc := decide (n ≠ 0) }
  | (10, WireValue.bytes b) => some { m with SearchAfter := b }
  | (11, WireValue.varint n) => some { m with ItemFormat := ItemFormatType.ofNumber m.ItemFormat n }
  | (12, WireValue.varint n) => some { m with Paging := decide (n ≠ 0) }
  | (13, WireValue.bytes b) => (utf8Decode b).map (fun s => { m with CollapseOn := s })
  | (14, WireValue.bytes b) => (utf8Decode b).map (fun s => { m with CollapseSort := s })
  | (15, WireValue.varint n) => some { m with CollapseSize := wireInt32 n }
  | (16, WireValue.bytes b) => (utf8Decode b).map (fun s => { m with Peek := s })
  | (17, WireValue.bytes b) =>
    (decodeMessage TreeQuery.merge (m.Tree.getD {}) b).map (fun t => { m with Tree := some t })
  | _ => some m

/-- Modelled from the spec: the compact binary form of a SearchRequest (the
generated schema api.pb.go is not among the sources).  Marshalling writes the
proto3 wire form and reports no error; unmarshalling reports an error on input
that is not a well-formed message.  The JSON decoder of facet fields is not
part of the cursor protocol: this instance reports every JSON facet field as
malformed. -/
def refEnv : Env where
  protoMarshal := fun sr => (sr.encode, none)
  protoUnmarshal := fun b =>
    match decodeMessage SearchRequest.merge {} b with
    | some sr => (sr, none)
    | none => ({}, some (GoError.codec 1))
  jsonUnmarshalFacetField := fun _ ff => (ff, some (GoError.codec 2))
  FacetSize := 50

/-- The request of the spec's cursor round trip example. -/
def catsRequest : SearchRequest :=
  { Query := "cats".toList, Start := 0, ResponseSize := 10 }

/-- The request after `k` successive NextScrollID calls with the same total. -/
def scrollFrom (env : Env) (total : Int) : Nat → SearchRequest → SearchRequest
  | 0, sr => sr
  | k + 1, sr => scrollFrom env total k (sr.NextScrollID env total).2

/-- The pager returned by call number `k + 1` of successive NextScrollID calls. -/
def scrollPage (env : Env) (total : Int) (k : Nat) (sr : SearchRequest) :
    Option ScrollPager × Option GoError :=
  ((scrollFrom env total k sr).NextScrollID env total).1

/-! ## Library functions of the query compiler -/

/-- The function strings.Split(s, sep) for a one-character separator; `cur`
holds the part being read, in reverse. -/
def stringsSplitAux (sep : Char) : GoString → GoString → List GoString
  | [], cur => [cur.reverse]
  | c :: cs, cur =>
    if c = sep then cur.reverse :: stringsSplitAux sep cs []
    else stringsSplitAux sep cs (c :: cur)

/-- The function strings.Split(s, sep) for a one-character separator. -/
def stringsSplit (s : GoString) (sep : Char) : List GoString :=
  stringsSplitAux sep s []

/-- The function strings.Join. -/
def stringsJoin (parts : List GoString) (sep : GoString) : GoString :=
  sep.intercalate parts

/-- The function strings.Contains. -/
def stringsContains : GoString → GoString → Bool
  | [], sub => sub.isEmpty
  | c :: cs, sub => sub.isPrefixOf (c :: cs) || stringsContains cs sub

/-- The function strings.TrimPrefix. -/
def stringsTrimPrefix (s pre : GoString) : GoString :=
  if pre.isPrefixOf s then s.drop pre.length else s

/-- The function strings.HasSuffix. -/
def stringsHasSuffix (s suf : GoString) : Bool :=
  suf.isSuffixOf s

/-- The package configuration that api.go reads (c.Config of the rapid-saas
config package, which is not among the sources) and the constant
FragmentGraphDocType. -/
structure Config where
  /-- The constant FragmentGraphDocType. -/
  FragmentGraphDocType : GoString
  /-- The value c.Config.ElasticSearch.OrgIDKey. -/
  OrgIDKey : GoString
  /-- The value c.Config.OrgID. -/
  OrgID : GoString
  /-- The value c.Config.ElasticSearch.MimimumShouldMatch. -/
  MimimumShouldMatch : GoString
  /-- The value c.Config.ElasticSearch.SpecKey. -/
  SpecKey : GoString
  /-- The method c.Config.NameSpaceMap.GetBaseURI: the base URI of a
  registered namespace. -/
  GetBaseURI : GoString → Option GoString

/-- A value given to a match query or as a random seed. -/
inductive QueryValue where
  | str (s : GoString)
  | int (n : Int)
  deriving DecidableEq, Repr

/-- The queries of the elastic library that api.go builds.  A bool query holds
its must, must-not and should clauses in the order in which they were added; a
function-score query holds the seed of its random score function and the query
it wraps. -/
inductive EsQuery where
  | term (name : GoString) (value : GoString)
  | matchQuery (name : GoString) (value : QueryValue) (minimumShouldMatch : GoString)
  | queryString (query defaultField minimumShouldMatch : GoString)
  | nested (path : GoString) (query : EsQuery)
  | bool (must mustNot should : List EsQuery)
  | functionScore (seed : GoString) (query : EsQuery)
  deriving Repr

/-- The variable letters. -/
def letters : GoString :=
  "abcdefghijklmnopqrstuvwxyzABCDEFGHIJKLMNOPQRSTUVWXYZ".toList

/-- The function RandSeq: a random string of `n` letters.  The random source
is the sequence `rand` of the numbers math/rand hands out, `pos` of which have
been used; rand.Intn(k) is the next number modulo `k`.  Returns the string and
the new position. -/
def RandSeq (rand : Nat → Nat) : Nat → Nat → GoString × Nat
  | pos, 0 => ([], pos)
  | pos, n + 1 =>
    let b := letters.getD (rand pos % letters.length) 'a'
    let r := RandSeq rand (pos + 1) n
    (b :: r.1, r.2)

/-! ## Filter-to-query translation -/

/-- The function TypeClassAsURI: resolves a type class in the shorthand
prefix_label to a fully qualified URI. -/
def TypeClassAsURI (cfg : Config) (uri : GoString) : GoString × Option GoError :=
  match stringsSplitN '_' 2 uri with
  | [pre, label] =>
    match cfg.GetBaseURI pre with
    | none => ([], some (GoError.unknownNamespace pre))
    | some base =>
      if stringsHasSuffix base "#".toList || stringsHasSuffix base "/".toList then
        (base ++ label, none)
      else (base ++ "/".toList ++ label, none)
  | _ => ([], some (GoError.typeClassShorthand uri))

/-- The method QueryFilter.ElasticFilter: the nested query over resources whose
bool query has received the clauses added before the return, and the error. -/
def QueryFilter.ElasticFilter (cfg : Config) (qf : QueryFilter) : EsQuery × Option GoError :=
  let labelQ := EsQuery.term "resources.entries.searchLabel".toList qf.SearchLabel
  let fieldQuery := EsQuery.term "resources.entries.@value.keyword".toList qf.Value
  let nq := EsQuery.nested "resources.entries".toList (EsQuery.bool [labelQ, fieldQuery] [] [])
  let must := [nq]
  let wrapped := fun (err : GoError) =>
    GoError.wrap "Unable to convert TypeClass from shorthand to URI".toList err
  let typed : List EsQuery × Option GoError :=
    if qf.TypeClass ≠ [] then
      match TypeClassAsURI cfg qf.TypeClass with
      | (_, some err) => (must, some (wrapped err))
      | (tc, none) => (must ++ [EsQuery.term "resources.types".toList tc], none)
    else (must, none)
  match typed with
  | (must, some err) => (EsQuery.nested "resources".toList (EsQuery.bool must [] []), some err)
  | (must, none) =>
    match qf.Level2 with
    | none => (EsQuery.nested "resources".toList (EsQuery.bool must [] []), none)
    | some level2 =>
      let classed : List EsQuery × Option GoError :=
        if level2.TypeClass ≠ [] then
          match TypeClassAsURI cfg level2.TypeClass with
          | (_, some err) => ([], some (wrapped err))
          | (tc, none) => ([EsQuery.term "resources.context.SubjectClass".toList tc], none)
        else ([], none)
      match classed with
      | (_, some err) =>
        (EsQuery.nested "resources".toList (EsQuery.bool must [] []), some err)
      | (levelq, none) =>
        let labelQ := EsQuery.term "resources.context.SearchLabel".toList level2.SearchLabel
        let lq := EsQuery.nested "resources.context".toList
          (EsQuery.bool (levelq ++ [labelQ]) [] [])
        (EsQuery.nested "resources".toList (EsQuery.bool (must ++ [lq]) [] []), none)

/-! ## FacetURIBuilder -/

/-- The assignment `m[k] = v` on a Go map kept as an association list: the
entry of an existing key is replaced in place, a new key goes to the end. -/
def mapSet {β : Type} : List (GoString × β) → GoString → β → List (GoString × β)
  | [], k, v => [(k, v)]
  | (k', v') :: rest, k, v =>
    if k' = k then (k, v) :: rest else (k', v') :: mapSet rest k v

/-- The type FacetURIBuilder: the query and the applied filters, by field and
then by value.  The order of the lists is the order in which a `range` loop
visits the map. -/
structure FacetURIBuilder where
  query : GoString := []
  filters : List (GoString × List (GoString × QueryFilter)) := []
  deriving DecidableEq, Repr

/-- The method FacetURIBuilder.AddFilter: the error, and the builder as the
call leaves it. -/
def FacetURIBuilder.AddFilter (fub : FacetURIBuilder) (f : QueryFilter) :
    Option GoError × FacetURIBuilder :=
  let child := (fub.filters.lookup f.SearchLabel).getD []
  let child := mapSet child f.Value f
  (none, { fub with filters := mapSet fub.filters f.SearchLabel child })

/-- The loop of NewFacetURIBuilder over the filters. -/
def NewFacetURIBuilder.loop : FacetURIBuilder → List QueryFilter →
    Option FacetURIBuilder × Option GoError
  | fub, [] => (some fub, none)
  | fub, f :: rest =>
    match fub.AddFilter f with
    | (some err, _) => (none, some err)
    | (none, fub) => NewFacetURIBuilder.loop fub rest

/-- The function NewFacetURIBuilder. -/
def NewFacetURIBuilder (query : GoString) (filters : List QueryFilter) :
    Option FacetURIBuilder × Option GoError :=
  NewFacetURIBuilder.loop { query := query, filters := [] } filters

/-- The method FacetURIBuilder.hasQueryFilter. -/
def FacetURIBuilder.hasQueryFilter (fub : FacetURIBuilder) (field value : GoString) : Bool :=
  if fub.filters.length = 0 then false
  else
    match fub.filters.lookup field with
    | none => false
    | some byField => (byField.lookup value).isSome

/-- The inner loop of CreateFacetFilterURI over the values held for the field
`f`: the fields collected so far and the selected flag. -/
def CreateFacetFilterURI.values (field value f : GoString) :
    List (GoString × QueryFilter) → List GoString × Bool → List GoString × Bool
  | [], st => st
  | (k, _) :: rest, st =>
    if f = field ∧ k = value then CreateFacetFilterURI.values field value f rest (st.1, true)
    else
      CreateFacetFilterURI.values field value f rest
        (st.1 ++ ["qf=".toList ++ f ++ ":".toList ++ k], st.2)

/-- The outer loop of CreateFacetFilterURI over the fields of the builder. -/
def CreateFacetFilterURI.fields (field value : GoString) :
    List (GoString × List (GoString × QueryFilter)) → List GoString × Bool →
    List GoString × Bool
  | [], st => st
  | (f, values) :: rest, st =>
    CreateFacetFilterURI.fields field value rest
      (CreateFacetFilterURI.values field value f values st)

/-- The method FacetURIBuilder.CreateFacetFilterURI: the facet query of a
FacetLink and whether the link is selected. -/
def FacetURIBuilder.CreateFacetFilterURI (fub : FacetURIBuilder) (field value : GoString) :
    GoString × Bool :=
  let fields : List GoString := if fub.query ≠ [] then ["q=".toList ++ fub.query] else []
  let st := CreateFacetFilterURI.fields field value fub.filters (fields, false)
  let fields :=
    if !st.2 then st.1 ++ ["qf=".toList ++ field ++ ":".toList ++ value] else st.1
  (stringsJoin fields "&".toList, st.2)

/-- The (field, value) pairs under which the builder holds an applied filter:
the keys of its two-level map. -/
def FacetURIBuilder.held (fub : FacetURIBuilder) : List (GoString × GoString) :=
  fub.filters.flatMap (fun fv => fv.2.map (fun kv => (fv.1, kv.1)))

/-- The text `qf=<label>:<value>` of a (label, value) pair. -/
def qfParam (p : GoString × GoString) : GoString :=
  "qf=".toList ++ p.1 ++ ":".toList ++ p.2

/-- The clauses of a bool query under construction. -/
structure BoolClauses where
  must : List EsQuery := []
  mustNot : List EsQuery := []
  should : List EsQuery := []

/-- The bool query with the given clauses. -/
def BoolClauses.query (q : BoolClauses) : EsQuery :=
  EsQuery.bool q.must q.mustNot q.should

/-- The loop of CreateFacetFilterQuery over the filters of the facet's own
field (run when andQuery is set): a filter becomes a should clause, or a
must-not clause when it is an exclusion.  Stops at the first error. -/
def CreateFacetFilterQuery.own (cfg : Config) :
    List (GoString × QueryFilter) → BoolClauses → BoolClauses × Option GoError
  | [], q => (q, none)
  | (_, qf) :: rest, q =>
    match qf.ElasticFilter cfg with
    | (_, some err) => (q, some (GoError.wrap "Unable to build filter query".toList err))
    | (filterQuery, none) =>
      if qf.Exclude then
        CreateFacetFilterQuery.own cfg rest { q with mustNot := q.mustNot ++ [filterQuery] }
      else
        CreateFacetFilterQuery.own cfg rest { q with should := q.should ++ [filterQuery] }

/-- The loop of CreateFacetFilterQuery over the filters of another field: a
filter becomes a must clause.  Stops at the first error. -/
def CreateFacetFilterQuery.other (cfg : Config) :
    List (GoString × QueryFilter) → BoolClauses → BoolClauses × Option GoError
  | [], q => (q, none)
  | (_, qf) :: rest, q =>
    match qf.ElasticFilter cfg with
    | (_, some err) => (q, some (GoError.wrap "Unable to build filter query".toList err))
    | (filterQuery, none) =>
      CreateFacetFilterQuery.other cfg rest { q with must := q.must ++ [filterQuery] }

/-- The loop of CreateFacetFilterQuery over the fields of the builder. -/
def CreateFacetFilterQuery.fields (cfg : Config) (filterField : GoString) (andQuery : Bool) :
    List (GoString × List (GoString × QueryFilter)) → BoolClauses →
    BoolClauses × Option GoError
  | [], q => (q, none)
  | (field, qfs) :: rest, q =>
    if filterField = field then
      if andQuery then
        match CreateFacetFilterQuery.own cfg qfs q with
        | (q, some err) => (q, some err)
        | (q, none) => CreateFacetFilterQuery.fields cfg filterField andQuery rest q
      else CreateFacetFilterQuery.fields cfg filterField andQuery rest q
    else
      match CreateFacetFilterQuery.other cfg qfs q with
      | (q, some err) => (q, some err)
      | (q, none) => CreateFacetFilterQuery.fields cfg filterField andQuery rest q

/-- The clause `c` is the filter query (the result of ElasticFilter) of a filter
that `filters` holds under a field satisfying `p`. -/
def clauseOf (cfg : Config) (filters : List (GoString × List (GoString × QueryFilter)))
    (p : GoString → Prop) (c : EsQuery) : Prop :=
  ∃ field qfs value qf, (field, qfs) ∈ filters ∧ p field ∧ (value, qf) ∈ qfs
    ∧ qf.ElasticFilter cfg = (c, none)

/-- The method FacetURIBuilder.CreateFacetFilterQuery: the bool query built
from the applied filters, and the error. -/
def FacetURIBuilder.CreateFacetFilterQuery (cfg : Config) (fub : FacetURIBuilder)
    (_path filterField : GoString) (andQuery : Bool) : EsQuery × Option GoError :=
  let r := CreateFacetFilterQuery.fields cfg filterField andQuery fub.filters {}
  (r.1.query, r.2)

/-! ## BreadCrumbBuilder -/

/-- Modelled from the spec: the generated message type BreadCrumb (api.pb.go is
not among the sources); the fields are the ones api.go writes. -/
structure BreadCrumb where
  Href : GoString := []
  Display : GoString := []
  Field : GoString := []
  Value : GoString := []
  IsLast : Bool := false
  deriving DecidableEq, Repr

/-- Modelled from the spec: the generated message type Query (api.pb.go is not
among the sources): the user query with its breadcrumbs. -/
structure Query where
  Terms : GoString := []
  BreadCrumbs : List BreadCrumb := []
  deriving DecidableEq, Repr

/-- The type BreadCrumbBuilder. -/
structure BreadCrumbBuilder where
  hrefPath : List GoString := []
  crumbs : List BreadCrumb := []
  deriving DecidableEq, Repr

/-- The method BreadCrumbBuilder.GetPath. -/
def BreadCrumbBuilder.GetPath (bcb : BreadCrumbBuilder) : GoString :=
  stringsJoin bcb.hrefPath "&".toList

/-- The method BreadCrumbBuilder.GetLast: the last crumb of the trail, none
for an empty trail. -/
def BreadCrumbBuilder.GetLast (bcb : BreadCrumbBuilder) : Option BreadCrumb :=
  bcb.crumbs.getLast?

/-- The assignment `last.IsLast = false` through the pointer that GetLast
returns: the last crumb of the trail, when there is one, loses its flag. -/
def clearLast : List BreadCrumb → List BreadCrumb
  | [] => []
  | [last] => [{ last with IsLast := false }]
  | bc :: next :: rest => bc :: clearLast (next :: rest)

/-- The method BreadCrumbBuilder.AppendBreadCrumb; a nil filter reads as the
zero filter through its getters. -/
def BreadCrumbBuilder.AppendBreadCrumb (bcb : BreadCrumbBuilder) (param : GoString)
    (qf : QueryFilter) : BreadCrumbBuilder :=
  let bc : BreadCrumb := { IsLast := true }
  let st : BreadCrumb × BreadCrumbBuilder :=
    if param = "query".toList then
      if qf.Value ≠ [] then
        let bc := { bc with Display := qf.Value }
        let bc := { bc with Href := "q=".toList ++ qf.Value }
        let bc := { bc with Value := qf.Value }
        (bc, { bcb with hrefPath := bcb.hrefPath ++ [bc.Href] })
      else (bc, bcb)
    else if param = "qf[]".toList then
      let qfs := qf.SearchLabel ++ ":".toList ++ qf.Value
      let href := "qf[]=".toList ++ qfs
      let bc := { bc with Href := href }
      let bc :=
        if bcb.GetPath ≠ [] then { bc with Href := bcb.GetPath ++ "&".toList ++ bc.Href }
        else bc
      let bcb := { bcb with hrefPath := bcb.hrefPath ++ [href] }
      let bc := { bc with Display := qfs }
      let bc := { bc with Field := qf.SearchLabel }
      let bc := { bc with Value := qf.Value }
      (bc, bcb)
    else (bc, bcb)
  let bc := st.1
  let bcb := st.2
  let crumbs :=
    match bcb.GetLast with
    | some _ => clearLast bcb.crumbs
    | none => bcb.crumbs
  { bcb with crumbs := crumbs ++ [bc] }

/-- The loop of NewUserQuery over the query filters. -/
def NewUserQuery.loop : BreadCrumbBuilder → List QueryFilter → BreadCrumbBuilder
  | bcb, [] => bcb
  | bcb, qf :: rest => NewUserQuery.loop (bcb.AppendBreadCrumb "qf[]".toList qf) rest

/-- The method SearchRequest.NewUserQuery: the user query with its breadcrumbs,
the builder, and the error. -/
def SearchRequest.NewUserQuery (sr : SearchRequest) :
    Hub3.Query × BreadCrumbBuilder × Option GoError :=
  let q : Hub3.Query := {}
  let bcb : BreadCrumbBuilder := {}
  let st : Hub3.Query × BreadCrumbBuilder :=
    if sr.Query ≠ [] then
      ({ q with Terms := sr.Query },
        bcb.AppendBreadCrumb "query".toList { Value := sr.Query })
    else (q, bcb)
  let bcb := NewUserQuery.loop st.2 sr.QueryFilter
  ({ st.1 with BreadCrumbs := bcb.crumbs }, bcb, none)

/-! ## QueryCompiler -/

/-- The loop of ElasticQuery over the space-separated parts of the raw query:
a part that starts with `meta.spec:` becomes a required term on meta.spec, the
other parts are collected in `all`. -/
def ElasticQuery.specLoop :
    List GoString → List EsQuery × List GoString → List EsQuery × List GoString
  | [], st => st
  | part :: rest, st =>
    if stringsHasPrefix part "meta.spec:".toList then
      let spec := stringsTrimPrefix part "meta.spec:".toList
      ElasticQuery.specLoop rest (st.1 ++ [EsQuery.term "meta.spec".toList spec], st.2)
    else ElasticQuery.specLoop rest (st.1, st.2 ++ [part])

/-- The free-text block of ElasticQuery: the must clauses of the query after
the block, from the must clauses before it. -/
def ElasticQuery.freeText (cfg : Config) (text : GoString) (must : List EsQuery) :
    List EsQuery :=
  if text ≠ [] then
    let rawQuery := stringsReplace text "delving_spec:".toList "meta.spec:".toList 1
    let st : List EsQuery × GoString :=
      if stringsContains rawQuery "meta.spec".toList then
        let r := ElasticQuery.specLoop (stringsSplit rawQuery ' ') (must, [])
        (r.1, stringsJoin r.2 " ".toList)
      else (must, rawQuery)
    if st.2 ≠ [] then
      st.1 ++ [EsQuery.queryString st.2 "full_text".toList cfg.MimimumShouldMatch]
    else st.1
  else must

/-- The loop of the fill-tree block of ElasticQuery after its first iteration:
each further segment extends the path and adds a should clause on tree.leaf. -/
def ElasticQuery.fillLoop : List GoString → GoString → List EsQuery
  | [], _ => []
  | leaf :: rest, path =>
    let path := path ++ "~".toList ++ leaf
    EsQuery.term "tree.leaf".toList path :: ElasticQuery.fillLoop rest path

/-- The should clauses that the fill-tree block of ElasticQuery builds from the
segments of the leaf. -/
def ElasticQuery.fillTree : List GoString → List EsQuery
  | [] => []
  | leaf :: rest =>
    EsQuery.matchQuery "tree.depth".toList (QueryValue.int 1) []
      :: EsQuery.term "tree.leaf".toList leaf :: ElasticQuery.fillLoop rest leaf

/-- The exact-mode block of ElasticQuery for a tree query without FillTree: the
must clauses after the block and the tree as the block leaves it. -/
def ElasticQuery.exactTree (cfg : Config) (tree : TreeQuery) (must : List EsQuery) :
    List EsQuery × TreeQuery :=
  let must :=
    if tree.Leaf ≠ [] then must ++ [EsQuery.term "tree.leaf".toList tree.Leaf] else must
  let must :=
    if tree.Parent ≠ [] then must ++ [EsQuery.term "tree.parent".toList tree.Parent] else must
  let must :=
    if tree.ChildCount ≠ [] then
      must ++ [EsQuery.matchQuery "tree.childCount".toList (QueryValue.str tree.ChildCount) []]
    else must
  let must :=
    if tree.Label ≠ [] then
      must ++ [EsQuery.matchQuery "tree.label".toList (QueryValue.str tree.Label)
        cfg.MimimumShouldMatch]
    else must
  let st : List EsQuery × TreeQuery :=
    match tree.Depth with
    | [d] => (must ++ [EsQuery.matchQuery "tree.depth".toList (QueryValue.str d) []], tree)
    | [] => (must, tree)
    | depths =>
      let q := EsQuery.bool [] []
        (depths.map (fun d => EsQuery.matchQuery "tree.depth".toList (QueryValue.str d) []))
      (must ++ [q], { tree with FillTree := true })
  let must :=
    if st.2.Type_ ≠ [] then st.1 ++ [EsQuery.term "tree.type".toList st.2.Type_] else st.1
  (must, st.2)

/-- The method SearchRequest.ElasticQuery: the query and the error, the request
as the call leaves it, and the position of the random source after the call. -/
def SearchRequest.ElasticQuery (cfg : Config) (rand : Nat → Nat) (pos : Nat)
    (sr : SearchRequest) : (EsQuery × Option GoError) × SearchRequest × Nat :=
  let must : List EsQuery :=
    [EsQuery.term "meta.docType".toList cfg.FragmentGraphDocType,
      EsQuery.term cfg.OrgIDKey cfg.OrgID]
  let must := ElasticQuery.freeText cfg sr.Query must
  if stringsHasPrefix sr.SortBy "random".toList then
    match stringsSplit sr.SortBy '_' with
    | [_, seed] => ((EsQuery.functionScore seed (EsQuery.bool must [] []), none), sr, pos)
    | _ =>
      let r := RandSeq rand pos 10
      let seed := r.1
      ((EsQuery.functionScore seed (EsQuery.bool must [] []), none),
        { sr with SortBy := "random_".toList ++ seed }, r.2)
  else
    let must :=
      match sr.Tree with
      | some tree =>
        if tree.FillTree then
          must ++ [EsQuery.bool [] [] (ElasticQuery.fillTree (stringsSplit tree.Leaf '~'))]
        else must
      | none => must
    match sr.Tree with
    | some tree =>
      if !tree.FillTree then
        let r := ElasticQuery.exactTree cfg tree must
        ((EsQuery.bool r.1 [] [], none), { sr with Tree := some r.2 }, pos)
      else ((EsQuery.bool must [] [], none), sr, pos)
    | none => ((EsQuery.bool must [] [], none), sr, pos)

/-! ## AggregationDecoder -/

/-- Modelled from the spec: the generated message type FacetLink (api.pb.go is
not among the sources); the fields are the ones api.go writes. -/
structure FacetLink where
  URL : GoString := []
  IsSelected : Bool := false
  Value : GoString := []
  Count : Int := 0
  DisplayString : GoString := []
  deriving DecidableEq, Repr

/-- Modelled from the spec: the generated message type QueryFacet (api.pb.go is
not among the sources); the fields are the ones api.go writes. -/
structure QueryFacet where
  Name : GoString := []
  Field : GoString := []
  Total : Int := 0
  OtherDocs : Int := 0
  IsSelected : Bool := false
  Links : List FacetLink := []
  deriving DecidableEq, Repr

/-- A bucket of a terms aggregation result; Key is the text that formatting the
bucket key with `%s` gives. -/
structure AggregationBucketKeyItem where
  Key : GoString := []
  DocCount : Int := 0
  deriving DecidableEq, Repr

/-- The result of a terms aggregation of the elastic library. -/
structure AggregationBucketKeyItems where
  SumOfOtherDocCount : Int := 0
  Buckets : List AggregationBucketKeyItem := []
  deriving DecidableEq, Repr

/-- What DecodeFacets reads of the single-bucket result found under `inner`:
the document count and the terms result found under `value`, none when that
lookup fails. -/
structure InnerAggregation where
  DocCount : Int := 0
  value : Option AggregationBucketKeyItems := none
  deriving DecidableEq, Repr

/-- What DecodeFacets reads of the single-bucket result found under `filter`:
the result found under `inner`, none when that lookup fails. -/
structure FilterAggregation where
  inner : Option InnerAggregation := none
  deriving DecidableEq, Repr

/-- What DecodeFacets reads of a named aggregation of the result: the result
found under `filter`, none when that lookup fails. -/
structure NestedAggregation where
  filter : Option FilterAggregation := none
  deriving DecidableEq, Repr

/-- What DecodeFacets reads of an elastic.SearchResult: the total hits and the
named aggregations in the order in which the `range` loop visits them; an
aggregation is none when the lookup Nested(k) fails. -/
structure SearchResult where
  TotalHits : Int := 0
  Aggregations : List (GoString × Option NestedAggregation) := []
  deriving DecidableEq, Repr

/-- The outcome of a call that can panic. -/
inductive GoResult (α : Type) where
  | returns (a : α)
  | panics
  deriving DecidableEq, Repr

/-- The loop of DecodeFacets over the buckets of a facet: the facet with a link
appended for every bucket.  The call `fb.CreateFacetFilterURI` dereferences
the builder, so a nil builder panics at the first bucket. -/
def DecodeFacets.buckets (fb : Option FacetURIBuilder) :
    List AggregationBucketKeyItem → QueryFacet → GoResult QueryFacet
  | [], qf => GoResult.returns qf
  | b :: rest, qf =>
    match fb with
    | none => GoResult.panics
    | some fub =>
      let key := b.Key
      let r := fub.CreateFacetFilterURI qf.Field key
      let url := r.1
      let isSelected := r.2
      let qf := if isSelected && !qf.IsSelected then { qf with IsSelected := true } else qf
      let fl : FacetLink :=
        { URL := url, IsSelected := isSelected, Value := key, Count := b.DocCount,
          DisplayString := key ++ " (".toList ++ strconvItoa b.DocCount ++ ")".toList }
      DecodeFacets.buckets fb rest { qf with Links := qf.Links ++ [fl] }

/-- The loop of DecodeFacets over the named aggregations of the result. -/
def DecodeFacets.loop (fb : Option FacetURIBuilder) :
    List (GoString × Option NestedAggregation) → List QueryFacet →
    GoResult (List QueryFacet)
  | [], aggs => GoResult.returns aggs
  | (k, facetFilter) :: rest, aggs =>
    match facetFilter with
    | some { filter := some { inner := some { DocCount := docCount, value := some value } } } =>
      let qf : QueryFacet :=
        { Name := k, Field := k, Total := docCount, OtherDocs := value.SumOfOtherDocCount,
          Links := [] }
      match DecodeFacets.buckets fb value.Buckets qf with
      | GoResult.panics => GoResult.panics
      | GoResult.returns qf => DecodeFacets.loop fb rest (aggs ++ [qf])
    | _ => DecodeFacets.loop fb rest aggs

/-- The method SearchRequest.DecodeFacets: decodes the aggregations of the
search result to query facets. -/
def SearchRequest.DecodeFacets (_sr : SearchRequest) (res : Option SearchResult)
    (fb : Option FacetURIBuilder) : GoResult (List QueryFacet × Option GoError) :=
  match res with
  | none => GoResult.returns ([], none)
  | some res =>
    if res.TotalHits = 0 then GoResult.returns ([], none)
    else
      match DecodeFacets.loop fb res.Aggregations [] with
      | GoResult.panics => GoResult.panics
      | GoResult.returns aggs => GoResult.returns (aggs, none)

/-- A configuration for evaluating the code on concrete requests: the
namespaces rdf and dc are registered. -/
def refConfig : Config where
  FragmentGraphDocType := "fragmentGraph".toList
  OrgIDKey := "meta.orgID".toList
  OrgID := "demo".toList
  MimimumShouldMatch := "2<70%".toList
  SpecKey := "meta.spec".toList
  GetBaseURI := fun name =>
    if name = "rdf".toList then some "http://www.w3.org/1999/02/22-rdf-syntax-ns#".toList
    else if name = "dc".toList then some "http://purl.org/dc/elements/1.1/".toList
    else none

/-- The keys of the builder are those of a Go map: no field occurs twice, and
no value occurs twice under a field. -/
def FacetURIBuilder.isMap (fub : FacetURIBuilder) : Prop :=
  (fub.filters.map Prod.fst).Nodup ∧ ∀ fv ∈ fub.filters, (fv.2.map Prod.fst).Nodup

/-- The facet is selected exactly when one of its links is, and each link is
selected exactly when the builder holds the pair of the facet's field and the
link's value. -/
def facetConsistent (fb : Option FacetURIBuilder) (qf : QueryFacet) : Prop :=
  (qf.IsSelected = true ↔ ∃ link ∈ qf.Links, link.IsSelected = true)
    ∧ ∀ fub, fb = some fub → ∀ link ∈ qf.Links,
        (link.IsSelected = true ↔ (qf.Field, link.Value) ∈ fub.held)

/-- A builder that holds the applied filter tree.type:series. -/
def seriesBuilder : FacetURIBuilder :=
  { filters :=
      [("tree.type".toList,
        [("series".toList, { SearchLabel := "tree.type".toList, Value := "series".toList })])] }

/-- A search result of three hits whose aggregation tree.type has the buckets
series and file. -/
def seriesResult : SearchResult :=
  { TotalHits := 3,
    Aggregations :=
      [("tree.type".toList,
        some
          { filter := some
              { inner := some
                  { DocCount := 3,
                    value := some
                      { SumOfOtherDocCount := 0,
                        Buckets := [{ Key := "series".toList, DocCount := 2 },
                                    { Key := "file".toList, DocCount := 1 }] } } } })] }

/-- The builder after a sequence of AppendBreadCrumb calls, each given by its
parameter name and its filter, on a fresh builder. -/
def appendCalls (calls : List (GoString × QueryFilter)) : BreadCrumbBuilder :=
  calls.foldl (fun (bcb : BreadCrumbBuilder) call => bcb.AppendBreadCrumb call.1 call.2) {}

/-- What the breadcrumb trail shows of a crumb: display text, field and value. -/
def BreadCrumb.shown (bc : BreadCrumb) : GoString × GoString × GoString :=
  (bc.Display, bc.Field, bc.Value)

/-- The type class cannot be resolved: it contains no underscore (the shorthand
is malformed), or the registry does not know its prefix, the text before its
first underscore. -/
def unresolvable (cfg : Config) (tc : GoString) : Prop :=
  '_' ∉ tc ∨ cfg.GetBaseURI (tc.takeWhile (fun c => c != '_')) = none

/-- The hrefs of a trail after its first crumb, from the href `prev` of the
crumb before and the crumbs' own parameters: each href is the previous href,
an ampersand, and the crumb's own parameter. -/
def laterHrefs : GoString → List GoString → List GoString
  | _, [] => []
  | prev, own :: rest =>
    (prev ++ "&".toList ++ own) :: laterHrefs (prev ++ "&".toList ++ own) rest

/-- The hrefs of a trail from the crumbs' own parameters: the first href is the
first crumb's own parameter, every later href accumulates the path before it. -/
def accumulatedHrefs : List GoString → List GoString
  | [] => []
  | first :: rest => first :: laterHrefs first rest

/-- The depth clauses of the exact tree mode, in the claim's words: none for no
depth, one exact match on tree.depth for one depth, and one disjunction with an
alternative per depth for more. -/
def depthClauses : List GoString → List EsQuery
  | [] => []
  | [d] => [EsQuery.matchQuery "tree.depth".toList (QueryValue.str d) []]
  | depths =>
    [EsQuery.bool [] []
      (depths.map (fun d => EsQuery.matchQuery "tree.depth".toList (QueryValue.str d) []))]

/-- The prefix-accumulated ancestor paths of a leaf path, in the claim's words:
for the segments s1..sn the paths s1, s1~s2, ..., s1~...~sn. -/
def ancestorPaths (segments : List GoString) : List GoString :=
  (List.range segments.length).map
    (fun i => stringsJoin (segments.take (i + 1)) "~".toList)

/-- An aggregation of the elastic library, with what api.go sets on it: a terms
aggregation (field, size, and the order by term or by count with its
direction), a filter aggregation and a nested aggregation, the last two with
their named sub-aggregations. -/
inductive EsAggregation where
  | terms (field : GoString) (size : Int) (orderByTerm : Bool) (asc : Bool)
  | filter (filter : EsQuery) (subAggregations : List (GoString × EsAggregation))
  | nested (path : GoString) (subAggregations : List (GoString × EsAggregation))
  deriving Repr

/-- The function CreateAggregationBySearchLabel: the aggregation and the error.
The call `fub.CreateFacetFilterQuery` is a call of a value-receiver method
through the pointer `fub`, so it dereferences the builder: a nil builder
panics. -/
def CreateAggregationBySearchLabel (cfg : Config) (path : GoString) (facet : FacetField)
    (facetAndBoolType : Bool) (fub : Option FacetURIBuilder) :
    GoResult (Option EsAggregation × Option GoError) :=
  let nestedPath := path ++ ".searchLabel".toList
  let fieldTermQuery := EsQuery.term nestedPath facet.Field
  let entryKey := if facet.ById then "@id".toList else "@value.keyword".toList
  let termAggPath := path ++ ".".toList ++ entryKey
  let labelAgg :=
    if facet.ByName then EsAggregation.terms termAggPath facet.Size true facet.Asc
    else EsAggregation.terms termAggPath facet.Size false facet.Asc
  match fub with
  | none => GoResult.panics
  | some fub =>
    match fub.CreateFacetFilterQuery cfg path facet.Field facetAndBoolType with
    | (_, some err) =>
      GoResult.returns
        (none, some (GoError.wrap "Unable to create FacetFilterQuery".toList err))
    | (facetFilters, none) =>
      let filterAgg := EsAggregation.filter fieldTermQuery [("value".toList, labelAgg)]
      let testAgg := EsAggregation.nested path [("inner".toList, filterAgg)]
      let facetFilterAgg := EsAggregation.filter facetFilters [("filter".toList, testAgg)]
      GoResult.returns (some facetFilterAgg, none)

/-- The method SearchRequest.CreateAggregationBySearchLabel. -/
def SearchRequest.CreateAggregationBySearchLabel (cfg : Config) (sr : SearchRequest)
    (path : GoString) (facet : Hub3.FacetField) (fub : Option FacetURIBuilder) :
    GoResult (Option EsAggregation × Option GoError) :=
  Hub3.CreateAggregationBySearchLabel cfg path facet sr.FacetAndBoolType fub

/-- The loop of Aggregations over the facet fields of the request: the map of
aggregations by field, or no map and the error. -/
def Aggregations.loop (cfg : Config) (sr : SearchRequest) (fub : Option FacetURIBuilder) :
    List FacetField → List (GoString × EsAggregation) →
    GoResult (Option (List (GoString × EsAggregation)) × Option GoError)
  | [], aggs => GoResult.returns (some aggs, none)
  | facetField :: rest, aggs =>
    match sr.CreateAggregationBySearchLabel cfg "resources.entries".toList facetField fub with
    | GoResult.panics => GoResult.panics
    | GoResult.returns (_, some err) => GoResult.returns (none, some err)
    | GoResult.returns (some agg, none) =>
      Aggregations.loop cfg sr fub rest (mapSet aggs facetField.Field agg)
    | GoResult.returns (none, none) => Aggregations.loop cfg sr fub rest aggs

/-- The method SearchRequest.Aggregations. -/
def SearchRequest.Aggregations (cfg : Config) (sr : SearchRequest)
    (fub : Option FacetURIBuilder) :
    GoResult (Option (List (GoString × EsAggregation)) × Option GoError) :=
  Aggregations.loop cfg sr fub sr.FacetField []

/-- What Echo returns as its `interface{}`: the source of a query, the sources
of the aggregations by name, the request, the list of options, or nil.  The
source of a query or of an aggregation is the query or the aggregation itself. -/
inductive EchoValue where
  | source (query : EsQuery)
  | sourceMap (sources : List (GoString × EsAggregation))
  | request (sr : SearchRequest)
  | options (names : List GoString)
  | nil
  deriving Repr

/-- The function sort.Strings. -/
def sortStrings (names : List GoString) : List GoString :=
  names.insertionSort (fun a b => a ≤ b)

/-- The method SearchRequest.Echo: the value and the error, the request as the
call leaves it, and the position of the random source after the call. -/
def SearchRequest.Echo (cfg : Config) (rand : Nat → Nat) (pos : Nat) (sr : SearchRequest)
    (echoType : GoString) (_total : Int) :
    GoResult ((EchoValue × Option GoError) × SearchRequest × Nat) :=
  if echoType = "es".toList then
    let r := sr.ElasticQuery cfg rand pos
    match r.1 with
    | (_, some err) => GoResult.returns ((EchoValue.nil, some err), r.2)
    | (query, none) => GoResult.returns ((EchoValue.source query, none), r.2)
  else if echoType = "aggs".toList then
    match sr.Aggregations cfg none with
    | GoResult.panics => GoResult.panics
    | GoResult.returns (_, some err) => GoResult.returns ((EchoValue.nil, some err), sr, pos)
    | GoResult.returns (aggs, none) =>
      GoResult.returns ((EchoValue.sourceMap (aggs.getD []), none), sr, pos)
  else if echoType = "searchRequest".toList then
    GoResult.returns ((EchoValue.request sr, none), sr, pos)
  else if echoType = "options".toList then
    let options :=
      ["es".toList, "aggs".toList, "searchRequest".toList, "options".toList,
        "searchService".toList, "searchResponse".toList, "request".toList,
        "nextScrollID".toList, "searchAfter".toList]
    GoResult.returns ((EchoValue.options (sortStrings options), none), sr, pos)
  else if echoType = "searchService".toList ∨ echoType = "searchResponse".toList
      ∨ echoType = "request".toList ∨ echoType = "nextScrollID".toList
      ∨ echoType = "searchAfter".toList then
    GoResult.returns ((EchoValue.nil, none), sr, pos)
  else GoResult.returns ((EchoValue.nil, some (GoError.unknownEchoType echoType)), sr, pos)

/-- The value of a spec token, in the claim's words: the text after
`meta.spec:` for a token that starts with it, none for every other token. -/
def specValue (token : GoString) : Option GoString :=
  if stringsHasPrefix token "meta.spec:".toList then some (token.drop 10) else none

/-- The spec values of a rewritten query, in the claim's words: the values of
its space-delimited spec tokens, in token order. -/
def specValues (rawQuery : GoString) : List GoString :=
  (stringsSplit rawQuery ' ').filterMap specValue

/-- The free-text remainder of a rewritten query, in the claim's words: its
space-delimited tokens that are no spec tokens, joined by single spaces. -/
def freeTextRemainder (rawQuery : GoString) : GoString :=
  stringsJoin ((stringsSplit rawQuery ' ').filter (fun t => (specValue t).isNone))
    " ".toList

/-- The number of occurrences of a text in a string, in the claim's words: the
number of positions of the string at which the text starts. -/
def occurrences (pat : GoString) : GoString → Nat
  | [] => 0
  | c :: cs => (if pat.isPrefixOf (c :: cs) then 1 else 0) + occurrences pat cs

/-- The filter queries of the applied filters that the builder holds under
fields other than `field`, in the claim's words, in the order of the builder. -/
def otherFilterQueries (cfg : Config)
    (filters : List (GoString × List (GoString × QueryFilter))) (field : GoString) :
    List EsQuery :=
  (filters.filter (fun fv => decide (fv.1 ≠ field))).flatMap
    (fun fv => fv.2.map (fun kv => (kv.2.ElasticFilter cfg).1))

/-- The filter queries of the applied filters that the builder holds under
`field` itself, in the claim's words: those of the exclusions when `exclude` is
set, those of the other filters when it is not, in the order of the builder. -/
def ownFilterQueries (cfg : Config)
    (filters : List (GoString × List (GoString × QueryFilter))) (field : GoString)
    (exclude : Bool) : List EsQuery :=
  (filters.filter (fun fv => decide (fv.1 = field))).flatMap
    (fun fv => (fv.2.filter (fun kv => kv.2.Exclude == exclude)).map
      (fun kv => (kv.2.ElasticFilter cfg).1))

/-! # Theorems -/

/-! ## FilterCodec: lemmas -/

theorem replace_brackets_nil :
    stringsReplace [] ['[', ']'] ['[', 'a', ']'] (-1) = [] := rfl

theorem replace_brackets_pair (rest : GoString) :
    stringsReplace ('[' :: ']' :: rest) ['[', ']'] ['[', 'a', ']'] (-1)
      = '[' :: 'a' :: ']' :: stringsReplace rest ['[', ']'] ['[', 'a', ']'] (-1) := by
  simp [stringsReplace, stringsReplaceAux]

theorem replace_brackets_cons (c : Char) (rest : GoString)
    (h : ¬ (c = '[' ∧ rest.head? = some ']')) :
    stringsReplace (c :: rest) ['[', ']'] ['[', 'a', ']'] (-1)
      = c :: stringsReplace rest ['[', ']'] ['[', 'a', ']'] (-1) := by
  cases rest with
  | nil => simp [stringsReplace, stringsReplaceAux]
  | cons d rest =>
    simp only [List.head?_cons, Option.some.injEq] at h
    simp [stringsReplace, stringsReplaceAux]
    intro h1 h2
    exact absurd ⟨h1.symm, h2.symm⟩ h

theorem mem_colon_replace_brackets :
    ∀ s : GoString, ':' ∈ stringsReplace s ['[', ']'] ['[', 'a', ']'] (-1) ↔ ':' ∈ s
  | [] => by simp [replace_brackets_nil]
  | [c] => by
    rw [replace_brackets_cons c [] (by simp)]
    simp [replace_brackets_nil]
  | c :: d :: rest => by
    by_cases h : c = '[' ∧ d = ']'
    · obtain ⟨rfl, rfl⟩ := h
      rw [replace_brackets_pair]
      have ih := mem_colon_replace_brackets rest
      simp [ih]
    · rw [replace_brackets_cons c (d :: rest) (by simpa using h)]
      have ih := mem_colon_replace_brackets (d :: rest)
      simp only [List.mem_cons] at ih ⊢
      rw [ih]

theorem span_ne_colon (head value : GoString) (h : ':' ∉ head) :
    (head ++ ':' :: value).span (fun c => c != ':') = (head, ':' :: value) := by
  have hp : ∀ a ∈ head, (fun c => c != ':') a = true := by
    intro a ha
    simp only [bne_iff_ne, ne_eq]
    rintro rfl
    exact h ha
  rw [List.span_eq_take_drop, List.takeWhile_append_of_pos hp, List.dropWhile_append_of_pos hp]
  simp

theorem span_no_colon (t : GoString) (h : ':' ∉ t) :
    t.span (fun c => c != ':') = (t, []) := by
  have hp : ∀ a ∈ t, (fun c => c != ':') a = true := by
    intro a ha
    simp only [bne_iff_ne, ne_eq]
    rintro rfl
    exact h ha
  rw [List.span_eq_take_drop, List.takeWhile_eq_self_iff.mpr hp,
    List.dropWhile_eq_nil_iff.mpr hp]

theorem splitN_no_colon (t : GoString) (h : ':' ∉ t) :
    stringsSplitN ':' 2 t = [t] := by
  simp only [stringsSplitN, span_no_colon t h]

theorem splitN_colon (head value : GoString) (h : ':' ∉ head) :
    stringsSplitN ':' 2 (head ++ ':' :: value) = [head, value] := by
  simp only [stringsSplitN, span_ne_colon head value h]

theorem exists_first_colon (t : GoString) (h : ':' ∈ t) :
    ∃ head value, t = head ++ ':' :: value ∧ ':' ∉ head := by
  induction t with
  | nil => simp at h
  | cons c cs ih =>
    by_cases hc : c = ':'
    · exact ⟨[], cs, by simp [hc], by simp⟩
    · have hcs : ':' ∈ cs := by
        rcases List.mem_cons.mp h with e | e
        · exact absurd e.symm hc
        · exact e
      obtain ⟨head, value, e, hh⟩ := ih hcs
      refine ⟨c :: head, value, by simp [e], ?_⟩
      intro hm
      rcases List.mem_cons.mp hm with e' | e'
      · exact hc e'.symm
      · exact hh e'

/-- C3: NewQueryFilter returns an error, and no filter, exactly when the filter
string contains no colon; every string that contains a colon parses without
error and yields a filter. -/
theorem NewQueryFilter_error_iff_no_colon (filter : GoString) :
    ((NewQueryFilter filter).2.isSome ↔ ':' ∉ filter)
      ∧ ((NewQueryFilter filter).1.isNone ↔ ':' ∉ filter) := by
  by_cases h : ':' ∈ filter
  · have h' := (mem_colon_replace_brackets filter).mpr h
    obtain ⟨head, value, e, hh⟩ := exists_first_colon _ h'
    have hs := splitN_colon head value hh
    rw [← e] at hs
    have hs' : stringsSplitN ':' 2 (stringsReplace filter "[]".toList "[a]".toList (-1))
        = [head, value] := hs
    simp only [NewQueryFilter, hs']
    constructor <;> (split <;> simp [h])
  · have h' : ':' ∉ stringsReplace filter ['[', ']'] ['[', 'a', ']'] (-1) :=
      fun e => h ((mem_colon_replace_brackets filter).mp e)
    have hs := splitN_no_colon _ h'
    have hs' : stringsSplitN ':' 2 (stringsReplace filter "[]".toList "[a]".toList (-1))
        = [stringsReplace filter "[]".toList "[a]".toList (-1)] := hs
    simp only [NewQueryFilter, hs']
    simp [h]

/-- C1: the round trip through AsString and NewQueryFilter evaluated on the
filter with SearchLabel title, empty TypeClass, no levels and Value `[]`: the
serialized form is `[]title:[]`, the replacement of empty brackets that fills
empty type classes also rewrites the value, and the parsed filter carries the
Value `[a]` instead of `[]`. -/
theorem NewQueryFilter_AsString_rewrites_value :
    NewQueryFilter (QueryFilter.AsString { SearchLabel := "title".toList, Value := "[]".toList })
        = (some { SearchLabel := "title".toList, Value := "[a]".toList }, none)
      ∧ (NewQueryFilter
          (QueryFilter.AsString { SearchLabel := "title".toList, Value := "[]".toList })).1
        ≠ some { SearchLabel := "title".toList, Value := "[]".toList } := by
  decide

/-- C2, as stated, fails: the head of `x[]title:v` is `x[]title`, which splits on
the brackets into the two tokens x and title, so the filter should get
TypeClass x, SearchLabel title and no Level2; NewQueryFilter first rewrites
`[]` to `[a]`, reads three tokens, and returns an empty TypeClass with a Level2
whose SearchLabel is x. -/
theorem NewQueryFilter_tokens_of_raw_head_counterexample :
    ':' ∈ "x[]title:v".toList
      ∧ stringsFieldsFunc ("x[]title:v".toList.takeWhile (fun c => c != ':')) qfSplit
        = ["x".toList, "title".toList]
      ∧ NewQueryFilter "x[]title:v".toList
        = (some { SearchLabel := "title".toList, TypeClass := [],
                  Level2 := some { SearchLabel := "x".toList }, Value := "v".toList }, none)
      ∧ ¬ ∃ qf, NewQueryFilter "x[]title:v".toList = (some qf, none)
          ∧ qf.SearchLabel = "title".toList ∧ qf.TypeClass = "x".toList ∧ qf.Level2 = none := by
  refine ⟨by decide, by decide, by decide, ?_⟩
  rintro ⟨qf, h, -, h2, -⟩
  have e : NewQueryFilter "x[]title:v".toList
      = (some { SearchLabel := "title".toList, TypeClass := [],
                Level2 := some { SearchLabel := "x".toList }, Value := "v".toList }, none) := by
    decide
  rw [e] at h
  simp only [Prod.mk.injEq, Option.some.injEq, and_true] at h
  subst h
  exact absurd h2 (by decide)

/-- C2, amended: for every filter string that contains a colon, take the string
with every `[]` replaced by `[a]`; when its head (the text before its first
colon) splits on the brackets into tokens t1..tn with 1 ≤ n ≤ 6, NewQueryFilter
succeeds, Value is the text after that colon, and the tokens are read from the
right in (TypeClass, SearchLabel) pairs: SearchLabel = tn, TypeClass = t(n-1)
(empty when n = 1); Level2 is absent when n ≤ 2 and otherwise has
SearchLabel = t(n-2) and TypeClass = t(n-3) (empty when n = 3); Level1 is
absent when n ≤ 4 and otherwise has SearchLabel = t(n-4) and TypeClass = t(n-5)
(empty when n = 5); a TypeClass token equal to a is stored as empty. -/
theorem NewQueryFilter_reads_tokens_from_right (filter head value : GoString)
    (tokens : List GoString)
    (hsplit : stringsReplace filter "[]".toList "[a]".toList (-1) = head ++ ':' :: value)
    (hhead : ':' ∉ head)
    (htokens : stringsFieldsFunc head qfSplit = tokens)
    (hmin : 1 ≤ tokens.length) (hmax : tokens.length ≤ 6) :
    ∃ qf, NewQueryFilter filter = (some qf, none) ∧ qf.Value = value
      ∧ qf.SearchLabel = tokens.getD (tokens.length - 1) []
      ∧ qf.TypeClass =
        (if tokens.length = 1 then []
         else if tokens.getD (tokens.length - 2) [] = "a".toList then []
         else tokens.getD (tokens.length - 2) [])
      ∧ qf.Level2 =
        (if tokens.length ≤ 2 then none
         else some
          { SearchLabel := tokens.getD (tokens.length - 3) [],
            TypeClass :=
              if tokens.length = 3 then []
              else if tokens.getD (tokens.length - 4) [] = "a".toList then []
              else tokens.getD (tokens.length - 4) [] })
      ∧ qf.Level1 =
        (if tokens.length ≤ 4 then none
         else some
          { SearchLabel := tokens.getD (tokens.length - 5) [],
            TypeClass :=
              if tokens.length = 5 then []
              else if tokens.getD (tokens.length - 6) [] = "a".toList then []
              else tokens.getD (tokens.length - 6) [] }) := by
  have hs := splitN_colon head value hhead
  rw [← hsplit] at hs
  subst htokens
  simp only [NewQueryFilter, hs]
  match ht : stringsFieldsFunc head qfSplit, hmin, hmax with
  | [], h, _ => simp at h
  | [p0], _, _ => simp [ht]
  | [p0, p1], _, _ => simp [ht, validateTypeClass]
  | [p0, p1, p2], _, _ => simp [ht, validateTypeClass]
  | [p0, p1, p2, p3], _, _ => simp [ht, validateTypeClass]
  | [p0, p1, p2, p3, p4], _, _ => simp [ht, validateTypeClass]
  | [p0, p1, p2, p3, p4, p5], _, _ => simp [ht, validateTypeClass]
  | _ :: _ :: _ :: _ :: _ :: _ :: _ :: _, _, h => simp at h

/-- The two examples of C2: `[rdf_type]title:Horizon` gives TypeClass rdf_type,
SearchLabel title and Value Horizon; `spec:demo` gives SearchLabel spec, an
empty TypeClass and Value demo. -/
theorem NewQueryFilter_reads_tokens_from_right_witness :
    (∃ qf, NewQueryFilter "[rdf_type]title:Horizon".toList = (some qf, none)
      ∧ qf.Value = "Horizon".toList ∧ qf.SearchLabel = "title".toList
      ∧ qf.TypeClass = "rdf_type".toList ∧ qf.Level2 = none ∧ qf.Level1 = none)
    ∧ (∃ qf, NewQueryFilter "spec:demo".toList = (some qf, none)
      ∧ qf.Value = "demo".toList ∧ qf.SearchLabel = "spec".toList
      ∧ qf.TypeClass = [] ∧ qf.Level2 = none ∧ qf.Level1 = none) := by
  constructor
  · have h := NewQueryFilter_reads_tokens_from_right "[rdf_type]title:Horizon".toList
      "[rdf_type]title".toList "Horizon".toList ["rdf_type".toList, "title".toList]
      (by decide) (by decide) (by decide) (by decide) (by decide)
    simpa using h
  · have h := NewQueryFilter_reads_tokens_from_right "spec:demo".toList
      "spec".toList "demo".toList ["spec".toList]
      (by decide) (by decide) (by decide) (by decide) (by decide)
    simpa using h

/-! ## FilterCodec: the round trip -/

theorem replace_brackets_token (t rest : GoString) (ht : ∀ c ∈ t, c ≠ '[') :
    stringsReplace (t ++ rest) ['[', ']'] ['[', 'a', ']'] (-1)
      = t ++ stringsReplace rest ['[', ']'] ['[', 'a', ']'] (-1) := by
  induction t with
  | nil => rfl
  | cons c cs ih =>
    have hc : c ≠ '[' := ht c (List.mem_cons_self _ _)
    rw [List.cons_append, replace_brackets_cons c _ (fun h => hc h.1),
      ih (fun x hx => ht x (List.mem_cons_of_mem _ hx))]
    rfl

theorem replace_brackets_id :
    ∀ s : GoString, ¬ ['[', ']'] <:+: s →
      stringsReplace s ['[', ']'] ['[', 'a', ']'] (-1) = s
  | [], _ => rfl
  | [c], _ => by
    rw [replace_brackets_cons c [] (by simp)]
    rfl
  | c :: d :: rest, h => by
    have hne : ¬ (c = '[' ∧ d = ']') := by
      rintro ⟨rfl, rfl⟩
      exact h ⟨[], rest, rfl⟩
    have htail : ¬ ['[', ']'] <:+: d :: rest := by
      rintro ⟨pre, post, e⟩
      exact h ⟨c :: pre, post, by simp [← e]⟩
    rw [replace_brackets_cons c (d :: rest) (by simpa using hne),
      replace_brackets_id (d :: rest) htail]

theorem fieldsFuncAux_token (t rest cur : GoString) (ht : ∀ c ∈ t, qfSplit c = false) :
    stringsFieldsFuncAux qfSplit (t ++ rest) cur
      = stringsFieldsFuncAux qfSplit rest (t.reverse ++ cur) := by
  induction t generalizing cur with
  | nil => rfl
  | cons c cs ih =>
    have hc := ht c (List.mem_cons_self _ _)
    rw [List.cons_append, stringsFieldsFuncAux]
    simp only [hc, Bool.false_eq_true, if_false]
    rw [ih _ (fun x hx => ht x (List.mem_cons_of_mem _ hx))]
    simp

theorem fieldsFuncAux_delim (d : Char) (rest cur : GoString) (hd : qfSplit d = true)
    (hcur : cur ≠ []) :
    stringsFieldsFuncAux qfSplit (d :: rest) cur
      = cur.reverse :: stringsFieldsFuncAux qfSplit rest [] := by
  rw [stringsFieldsFuncAux]
  simp only [hd, if_true, hcur, if_false]

theorem fieldsFuncAux_delim_nil (d : Char) (rest : GoString) (hd : qfSplit d = true) :
    stringsFieldsFuncAux qfSplit (d :: rest) []
      = stringsFieldsFuncAux qfSplit rest [] := by
  rw [stringsFieldsFuncAux]
  simp only [hd, if_true]

theorem isToken_not_split (s : GoString) (h : isToken s) : ∀ c ∈ s, qfSplit c = false := by
  intro c hc
  obtain ⟨h1, h2, -⟩ := h.2 c hc
  simp [qfSplit, h1, h2]

theorem isToken_filledTypeClass (tc : GoString) (h : isTypeClass tc) :
    isToken (filledTypeClass tc) := by
  unfold filledTypeClass
  rcases h with rfl | ⟨h, -⟩
  · simp only [if_true]
    decide
  · simp only [h.1, if_false]
    exact h

theorem validateTypeClass_filled (tc : GoString) (h : isTypeClass tc) :
    validateTypeClass (filledTypeClass tc) = tc := by
  unfold filledTypeClass validateTypeClass
  rcases h with rfl | ⟨h, ha⟩
  · simp
  · simp only [h.1, if_false, ha]

theorem replace_brackets_bracketed (tc label rest : GoString)
    (htc : isTypeClass tc) (hlabel : isToken label) :
    stringsReplace (bracketed tc label ++ rest) ['[', ']'] ['[', 'a', ']'] (-1)
      = bracketed (filledTypeClass tc) label
        ++ stringsReplace rest ['[', ']'] ['[', 'a', ']'] (-1) := by
  have hl : ∀ c ∈ label, c ≠ '[' := fun c hc => (hlabel.2 c hc).1
  rcases htc with rfl | ⟨h, -⟩
  · show stringsReplace ('[' :: ']' :: (label ++ rest)) _ _ _ = _
    rw [replace_brackets_pair, replace_brackets_token label rest hl]
    simp [bracketed, filledTypeClass]
  · have ht : ∀ c ∈ tc, c ≠ '[' := fun c hc => (h.2 c hc).1
    obtain ⟨d, ds, rfl⟩ := List.exists_cons_of_ne_nil h.1
    have hd : d ≠ ']' := (h.2 d (List.mem_cons_self _ _)).2.1
    have e : bracketed (d :: ds) label ++ rest
        = '[' :: ((d :: ds) ++ (']' :: (label ++ rest))) := by
      simp [bracketed]
    rw [e, replace_brackets_cons '[' _ (by simp [hd]),
      replace_brackets_token (d :: ds) _ ht,
      replace_brackets_cons ']' _ (by simp),
      replace_brackets_token label rest hl]
    simp [bracketed, filledTypeClass]

theorem fieldsFuncAux_bracketed (tc label rest : GoString)
    (htc : isToken tc) (hlabel : isToken label) :
    stringsFieldsFuncAux qfSplit (bracketed tc label ++ rest) []
      = tc :: stringsFieldsFuncAux qfSplit rest label.reverse := by
  have e : bracketed tc label ++ rest = '[' :: (tc ++ (']' :: (label ++ rest))) := by
    simp [bracketed]
  rw [e, fieldsFuncAux_delim_nil _ _ (by decide),
    fieldsFuncAux_token tc _ [] (isToken_not_split tc htc),
    fieldsFuncAux_delim _ _ _ (by decide) (by simpa using htc.1),
    fieldsFuncAux_token label _ [] (isToken_not_split label hlabel)]
  simp

theorem fieldsFuncAux_bracketed_next (tc label rest cur : GoString)
    (htc : isToken tc) (hlabel : isToken label) (hcur : cur ≠ []) :
    stringsFieldsFuncAux qfSplit (bracketed tc label ++ rest) cur
      = cur.reverse :: tc :: stringsFieldsFuncAux qfSplit rest label.reverse := by
  have e : bracketed tc label ++ rest = '[' :: (tc ++ (']' :: (label ++ rest))) := by
    simp [bracketed]
  rw [e, fieldsFuncAux_delim _ _ _ (by decide) hcur,
    fieldsFuncAux_token tc _ [] (isToken_not_split tc htc),
    fieldsFuncAux_delim _ _ _ (by decide) (by simpa using htc.1),
    fieldsFuncAux_token label _ [] (isToken_not_split label hlabel)]
  simp

theorem fieldsFuncAux_end (label : GoString) (hlabel : isToken label) :
    stringsFieldsFuncAux qfSplit [] label.reverse = [label] := by
  rw [stringsFieldsFuncAux]
  simp [hlabel.1]

theorem colon_not_mem_bracketed (tc label : GoString) (htc : isToken tc)
    (hlabel : isToken label) : ':' ∉ bracketed tc label := by
  intro h
  have e : bracketed tc label = ['['] ++ tc ++ [']'] ++ label := by simp [bracketed]
  rw [e] at h
  simp only [List.mem_append, List.mem_singleton] at h
  rcases h with ((h | h) | h) | h
  · exact absurd h (by decide)
  · exact (htc.2 _ h).2.2 rfl
  · exact absurd h (by decide)
  · exact (hlabel.2 _ h).2.2 rfl

theorem replace_brackets_value (value : GoString) (h : ¬ ['[', ']'] <:+: value) :
    stringsReplace (':' :: value) ['[', ']'] ['[', 'a', ']'] (-1) = ':' :: value := by
  rw [replace_brackets_cons ':' value (by simp), replace_brackets_id value h]

theorem AsString_eq (qf : QueryFilter) :
    qf.AsString
      = (match qf.Level1 with
          | some l1 => bracketed l1.TypeClass l1.SearchLabel
          | none => [])
        ++ ((match qf.Level2 with
          | some l2 => bracketed l2.TypeClass l2.SearchLabel
          | none => [])
        ++ (bracketed qf.TypeClass qf.SearchLabel ++ ':' :: qf.Value)) := by
  unfold QueryFilter.AsString bracketed
  cases qf.Level1 <;> cases qf.Level2 <;> simp

theorem NewQueryFilter_of_fields (filter head value : GoString)
    (hrep : stringsReplace filter ['[', ']'] ['[', 'a', ']'] (-1) = head ++ ':' :: value)
    (hhead : ':' ∉ head) :
    NewQueryFilter filter
      = (match stringsFieldsFunc head qfSplit with
        | [p0] => (some { Value := value, SearchLabel := p0 }, none)
        | [p0, p1] =>
          (some { Value := value, SearchLabel := p1, TypeClass := validateTypeClass p0 }, none)
        | [p0, p1, p2] =>
          (some { Value := value, SearchLabel := p2, TypeClass := validateTypeClass p1,
                  Level2 := some { SearchLabel := p0 } }, none)
        | [p0, p1, p2, p3] =>
          (some { Value := value, SearchLabel := p3, TypeClass := validateTypeClass p2,
                  Level2 := some { SearchLabel := p1, TypeClass := validateTypeClass p0 } },
            none)
        | [p0, p1, p2, p3, p4] =>
          (some { Value := value, SearchLabel := p4, TypeClass := validateTypeClass p3,
                  Level2 := some { SearchLabel := p2, TypeClass := validateTypeClass p1 },
                  Level1 := some { SearchLabel := p0 } }, none)
        | [p0, p1, p2, p3, p4, p5] =>
          (some { Value := value, SearchLabel := p5, TypeClass := validateTypeClass p4,
                  Level2 := some { SearchLabel := p3, TypeClass := validateTypeClass p2 },
                  Level1 := some { SearchLabel := p1, TypeClass := validateTypeClass p0 } },
            none)
        | _ => (some { Value := value }, none)) := by
  have hs := splitN_colon head value hhead
  rw [← hrep] at hs
  have hs' : stringsSplitN ':' 2 (stringsReplace filter "[]".toList "[a]".toList (-1))
      = [head, value] := hs
  simp only [NewQueryFilter, hs']

/-- The round trip of C1 where it holds: for every QueryFilter whose SearchLabels
are tokens, whose TypeClasses are empty or tokens other than the wildcard,
whose Level1 is present only with Level2, and whose Value does not contain
`[]`, parsing the serialized filter gives back the same SearchLabel, TypeClass,
Value, Level2 and Level1. -/
theorem NewQueryFilter_AsString_round_trip (qf : QueryFilter)
    (hlabel : isToken qf.SearchLabel) (htc : isTypeClass qf.TypeClass)
    (hlevel2 : ∀ l2, qf.Level2 = some l2 → isToken l2.SearchLabel ∧ isTypeClass l2.TypeClass)
    (hlevel1 : ∀ l1, qf.Level1 = some l1 → isToken l1.SearchLabel ∧ isTypeClass l1.TypeClass)
    (hchain : qf.Level1 ≠ none → qf.Level2 ≠ none)
    (hvalue : ¬ "[]".toList <:+: qf.Value) :
    NewQueryFilter qf.AsString = (some { qf with Exclude := false }, none) := by
  have hv : ¬ ['[', ']'] <:+: qf.Value := hvalue
  have hftc := isToken_filledTypeClass _ htc
  obtain ⟨l1o, l2o, label, tc, value, excl⟩ := qf
  simp only at hlabel htc hlevel2 hlevel1 hchain hv hftc
  cases l1o with
  | none =>
    cases l2o with
    | none =>
      have hrep : stringsReplace
          (QueryFilter.AsString ⟨none, none, label, tc, value, excl⟩)
          ['[', ']'] ['[', 'a', ']'] (-1)
          = bracketed (filledTypeClass tc) label ++ ':' :: value := by
        rw [AsString_eq]
        show stringsReplace ([] ++ ([] ++ (bracketed tc label ++ ':' :: value))) _ _ _ = _
        rw [List.nil_append, List.nil_append,
          replace_brackets_bracketed tc label _ htc hlabel, replace_brackets_value value hv]
      rw [NewQueryFilter_of_fields _ _ value hrep (colon_not_mem_bracketed _ _ hftc hlabel)]
      have hf : stringsFieldsFunc (bracketed (filledTypeClass tc) label) qfSplit
          = [filledTypeClass tc, label] := by
        have := fieldsFuncAux_bracketed (filledTypeClass tc) label [] hftc hlabel
        rw [List.append_nil, fieldsFuncAux_end label hlabel] at this
        exact this
      rw [hf]
      simp only [validateTypeClass_filled tc htc]
    | some l2 =>
      obtain ⟨h2l, h2t⟩ := hlevel2 l2 rfl
      have h2f := isToken_filledTypeClass _ h2t
      have hrep : stringsReplace
          (QueryFilter.AsString ⟨none, some l2, label, tc, value, excl⟩)
          ['[', ']'] ['[', 'a', ']'] (-1)
          = (bracketed (filledTypeClass l2.TypeClass) l2.SearchLabel
              ++ bracketed (filledTypeClass tc) label) ++ ':' :: value := by
        rw [AsString_eq]
        show stringsReplace ([] ++ (bracketed l2.TypeClass l2.SearchLabel
          ++ (bracketed tc label ++ ':' :: value))) _ _ _ = _
        rw [List.nil_append, replace_brackets_bracketed _ _ _ h2t h2l,
          replace_brackets_bracketed tc label _ htc hlabel, replace_brackets_value value hv,
          List.append_assoc]
      have hcolon : ':' ∉ bracketed (filledTypeClass l2.TypeClass) l2.SearchLabel
          ++ bracketed (filledTypeClass tc) label := by
        rw [List.mem_append]
        rintro (h | h)
        · exact colon_not_mem_bracketed _ _ h2f h2l h
        · exact colon_not_mem_bracketed _ _ hftc hlabel h
      rw [NewQueryFilter_of_fields _ _ value hrep hcolon]
      have hf : stringsFieldsFunc (bracketed (filledTypeClass l2.TypeClass) l2.SearchLabel
            ++ bracketed (filledTypeClass tc) label) qfSplit
          = [filledTypeClass l2.TypeClass, l2.SearchLabel, filledTypeClass tc, label] := by
        have := fieldsFuncAux_bracketed (filledTypeClass l2.TypeClass) l2.SearchLabel
          (bracketed (filledTypeClass tc) label) h2f h2l
        rw [← List.append_nil (bracketed (filledTypeClass tc) label),
          fieldsFuncAux_bracketed_next _ _ _ _ hftc hlabel (by simpa using h2l.1),
          fieldsFuncAux_end label hlabel, List.append_nil, List.reverse_reverse] at this
        exact this
      rw [hf]
      simp only [validateTypeClass_filled tc htc, validateTypeClass_filled _ h2t]
  | some l1 =>
    cases l2o with
    | none => exact absurd rfl (hchain (by simp))
    | some l2 =>
      obtain ⟨h2l, h2t⟩ := hlevel2 l2 rfl
      obtain ⟨h1l, h1t⟩ := hlevel1 l1 rfl
      have h2f := isToken_filledTypeClass _ h2t
      have h1f := isToken_filledTypeClass _ h1t
      have hrep : stringsReplace
          (QueryFilter.AsString ⟨some l1, some l2, label, tc, value, excl⟩)
          ['[', ']'] ['[', 'a', ']'] (-1)
          = (bracketed (filledTypeClass l1.TypeClass) l1.SearchLabel
              ++ (bracketed (filledTypeClass l2.TypeClass) l2.SearchLabel
              ++ bracketed (filledTypeClass tc) label)) ++ ':' :: value := by
        rw [AsString_eq]
        show stringsReplace (bracketed l1.TypeClass l1.SearchLabel
          ++ (bracketed l2.TypeClass l2.SearchLabel
          ++ (bracketed tc label ++ ':' :: value))) _ _ _ = _
        rw [replace_brackets_bracketed _ _ _ h1t h1l,
          replace_brackets_bracketed _ _ _ h2t h2l,
          replace_brackets_bracketed tc label _ htc hlabel, replace_brackets_value value hv,
          List.append_assoc, List.append_assoc]
      have hcolon : ':' ∉ bracketed (filledTypeClass l1.TypeClass) l1.SearchLabel
          ++ (bracketed (filledTypeClass l2.TypeClass) l2.SearchLabel
          ++ bracketed (filledTypeClass tc) label) := by
        rw [List.mem_append, List.mem_append]
        rintro (h | h | h)
        · exact colon_not_mem_bracketed _ _ h1f h1l h
        · exact colon_not_mem_bracketed _ _ h2f h2l h
        · exact colon_not_mem_bracketed _ _ hftc hlabel h
      rw [NewQueryFilter_of_fields _ _ value hrep hcolon]
      have hf : stringsFieldsFunc (bracketed (filledTypeClass l1.TypeClass) l1.SearchLabel
            ++ (bracketed (filledTypeClass l2.TypeClass) l2.SearchLabel
            ++ bracketed (filledTypeClass tc) label)) qfSplit
          = [filledTypeClass l1.TypeClass, l1.SearchLabel,
             filledTypeClass l2.TypeClass, l2.SearchLabel, filledTypeClass tc, label] := by
        have := fieldsFuncAux_bracketed (filledTypeClass l1.TypeClass) l1.SearchLabel
          (bracketed (filledTypeClass l2.TypeClass) l2.SearchLabel
            ++ bracketed (filledTypeClass tc) label) h1f h1l
        rw [fieldsFuncAux_bracketed_next _ _ _ _ h2f h2l (by simpa using h1l.1),
          ← List.append_nil (bracketed (filledTypeClass tc) label),
          fieldsFuncAux_bracketed_next _ _ _ _ hftc hlabel (by simpa using h2l.1),
          fieldsFuncAux_end label hlabel, List.append_nil, List.reverse_reverse,
          List.reverse_reverse] at this
        exact this
      rw [hf]
      simp only [validateTypeClass_filled tc htc, validateTypeClass_filled _ h2t,
        validateTypeClass_filled _ h1t]

/-! ## CursorCodec: the hex layer -/

theorem fromHexChar_hexDigit : ∀ n < 16, fromHexChar (hexDigit n) = some n := by
  decide

theorem hexDecodeString_fmtSprintfHex (output : List Byte) :
    hexDecodeString (fmtSprintfHex output) = (output, none) := by
  induction output with
  | nil => rfl
  | cons b bs ih =>
    have hhi := fromHexChar_hexDigit (b.val / 16) (by omega)
    have hlo := fromHexChar_hexDigit (b.val % 16) (by omega)
    have hb : (Fin.ofNat (b.val / 16 * 16 + b.val % 16) : Byte) = b := by
      apply Fin.ext
      simp only [Fin.ofNat, Fin.val_mk]
      omega
    have hcons : fmtSprintfHex (b :: bs)
        = hexDigit (b.val / 16) :: hexDigit (b.val % 16) :: fmtSprintfHex bs := rfl
    rw [hcons]
    simp only [hexDecodeString, hhi, hlo, hb, ih]

theorem fmtSprintfHex_eq_nil (output : List Byte) :
    fmtSprintfHex output = [] ↔ output = [] := by
  cases output with
  | nil => simp [fmtSprintfHex]
  | cons b bs => simp [fmtSprintfHex]

theorem SearchRequestFromHex_ToHex (env : Env) (sr : SearchRequest) :
    SearchRequestFromHex env (SearchRequestToHex env sr).1
      = env.protoUnmarshal (env.protoMarshal sr).1 := by
  simp only [SearchRequestFromHex, SearchRequestToHex, hexDecodeString_fmtSprintfHex]

/-- C10: when a non-empty token decodes without error to `sr`, NewSearchRequest
returns exactly `sr` with Paging = true for every parameter set whose scrollID
is the token, whatever qs and the other parameters hold, and for every
parameter set whose scrollID is absent or empty and whose qs is the token; so
two parameter sets that agree on the token (scrollID, or qs when scrollID is
absent or empty) yield equal results. -/
theorem NewSearchRequest_cursor_short_circuits (env : Env) (token : GoString)
    (sr : SearchRequest)
    (htoken : token ≠ [])
    (hdecode : SearchRequestFromHex env token = (sr, none)) :
    (∀ params : Values, params.Get "scrollID".toList = token →
        NewSearchRequest env params = (some { sr with Paging := true }, none))
      ∧ (∀ params : Values, params.Get "scrollID".toList = [] →
          params.Get "qs".toList = token →
          NewSearchRequest env params = (some { sr with Paging := true }, none))
      ∧ (∀ params params' : Values,
          (if params.Get "scrollID".toList = [] then params.Get "qs".toList
            else params.Get "scrollID".toList) = token →
          (if params'.Get "scrollID".toList = [] then params'.Get "qs".toList
            else params'.Get "scrollID".toList) = token →
          NewSearchRequest env params' = NewSearchRequest env params) := by
  have h1 : ∀ params : Values, params.Get "scrollID".toList = token →
      NewSearchRequest env params = (some { sr with Paging := true }, none) := by
    intro params h
    have hreq : NewSearchRequest.hexRequest params = token := by
      simp only [NewSearchRequest.hexRequest, h, htoken, if_false]
    simp only [NewSearchRequest, hreq, htoken, hdecode, ne_eq, not_false_eq_true, if_true]
  have h2 : ∀ params : Values, params.Get "scrollID".toList = [] →
      params.Get "qs".toList = token →
      NewSearchRequest env params = (some { sr with Paging := true }, none) := by
    intro params h hq
    have hreq : NewSearchRequest.hexRequest params = token := by
      simp only [NewSearchRequest.hexRequest, h, hq, if_true]
    simp only [NewSearchRequest, hreq, htoken, hdecode, ne_eq, not_false_eq_true, if_true]
  have h3 : ∀ params : Values,
      (if params.Get "scrollID".toList = [] then params.Get "qs".toList
        else params.Get "scrollID".toList) = token →
      NewSearchRequest env params = (some { sr with Paging := true }, none) := by
    intro params h
    by_cases hs : params.Get "scrollID".toList = []
    · rw [if_pos hs] at h
      exact h2 params hs h
    · rw [if_neg hs] at h
      exact h1 params h
  exact ⟨h1, h2, fun params params' h h' => (h3 params' h').trans (h3 params h).symm⟩

/-- C4, amended: for every SearchRequest whose token SearchRequestToHex(sr) is
non-empty and whose serialized form the wire codec decodes back to `sr`,
passing the token as the scrollID parameter of NewSearchRequest succeeds and
yields `sr` with Paging = true, every other field unchanged. -/
theorem cursor_round_trip (env : Env) (sr : SearchRequest) (params : Values)
    (hscroll : params.Get "scrollID".toList = (SearchRequestToHex env sr).1)
    (htoken : (SearchRequestToHex env sr).1 ≠ [])
    (hcodec : env.protoUnmarshal (env.protoMarshal sr).1 = (sr, none)) :
    NewSearchRequest env params = (some { sr with Paging := true }, none) := by
  have hreq : NewSearchRequest.hexRequest params = (SearchRequestToHex env sr).1 := by
    simp only [NewSearchRequest.hexRequest, hscroll, htoken, if_false]
  have hdec := SearchRequestFromHex_ToHex env sr
  rw [hcodec] at hdec
  simp only [NewSearchRequest, hreq, htoken, hdec, ne_eq, not_false_eq_true, if_true]

/-- The cursor round trip of C4 on the request with Query cats, Start 0 and
ResponseSize 10. -/
theorem cursor_round_trip_witness :
    NewSearchRequest refEnv [("scrollID".toList, [(SearchRequestToHex refEnv catsRequest).1])]
      = (some { Query := "cats".toList, Start := 0, ResponseSize := 10, Paging := true }, none) :=
  cursor_round_trip refEnv catsRequest
    [("scrollID".toList, [(SearchRequestToHex refEnv catsRequest).1])]
    (by decide) (by decide) (by decide)

/-- C4, as stated, fails on the zero-value request: no field differs from its
zero value, so the serialized form and the token are empty; NewSearchRequest
takes an empty scrollID as no cursor and builds the default request from the
parameters, with ResponseSize 16 and Paging false. -/
theorem cursor_round_trip_zero_request_counterexample :
    (SearchRequestToHex refEnv {}).1 = []
      ∧ NewSearchRequest refEnv [("scrollID".toList, [(SearchRequestToHex refEnv {}).1])]
        = (some { ResponseSize := 16, Paging := false }, none)
      ∧ NewSearchRequest refEnv [("scrollID".toList, [(SearchRequestToHex refEnv {}).1])]
        ≠ (some { ({} : SearchRequest) with Paging := true }, none) := by
  decide

/-- C10 on the token of the cats request: as scrollID next to rows and a qs
that does not decode, as qs without scrollID, and as qs next to an empty
scrollID and a q parameter; each time the result is the cats request with
Paging = true. -/
theorem NewSearchRequest_cursor_short_circuits_witness :
    NewSearchRequest refEnv
        [("rows".toList, ["5".toList]), ("scrollID".toList, ["0a0463617473100a".toList]),
         ("qs".toList, ["zz".toList])]
      = (some { Query := "cats".toList, Start := 0, ResponseSize := 10, Paging := true }, none)
    ∧ NewSearchRequest refEnv
        [("rows".toList, ["5".toList]), ("qs".toList, ["0a0463617473100a".toList])]
      = (some { Query := "cats".toList, Start := 0, ResponseSize := 10, Paging := true }, none)
    ∧ NewSearchRequest refEnv
        [("scrollID".toList, ["".toList]), ("qs".toList, ["0a0463617473100a".toList]),
         ("q".toList, ["dogs".toList])]
      = (some { Query := "cats".toList, Start := 0, ResponseSize := 10, Paging := true }, none) :=
  ⟨(NewSearchRequest_cursor_short_circuits refEnv "0a0463617473100a".toList
      { Query := "cats".toList, Start := 0, ResponseSize := 10 } (by decide) (by decide)).1
      [("rows".toList, ["5".toList]), ("scrollID".toList, ["0a0463617473100a".toList]),
       ("qs".toList, ["zz".toList])] (by decide),
    (NewSearchRequest_cursor_short_circuits refEnv "0a0463617473100a".toList
      { Query := "cats".toList, Start := 0, ResponseSize := 10 } (by decide) (by decide)).2.1
      [("rows".toList, ["5".toList]), ("qs".toList, ["0a0463617473100a".toList])]
      (by decide) (by decide),
    (NewSearchRequest_cursor_short_circuits refEnv "0a0463617473100a".toList
      { Query := "cats".toList, Start := 0, ResponseSize := 10 } (by decide) (by decide)).2.1
      [("scrollID".toList, ["".toList]), ("qs".toList, ["0a0463617473100a".toList]),
       ("q".toList, ["dogs".toList])]
      (by decide) (by decide)⟩

/-! ## CursorCodec: the scroll pager -/

theorem wrapInt32_of_range (x : Int) (hlo : -2147483648 ≤ x) (hhi : x < 2147483648) :
    wrapInt32 x = x := by
  unfold wrapInt32
  omega

theorem NextScrollID_request (env : Env) (sr : SearchRequest) (total : Int)
    (htotal : total ≠ 0) :
    (sr.NextScrollID env total).2
      = { sr with Start := wrapInt32 (sr.Start + sr.ResponseSize) } := by
  simp only [SearchRequest.NextScrollID, htotal, if_false, SearchRequestToHex]
  split <;> rfl

theorem NextScrollID_pager (env : Env) (sr : SearchRequest) (total : Int)
    (htotal : total ≠ 0) :
    (sr.NextScrollID env total).1
      = (some
          { Cursor := sr.Start, Total := total, Rows := sr.ResponseSize,
            ScrollID :=
              if wrapInt32 (sr.Start + sr.ResponseSize) ≥ wrapInt32 total then []
              else (SearchRequestToHex env
                { sr with Start := wrapInt32 (sr.Start + sr.ResponseSize) }).1 }, none) := by
  simp only [SearchRequest.NextScrollID, htotal, if_false, SearchRequestToHex, NewScrollPager]
  split <;> rfl

/-- C8: for every SearchRequest, NextScrollID(0) returns, without error, the
pager that NewScrollPager creates (Cursor 0, Total 0, Rows 0, empty ScrollID)
and leaves the request unchanged. -/
theorem NextScrollID_zero_total (env : Env) (sr : SearchRequest) :
    sr.NextScrollID env 0 = ((some NewScrollPager, none), sr)
      ∧ NewScrollPager = { Cursor := 0, Total := 0, Rows := 0, ScrollID := [] } := by
  constructor
  · simp only [SearchRequest.NextScrollID, if_true]
  · rfl

/-- C7, amended: for every SearchRequest and every total other than 0,
NextScrollID(total) returns a pager with Cursor = the Start before the call,
Rows = ResponseSize and Total = total; after the call Start is the old Start
plus ResponseSize in `int32` arithmetic (the exact sum whenever the sum lies in
the `int32` range) and every other field of the request is unchanged. -/
theorem NextScrollID_frame (env : Env) (sr : SearchRequest) (total : Int)
    (htotal : total ≠ 0) :
    (∃ sp, (sr.NextScrollID env total).1 = (some sp, none)
        ∧ sp.Cursor = sr.Start ∧ sp.Rows = sr.ResponseSize ∧ sp.Total = total)
      ∧ (sr.NextScrollID env total).2
        = { sr with Start := wrapInt32 (sr.Start + sr.ResponseSize) }
      ∧ (-2147483648 ≤ sr.Start + sr.ResponseSize ∧ sr.Start + sr.ResponseSize < 2147483648 →
          (sr.NextScrollID env total).2 = { sr with Start := sr.Start + sr.ResponseSize }) := by
  refine ⟨⟨_, NextScrollID_pager env sr total htotal, rfl, rfl, rfl⟩,
    NextScrollID_request env sr total htotal, ?_⟩
  rintro ⟨hlo, hhi⟩
  rw [NextScrollID_request env sr total htotal, wrapInt32_of_range _ hlo hhi]

/-- C7 on the cats request with total 25: Start advances from 0 to 10. -/
theorem NextScrollID_frame_witness :
    (catsRequest.NextScrollID refEnv 25).2
      = { Query := "cats".toList, Start := 10, ResponseSize := 10 } :=
  (NextScrollID_frame refEnv catsRequest 25 (by decide)).2.1

/-- C7, as stated, fails at the top of the `int32` range: with Start 2147483647
and ResponseSize 1 the advanced Start wraps to -2147483648, not 2147483648. -/
theorem NextScrollID_start_overflow_counterexample :
    ((SearchRequest.NextScrollID refEnv { Start := 2147483647, ResponseSize := 1 } 1).2).Start
        = -2147483648
      ∧ ((SearchRequest.NextScrollID refEnv { Start := 2147483647, ResponseSize := 1 } 1).2).Start
        ≠ 2147483647 + 1 := by
  decide

/-- C6: NextScrollID evaluated on Start 0, ResponseSize 10 and total 4294967296:
the advanced Start 10 is below the total, yet the total is narrowed to `int32`
(giving 0) before the comparison and the pager comes back with an empty
ScrollID. -/
theorem NextScrollID_truncates_total (env : Env) :
    (SearchRequest.NextScrollID env { Start := 0, ResponseSize := 10 } 4294967296).1
        = (some { Cursor := 0, Total := 4294967296, Rows := 10, ScrollID := [] }, none)
      ∧ ((SearchRequest.NextScrollID env { Start := 0, ResponseSize := 10 } 4294967296).2).Start
        = 10
      ∧ ¬ ((10 : Int) ≥ 4294967296) := by
  refine ⟨?_, ?_, by decide⟩
  · rw [NextScrollID_pager env _ _ (by decide)]
    rfl
  · rw [NextScrollID_request env _ _ (by decide)]
    rfl

theorem scrollFrom_start (env : Env) (total r : Int) (htotal : total ≠ 0) (hr : 0 ≤ r) :
    ∀ (k : Nat) (sr : SearchRequest), sr.ResponseSize = r → 0 ≤ sr.Start →
      sr.Start + k * r < 2147483648 →
      scrollFrom env total k sr = { sr with Start := sr.Start + k * r }
  | 0, sr, _, _, _ => by simp [scrollFrom]
  | k + 1, sr, hsize, hstart, hlt => by
    have hkr : 0 ≤ (k : Int) * r := mul_nonneg (by positivity) hr
    have hcast : ((k + 1 : Nat) : Int) * r = k * r + r := by push_cast; ring
    rw [hcast] at hlt
    have hstep : wrapInt32 (sr.Start + sr.ResponseSize) = sr.Start + r := by
      rw [hsize]
      exact wrapInt32_of_range _ (by omega) (by omega)
    have ih := scrollFrom_start env total r htotal hr k
      { sr with Start := sr.Start + r } hsize (by show 0 ≤ sr.Start + r; omega)
      (by show sr.Start + r + k * r < 2147483648; omega)
    have e : sr.Start + r + k * r = sr.Start + ((k + 1 : Nat) : Int) * r := by
      push_cast; ring
    simp only [scrollFrom]
    rw [NextScrollID_request env sr total htotal, hstep, ih]
    show ({ sr with Start := sr.Start + r + k * r } : SearchRequest) = _
    rw [e]

/-- C5, amended: pagination terminates on schedule.  For total ≥ 1 and
ResponseSize r ≥ 1 with total + r in the `int32` range, starting from Start = 0,
and a wire codec that gives every request with a non-zero ResponseSize a
non-empty token:
call number k of successive NextScrollID(total) calls, for
1 ≤ k ≤ ceil(total / r), returns a pager with Cursor = (k - 1) * r, and its
ScrollID is empty exactly when k = ceil(total / r). -/
theorem pagination_terminates_on_schedule (env : Env) (sr : SearchRequest) (total r : Int)
    (k : Nat)
    (htotal : 1 ≤ total) (hr : 1 ≤ r) (hrange : total + r < 2147483648)
    (hstart : sr.Start = 0) (hsize : sr.ResponseSize = r)
    (htoken : ∀ sr' : SearchRequest, sr'.ResponseSize ≠ 0 → (SearchRequestToHex env sr').1 ≠ [])
    (hk1 : 1 ≤ k) (hk : (k : Int) ≤ (total + r - 1) / r) :
    ∃ sp, scrollPage env total (k - 1) sr = (some sp, none)
      ∧ sp.Cursor = ((k : Int) - 1) * r
      ∧ (sp.ScrollID = [] ↔ (k : Int) = (total + r - 1) / r) := by
  have hr0 : (0 : Int) < r := by omega
  have hc1 : (total + r - 1) / r * r ≤ total + r - 1 := Int.ediv_mul_le _ (by omega)
  have hc2 : total + r - 1 < ((total + r - 1) / r + 1) * r :=
    Int.lt_ediv_add_one_mul_self _ hr0
  have hkc : (k : Int) * r ≤ (total + r - 1) / r * r :=
    mul_le_mul_of_nonneg_right hk (by omega)
  have hk1' : (1 : Int) ≤ k := by exact_mod_cast hk1
  have hkpred : ((k - 1 : Nat) : Int) = (k : Int) - 1 := by omega
  have hj : 0 ≤ ((k : Int) - 1) * r := mul_nonneg (by omega) (by omega)
  have hjr : ((k : Int) - 1) * r + r = k * r := by ring
  have hfrom := scrollFrom_start env total r (by omega) (by omega) (k - 1) sr hsize
    (by omega) (by rw [hstart, hkpred]; omega)
  rw [hstart, hkpred, zero_add] at hfrom
  unfold scrollPage
  rw [hfrom, NextScrollID_pager env _ total (by omega)]
  refine ⟨_, rfl, rfl, ?_⟩
  show (if wrapInt32 (((k : Int) - 1) * r + sr.ResponseSize) ≥ wrapInt32 total then []
    else (SearchRequestToHex env
      { sr with Start := wrapInt32 (((k : Int) - 1) * r + sr.ResponseSize) }).1) = [] ↔ _
  rw [hsize, hjr, wrapInt32_of_range (k * r) (by omega) (by omega),
    wrapInt32_of_range total (by omega) (by omega)]
  by_cases hend : (k : Int) * r ≥ total
  · simp only [hend, if_true, true_iff]
    by_contra hne
    have hlt : (k : Int) + 1 ≤ (total + r - 1) / r := by omega
    have := mul_le_mul_of_nonneg_right hlt (show (0 : Int) ≤ r by omega)
    have e : ((k : Int) + 1) * r = k * r + r := by ring
    omega
  · simp only [hend, if_false]
    constructor
    · intro h
      exact absurd h (htoken _ (by show r ≠ 0; omega))
    · intro h
      exfalso
      rw [← h] at hc2
      have e : ((k : Int) + 1) * r = k * r + r := by ring
      omega

theorem refEnv_token_ne_nil (sr : SearchRequest) (h : sr.ResponseSize ≠ 0) :
    (SearchRequestToHex refEnv sr).1 ≠ [] := by
  intro e
  have e0 : fmtSprintfHex sr.encode = [] := by
    simpa only [SearchRequestToHex, refEnv] using e
  have e' := (fmtSprintfHex_eq_nil sr.encode).mp e0
  have e2 : sr.encode = [] := e'
  simp only [SearchRequest.encode, List.append_eq_nil] at e2
  have e3 := e2.1.1.1.1.1.1.1.1.1.1.1.1.1.1.1.2
  simp only [putInt, h, if_false, List.append_eq_nil] at e3
  exact absurd e3.1 (by decide)

/-- The example of C5: total 25 and ResponseSize 10 give the Cursors 0, 10, 20,
a non-empty ScrollID on the first two calls and an empty one on the third. -/
theorem pagination_terminates_on_schedule_witness :
    (∃ sp, scrollPage refEnv 25 0 catsRequest = (some sp, none)
        ∧ sp.Cursor = 0 ∧ (sp.ScrollID = [] ↔ False))
      ∧ (∃ sp, scrollPage refEnv 25 1 catsRequest = (some sp, none)
        ∧ sp.Cursor = 10 ∧ (sp.ScrollID = [] ↔ False))
      ∧ (∃ sp, scrollPage refEnv 25 2 catsRequest = (some sp, none)
        ∧ sp.Cursor = 20 ∧ (sp.ScrollID = [] ↔ True)) := by
  have h1 := pagination_terminates_on_schedule refEnv catsRequest 25 10 1
    (by decide) (by decide) (by decide) rfl rfl refEnv_token_ne_nil (by decide) (by decide)
  have h2 := pagination_terminates_on_schedule refEnv catsRequest 25 10 2
    (by decide) (by decide) (by decide) rfl rfl refEnv_token_ne_nil (by decide) (by decide)
  have h3 := pagination_terminates_on_schedule refEnv catsRequest 25 10 3
    (by decide) (by decide) (by decide) rfl rfl refEnv_token_ne_nil (by decide) (by decide)
  refine ⟨?_, ?_, ?_⟩
  · simpa using h1
  · simpa using h2
  · simpa using h3

/-- C5, counterexample: with a marshaller that fails on every request the
token is empty, so the first NextScrollID call on the cats request (Start 0,
ResponseSize 10) with total 25 returns an empty ScrollID, two calls before call
number ceil(25 / 10) = 3. -/
theorem pagination_failing_marshaller_counterexample :
    scrollPage { refEnv with protoMarshal := fun _ => ([], some (GoError.codec 3)) } 25 0
        catsRequest
      = (some { Cursor := 0, Total := 25, Rows := 10, ScrollID := [] }, none)
    ∧ catsRequest.Start = 0 ∧ catsRequest.ResponseSize = 10
    ∧ (1 : Int) < (25 + 10 - 1) / 10 := by
  decide

theorem paramCase_name (p : GoString) (c : ParamCase) (h : paramCase p = c) :
    (c = ParamCase.rows → p = "rows".toList) ∧
      (c = ParamCase.byLeaf → p = "byLeaf".toList) ∧
      (c = ParamCase.byDepth → p = "byDepth".toList) ∧
      (c = ParamCase.byChildCount → p = "byChildCount".toList) ∧
      (c = ParamCase.byParent → p = "byParent".toList) ∧
      (c = ParamCase.byType → p = "byType".toList) ∧
      (c = ParamCase.byLabel → p = "byLabel".toList) := by
  unfold paramCase at h
  by_cases c0 : p = "q".toList ∨ p = "query".toList
  · rw [if_pos c0] at h
    subst h
    refine ⟨?_, ?_, ?_, ?_, ?_, ?_, ?_⟩ <;> intro e <;> first | exact c0 | cases e
  rw [if_neg c0] at h
  by_cases c1 : p = "qf".toList ∨ p = "qf[]".toList
  · rw [if_pos c1] at h
    subst h
    refine ⟨?_, ?_, ?_, ?_, ?_, ?_, ?_⟩ <;> intro e <;> first | exact c1 | cases e
  rw [if_neg c1] at h
  by_cases c2 : p = "facet.field".toList
  · rw [if_pos c2] at h
    subst h
    refine ⟨?_, ?_, ?_, ?_, ?_, ?_, ?_⟩ <;> intro e <;> first | exact c2 | cases e
  rw [if_neg c2] at h
  by_cases c3 : p = "facetBoolType".toList
  · rw [if_pos c3] at h
    subst h
    refine ⟨?_, ?_, ?_, ?_, ?_, ?_, ?_⟩ <;> intro e <;> first | exact c3 | cases e
  rw [if_neg c3] at h
  by_cases c4 : p = "format".toList
  · rw [if_pos c4] at h
    subst h
    refine ⟨?_, ?_, ?_, ?_, ?_, ?_, ?_⟩ <;> intro e <;> first | exact c4 | cases e
  rw [if_neg c4] at h
  by_cases c5 : p = "rows".toList
  · rw [if_pos c5] at h
    subst h
    refine ⟨?_, ?_, ?_, ?_, ?_, ?_, ?_⟩ <;> intro e <;> first | exact c5 | cases e
  rw [if_neg c5] at h
  by_cases c6 : p = "itemFormat".toList
  · rw [if_pos c6] at h
    subst h
    refine ⟨?_, ?_, ?_, ?_, ?_, ?_, ?_⟩ <;> intro e <;> first | exact c6 | cases e
  rw [if_neg c6] at h
  by_cases c7 : p = "sortBy".toList
  · rw [if_pos c7] at h
    subst h
    refine ⟨?_, ?_, ?_, ?_, ?_, ?_, ?_⟩ <;> intro e <;> first | exact c7 | cases e
  rw [if_neg c7] at h
  by_cases c8 : p = "sortAsc".toList
  · rw [if_pos c8] at h
    subst h
    refine ⟨?_, ?_, ?_, ?_, ?_, ?_, ?_⟩ <;> intro e <;> first | exact c8 | cases e
  rw [if_neg c8] at h
  by_cases c9 : p = "sortOrder".toList
  · rw [if_pos c9] at h
    subst h
    refine ⟨?_, ?_, ?_, ?_, ?_, ?_, ?_⟩ <;> intro e <;> first | exact c9 | cases e
  rw [if_neg c9] at h
  by_cases c10 : p = "collapseOn".toList
  · rw [if_pos c10] at h
    subst h
    refine ⟨?_, ?_, ?_, ?_, ?_, ?_, ?_⟩ <;> intro e <;> first | exact c10 | cases e
  rw [if_neg c10] at h
  by_cases c11 : p = "collapseSort".toList
  · rw [if_pos c11] at h
    subst h
    refine ⟨?_, ?_, ?_, ?_, ?_, ?_, ?_⟩ <;> intro e <;> first | exact c11 | cases e
  rw [if_neg c11] at h
  by_cases c12 : p = "collapseSize".toList
  · rw [if_pos c12] at h
    subst h
    refine ⟨?_, ?_, ?_, ?_, ?_, ?_, ?_⟩ <;> intro e <;> first | exact c12 | cases e
  rw [if_neg c12] at h
  by_cases c13 : p = "peek".toList
  · rw [if_pos c13] at h
    subst h
    refine ⟨?_, ?_, ?_, ?_, ?_, ?_, ?_⟩ <;> intro e <;> first | exact c13 | cases e
  rw [if_neg c13] at h
  by_cases c14 : p = "byLeaf".toList
  · rw [if_pos c14] at h
    subst h
    refine ⟨?_, ?_, ?_, ?_, ?_, ?_, ?_⟩ <;> intro e <;> first | exact c14 | cases e
  rw [if_neg c14] at h
  by_cases c15 : p = "byDepth".toList
  · rw [if_pos c15] at h
    subst h
    refine ⟨?_, ?_, ?_, ?_, ?_, ?_, ?_⟩ <;> intro e <;> first | exact c15 | cases e
  rw [if_neg c15] at h
  by_cases c16 : p = "byChildCount".toList
  · rw [if_pos c16] at h
    subst h
    refine ⟨?_, ?_, ?_, ?_, ?_, ?_, ?_⟩ <;> intro e <;> first | exact c16 | cases e
  rw [if_neg c16] at h
  by_cases c17 : p = "byParent".toList
  · rw [if_pos c17] at h
    subst h
    refine ⟨?_, ?_, ?_, ?_, ?_, ?_, ?_⟩ <;> intro e <;> first | exact c17 | cases e
  rw [if_neg c17] at h
  by_cases c18 : p = "byType".toList
  · rw [if_pos c18] at h
    subst h
    refine ⟨?_, ?_, ?_, ?_, ?_, ?_, ?_⟩ <;> intro e <;> first | exact c18 | cases e
  rw [if_neg c18] at h
  by_cases c19 : p = "byLabel".toList
  · rw [if_pos c19] at h
    subst h
    refine ⟨?_, ?_, ?_, ?_, ?_, ?_, ?_⟩ <;> intro e <;> first | exact c19 | cases e
  rw [if_neg c19] at h
  subst h
  refine ⟨?_, ?_, ?_, ?_, ?_, ?_, ?_⟩ <;> intro e <;> cases e

theorem paramCase_rows : paramCase "rows".toList = ParamCase.rows := by
  decide

/-! ## Decimal text -/

theorem digitChar_decimal :
    ∀ d < 10, ('0' ≤ Nat.digitChar d ∧ Nat.digitChar d ≤ '9')
      ∧ (Nat.digitChar d).toNat - 48 = d ∧ Nat.digitChar d ≠ '-' ∧ Nat.digitChar d ≠ '+' := by
  decide

theorem atoiDigits_toDigitsCore :
    ∀ (fuel n : Nat) (ds : GoString), n < fuel →
      ∃ k, ∀ acc, atoiDigits acc (Nat.toDigitsCore 10 fuel n ds)
        = atoiDigits (acc * 10 ^ k + n) ds
  | 0, n, ds, h => absurd h (Nat.not_lt_zero n)
  | fuel + 1, n, ds, h => by
    obtain ⟨hd, hv, -, -⟩ := digitChar_decimal (n % 10) (Nat.mod_lt _ (by decide))
    by_cases h0 : n / 10 = 0
    · refine ⟨1, fun acc => ?_⟩
      simp only [Nat.toDigitsCore, h0, if_true, atoiDigits, hd, and_self, hv]
      congr 1
      omega
    · have hlt : n / 10 < fuel := by omega
      obtain ⟨k, hk⟩ := atoiDigits_toDigitsCore fuel (n / 10) (Nat.digitChar (n % 10) :: ds) hlt
      refine ⟨k + 1, fun acc => ?_⟩
      simp only [Nat.toDigitsCore, h0, if_false]
      rw [hk acc]
      simp only [atoiDigits, hd, and_self, if_true, hv]
      congr 1
      rw [pow_succ]
      have := Nat.div_add_mod n 10
      nlinarith

theorem toDigitsCore_head :
    ∀ (fuel n : Nat) (ds : GoString), n < fuel →
      ∃ c rest, Nat.toDigitsCore 10 fuel n ds = c :: rest ∧ c ≠ '-' ∧ c ≠ '+'
  | 0, n, ds, h => absurd h (Nat.not_lt_zero n)
  | fuel + 1, n, ds, h => by
    obtain ⟨-, -, hm, hp⟩ := digitChar_decimal (n % 10) (Nat.mod_lt _ (by decide))
    by_cases h0 : n / 10 = 0
    · exact ⟨_, ds, by simp only [Nat.toDigitsCore, h0, if_true], hm, hp⟩
    · have hlt : n / 10 < fuel := by omega
      obtain ⟨c, rest, e, h1, h2⟩ :=
        toDigitsCore_head fuel (n / 10) (Nat.digitChar (n % 10) :: ds) hlt
      exact ⟨c, rest, by simp only [Nat.toDigitsCore, h0, if_false, e], h1, h2⟩

theorem atoiDigits_toDigits (n : Nat) : atoiDigits 0 (Nat.toDigits 10 n) = some n := by
  obtain ⟨k, hk⟩ := atoiDigits_toDigitsCore (n + 1) n [] (Nat.lt_succ_self n)
  have := hk 0
  simpa [Nat.toDigits, atoiDigits] using this

/-- The decimal text of an integer of the `int` range reads back as that integer. -/
theorem strconvAtoi_strconvItoa (n : Int) (hlo : -9223372036854775808 ≤ n)
    (hhi : n ≤ 9223372036854775807) : strconvAtoi (strconvItoa n) = (n, none) := by
  obtain ⟨c, rest, e, h1, h2⟩ := toDigitsCore_head (n.natAbs + 1) n.natAbs []
    (Nat.lt_succ_self _)
  have e' : Nat.toDigits 10 n.natAbs = c :: rest := e
  have hd := atoiDigits_toDigits n.natAbs
  by_cases hneg : n < 0
  · have hs : strconvItoa n = '-' :: Nat.toDigits 10 n.natAbs := by
      simp only [strconvItoa, hneg, if_true]
    rw [hs, e']
    rw [e'] at hd
    simp only [strconvAtoi, List.head?_cons, true_or, if_true, List.tail_cons, hd]
    have hb : n.natAbs ≤ 9223372036854775808 := by omega
    have hv : -(n.natAbs : Int) = n := by omega
    rw [if_pos hb, hv, if_neg (List.cons_ne_nil c rest)]
  · have hs : strconvItoa n = Nat.toDigits 10 n.natAbs := by
      simp only [strconvItoa, hneg, if_false]
    rw [hs, e']
    have hc1 : ¬ (some c = some '-') := by simpa using h1
    have hc2 : ¬ (some c = some '+') := by simpa using h2
    simp only [strconvAtoi, List.head?_cons, hc1, hc2, or_self, if_false]
    rw [← e', hd]
    have hb : n.natAbs ≤ 9223372036854775807 := by omega
    have hv : (n.natAbs : Int) = n := by omega
    simp only [e', reduceCtorEq, if_false]
    rw [if_pos hb, hv]

/-- The decimal text of an integer outside the `int` range is a range error. -/
theorem strconvAtoi_strconvItoa_range (n : Int)
    (h : n < -9223372036854775808 ∨ 9223372036854775807 < n) :
    (strconvAtoi (strconvItoa n)).2 ≠ none := by
  obtain ⟨c, rest, e, h1, h2⟩ := toDigitsCore_head (n.natAbs + 1) n.natAbs []
    (Nat.lt_succ_self _)
  have e' : Nat.toDigits 10 n.natAbs = c :: rest := e
  have hd := atoiDigits_toDigits n.natAbs
  rw [e'] at hd
  by_cases hneg : n < 0
  · have hs : strconvItoa n = '-' :: Nat.toDigits 10 n.natAbs := by
      simp only [strconvItoa, hneg, if_true]
    rw [hs, e']
    simp only [strconvAtoi, List.head?_cons, true_or, if_true, List.tail_cons, hd]
    have hb : ¬ n.natAbs ≤ 9223372036854775808 := by omega
    rw [if_neg hb, if_neg (List.cons_ne_nil c rest)]
    simp
  · have hs : strconvItoa n = Nat.toDigits 10 n.natAbs := by
      simp only [strconvItoa, hneg, if_false]
    rw [hs, e']
    have hc1 : ¬ (some c = some '-') := by simpa using h1
    have hc2 : ¬ (some c = some '+') := by simpa using h2
    simp only [strconvAtoi, List.head?_cons, hc1, hc2, or_self, if_false, hd]
    have hb : ¬ n.natAbs ≤ 9223372036854775807 := by omega
    simp only [reduceCtorEq, if_false]
    rw [if_neg hb]
    simp

theorem strconvItoa_ne_nil (n : Int) : strconvItoa n ≠ [] := by
  obtain ⟨c, rest, e, -, -⟩ := toDigitsCore_head (n.natAbs + 1) n.natAbs []
    (Nat.lt_succ_self _)
  have e' : Nat.toDigits 10 n.natAbs = c :: rest := e
  unfold strconvItoa
  split <;> simp [e']

/-! ## SearchRequest construction: the rows clamp -/

theorem AddQueryFilter_frame (sr : SearchRequest) (filter : GoString) :
    (sr.AddQueryFilter filter).2.ResponseSize = sr.ResponseSize
      ∧ (sr.AddQueryFilter filter).2.Tree = sr.Tree := by
  unfold SearchRequest.AddQueryFilter
  split <;> exact ⟨rfl, rfl⟩

theorem queryFilters_frame :
    ∀ (v : List GoString) (sr sr' : SearchRequest),
      NewSearchRequest.queryFilters sr v = Except.ok sr' →
      sr'.ResponseSize = sr.ResponseSize ∧ sr'.Tree = sr.Tree
  | [], sr, sr', h => by
    simp only [NewSearchRequest.queryFilters, Except.ok.injEq] at h
    subst h
    exact ⟨rfl, rfl⟩
  | qf :: rest, sr, sr', h => by
    have hf := AddQueryFilter_frame sr qf
    unfold NewSearchRequest.queryFilters at h
    split at h
    · exact absurd h (by simp)
    · rename_i sr1 heq
      have ih := queryFilters_frame rest sr1 sr' h
      rw [heq] at hf
      exact ⟨ih.1.trans hf.1, ih.2.trans hf.2⟩

theorem facetFields_frame (env : Env) :
    ∀ (v : List GoString) (sr sr' : SearchRequest),
      NewSearchRequest.facetFields env sr v = Except.ok sr' →
      sr'.ResponseSize = sr.ResponseSize ∧ sr'.Tree = sr.Tree
  | [], sr, sr', h => by
    simp only [NewSearchRequest.facetFields, Except.ok.injEq] at h
    subst h
    exact ⟨rfl, rfl⟩
  | ff :: rest, sr, sr', h => by
    unfold NewSearchRequest.facetFields at h
    split at h
    · exact absurd h (by simp)
    · have ih := facetFields_frame env rest _ sr' h
      exact ⟨ih.1, ih.2⟩
    · exact facetFields_frame env rest sr sr' h

theorem param_frame (env : Env) (params : Values) (st st' : LoopState)
    (pv : GoString × List GoString)
    (h : NewSearchRequest.param env params st pv = Except.ok st')
    (hrows : pv.1 ≠ "rows".toList) (htree : pv.1 ∉ treeParameters) :
    st'.1.ResponseSize = st.1.ResponseSize ∧ st'.1.Tree = st.1.Tree := by
  simp only [treeParameters, List.mem_cons, List.mem_singleton, not_or, List.not_mem_nil,
    not_false_eq_true, and_true] at htree
  obtain ⟨t1, t2, t3, t4, t5, t6⟩ := htree
  obtain ⟨n0, n1, n2, n3, n4, n5, n6⟩ := paramCase_name pv.1 _ rfl
  unfold NewSearchRequest.param at h
  dsimp only at h
  cases hc : paramCase pv.1 <;> rw [hc] at h n0 n1 n2 n3 n4 n5 n6 <;> dsimp only at h
  case rows => exact absurd (n0 rfl) hrows
  case byLeaf => exact absurd (n1 rfl) t1
  case byDepth => exact absurd (n2 rfl) t2
  case byChildCount => exact absurd (n3 rfl) t3
  case byParent => exact absurd (n4 rfl) t4
  case byType => exact absurd (n5 rfl) t5
  case byLabel => exact absurd (n6 rfl) t6
  all_goals first
    | (simp only [Except.ok.injEq] at h; subst h; exact ⟨rfl, rfl⟩)
    | (split_ifs at h <;> (simp only [Except.ok.injEq] at h; subst h; exact ⟨rfl, rfl⟩))
    | (split at h
       · exact absurd h (by simp)
       · simp only [Except.ok.injEq] at h
         subst h
         first
           | exact queryFilters_frame _ _ _ ‹_›
           | exact facetFields_frame env _ _ _ ‹_›
           | exact ⟨rfl, rfl⟩)

theorem param_rows (env : Env) (params : Values) (st st' : LoopState)
    (pv : GoString × List GoString) (n : Int)
    (h : NewSearchRequest.param env params st pv = Except.ok st')
    (hp : pv.1 = "rows".toList)
    (hrows : strconvAtoi (params.Get "rows".toList) = (n, none)) :
    st'.1.ResponseSize = wrapInt32 (if n > 1000 then 1000 else n) ∧ st'.1.Tree = st.1.Tree := by
  unfold NewSearchRequest.param at h
  dsimp only at h
  rw [hp, paramCase_rows] at h
  dsimp only at h
  rw [hrows] at h
  simp only [Except.ok.injEq] at h
  subst h
  exact ⟨rfl, rfl⟩

theorem loop_frame (env : Env) (params : Values) (n : Int)
    (hrows : strconvAtoi (params.Get "rows".toList) = (n, none)) :
    ∀ (l : List (GoString × List GoString)) (st st' : LoopState),
      NewSearchRequest.loop env params l st = Except.ok st' →
      (∀ pv ∈ l, pv.1 ∉ treeParameters) →
      st'.1.Tree = st.1.Tree
        ∧ (("rows".toList ∈ l.map Prod.fst →
            st'.1.ResponseSize = wrapInt32 (if n > 1000 then 1000 else n))
          ∧ ("rows".toList ∉ l.map Prod.fst → st'.1.ResponseSize = st.1.ResponseSize))
  | [], st, st', h, _ => by
    simp only [NewSearchRequest.loop, Except.ok.injEq] at h
    subst h
    simp
  | pv :: rest, st, st', h, htree => by
    unfold NewSearchRequest.loop at h
    split at h
    · exact absurd h (by simp)
    · rename_i st1 hstep
      have ih := loop_frame env params n hrows rest st1 st' h
        (fun x hx => htree x (List.mem_cons_of_mem _ hx))
      have hpv := htree pv (List.mem_cons_self _ _)
      by_cases hp : pv.1 = "rows".toList
      · have hs := param_rows env params st st1 pv n hstep hp hrows
        refine ⟨ih.1.trans hs.2, ?_, ?_⟩
        · intro _
          by_cases hr : "rows".toList ∈ rest.map Prod.fst
          · exact ih.2.1 hr
          · rw [ih.2.2 hr]
            exact hs.1
        · intro hnot
          exact absurd (by simp [hp]) hnot
      · have hs := param_frame env params st st1 pv hstep hp hpv
        refine ⟨ih.1.trans hs.2, ?_, ?_⟩
        · intro hmem
          have hr : "rows".toList ∈ rest.map Prod.fst := by
            simp only [List.map_cons, List.mem_cons] at hmem
            rcases hmem with e | e
            · exact absurd e.symm hp
            · exact e
          exact ih.2.1 hr
        · intro hnot
          have hr : "rows".toList ∉ rest.map Prod.fst := fun e =>
            hnot (by simp only [List.map_cons, List.mem_cons]; exact Or.inr e)
          rw [ih.2.2 hr]
          exact hs.1

theorem lookup_eq_none_of_not_mem (key : GoString) :
    ∀ params : Values, key ∉ params.map Prod.fst → params.lookup key = none
  | [], _ => rfl
  | (k, v) :: rest, h => by
    have hk : key ≠ k := fun e => h (by simp [e])
    have hr : key ∉ rest.map Prod.fst := fun e => h (by simp [e])
    simp only [List.lookup, beq_eq_false_iff_ne.mpr hk]
    exact lookup_eq_none_of_not_mem key rest hr

theorem mem_keys_of_get_ne_nil (params : Values) (key : GoString)
    (h : params.Get key ≠ []) : key ∈ params.map Prod.fst := by
  by_contra hne
  exact h (by simp only [Values.Get, lookup_eq_none_of_not_mem key params hne])

theorem param_rows_ok (env : Env) (params : Values) (st st' : LoopState)
    (pv : GoString × List GoString)
    (h : NewSearchRequest.param env params st pv = Except.ok st')
    (hp : pv.1 = "rows".toList) :
    (strconvAtoi (params.Get "rows".toList)).2 = none := by
  unfold NewSearchRequest.param at h
  dsimp only at h
  rw [hp, paramCase_rows] at h
  dsimp only at h
  split at h
  · exact absurd h (by simp)
  · rename_i heq
    rw [heq]

theorem loop_rows_ok (env : Env) (params : Values) :
    ∀ (l : List (GoString × List GoString)) (st st' : LoopState),
      NewSearchRequest.loop env params l st = Except.ok st' →
      "rows".toList ∈ l.map Prod.fst →
      (strconvAtoi (params.Get "rows".toList)).2 = none
  | [], _, _, _, hmem => by simp at hmem
  | pv :: rest, st, st', h, hmem => by
    unfold NewSearchRequest.loop at h
    split at h
    · exact absurd h (by simp)
    · rename_i st1 hstep
      by_cases hp : pv.1 = "rows".toList
      · exact param_rows_ok env params st st1 pv hstep hp
      · refine loop_rows_ok env params rest st1 st' h ?_
        simp only [List.map_cons, List.mem_cons] at hmem
        rcases hmem with e | e
        · exact absurd e.symm hp
        · exact e

/-- The rows clamp for a rows value that strconv.Atoi reads as `n`. -/
theorem rows_clamp_of_atoi (env : Env) (params : Values) (n : Int)
    (sr : SearchRequest)
    (hcursor : NewSearchRequest.hexRequest params = [])
    (hrows : strconvAtoi (params.Get "rows".toList) = (n, none))
    (hn : -2147483648 ≤ n)
    (htree : ∀ pv ∈ params, pv.1 ∉ treeParameters)
    (hok : NewSearchRequest env params = (some sr, none)) :
    sr.ResponseSize = min n 1000 ∧ sr.ResponseSize ≤ 1000 := by
  have hmem : "rows".toList ∈ params.map Prod.fst := by
    apply mem_keys_of_get_ne_nil
    intro e
    rw [e] at hrows
    have h2 : (strconvAtoi []).2 = none := by rw [hrows]
    exact absurd h2 (by decide)
  unfold NewSearchRequest at hok
  simp only [hcursor, ne_eq, not_true_eq_false, if_false] at hok
  split at hok
  · simp at hok
  · rename_i sr1 tree1 hloop
    have hf := loop_frame env params n hrows params _ _ hloop htree
    have htr : sr1.Tree = none := hf.1
    have hrs : sr1.ResponseSize = wrapInt32 (if n > 1000 then 1000 else n) := hf.2.1 hmem
    simp only [htr, ne_eq, not_true_eq_false, false_and, if_false, Prod.mk.injEq,
      Option.some.injEq, and_true] at hok
    subst hok
    rw [hrs]
    by_cases hbig : n > 1000
    · simp only [hbig, if_true]
      rw [wrapInt32_of_range _ (by omega) (by omega)]
      omega
    · simp only [hbig, if_false]
      rw [wrapInt32_of_range _ hn (by omega)]
      omega

/-- C9, amended: for every cursor-less parameter set whose rows value is the
decimal text of an integer n ≥ -2147483648, that carries no tree-navigation
parameter, and on which NewSearchRequest succeeds, the request has
ResponseSize = min(n, 1000); in particular ResponseSize does not exceed 1000. -/
theorem NewSearchRequest_rows_clamp (env : Env) (params : Values) (n : Int)
    (sr : SearchRequest)
    (hcursor : NewSearchRequest.hexRequest params = [])
    (hrows : params.Get "rows".toList = strconvItoa n)
    (hn : -2147483648 ≤ n)
    (htree : ∀ pv ∈ params, pv.1 ∉ treeParameters)
    (hok : NewSearchRequest env params = (some sr, none)) :
    sr.ResponseSize = min n 1000 ∧ sr.ResponseSize ≤ 1000 := by
  have hmem : "rows".toList ∈ params.map Prod.fst :=
    mem_keys_of_get_ne_nil params _ (by rw [hrows]; exact strconvItoa_ne_nil n)
  have hnoerr : (strconvAtoi (params.Get "rows".toList)).2 = none := by
    have hok' := hok
    unfold NewSearchRequest at hok'
    simp only [hcursor, ne_eq, not_true_eq_false, if_false] at hok'
    split at hok'
    · simp at hok'
    · rename_i sr1 tree1 hloop
      exact loop_rows_ok env params params _ _ hloop hmem
  have hhi : n ≤ 9223372036854775807 := by
    by_contra hgt
    exact strconvAtoi_strconvItoa_range n (Or.inr (by omega)) (by rw [← hrows]; exact hnoerr)
  have hatoi : strconvAtoi (params.Get "rows".toList) = (n, none) := by
    rw [hrows]
    exact strconvAtoi_strconvItoa n (by omega) hhi
  exact rows_clamp_of_atoi env params n sr hcursor hatoi hn htree hok

/-- The example of C9: rows=5000 gives ResponseSize 1000. -/
theorem NewSearchRequest_rows_clamp_witness :
    NewSearchRequest refEnv [("rows".toList, ["5000".toList])]
        = (some { ResponseSize := 1000 }, none)
      ∧ ({ ResponseSize := 1000 } : SearchRequest).ResponseSize = min (5000 : Int) 1000
      ∧ ({ ResponseSize := 1000 } : SearchRequest).ResponseSize ≤ 1000 :=
  ⟨by decide,
    NewSearchRequest_rows_clamp refEnv [("rows".toList, ["5000".toList])] 5000
      { ResponseSize := 1000 } (by decide) (by decide) (by decide) (by decide) (by decide)⟩

/-- C9, as stated, fails: the cursor-less parameter set rows=5, qf=nocolon has a
decimal rows value and no tree-navigation parameter, yet NewSearchRequest
returns the error of the filter that does not parse. -/
theorem NewSearchRequest_rows_with_malformed_filter_counterexample :
    NewSearchRequest.hexRequest
        [("rows".toList, ["5".toList]), ("qf".toList, ["nocolon".toList])] = []
      ∧ Values.Get
          [("rows".toList, ["5".toList]), ("qf".toList, ["nocolon".toList])] "rows".toList
        = strconvItoa 5
      ∧ (∀ pv ∈ [("rows".toList, ["5".toList]), ("qf".toList, ["nocolon".toList])],
          pv.1 ∉ treeParameters)
      ∧ NewSearchRequest refEnv
          [("rows".toList, ["5".toList]), ("qf".toList, ["nocolon".toList])]
        = (some { ResponseSize := 5 }, some (GoError.noQueryField "nocolon".toList)) := by
  decide

/-! ## CursorCodec: corrupt tokens and marshalling errors -/

theorem fromHexChar_eq_none (c : Char)
    (h : ¬ (('0' ≤ c ∧ c ≤ '9') ∨ ('a' ≤ c ∧ c ≤ 'f') ∨ ('A' ≤ c ∧ c ≤ 'F'))) :
    fromHexChar c = none := by
  simp only [not_or] at h
  obtain ⟨h1, h2, h3⟩ := h
  unfold fromHexChar
  rw [if_neg h1, if_neg h2, if_neg h3]

theorem hexDecodeString_error :
    ∀ token : GoString,
      (token.length % 2 = 1 ∨ ∃ c ∈ token, fromHexChar c = none) →
      (hexDecodeString token).2 ≠ none
  | [], h => by
    rcases h with h | ⟨c, hc, -⟩
    · simp at h
    · simp at hc
  | [p], _ => by
    unfold hexDecodeString
    split <;> simp
  | p :: q :: rest, h => by
    unfold hexDecodeString
    split
    · simp
    · simp
    · rename_i a b ha hb
      apply hexDecodeString_error rest
      rcases h with h | ⟨c, hc, hnone⟩
      · left
        simp only [List.length_cons] at h
        omega
      · right
        simp only [List.mem_cons] at hc
        rcases hc with rfl | rfl | hc
        · rw [ha] at hnone; exact absurd hnone (by simp)
        · rw [hb] at hnone; exact absurd hnone (by simp)
        · exact ⟨c, hc, hnone⟩

/-- C11: a corrupt cursor is rejected.  For every token that is not a valid
hexadecimal string (odd length, or a character outside 0-9, a-f, A-F),
SearchRequestFromHex returns an error, and NewSearchRequest with that token as
its scrollID parameter returns that error and no request, whatever the other
parameters hold. -/
theorem corrupt_cursor_rejected (env : Env) (params : Values) (token : GoString)
    (hcorrupt : token.length % 2 = 1
      ∨ ∃ c ∈ token, ¬ (('0' ≤ c ∧ c ≤ '9') ∨ ('a' ≤ c ∧ c ≤ 'f') ∨ ('A' ≤ c ∧ c ≤ 'F')))
    (hscroll : params.Get "scrollID".toList = token) :
    ∃ err, (SearchRequestFromHex env token).2 = some err
      ∧ NewSearchRequest env params = (none, some err) := by
  have hbad : (hexDecodeString token).2 ≠ none := by
    apply hexDecodeString_error
    rcases hcorrupt with h | ⟨c, hc, h⟩
    · exact Or.inl h
    · exact Or.inr ⟨c, hc, fromHexChar_eq_none c h⟩
  obtain ⟨err, herr⟩ := Option.ne_none_iff_exists'.mp hbad
  have hne : token ≠ [] := by
    rintro rfl
    rcases hcorrupt with h | ⟨c, hc, -⟩
    · simp at h
    · simp at hc
  have hfrom : SearchRequestFromHex env token = ({}, some err) := by
    simp only [SearchRequestFromHex, herr]
  have hreq : NewSearchRequest.hexRequest params = token := by
    simp only [NewSearchRequest.hexRequest, hscroll, hne, if_false]
  refine ⟨err, by rw [hfrom], ?_⟩
  simp only [NewSearchRequest, hreq, hne, ne_eq, not_false_eq_true, if_true, hfrom]

/-- C11 on the token 0a0g next to a rows parameter: g is not a hexadecimal
digit, and the rows parameter is not read. -/
theorem corrupt_cursor_rejected_witness :
    ∃ err, (SearchRequestFromHex refEnv "0a0g".toList).2 = some err
      ∧ NewSearchRequest refEnv
          [("scrollID".toList, ["0a0g".toList]), ("rows".toList, ["5".toList])]
        = (none, some err) :=
  corrupt_cursor_rejected refEnv
    [("scrollID".toList, ["0a0g".toList]), ("rows".toList, ["5".toList])] "0a0g".toList
    (Or.inr ⟨'g', by decide, by decide⟩) (by decide)

/-- C12 fails in the code: SearchRequestToHex returns a nil error on every
request, whatever proto.Marshal returns, so NextScrollID never returns an
error.  With a marshaller that fails on every request, NextScrollID on the cats
request with total 25 returns a pager with an empty ScrollID and a nil error. -/
theorem SearchRequestToHex_drops_marshal_error (env : Env) (sr : SearchRequest)
    (total : Int) :
    (SearchRequestToHex env sr).2 = none
      ∧ ((sr.NextScrollID env total).1).2 = none
      ∧ (SearchRequest.NextScrollID
            { refEnv with protoMarshal := fun _ => ([], some (GoError.codec 3)) }
            catsRequest 25).1
        = (some { Cursor := 0, Total := 25, Rows := 10, ScrollID := [] }, none) := by
  refine ⟨rfl, ?_, by decide⟩
  by_cases h : total = 0
  · simp only [SearchRequest.NextScrollID, h, if_true]
  · rw [NextScrollID_pager env sr total h]

/-! ## QueryCompiler: the random sort -/

theorem stringsSplitAux_token (sep : Char) (t rest cur : GoString) (ht : sep ∉ t) :
    stringsSplitAux sep (t ++ rest) cur = stringsSplitAux sep rest (t.reverse ++ cur) := by
  induction t generalizing cur with
  | nil => rfl
  | cons c cs ih =>
    have hc : c ≠ sep := fun e => ht (by simp [e])
    have hcs : sep ∉ cs := fun e => ht (by simp [e])
    rw [List.cons_append, stringsSplitAux, if_neg hc, ih _ hcs]
    simp

theorem stringsSplit_random_seed (s : GoString) (hs : '_' ∉ s) :
    stringsSplit ("random_".toList ++ s) '_' = ["random".toList, s] := by
  have e : "random_".toList ++ s = "random".toList ++ ('_' :: (s ++ [])) := by simp
  unfold stringsSplit
  rw [e, stringsSplitAux_token '_' _ _ _ (by decide), stringsSplitAux, if_pos rfl,
    stringsSplitAux_token '_' s [] [] hs, stringsSplitAux]
  simp

theorem hasPrefix_random_seed (s : GoString) :
    stringsHasPrefix ("random_".toList ++ s) "random".toList = true := by
  rfl

/-- The compile of a request whose SortBy is `random_` followed by a seed
without underscore. -/
theorem ElasticQuery_of_seed (cfg : Config) (rand : Nat → Nat) (pos : Nat)
    (sr : SearchRequest) (s : GoString) (hs : '_' ∉ s)
    (hsort : sr.SortBy = "random_".toList ++ s) :
    sr.ElasticQuery cfg rand pos
      = ((EsQuery.functionScore s
            (EsQuery.bool
              (ElasticQuery.freeText cfg sr.Query
                [EsQuery.term "meta.docType".toList cfg.FragmentGraphDocType,
                  EsQuery.term cfg.OrgIDKey cfg.OrgID]) [] []), none), sr, pos) := by
  unfold SearchRequest.ElasticQuery
  simp only [hsort, hasPrefix_random_seed, if_true, stringsSplit_random_seed s hs]

theorem letters_getD_mem (i : Nat) : letters.getD i 'a' ∈ letters := by
  by_cases h : i < letters.length
  · rw [List.getD_eq_getElem _ _ h]
    exact List.getElem_mem h
  · rw [List.getD_eq_default _ _ (by omega)]
    decide

theorem RandSeq_length (rand : Nat → Nat) :
    ∀ (n pos : Nat), (RandSeq rand pos n).1.length = n
  | 0, _ => rfl
  | n + 1, pos => by
    simp only [RandSeq, List.length_cons, RandSeq_length rand n (pos + 1)]

theorem RandSeq_letters (rand : Nat → Nat) :
    ∀ (n pos : Nat), ∀ c ∈ (RandSeq rand pos n).1, c ∈ letters
  | 0, _, c, h => by simp [RandSeq] at h
  | n + 1, pos, c, h => by
    simp only [RandSeq, List.mem_cons] at h
    rcases h with rfl | h
    · exact letters_getD_mem _
    · exact RandSeq_letters rand n (pos + 1) c h

theorem RandSeq_no_underscore (rand : Nat → Nat) (n pos : Nat) :
    '_' ∉ (RandSeq rand pos n).1 := by
  intro h
  exact absurd (RandSeq_letters rand n pos '_' h) (by decide)

/-- The compile of a request whose SortBy starts with `random` and does not
split on the underscore into two parts. -/
theorem ElasticQuery_of_no_seed (cfg : Config) (rand : Nat → Nat) (pos : Nat)
    (sr : SearchRequest)
    (hrandom : stringsHasPrefix sr.SortBy "random".toList = true)
    (hnoseed : (stringsSplit sr.SortBy '_').length ≠ 2) :
    sr.ElasticQuery cfg rand pos
      = ((EsQuery.functionScore (RandSeq rand pos 10).1
            (EsQuery.bool
              (ElasticQuery.freeText cfg sr.Query
                [EsQuery.term "meta.docType".toList cfg.FragmentGraphDocType,
                  EsQuery.term cfg.OrgIDKey cfg.OrgID]) [] []), none),
          { sr with SortBy := "random_".toList ++ (RandSeq rand pos 10).1 },
          (RandSeq rand pos 10).2) := by
  unfold SearchRequest.ElasticQuery
  simp only [hrandom, if_true]
  split
  · rename_i x seed heq
    rw [heq] at hnoseed
    exact absurd rfl hnoseed
  · rfl


/-- C13, amended: for every seed string s that contains no underscore,
compiling a request whose SortBy is `random_` followed by s seeds the random
score function with exactly s, draws no random number and leaves the request
unchanged, so a second compile of the request gives the same result. -/
theorem ElasticQuery_seed_stability (cfg : Config) (rand : Nat → Nat) (pos : Nat)
    (sr : SearchRequest) (s : GoString) (hs : '_' ∉ s)
    (hsort : sr.SortBy = "random_".toList ++ s) :
    ∃ inner, (sr.ElasticQuery cfg rand pos).1 = (EsQuery.functionScore s inner, none)
      ∧ (sr.ElasticQuery cfg rand pos).2 = (sr, pos)
      ∧ SearchRequest.ElasticQuery cfg rand (sr.ElasticQuery cfg rand pos).2.2
          (sr.ElasticQuery cfg rand pos).2.1
        = sr.ElasticQuery cfg rand pos := by
  rw [ElasticQuery_of_seed cfg rand pos sr s hs hsort]
  refine ⟨_, rfl, rfl, ?_⟩
  exact ElasticQuery_of_seed cfg rand pos sr s hs hsort

/-- The example of C13: SortBy random_abc123 is compiled twice with the seed
abc123. -/
theorem ElasticQuery_seed_stability_witness :
    ∃ inner,
      (SearchRequest.ElasticQuery refConfig (fun i => i) 0
          { SortBy := "random_abc123".toList }).1
        = (EsQuery.functionScore "abc123".toList inner, none)
      ∧ (SearchRequest.ElasticQuery refConfig (fun i => i) 0
          { SortBy := "random_abc123".toList }).2
        = ({ SortBy := "random_abc123".toList }, 0)
      ∧ SearchRequest.ElasticQuery refConfig (fun i => i)
          (SearchRequest.ElasticQuery refConfig (fun i => i) 0
            { SortBy := "random_abc123".toList }).2.2
          (SearchRequest.ElasticQuery refConfig (fun i => i) 0
            { SortBy := "random_abc123".toList }).2.1
        = SearchRequest.ElasticQuery refConfig (fun i => i) 0
            { SortBy := "random_abc123".toList } :=
  ElasticQuery_seed_stability refConfig (fun i => i) 0 { SortBy := "random_abc123".toList }
    "abc123".toList (by decide) (by decide)

/-- C13, as stated, fails for a seed that contains an underscore: SortBy
random_a_b splits on the underscore into three parts, so the compile generates a
seed (abcdefghij from the random source that counts 0, 1, 2, ...), seeds the
score function with it instead of a_b, and overwrites SortBy. -/
theorem ElasticQuery_reseeds_seed_with_underscore_counterexample :
    (SearchRequest.ElasticQuery refConfig (fun i => i) 0
        { SortBy := "random_a_b".toList }).1
      = (EsQuery.functionScore "abcdefghij".toList
          (EsQuery.bool
            [EsQuery.term "meta.docType".toList "fragmentGraph".toList,
              EsQuery.term "meta.orgID".toList "demo".toList] [] []), none)
      ∧ (SearchRequest.ElasticQuery refConfig (fun i => i) 0
          { SortBy := "random_a_b".toList }).2.1.SortBy = "random_abcdefghij".toList
      ∧ "abcdefghij".toList ≠ "a_b".toList
      ∧ "random_abcdefghij".toList ≠ "random_a_b".toList := by
  refine ⟨rfl, by decide, by decide, by decide⟩

/-- C14: when SortBy starts with `random` and does not split on the underscore
into exactly two parts, ElasticQuery generates a seed g of 10 characters, seeds
the score function with g and writes `random_` followed by g into SortBy; a
second compile of the request as the first one left it seeds the score function
with g again, draws no random number and leaves the request unchanged. -/
theorem ElasticQuery_generated_seed_is_reused (cfg : Config) (rand : Nat → Nat) (pos : Nat)
    (sr : SearchRequest)
    (hrandom : stringsHasPrefix sr.SortBy "random".toList = true)
    (hnoseed : (stringsSplit sr.SortBy '_').length ≠ 2) :
    ∃ g inner, g = (RandSeq rand pos 10).1 ∧ g.length = 10
      ∧ (sr.ElasticQuery cfg rand pos).1 = (EsQuery.functionScore g inner, none)
      ∧ (sr.ElasticQuery cfg rand pos).2.1 = { sr with SortBy := "random_".toList ++ g }
      ∧ (SearchRequest.ElasticQuery cfg rand (sr.ElasticQuery cfg rand pos).2.2
          (sr.ElasticQuery cfg rand pos).2.1).1 = (EsQuery.functionScore g inner, none)
      ∧ (SearchRequest.ElasticQuery cfg rand (sr.ElasticQuery cfg rand pos).2.2
          (sr.ElasticQuery cfg rand pos).2.1).2 = (sr.ElasticQuery cfg rand pos).2 := by
  rw [ElasticQuery_of_no_seed cfg rand pos sr hrandom hnoseed]
  refine ⟨_, _, rfl, RandSeq_length rand 10 pos, rfl, rfl, ?_⟩
  have h2 := ElasticQuery_of_seed cfg rand (RandSeq rand pos 10).2
    { sr with SortBy := "random_".toList ++ (RandSeq rand pos 10).1 }
    (RandSeq rand pos 10).1 (RandSeq_no_underscore rand 10 pos) rfl
  exact ⟨by rw [h2], by rw [h2]⟩

/-- The example of C14: SortBy random, with the random source that counts
0, 1, 2, .... -/
theorem ElasticQuery_generated_seed_is_reused_witness :
    ∃ g inner, g = (RandSeq (fun i => i) 0 10).1 ∧ g.length = 10
      ∧ (SearchRequest.ElasticQuery refConfig (fun i => i) 0 { SortBy := "random".toList }).1
        = (EsQuery.functionScore g inner, none)
      ∧ (SearchRequest.ElasticQuery refConfig (fun i => i) 0
          { SortBy := "random".toList }).2.1
        = { ({ SortBy := "random".toList } : SearchRequest) with
            SortBy := "random_".toList ++ g }
      ∧ (SearchRequest.ElasticQuery refConfig (fun i => i)
          (SearchRequest.ElasticQuery refConfig (fun i => i) 0
            { SortBy := "random".toList }).2.2
          (SearchRequest.ElasticQuery refConfig (fun i => i) 0
            { SortBy := "random".toList }).2.1).1 = (EsQuery.functionScore g inner, none)
      ∧ (SearchRequest.ElasticQuery refConfig (fun i => i)
          (SearchRequest.ElasticQuery refConfig (fun i => i) 0
            { SortBy := "random".toList }).2.2
          (SearchRequest.ElasticQuery refConfig (fun i => i) 0
            { SortBy := "random".toList }).2.1).2
        = (SearchRequest.ElasticQuery refConfig (fun i => i) 0
            { SortBy := "random".toList }).2 :=
  ElasticQuery_generated_seed_is_reused refConfig (fun i => i) 0 { SortBy := "random".toList }
    (by decide) (by decide)

/-- The query wrapped by the random sort, whatever the seed. -/
theorem ElasticQuery_random_inner (cfg : Config) (rand : Nat → Nat) (pos : Nat)
    (sr : SearchRequest)
    (hrandom : stringsHasPrefix sr.SortBy "random".toList = true) :
    ∃ seed, (sr.ElasticQuery cfg rand pos).1
      = (EsQuery.functionScore seed
          (EsQuery.bool
            (ElasticQuery.freeText cfg sr.Query
              [EsQuery.term "meta.docType".toList cfg.FragmentGraphDocType,
                EsQuery.term cfg.OrgIDKey cfg.OrgID]) [] []), none) := by
  unfold SearchRequest.ElasticQuery
  simp only [hrandom, if_true]
  split
  · exact ⟨_, rfl⟩
  · exact ⟨_, rfl⟩

/-- C15, amended: when SortBy starts with `random`, the query that ElasticQuery
wraps in the randomized-score query is the base query (the document-type term
and the organization term) followed by the clauses of the free-text block for
Query (meta.spec terms and the query-string clause); only the tree logic is
stripped: the compiled query is the same whatever Tree holds, and it is the
base query alone when Query is empty. -/
theorem ElasticQuery_random_strips_tree (cfg : Config) (rand : Nat → Nat) (pos : Nat)
    (sr : SearchRequest)
    (hrandom : stringsHasPrefix sr.SortBy "random".toList = true) :
    (∃ seed, (sr.ElasticQuery cfg rand pos).1
        = (EsQuery.functionScore seed
            (EsQuery.bool
              (ElasticQuery.freeText cfg sr.Query
                [EsQuery.term "meta.docType".toList cfg.FragmentGraphDocType,
                  EsQuery.term cfg.OrgIDKey cfg.OrgID]) [] []), none))
      ∧ (∀ tree, (SearchRequest.ElasticQuery cfg rand pos { sr with Tree := tree }).1
          = (sr.ElasticQuery cfg rand pos).1)
      ∧ (sr.Query = [] →
          ∃ seed, (sr.ElasticQuery cfg rand pos).1
            = (EsQuery.functionScore seed
                (EsQuery.bool
                  [EsQuery.term "meta.docType".toList cfg.FragmentGraphDocType,
                    EsQuery.term cfg.OrgIDKey cfg.OrgID] [] []), none)) := by
  refine ⟨ElasticQuery_random_inner cfg rand pos sr hrandom, ?_, ?_⟩
  · intro tree
    unfold SearchRequest.ElasticQuery
    simp only [hrandom, if_true]
    split <;> rfl
  · intro hq
    obtain ⟨seed, h⟩ := ElasticQuery_random_inner cfg rand pos sr hrandom
    refine ⟨seed, ?_⟩
    rw [h, hq]
    rfl

/-- C15, amended, on the request with Query cats and SortBy random_abc: a tree
query with FillTree does not change the compiled query. -/
theorem ElasticQuery_random_strips_tree_witness :
    (SearchRequest.ElasticQuery refConfig (fun i => i) 0
        { Query := "cats".toList, SortBy := "random_abc".toList,
          Tree := some { Leaf := "1~2".toList, FillTree := true } }).1
      = (SearchRequest.ElasticQuery refConfig (fun i => i) 0
        { Query := "cats".toList, SortBy := "random_abc".toList }).1 :=
  (ElasticQuery_random_strips_tree refConfig (fun i => i) 0
    { Query := "cats".toList, SortBy := "random_abc".toList } (by decide)).2.1
    (some { Leaf := "1~2".toList, FillTree := true })

/-- C15, as stated, fails: with Query cats and SortBy random_abc the wrapped
query holds the free-text clause on full_text next to the two base terms, so it
is not the base query alone. -/
theorem ElasticQuery_random_keeps_free_text_counterexample :
    (SearchRequest.ElasticQuery refConfig (fun i => i) 0
        { Query := "cats".toList, SortBy := "random_abc".toList }).1
      = (EsQuery.functionScore "abc".toList
          (EsQuery.bool
            [EsQuery.term "meta.docType".toList "fragmentGraph".toList,
              EsQuery.term "meta.orgID".toList "demo".toList,
              EsQuery.queryString "cats".toList "full_text".toList "2<70%".toList] [] []),
          none)
      ∧ (SearchRequest.ElasticQuery refConfig (fun i => i) 0
          { Query := "cats".toList, SortBy := "random_abc".toList }).1
        ≠ (EsQuery.functionScore "abc".toList
            (EsQuery.bool
              [EsQuery.term "meta.docType".toList "fragmentGraph".toList,
                EsQuery.term "meta.orgID".toList "demo".toList] [] []), none) := by
  have e : (SearchRequest.ElasticQuery refConfig (fun i => i) 0
        { Query := "cats".toList, SortBy := "random_abc".toList }).1
      = (EsQuery.functionScore "abc".toList
          (EsQuery.bool
            [EsQuery.term "meta.docType".toList "fragmentGraph".toList,
              EsQuery.term "meta.orgID".toList "demo".toList,
              EsQuery.queryString "cats".toList "full_text".toList "2<70%".toList] [] []),
          none) := rfl
  refine ⟨e, ?_⟩
  rw [e]
  intro h
  simp at h

/-! ## FacetURIBuilder: the builder as a map -/

theorem mapSet_keys {β : Type} (k : GoString) (v : β) :
    ∀ l : List (GoString × β),
      (mapSet l k v).map Prod.fst
        = if k ∈ l.map Prod.fst then l.map Prod.fst else l.map Prod.fst ++ [k]
  | [] => rfl
  | (k', v') :: rest => by
    unfold mapSet
    by_cases h : k' = k
    · subst h
      rw [if_pos rfl]
      simp only [List.map_cons, List.mem_cons, true_or, if_true]
    · have h' : ¬ k = k' := fun e => h e.symm
      rw [if_neg h, List.map_cons, mapSet_keys k v rest]
      simp only [List.map_cons, List.mem_cons, h', false_or]
      split <;> rfl

theorem mapSet_keys_nodup {β : Type} (k : GoString) (v : β) (l : List (GoString × β))
    (h : (l.map Prod.fst).Nodup) : ((mapSet l k v).map Prod.fst).Nodup := by
  rw [mapSet_keys]
  split
  · exact h
  · rename_i hk
    rw [List.nodup_append]
    exact ⟨h, List.nodup_singleton k, List.disjoint_singleton.mpr hk⟩

theorem mem_mapSet {β : Type} (k : GoString) (v : β) :
    ∀ (l : List (GoString × β)) (p : GoString × β), p ∈ mapSet l k v → p = (k, v) ∨ p ∈ l
  | [], p, h => by
    simp only [mapSet, List.mem_singleton] at h
    exact Or.inl h
  | (k', v') :: rest, p, h => by
    unfold mapSet at h
    split at h
    · simp only [List.mem_cons] at h
      rcases h with h | h
      · exact Or.inl h
      · exact Or.inr (List.mem_cons_of_mem _ h)
    · simp only [List.mem_cons] at h
      rcases h with h | h
      · exact Or.inr (h ▸ List.mem_cons_self _ _)
      · rcases mem_mapSet k v rest p h with h | h
        · exact Or.inl h
        · exact Or.inr (List.mem_cons_of_mem _ h)

theorem mem_of_lookup {β : Type} (k : GoString) (c : β) :
    ∀ l : List (GoString × β), l.lookup k = some c → (k, c) ∈ l
  | [], h => by simp at h
  | (k', v') :: rest, h => by
    rw [List.lookup_cons] at h
    split at h
    · rename_i hk
      simp only [Option.some.injEq] at h
      have : k = k' := by simpa using hk
      subst this
      subst h
      exact List.mem_cons_self _ _
    · exact List.mem_cons_of_mem _ (mem_of_lookup k c rest h)

theorem isMap_held_nodup (fub : FacetURIBuilder) (h : fub.isMap) : fub.held.Nodup := by
  obtain ⟨h1, h2⟩ := h
  unfold FacetURIBuilder.held
  rw [List.nodup_flatMap]
  refine ⟨?_, ?_⟩
  · intro fv hfv
    have := h2 fv hfv
    rw [List.nodup_map_iff_inj_on (List.Nodup.of_map _ this)]
    intro x hx y hy hxy
    simp only [Prod.mk.injEq, true_and] at hxy
    exact List.inj_on_of_nodup_map this hx hy hxy
  · rw [List.Nodup, List.pairwise_map] at h1
    refine h1.imp ?_
    intro a b hab
    simp only [Function.onFun]
    rw [List.disjoint_left]
    intro p hp hq
    simp only [List.mem_map] at hp hq
    obtain ⟨x, -, rfl⟩ := hp
    obtain ⟨y, -, hy⟩ := hq
    simp only [Prod.mk.injEq] at hy
    exact hab hy.1.symm

theorem AddFilter_isMap (fub : FacetURIBuilder) (f : QueryFilter) (h : fub.isMap) :
    (fub.AddFilter f).2.isMap := by
  obtain ⟨h1, h2⟩ := h
  unfold FacetURIBuilder.AddFilter
  refine ⟨mapSet_keys_nodup _ _ _ h1, ?_⟩
  intro fv hfv
  rcases mem_mapSet _ _ _ fv hfv with rfl | hfv
  · apply mapSet_keys_nodup
    cases hl : fub.filters.lookup f.SearchLabel with
    | none => simp
    | some c => exact h2 _ (mem_of_lookup _ _ _ hl)
  · exact h2 fv hfv

theorem NewFacetURIBuilder_loop_isMap :
    ∀ (filters : List QueryFilter) (fub fub' : FacetURIBuilder), fub.isMap →
      NewFacetURIBuilder.loop fub filters = (some fub', none) → fub'.isMap
  | [], fub, fub', h, he => by
    simp only [NewFacetURIBuilder.loop, Prod.mk.injEq, Option.some.injEq, and_true] at he
    exact he ▸ h
  | f :: rest, fub, fub', h, he => by
    unfold NewFacetURIBuilder.loop at he
    exact NewFacetURIBuilder_loop_isMap rest _ fub' (AddFilter_isMap fub f h) he

theorem NewFacetURIBuilder_held_nodup (query : GoString) (filters : List QueryFilter)
    (fub : FacetURIBuilder) (h : NewFacetURIBuilder query filters = (some fub, none)) :
    fub.held.Nodup :=
  isMap_held_nodup fub
    (NewFacetURIBuilder_loop_isMap filters { query := query, filters := [] } fub
      ⟨List.nodup_nil, fun _ hm => absurd hm (List.not_mem_nil _)⟩ h)

/-! ## FacetURIBuilder -/

theorem CreateFacetFilterURI_values (field value f : GoString)
    (vs : List (GoString × QueryFilter)) (st : List GoString × Bool) :
    CreateFacetFilterURI.values field value f vs st
      = (st.1 ++ (((vs.map (fun kv => (f, kv.1))).filter
            (fun p => decide (p ≠ (field, value)))).map qfParam),
          st.2 || decide ((field, value) ∈ vs.map (fun kv => (f, kv.1)))) := by
  haveI : Nonempty (GoString × QueryFilter) := ⟨([], {})⟩
  induction vs generalizing st with
  | nil => simp [CreateFacetFilterURI.values]
  | cons kv rest ih =>
    obtain ⟨k, qf⟩ := kv
    unfold CreateFacetFilterURI.values
    by_cases h : f = field ∧ k = value
    · rw [if_pos h, ih]
      simp [h.1, h.2]
    · rw [if_neg h, ih]
      have hp : (f, k) ≠ (field, value) := by
        intro e
        simp only [Prod.mk.injEq] at e
        exact h e
      have hp' : (field, value) ≠ (f, k) := fun e => hp e.symm
      have hb : ((field, value) == (f, k)) = false := beq_eq_false_iff_ne.mpr hp'
      simp [hp, hp', hb, qfParam]

theorem CreateFacetFilterURI_fields (field value : GoString)
    (fs : List (GoString × List (GoString × QueryFilter))) (st : List GoString × Bool) :
    CreateFacetFilterURI.fields field value fs st
      = (st.1 ++ (((fs.flatMap (fun fv => fv.2.map (fun kv => (fv.1, kv.1)))).filter
            (fun p => decide (p ≠ (field, value)))).map qfParam),
          st.2 || decide ((field, value)
            ∈ fs.flatMap (fun fv => fv.2.map (fun kv => (fv.1, kv.1))))) := by
  haveI : Nonempty (GoString × QueryFilter) := ⟨([], {})⟩
  induction fs generalizing st with
  | nil => simp [CreateFacetFilterURI.fields]
  | cons fv rest ih =>
    obtain ⟨f, vs⟩ := fv
    unfold CreateFacetFilterURI.fields
    rw [ih, CreateFacetFilterURI_values]
    simp only [List.flatMap_cons, List.filter_append, List.map_append, List.append_assoc,
      Bool.or_assoc, Prod.mk.injEq, true_and]
    rw [← Bool.decide_or]
    congr 1
    exact decide_eq_decide.mpr List.mem_append.symm

/-- The selected flag of CreateFacetFilterURI. -/
theorem CreateFacetFilterURI_selected (fub : FacetURIBuilder) (field value : GoString) :
    (fub.CreateFacetFilterURI field value).2 = decide ((field, value) ∈ fub.held) := by
  unfold FacetURIBuilder.CreateFacetFilterURI
  simp only [CreateFacetFilterURI_fields, Bool.false_or]
  rfl

/-- C17: for every builder whose held (field, value) pairs are those of a Go
map (no pair twice), every field and every value, CreateFacetFilterURI returns
selected = true exactly when the builder holds the pair (field, value); the
returned string is the join with `&` of `q=<query>` when the query is
non-empty, then `qf=<label>:<value>` for every held pair other than
(field, value), each once, and, only when selected is false, a final
`qf=<field>:<value>`. -/
theorem CreateFacetFilterURI_toggle (fub : FacetURIBuilder) (field value : GoString)
    (hmap : fub.held.Nodup) :
    ((fub.CreateFacetFilterURI field value).2 = true ↔ (field, value) ∈ fub.held)
      ∧ (fub.CreateFacetFilterURI field value).1
        = stringsJoin
            ((if fub.query ≠ [] then ["q=".toList ++ fub.query] else [])
              ++ (fub.held.filter (fun p => decide (p ≠ (field, value)))).map
                  (fun p => "qf=".toList ++ p.1 ++ ":".toList ++ p.2)
              ++ (if (fub.CreateFacetFilterURI field value).2 then []
                  else ["qf=".toList ++ field ++ ":".toList ++ value]))
            "&".toList
      ∧ (fub.held.filter (fun p => decide (p ≠ (field, value)))).Nodup
      ∧ (∀ p, p ∈ fub.held.filter (fun p => decide (p ≠ (field, value)))
          ↔ p ∈ fub.held ∧ p ≠ (field, value)) := by
  refine ⟨?_, ?_, hmap.filter _, ?_⟩
  · rw [CreateFacetFilterURI_selected]
    simp
  · have hsel := CreateFacetFilterURI_selected fub field value
    rw [hsel]
    unfold FacetURIBuilder.CreateFacetFilterURI
    simp only [CreateFacetFilterURI_fields, Bool.false_or]
    have hheld : fub.filters.flatMap (fun fv => fv.2.map (fun kv => (fv.1, kv.1)))
        = fub.held := rfl
    rw [hheld]
    have hq : (fun p : GoString × GoString => "qf=".toList ++ p.1 ++ ":".toList ++ p.2)
        = qfParam := rfl
    rw [hq]
    by_cases hm : (field, value) ∈ fub.held
    · simp [hm]
    · simp [hm]
  · intro p
    simp [List.mem_filter]

/-- C17 on a builder with the query cats and the filters tree.type:series and
dc_title:x: the held pair tree.type:series is selected and left out of the
returned string. -/
theorem CreateFacetFilterURI_toggle_witness :
    ((FacetURIBuilder.CreateFacetFilterURI
          { query := "cats".toList,
            filters :=
              [("tree.type".toList,
                  [("series".toList,
                    { SearchLabel := "tree.type".toList, Value := "series".toList })]),
                ("dc_title".toList,
                  [("x".toList, { SearchLabel := "dc_title".toList, Value := "x".toList })])] }
          "tree.type".toList "series".toList).2 = true)
      ∧ (FacetURIBuilder.CreateFacetFilterURI
          { query := "cats".toList,
            filters :=
              [("tree.type".toList,
                  [("series".toList,
                    { SearchLabel := "tree.type".toList, Value := "series".toList })]),
                ("dc_title".toList,
                  [("x".toList, { SearchLabel := "dc_title".toList, Value := "x".toList })])] }
          "tree.type".toList "series".toList).1 = "q=cats&qf=dc_title:x".toList := by
  have h := CreateFacetFilterURI_toggle
    { query := "cats".toList,
      filters :=
        [("tree.type".toList,
            [("series".toList,
              { SearchLabel := "tree.type".toList, Value := "series".toList })]),
          ("dc_title".toList,
            [("x".toList, { SearchLabel := "dc_title".toList, Value := "x".toList })])] }
    "tree.type".toList "series".toList (by decide)
  exact ⟨h.1.mpr (by decide), by decide⟩

/-! ## The facet filter query -/

theorem CreateFacetFilterQuery_other (cfg : Config)
    (filters : List (GoString × List (GoString × QueryFilter))) (p : GoString → Prop)
    (field : GoString) (hp : p field) :
    ∀ (l qfs : List (GoString × QueryFilter)) (q : BoolClauses),
      (field, qfs) ∈ filters → (∀ x ∈ l, x ∈ qfs) →
      (∀ c ∈ q.must, clauseOf cfg filters p c) →
      (∀ c ∈ (CreateFacetFilterQuery.other cfg l q).1.must, clauseOf cfg filters p c)
        ∧ (CreateFacetFilterQuery.other cfg l q).1.should = q.should
        ∧ (CreateFacetFilterQuery.other cfg l q).1.mustNot = q.mustNot
  | [], qfs, q, _, _, hq => by
    unfold CreateFacetFilterQuery.other
    exact ⟨hq, rfl, rfl⟩
  | (v, qf) :: rest, qfs, q, hmem, hsub, hq => by
    unfold CreateFacetFilterQuery.other
    split
    · exact ⟨hq, rfl, rfl⟩
    · rename_i filterQuery heq
      refine CreateFacetFilterQuery_other cfg filters p field hp rest qfs _ hmem
        (fun x hx => hsub x (List.mem_cons_of_mem _ hx)) ?_
      intro c hc
      simp only [List.mem_append, List.mem_singleton] at hc
      rcases hc with hc | rfl
      · exact hq c hc
      · exact ⟨field, qfs, v, qf, hmem, hp, hsub _ (List.mem_cons_self _ _), heq⟩


theorem CreateFacetFilterQuery_own (cfg : Config)
    (filters : List (GoString × List (GoString × QueryFilter))) (p : GoString → Prop)
    (field : GoString) (hp : p field) :
    ∀ (l qfs : List (GoString × QueryFilter)) (q : BoolClauses),
      (field, qfs) ∈ filters → (∀ x ∈ l, x ∈ qfs) →
      (∀ c ∈ q.should ++ q.mustNot, clauseOf cfg filters p c) →
      (∀ c ∈ (CreateFacetFilterQuery.own cfg l q).1.should
          ++ (CreateFacetFilterQuery.own cfg l q).1.mustNot, clauseOf cfg filters p c)
        ∧ (CreateFacetFilterQuery.own cfg l q).1.must = q.must
  | [], qfs, q, _, _, hq => by
    unfold CreateFacetFilterQuery.own
    exact ⟨hq, rfl⟩
  | (v, qf) :: rest, qfs, q, hmem, hsub, hq => by
    have hnew : ∀ fq, qf.ElasticFilter cfg = (fq, none) → clauseOf cfg filters p fq :=
      fun fq heq => ⟨field, qfs, v, qf, hmem, hp, hsub _ (List.mem_cons_self _ _), heq⟩
    unfold CreateFacetFilterQuery.own
    split
    · exact ⟨hq, rfl⟩
    · rename_i filterQuery heq
      split
      · refine CreateFacetFilterQuery_own cfg filters p field hp rest qfs _ hmem
          (fun x hx => hsub x (List.mem_cons_of_mem _ hx)) ?_
        intro c hc
        simp only [List.mem_append, List.mem_singleton] at hc
        rcases hc with hc | hc | rfl
        · exact hq c (List.mem_append_left _ hc)
        · exact hq c (List.mem_append_right _ hc)
        · exact hnew _ heq
      · refine CreateFacetFilterQuery_own cfg filters p field hp rest qfs _ hmem
          (fun x hx => hsub x (List.mem_cons_of_mem _ hx)) ?_
        intro c hc
        simp only [List.mem_append, List.mem_singleton] at hc
        rcases hc with (hc | rfl) | hc
        · exact hq c (List.mem_append_left _ hc)
        · exact hnew _ heq
        · exact hq c (List.mem_append_right _ hc)

theorem CreateFacetFilterQuery_fields (cfg : Config)
    (filters : List (GoString × List (GoString × QueryFilter))) (filterField : GoString)
    (andQuery : Bool) :
    ∀ (l : List (GoString × List (GoString × QueryFilter))) (q : BoolClauses),
      (∀ x ∈ l, x ∈ filters) →
      (∀ c ∈ q.must, clauseOf cfg filters (fun f => f ≠ filterField) c) →
      (∀ c ∈ q.should ++ q.mustNot,
        andQuery = true ∧ clauseOf cfg filters (fun f => f = filterField) c) →
      (∀ c ∈ (CreateFacetFilterQuery.fields cfg filterField andQuery l q).1.must,
          clauseOf cfg filters (fun f => f ≠ filterField) c)
        ∧ (∀ c ∈ (CreateFacetFilterQuery.fields cfg filterField andQuery l q).1.should
            ++ (CreateFacetFilterQuery.fields cfg filterField andQuery l q).1.mustNot,
          andQuery = true ∧ clauseOf cfg filters (fun f => f = filterField) c)
  | [], q, _, hm, hs => by
    unfold CreateFacetFilterQuery.fields
    exact ⟨hm, hs⟩
  | (field, qfs) :: rest, q, hsub, hm, hs => by
    have hmem : (field, qfs) ∈ filters := hsub _ (List.mem_cons_self _ _)
    have hrest : ∀ x ∈ rest, x ∈ filters := fun x hx => hsub x (List.mem_cons_of_mem _ hx)
    unfold CreateFacetFilterQuery.fields
    by_cases hf : filterField = field
    · rw [if_pos hf]
      by_cases ha : andQuery = true
      · rw [if_pos ha]
        have hown := CreateFacetFilterQuery_own cfg filters (fun f => f = filterField) field
          hf.symm qfs qfs q hmem (fun x hx => hx) (fun c hc => (hs c hc).2)
        have hs' : ∀ c ∈ (CreateFacetFilterQuery.own cfg qfs q).1.should
            ++ (CreateFacetFilterQuery.own cfg qfs q).1.mustNot,
            andQuery = true ∧ clauseOf cfg filters (fun f => f = filterField) c :=
          fun c hc => ⟨ha, hown.1 c hc⟩
        have hm' : ∀ c ∈ (CreateFacetFilterQuery.own cfg qfs q).1.must,
            clauseOf cfg filters (fun f => f ≠ filterField) c := by
          rw [hown.2]
          exact hm
        split
        · rename_i q1 err heq
          rw [heq] at hs' hm'
          exact ⟨hm', hs'⟩
        · rename_i q1 heq
          rw [heq] at hs' hm'
          exact CreateFacetFilterQuery_fields cfg filters filterField andQuery rest q1 hrest
            hm' hs'
      · rw [if_neg ha]
        exact CreateFacetFilterQuery_fields cfg filters filterField andQuery rest q hrest
          hm hs
    · rw [if_neg hf]
      have hother := CreateFacetFilterQuery_other cfg filters (fun f => f ≠ filterField) field
        (fun e => hf e.symm) qfs qfs q hmem (fun x hx => hx) hm
      have hs' : ∀ c ∈ (CreateFacetFilterQuery.other cfg qfs q).1.should
          ++ (CreateFacetFilterQuery.other cfg qfs q).1.mustNot,
          andQuery = true ∧ clauseOf cfg filters (fun f => f = filterField) c := by
        rw [hother.2.1, hother.2.2]
        exact hs
      split
      · rename_i q1 err heq
        rw [heq] at hs' hother
        exact ⟨hother.1, hs'⟩
      · rename_i q1 heq
        rw [heq] at hs' hother
        exact CreateFacetFilterQuery_fields cfg filters filterField andQuery rest q1 hrest
          hother.1 hs'

/-! ## The facet filter query: the clauses in full -/

theorem CreateFacetFilterQuery_other_clauses (cfg : Config) :
    ∀ (l : List (GoString × QueryFilter)) (q : BoolClauses),
      ∃ pre, (CreateFacetFilterQuery.other cfg l q).1.must = q.must ++ pre
        ∧ pre <+: l.map (fun kv => (kv.2.ElasticFilter cfg).1)
        ∧ ((CreateFacetFilterQuery.other cfg l q).2 = none →
            pre = l.map (fun kv => (kv.2.ElasticFilter cfg).1))
        ∧ (CreateFacetFilterQuery.other cfg l q).1.should = q.should
        ∧ (CreateFacetFilterQuery.other cfg l q).1.mustNot = q.mustNot
  | [], q => ⟨[], by simp [CreateFacetFilterQuery.other]⟩
  | (k, qf) :: rest, q => by
    unfold CreateFacetFilterQuery.other
    rcases hf : qf.ElasticFilter cfg with ⟨fq, _ | err⟩
    · obtain ⟨pre, h1, h2, h3, h4, h5⟩ :=
        CreateFacetFilterQuery_other_clauses cfg rest { q with must := q.must ++ [fq] }
      refine ⟨fq :: pre, ?_, ?_, ?_, h4, h5⟩
      · simp only [h1, List.append_assoc, List.singleton_append]
      · simp only [List.map_cons, hf]
        exact (List.prefix_cons_inj fq).mpr h2
      · intro hn
        simp only [List.map_cons, hf, h3 hn]
    · exact ⟨[], by simp, List.nil_prefix, (fun h => by cases h), rfl, rfl⟩

theorem CreateFacetFilterQuery_own_clauses (cfg : Config) :
    ∀ (l : List (GoString × QueryFilter)) (q : BoolClauses),
      ∃ ps pn, (CreateFacetFilterQuery.own cfg l q).1.should = q.should ++ ps
        ∧ (CreateFacetFilterQuery.own cfg l q).1.mustNot = q.mustNot ++ pn
        ∧ ps <+: (l.filter (fun kv => kv.2.Exclude == false)).map
            (fun kv => (kv.2.ElasticFilter cfg).1)
        ∧ pn <+: (l.filter (fun kv => kv.2.Exclude == true)).map
            (fun kv => (kv.2.ElasticFilter cfg).1)
        ∧ ((CreateFacetFilterQuery.own cfg l q).2 = none →
            ps = (l.filter (fun kv => kv.2.Exclude == false)).map
                (fun kv => (kv.2.ElasticFilter cfg).1)
              ∧ pn = (l.filter (fun kv => kv.2.Exclude == true)).map
                (fun kv => (kv.2.ElasticFilter cfg).1))
        ∧ (CreateFacetFilterQuery.own cfg l q).1.must = q.must
  | [], q => ⟨[], [], by simp [CreateFacetFilterQuery.own]⟩
  | (k, qf) :: rest, q => by
    unfold CreateFacetFilterQuery.own
    rcases hf : qf.ElasticFilter cfg with ⟨fq, _ | err⟩
    · cases he : qf.Exclude with
      | true =>
        obtain ⟨ps, pn, h1, h2, h3, h4, h5, h6⟩ :=
          CreateFacetFilterQuery_own_clauses cfg rest { q with mustNot := q.mustNot ++ [fq] }
        refine ⟨ps, fq :: pn, ?_, ?_, ?_, ?_, ?_, ?_⟩
        · simpa using h1
        · simp only [Bool.true_eq_false, if_true, h2, List.append_assoc, List.singleton_append]
        · simpa [he] using h3
        · simp only [he, beq_self_eq_true, List.filter_cons_of_pos, List.map_cons, hf]
          exact (List.prefix_cons_inj fq).mpr h4
        · intro hn
          have := h5 (by simpa using hn)
          simp [he, hf, this.1, this.2]
        · simpa using h6
      | false =>
        obtain ⟨ps, pn, h1, h2, h3, h4, h5, h6⟩ :=
          CreateFacetFilterQuery_own_clauses cfg rest { q with should := q.should ++ [fq] }
        refine ⟨fq :: ps, pn, ?_, ?_, ?_, ?_, ?_, ?_⟩
        · simp only [Bool.false_eq_true, if_false, h1, List.append_assoc,
            List.singleton_append]
        · simpa using h2
        · simp only [he, beq_self_eq_true, List.filter_cons_of_pos, List.map_cons, hf]
          exact (List.prefix_cons_inj fq).mpr h3
        · simpa [he] using h4
        · intro hn
          have := h5 (by simpa using hn)
          simp [he, hf, this.1, this.2]
        · simpa using h6
    · exact ⟨[], [], by simp, by simp, List.nil_prefix, List.nil_prefix,
        (fun h => by cases h), rfl⟩

theorem CreateFacetFilterQuery_fields_clauses (cfg : Config) (filterField : GoString)
    (andQuery : Bool) :
    ∀ (l : List (GoString × List (GoString × QueryFilter))) (q : BoolClauses),
      ∃ pm ps pn,
        (CreateFacetFilterQuery.fields cfg filterField andQuery l q).1.must = q.must ++ pm
        ∧ (CreateFacetFilterQuery.fields cfg filterField andQuery l q).1.should
            = q.should ++ ps
        ∧ (CreateFacetFilterQuery.fields cfg filterField andQuery l q).1.mustNot
            = q.mustNot ++ pn
        ∧ pm <+: otherFilterQueries cfg l filterField
        ∧ ps <+: (if andQuery then ownFilterQueries cfg l filterField false else [])
        ∧ pn <+: (if andQuery then ownFilterQueries cfg l filterField true else [])
        ∧ ((CreateFacetFilterQuery.fields cfg filterField andQuery l q).2 = none →
            pm = otherFilterQueries cfg l filterField
              ∧ ps = (if andQuery then ownFilterQueries cfg l filterField false else [])
              ∧ pn = (if andQuery then ownFilterQueries cfg l filterField true else []))
  | [], q => ⟨[], [], [], by
      simp [CreateFacetFilterQuery.fields, otherFilterQueries, ownFilterQueries]⟩
  | (field, qfs) :: rest, q => by
    unfold CreateFacetFilterQuery.fields
    by_cases hfield : filterField = field
    · have hother : otherFilterQueries cfg ((field, qfs) :: rest) filterField
          = otherFilterQueries cfg rest filterField := by
        simp [otherFilterQueries, hfield]
      have hown : ∀ e, ownFilterQueries cfg ((field, qfs) :: rest) filterField e
          = (qfs.filter (fun kv => kv.2.Exclude == e)).map
              (fun kv => (kv.2.ElasticFilter cfg).1)
            ++ ownFilterQueries cfg rest filterField e := by
        intro e
        simp [ownFilterQueries, hfield]
      rw [if_pos hfield, hother]
      cases ha : andQuery with
      | false =>
        obtain ⟨pm, ps, pn, h1, h2, h3, h4, h5, h6, h7⟩ :=
          CreateFacetFilterQuery_fields_clauses cfg filterField false rest q
        exact ⟨pm, ps, pn, by simpa using h1, by simpa using h2, by simpa using h3, h4,
          by simpa using h5, by simpa using h6, by simpa using h7⟩
      | true =>
        simp only [if_true, hown]
        obtain ⟨ps1, pn1, o1, o2, o3, o4, o5, o6⟩ :=
          CreateFacetFilterQuery_own_clauses cfg qfs q
        rcases ho : CreateFacetFilterQuery.own cfg qfs q with ⟨q1, _ | err⟩
        · rw [ho] at o1 o2 o5 o6
          obtain ⟨e1, e2⟩ := o5 rfl
          obtain ⟨pm, ps, pn, h1, h2, h3, h4, h5, h6, h7⟩ :=
            CreateFacetFilterQuery_fields_clauses cfg filterField true rest q1
          simp only [if_true] at h5 h6 h7
          refine ⟨pm, ps1 ++ ps, pn1 ++ pn, ?_, ?_, ?_, h4, ?_, ?_, ?_⟩
          · simp only [h1]
            rw [show q1.must = q.must from o6]
          · simp only [h2]
            rw [show q1.should = q.should ++ ps1 from o1, List.append_assoc]
          · simp only [h3]
            rw [show q1.mustNot = q.mustNot ++ pn1 from o2, List.append_assoc]
          · rw [← e1]
            exact (List.prefix_append_right_inj ps1).mpr h5
          · rw [← e2]
            exact (List.prefix_append_right_inj pn1).mpr h6
          · intro hn
            obtain ⟨g1, g2, g3⟩ := h7 hn
            exact ⟨g1, by rw [← e1, g2], by rw [← e2, g3]⟩
        · rw [ho] at o1 o2 o6
          refine ⟨[], ps1, pn1, ?_, o1, o2, List.nil_prefix, ?_, ?_, (fun h => by cases h)⟩
          · simpa using o6
          · exact o3.trans (List.prefix_append _ _)
          · exact o4.trans (List.prefix_append _ _)
    · have hother : otherFilterQueries cfg ((field, qfs) :: rest) filterField
          = qfs.map (fun kv => (kv.2.ElasticFilter cfg).1)
            ++ otherFilterQueries cfg rest filterField := by
        have hne : field ≠ filterField := fun e => hfield e.symm
        simp [otherFilterQueries, hne]
      have hown : ∀ e, ownFilterQueries cfg ((field, qfs) :: rest) filterField e
          = ownFilterQueries cfg rest filterField e := by
        intro e
        have hne : field ≠ filterField := fun e => hfield e.symm
        simp [ownFilterQueries, hne]
      rw [if_neg hfield, hother, hown, hown]
      obtain ⟨pm1, o1, o2, o3, o4, o5⟩ := CreateFacetFilterQuery_other_clauses cfg qfs q
      rcases ho : CreateFacetFilterQuery.other cfg qfs q with ⟨q1, _ | err⟩
      · rw [ho] at o1 o3 o4 o5
        have e1 := o3 rfl
        obtain ⟨pm, ps, pn, h1, h2, h3, h4, h5, h6, h7⟩ :=
          CreateFacetFilterQuery_fields_clauses cfg filterField andQuery rest q1
        refine ⟨pm1 ++ pm, ps, pn, ?_, ?_, ?_, ?_, h5, h6, ?_⟩
        · simp only [h1]
          rw [show q1.must = q.must ++ pm1 from o1, List.append_assoc]
        · simp only [h2]
          rw [show q1.should = q.should from o4]
        · simp only [h3]
          rw [show q1.mustNot = q.mustNot from o5]
        · rw [← e1]
          exact (List.prefix_append_right_inj pm1).mpr h4
        · intro hn
          obtain ⟨g1, g2, g3⟩ := h7 hn
          exact ⟨by rw [← e1, g1], g2, g3⟩
      · rw [ho] at o1 o4 o5
        refine ⟨pm1, [], [], o1, by simpa using o4, by simpa using o5, ?_, List.nil_prefix,
          List.nil_prefix, (fun h => by cases h)⟩
        exact o2.trans (List.prefix_append _ _)

/-- C16, amended: the filter query that CreateFacetFilterQuery builds for the
facet field X is a boolean query whose must clauses all come from applied
filters on fields other than X; its should and must-not clauses all come from
applied filters on X itself, and there are none of them when the
facet-boolean-mode toggle is off.  The must clauses are the filter queries of
the filters on the other fields, in the builder's order; with the toggle on the
should clauses are the filter queries of the filters on X that are no
exclusions and the must-not clauses those of the exclusions on X.  When a
filter fails to translate, the query returned with the error holds the clauses
added before it. -/
theorem CreateFacetFilterQuery_clauses (cfg : Config) (fub : FacetURIBuilder)
    (path filterField : GoString) (andQuery : Bool) :
    ∃ must mustNot should,
      (fub.CreateFacetFilterQuery cfg path filterField andQuery).1
        = EsQuery.bool must mustNot should
      ∧ (∀ c ∈ must, clauseOf cfg fub.filters (fun f => f ≠ filterField) c)
      ∧ (∀ c ∈ should ++ mustNot, clauseOf cfg fub.filters (fun f => f = filterField) c)
      ∧ (andQuery = false → should = [] ∧ mustNot = [])
      ∧ must <+: otherFilterQueries cfg fub.filters filterField
      ∧ (andQuery = true →
          should <+: ownFilterQueries cfg fub.filters filterField false
            ∧ mustNot <+: ownFilterQueries cfg fub.filters filterField true)
      ∧ ((fub.CreateFacetFilterQuery cfg path filterField andQuery).2 = none →
          must = otherFilterQueries cfg fub.filters filterField
            ∧ (andQuery = true →
                should = ownFilterQueries cfg fub.filters filterField false
                  ∧ mustNot = ownFilterQueries cfg fub.filters filterField true)) := by
  have h := CreateFacetFilterQuery_fields cfg fub.filters filterField andQuery fub.filters {}
    (fun x hx => hx) (by simp) (by simp)
  obtain ⟨pm, ps, pn, h1, h2, h3, h4, h5, h6, h7⟩ :=
    CreateFacetFilterQuery_fields_clauses cfg filterField andQuery fub.filters {}
  have e1 : (CreateFacetFilterQuery.fields cfg filterField andQuery fub.filters {}).1.must
      = pm := by simpa using h1
  have e2 : (CreateFacetFilterQuery.fields cfg filterField andQuery fub.filters {}).1.should
      = ps := by simpa using h2
  have e3 : (CreateFacetFilterQuery.fields cfg filterField andQuery fub.filters {}).1.mustNot
      = pn := by simpa using h3
  refine ⟨_, _, _, rfl, h.1, fun c hc => (h.2 c hc).2, ?_, ?_, ?_, ?_⟩
  · intro ha
    rw [e2, e3]
    rw [ha] at h5 h6
    simp only [Bool.false_eq_true, if_false, List.prefix_nil] at h5 h6
    exact ⟨h5, h6⟩
  · rw [e1]
    exact h4
  · intro ha
    rw [e2, e3]
    rw [ha] at h5 h6
    simpa using And.intro h5 h6
  · intro hn
    obtain ⟨g1, g2, g3⟩ := h7 hn
    rw [e1, e2, e3]
    refine ⟨g1, fun ha => ?_⟩
    rw [ha] at g2 g3
    simpa using And.intro g2 g3

/-- C16, amended, on the builder with the filters tree.type:series, the
exclusion tree.type:map and dc_title:x, for the facet field tree.type: with the
toggle on the query has the must clause of dc_title:x, the must-not clause of
the exclusion and the should clause of tree.type:series; with the toggle off
its only clause is the must clause of dc_title:x. -/
theorem CreateFacetFilterQuery_clauses_witness :
    FacetURIBuilder.CreateFacetFilterQuery refConfig
        { filters :=
          [("tree.type".toList,
              [("series".toList,
                { SearchLabel := "tree.type".toList, Value := "series".toList }),
               ("map".toList,
                { SearchLabel := "tree.type".toList, Value := "map".toList,
                  Exclude := true })]),
            ("dc_title".toList,
              [("x".toList, { SearchLabel := "dc_title".toList, Value := "x".toList })])] }
        "resources.entries".toList "tree.type".toList true
      = (EsQuery.bool
          [(QueryFilter.ElasticFilter refConfig
            { SearchLabel := "dc_title".toList, Value := "x".toList }).1]
          [(QueryFilter.ElasticFilter refConfig
            { SearchLabel := "tree.type".toList, Value := "map".toList, Exclude := true }).1]
          [(QueryFilter.ElasticFilter refConfig
            { SearchLabel := "tree.type".toList, Value := "series".toList }).1], none)
    ∧ FacetURIBuilder.CreateFacetFilterQuery refConfig
        { filters :=
          [("tree.type".toList,
              [("series".toList,
                { SearchLabel := "tree.type".toList, Value := "series".toList }),
               ("map".toList,
                { SearchLabel := "tree.type".toList, Value := "map".toList,
                  Exclude := true })]),
            ("dc_title".toList,
              [("x".toList, { SearchLabel := "dc_title".toList, Value := "x".toList })])] }
        "resources.entries".toList "tree.type".toList false
      = (EsQuery.bool
          [(QueryFilter.ElasticFilter refConfig
            { SearchLabel := "dc_title".toList, Value := "x".toList }).1] [] [], none) := by
  constructor
  · obtain ⟨must, mustNot, should, h, -, -, -, -, -, hfull⟩ :=
      CreateFacetFilterQuery_clauses refConfig
        { filters :=
          [("tree.type".toList,
              [("series".toList,
                { SearchLabel := "tree.type".toList, Value := "series".toList }),
               ("map".toList,
                { SearchLabel := "tree.type".toList, Value := "map".toList,
                  Exclude := true })]),
            ("dc_title".toList,
              [("x".toList, { SearchLabel := "dc_title".toList, Value := "x".toList })])] }
        "resources.entries".toList "tree.type".toList true
    obtain ⟨g1, g2⟩ := hfull rfl
    obtain ⟨g3, g4⟩ := g2 rfl
    refine Prod.ext ?_ rfl
    rw [h, g1, g3, g4]
    rfl
  · obtain ⟨must, mustNot, should, h, -, -, hoff, -, -, hfull⟩ :=
      CreateFacetFilterQuery_clauses refConfig
        { filters :=
          [("tree.type".toList,
              [("series".toList,
                { SearchLabel := "tree.type".toList, Value := "series".toList }),
               ("map".toList,
                { SearchLabel := "tree.type".toList, Value := "map".toList,
                  Exclude := true })]),
            ("dc_title".toList,
              [("x".toList, { SearchLabel := "dc_title".toList, Value := "x".toList })])] }
        "resources.entries".toList "tree.type".toList false
    obtain ⟨g1, -⟩ := hfull rfl
    obtain ⟨g3, g4⟩ := hoff rfl
    refine Prod.ext ?_ rfl
    rw [h, g1, g3, g4]
    rfl

/-- C16, as stated, fails with the toggle on: for the builder that
NewFacetURIBuilder makes from the filter tree.type:series, the filter query for
the facet field tree.type holds the clause of that very filter as a should
clause. -/
theorem CreateFacetFilterQuery_own_field_counterexample :
    (FacetURIBuilder.CreateFacetFilterQuery refConfig
        { filters :=
            [("tree.type".toList,
              [("series".toList,
                { SearchLabel := "tree.type".toList, Value := "series".toList })])] }
        "resources.entries".toList "tree.type".toList true)
      = (EsQuery.bool [] []
          [(QueryFilter.ElasticFilter refConfig
            { SearchLabel := "tree.type".toList, Value := "series".toList }).1], none)
      ∧ NewFacetURIBuilder []
          [{ SearchLabel := "tree.type".toList, Value := "series".toList }]
        = (some { filters :=
            [("tree.type".toList,
              [("series".toList,
                { SearchLabel := "tree.type".toList, Value := "series".toList })])] }, none) := by
  exact ⟨rfl, by decide⟩

/-! ## AggregationDecoder -/

theorem facetConsistent_step (fub : FacetURIBuilder) (qf : QueryFacet) (fl : FacetLink)
    (hfl : fl.IsSelected = true ↔ (qf.Field, fl.Value) ∈ fub.held)
    (hc : facetConsistent (some fub) qf) :
    facetConsistent (some fub)
      { (if (fl.IsSelected && !qf.IsSelected) = true then { qf with IsSelected := true } else qf)
          with Links := (if (fl.IsSelected && !qf.IsSelected) = true then
            { qf with IsSelected := true } else qf).Links ++ [fl] } := by
  obtain ⟨name, field, total, other, sel, links⟩ := qf
  obtain ⟨h1, h2⟩ := hc
  have h2 := h2 fub rfl
  simp only at h1 h2 hfl
  have key : ∀ (q : QueryFacet), q.Field = field → q.Links = links ++ [fl] →
      (q.IsSelected = true ↔ (sel = true ∨ fl.IsSelected = true)) →
      facetConsistent (some fub) q := by
    intro q hf hl hs
    refine ⟨?_, ?_⟩
    · rw [hs, hl, h1]
      constructor
      · rintro (⟨l, hm, hsl⟩ | hsl)
        · exact ⟨l, List.mem_append_left _ hm, hsl⟩
        · exact ⟨fl, by simp, hsl⟩
      · rintro ⟨l, hm, hsl⟩
        simp only [List.mem_append, List.mem_singleton] at hm
        rcases hm with hm | rfl
        · exact Or.inl ⟨l, hm, hsl⟩
        · exact Or.inr hsl
    · intro fub' hf' link hlink
      simp only [Option.some.injEq] at hf'
      subst hf'
      rw [hl] at hlink
      rw [hf]
      simp only [List.mem_append, List.mem_singleton] at hlink
      rcases hlink with hlink | rfl
      · exact h2 link hlink
      · exact hfl
  apply key
  · split <;> rfl
  · split <;> rfl
  · cases hs : fl.IsSelected <;> cases sel <;> simp
 
theorem DecodeFacets_buckets (fb : Option FacetURIBuilder) :
    ∀ (bs : List AggregationBucketKeyItem) (qf qf' : QueryFacet),
      DecodeFacets.buckets fb bs qf = GoResult.returns qf' →
      facetConsistent fb qf → facetConsistent fb qf'
  | [], qf, qf', h, hc => by
    simp only [DecodeFacets.buckets, GoResult.returns.injEq] at h
    subst h
    exact hc
  | b :: rest, qf, qf', h, hc => by
    unfold DecodeFacets.buckets at h
    cases fb with
    | none => simp at h
    | some fub =>
      simp only at h
      refine DecodeFacets_buckets (some fub) rest _ qf' h ?_
      have hsel := CreateFacetFilterURI_selected fub qf.Field b.Key
      exact facetConsistent_step fub qf
        { URL := (fub.CreateFacetFilterURI qf.Field b.Key).1,
          IsSelected := (fub.CreateFacetFilterURI qf.Field b.Key).2, Value := b.Key,
          Count := b.DocCount,
          DisplayString := b.Key ++ " (".toList ++ strconvItoa b.DocCount ++ ")".toList }
        (by simp [hsel]) hc

theorem DecodeFacets_loop (fb : Option FacetURIBuilder) :
    ∀ (as : List (GoString × Option NestedAggregation)) (aggs aggs' : List QueryFacet),
      DecodeFacets.loop fb as aggs = GoResult.returns aggs' →
      (∀ qf ∈ aggs, facetConsistent fb qf) → ∀ qf ∈ aggs', facetConsistent fb qf
  | [], aggs, aggs', h, hc => by
    simp only [DecodeFacets.loop, GoResult.returns.injEq] at h
    subst h
    exact hc
  | (k, facetFilter) :: rest, aggs, aggs', h, hc => by
    unfold DecodeFacets.loop at h
    split at h
    · rename_i docCount value
      simp only at h
      split at h
      · simp at h
      · rename_i qf hq
        refine DecodeFacets_loop fb rest _ aggs' h ?_
        intro q hq'
        simp only [List.mem_append, List.mem_singleton] at hq'
        rcases hq' with hq' | rfl
        · exact hc q hq'
        · refine DecodeFacets_buckets fb _ _ _ hq ?_
          exact ⟨by simp, by simp⟩
    · exact DecodeFacets_loop fb rest aggs aggs' h hc

theorem DecodeFacets_buckets_some (fub : FacetURIBuilder) :
    ∀ (bs : List AggregationBucketKeyItem) (qf : QueryFacet),
      ∃ qf', DecodeFacets.buckets (some fub) bs qf = GoResult.returns qf'
        ∧ qf'.Field = qf.Field ∧ (∀ l ∈ qf.Links, l ∈ qf'.Links)
        ∧ ∀ b ∈ bs, ∃ link ∈ qf'.Links, link.Value = b.Key
  | [], qf => ⟨qf, rfl, rfl, fun _ h => h, by simp⟩
  | b :: rest, qf => by
    unfold DecodeFacets.buckets
    simp only
    obtain ⟨qf', hq, hf, hl, hb⟩ := DecodeFacets_buckets_some fub rest
      { (if ((fub.CreateFacetFilterURI qf.Field b.Key).2 && !qf.IsSelected) = true then
            { qf with IsSelected := true } else qf)
          with Links := (if ((fub.CreateFacetFilterURI qf.Field b.Key).2 && !qf.IsSelected) = true
            then { qf with IsSelected := true } else qf).Links ++
              [{ URL := (fub.CreateFacetFilterURI qf.Field b.Key).1,
                 IsSelected := (fub.CreateFacetFilterURI qf.Field b.Key).2, Value := b.Key,
                 Count := b.DocCount,
                 DisplayString := b.Key ++ " (".toList ++ strconvItoa b.DocCount ++ ")".toList }] }
    refine ⟨qf', hq, ?_, ?_, ?_⟩
    · rw [hf]
      split <;> rfl
    · intro l hm
      apply hl
      simp only [List.mem_append, List.mem_singleton]
      left
      split <;> exact hm
    · intro b' hb'
      simp only [List.mem_cons] at hb'
      rcases hb' with rfl | hb'
      · exact ⟨_, hl _ (List.mem_append_right _ (List.mem_singleton.mpr rfl)), rfl⟩
      · exact hb b' hb'

theorem DecodeFacets_loop_some (fub : FacetURIBuilder) :
    ∀ (as : List (GoString × Option NestedAggregation)) (aggs : List QueryFacet),
      ∃ aggs', DecodeFacets.loop (some fub) as aggs = GoResult.returns aggs'
        ∧ (∀ q ∈ aggs, q ∈ aggs')
        ∧ ∀ k d v,
            (k, some { filter := some { inner := some { DocCount := d, value := some v } } })
              ∈ as →
            ∃ facet ∈ aggs', facet.Field = k
              ∧ ∀ b ∈ v.Buckets, ∃ link ∈ facet.Links, link.Value = b.Key
  | [], aggs => ⟨aggs, rfl, fun _ h => h, by simp⟩
  | (k, facetFilter) :: rest, aggs => by
    unfold DecodeFacets.loop
    split
    · rename_i docCount value
      obtain ⟨qf', hq, hf, -, hb⟩ := DecodeFacets_buckets_some fub value.Buckets
        { Name := k, Field := k, Total := docCount, OtherDocs := value.SumOfOtherDocCount,
          Links := [] }
      simp only [hq]
      obtain ⟨aggs', ha, hsub, hrest⟩ := DecodeFacets_loop_some fub rest (aggs ++ [qf'])
      refine ⟨aggs', ha, fun q h => hsub q (List.mem_append_left _ h), ?_⟩
      intro k' d v hm
      simp only [List.mem_cons, Prod.mk.injEq, Option.some.injEq, NestedAggregation.mk.injEq,
        FilterAggregation.mk.injEq, InnerAggregation.mk.injEq] at hm
      rcases hm with ⟨rfl, -, rfl⟩ | hm
      · exact ⟨qf', hsub qf' (by simp), hf, hb⟩
      · exact hrest k' d v hm
    · rename_i hne
      obtain ⟨aggs', ha, hsub, hrest⟩ := DecodeFacets_loop_some fub rest aggs
      refine ⟨aggs', ha, hsub, ?_⟩
      intro k' d v hm
      simp only [List.mem_cons, Prod.mk.injEq] at hm
      rcases hm with ⟨rfl, rfl⟩ | hm
      · exact absurd rfl (hne d v)
      · exact hrest k' d v hm

/-- C18: with a builder, DecodeFacets returns; for every facet that
DecodeFacets returns, the facet's IsSelected is true exactly when one of its
links has IsSelected true, and a link is selected exactly when the builder
holds the pair of the facet's field and the link's value; in particular, when
the builder holds (field, value) and the result has hits, a bucket with key
value under the aggregation named field gives a facet for field that is
selected and has a selected link for value. -/
theorem DecodeFacets_selection (sr : SearchRequest) (res : Option SearchResult)
    (fb : Option FacetURIBuilder) :
    (∀ fub, fb = some fub → ∃ facets, sr.DecodeFacets res fb = GoResult.returns (facets, none))
    ∧ (∀ facets err, sr.DecodeFacets res fb = GoResult.returns (facets, err) →
        (∀ facet ∈ facets,
          (facet.IsSelected = true ↔ ∃ link ∈ facet.Links, link.IsSelected = true)
            ∧ ∀ fub, fb = some fub → ∀ link ∈ facet.Links,
                (link.IsSelected = true ↔ (facet.Field, link.Value) ∈ fub.held))
        ∧ ∀ fub r field value d v,
            fb = some fub → res = some r → r.TotalHits ≠ 0 →
            (field, some { filter := some { inner := some { DocCount := d, value := some v } } })
              ∈ r.Aggregations →
            value ∈ v.Buckets.map (fun b => b.Key) →
            (field, value) ∈ fub.held →
            ∃ facet ∈ facets, facet.Field = field ∧ facet.IsSelected = true
              ∧ ∃ link ∈ facet.Links, link.Value = value ∧ link.IsSelected = true) := by
  have hcons : ∀ facets err, sr.DecodeFacets res fb = GoResult.returns (facets, err) →
      ∀ facet ∈ facets, facetConsistent fb facet := by
    intro facets err hret
    unfold SearchRequest.DecodeFacets at hret
    cases res with
    | none =>
      simp only [GoResult.returns.injEq, Prod.mk.injEq] at hret
      obtain ⟨rfl, -⟩ := hret
      simp
    | some res =>
      simp only at hret
      split at hret
      · simp only [GoResult.returns.injEq, Prod.mk.injEq] at hret
        obtain ⟨rfl, -⟩ := hret
        simp
      · split at hret
        · simp at hret
        · rename_i aggs haggs
          simp only [GoResult.returns.injEq, Prod.mk.injEq] at hret
          obtain ⟨rfl, -⟩ := hret
          exact DecodeFacets_loop fb _ [] _ haggs (by simp)
  refine ⟨?_, ?_⟩
  · rintro fub rfl
    unfold SearchRequest.DecodeFacets
    cases res with
    | none => exact ⟨[], rfl⟩
    | some r =>
      simp only
      split
      · exact ⟨[], rfl⟩
      · obtain ⟨aggs', ha, -, -⟩ := DecodeFacets_loop_some fub r.Aggregations []
        exact ⟨aggs', by rw [ha]⟩
  · intro facets err hret
    refine ⟨hcons facets err hret, ?_⟩
    rintro fub r field value d v rfl rfl hhits hagg hval hheld
    obtain ⟨aggs', ha, -, hfac⟩ := DecodeFacets_loop_some fub r.Aggregations []
    have hfacets : facets = aggs' := by
      unfold SearchRequest.DecodeFacets at hret
      simp only [if_neg hhits, ha, GoResult.returns.injEq, Prod.mk.injEq] at hret
      exact hret.1.symm
    subst hfacets
    obtain ⟨facet, hmem, hfield, hlinks⟩ := hfac field d v hagg
    obtain ⟨b, hb, rfl⟩ := List.mem_map.mp hval
    obtain ⟨link, hlink, hlv⟩ := hlinks b hb
    obtain ⟨h1, h2⟩ := hcons facets err hret facet hmem
    have hsel : link.IsSelected = true := by
      rw [h2 fub rfl link hlink, hfield, hlv]
      exact hheld
    exact ⟨facet, hmem, hfield, h1.mpr ⟨link, hlink, hsel⟩, link, hlink, hlv, hsel⟩

/-- The example of C18: with the applied filter tree.type:series, the bucket
series of the aggregation tree.type gives a selected link and a selected
facet. -/
theorem DecodeFacets_selection_witness :
    SearchRequest.DecodeFacets {} (some seriesResult) (some seriesBuilder)
        = GoResult.returns
            ([{ Name := "tree.type".toList, Field := "tree.type".toList, Total := 3,
                IsSelected := true,
                Links :=
                  [{ URL := [], IsSelected := true, Value := "series".toList, Count := 2,
                     DisplayString := "series (2)".toList },
                   { URL := "qf=tree.type:series&qf=tree.type:file".toList, IsSelected := false,
                     Value := "file".toList, Count := 1,
                     DisplayString := "file (1)".toList }] }], none)
    ∧ ∃ facet ∈ [({ Name := "tree.type".toList, Field := "tree.type".toList, Total := 3,
                    IsSelected := true,
                    Links :=
                      [{ URL := [], IsSelected := true, Value := "series".toList, Count := 2,
                         DisplayString := "series (2)".toList },
                       { URL := "qf=tree.type:series&qf=tree.type:file".toList,
                         IsSelected := false, Value := "file".toList, Count := 1,
                         DisplayString := "file (1)".toList }] } : QueryFacet)],
        facet.Field = "tree.type".toList ∧ facet.IsSelected = true
          ∧ ∃ link ∈ facet.Links, link.Value = "series".toList ∧ link.IsSelected = true :=
  ⟨by decide,
    ((DecodeFacets_selection {} (some seriesResult) (some seriesBuilder)).2 _ none
        (by decide)).2
      seriesBuilder seriesResult "tree.type".toList "series".toList 3
      { SumOfOtherDocCount := 0,
        Buckets := [{ Key := "series".toList, DocCount := 2 },
                    { Key := "file".toList, DocCount := 1 }] }
      rfl rfl (by decide) (by decide) (by decide) (by decide)⟩

/-! ## BreadCrumbBuilder -/

theorem clearLast_append_singleton :
    ∀ (l : List BreadCrumb) (x : BreadCrumb),
      clearLast (l ++ [x]) = l ++ [{ x with IsLast := false }]
  | [], _ => rfl
  | [a], x => rfl
  | a :: b :: l, x => by
    have ih := clearLast_append_singleton (b :: l) x
    simp only [List.cons_append] at ih ⊢
    rw [clearLast, ih]

theorem clearLast_length : ∀ l : List BreadCrumb, (clearLast l).length = l.length
  | [] => rfl
  | [a] => rfl
  | a :: b :: l => by
    rw [clearLast, List.length_cons, clearLast_length (b :: l)]
    rfl

theorem AppendBreadCrumb_crumbs (bcb : BreadCrumbBuilder) (param : GoString) (qf : QueryFilter) :
    ∃ bc : BreadCrumb, bc.IsLast = true
      ∧ (bcb.AppendBreadCrumb param qf).crumbs = clearLast bcb.crumbs ++ [bc] := by
  unfold BreadCrumbBuilder.AppendBreadCrumb
  obtain ⟨hrefPath, crumbs⟩ := bcb
  cases crumbs with
  | nil =>
    simp only [BreadCrumbBuilder.GetLast, List.getLast?_nil]
    split_ifs <;> refine ⟨_, ?_, rfl⟩ <;> rfl
  | cons a l =>
    simp only [BreadCrumbBuilder.GetLast, List.getLast?_cons]
    split_ifs <;> refine ⟨_, ?_, rfl⟩ <;> rfl

theorem clearLast_shown : ∀ l : List BreadCrumb,
    (clearLast l).map BreadCrumb.shown = l.map BreadCrumb.shown
  | [] => rfl
  | [a] => rfl
  | a :: b :: l => by
    rw [clearLast, List.map_cons, clearLast_shown (b :: l), List.map_cons, List.map_cons,
      List.map_cons]

theorem AppendBreadCrumb_filter (bcb : BreadCrumbBuilder) (qf : QueryFilter) :
    (bcb.AppendBreadCrumb "qf[]".toList qf).crumbs.map BreadCrumb.shown
      = bcb.crumbs.map BreadCrumb.shown
          ++ [(qf.SearchLabel ++ ":".toList ++ qf.Value, qf.SearchLabel, qf.Value)] := by
  unfold BreadCrumbBuilder.AppendBreadCrumb
  have hp : ¬ "qf[]".toList = "query".toList := by decide
  obtain ⟨hrefPath, crumbs⟩ := bcb
  cases crumbs with
  | nil =>
    simp only [if_neg hp, if_true, BreadCrumbBuilder.GetLast, List.getLast?_nil, List.map_append]
    split_ifs <;> rfl
  | cons a l =>
    simp only [if_neg hp, if_true, BreadCrumbBuilder.GetLast, List.getLast?_cons,
      List.map_append, clearLast_shown]
    split_ifs <;> rfl

theorem AppendBreadCrumb_query (bcb : BreadCrumbBuilder) (qf : QueryFilter)
    (hv : qf.Value ≠ []) :
    (bcb.AppendBreadCrumb "query".toList qf).crumbs.map BreadCrumb.shown
      = bcb.crumbs.map BreadCrumb.shown ++ [(qf.Value, [], qf.Value)] := by
  unfold BreadCrumbBuilder.AppendBreadCrumb
  obtain ⟨hrefPath, crumbs⟩ := bcb
  cases crumbs with
  | nil =>
    simp only [if_true, if_pos hv, BreadCrumbBuilder.GetLast, List.getLast?_nil, List.map_append]
    rfl
  | cons a l =>
    simp only [if_true, if_pos hv, BreadCrumbBuilder.GetLast, List.getLast?_cons,
      List.map_append, clearLast_shown]
    rfl

theorem NewUserQuery_loop_crumbs :
    ∀ (qfs : List QueryFilter) (bcb : BreadCrumbBuilder),
      (NewUserQuery.loop bcb qfs).crumbs.map BreadCrumb.shown
        = bcb.crumbs.map BreadCrumb.shown
            ++ qfs.map (fun qf => (qf.SearchLabel ++ ":".toList ++ qf.Value, qf.SearchLabel,
                qf.Value))
  | [], bcb => by simp [NewUserQuery.loop]
  | qf :: rest, bcb => by
    rw [NewUserQuery.loop, NewUserQuery_loop_crumbs rest, AppendBreadCrumb_filter,
      List.map_cons, List.append_assoc, List.singleton_append]

/-- C19: NewUserQuery returns no error, and the breadcrumbs of its query are the
crumbs of its builder: one crumb for the free-text query when it is non-empty
(Display and Value the query, Field empty), followed by one crumb per
QueryFilter in filter-list order (Display `<SearchLabel>:<Value>`, Field the
SearchLabel, Value the Value), and no other crumb. -/
theorem NewUserQuery_trail (sr : SearchRequest) :
    (sr.NewUserQuery).2.2 = none
      ∧ (sr.NewUserQuery).1.BreadCrumbs = (sr.NewUserQuery).2.1.crumbs
      ∧ (sr.NewUserQuery).1.BreadCrumbs.map BreadCrumb.shown
        = (if sr.Query ≠ [] then [(sr.Query, [], sr.Query)] else [])
            ++ sr.QueryFilter.map
                (fun qf => (qf.SearchLabel ++ ":".toList ++ qf.Value, qf.SearchLabel, qf.Value)) := by
  refine ⟨rfl, rfl, ?_⟩
  unfold SearchRequest.NewUserQuery
  simp only
  rw [NewUserQuery_loop_crumbs]
  congr 1
  by_cases hq : sr.Query = []
  · simp [hq]
  · have hq' : sr.Query ≠ [] := hq
    rw [if_pos hq', if_pos hq']
    exact AppendBreadCrumb_query {} { Value := sr.Query } hq'

theorem appendCalls_crumbs : ∀ calls : List (GoString × QueryFilter),
    (∀ bc ∈ clearLast (appendCalls calls).crumbs, bc.IsLast = false)
      ∧ (appendCalls calls).crumbs.length = calls.length := by
  intro calls
  induction calls using List.reverseRecOn with
  | nil => exact ⟨by simp [appendCalls, clearLast], rfl⟩
  | append_singleton cs c ih =>
    have hstep : appendCalls (cs ++ [c]) = (appendCalls cs).AppendBreadCrumb c.1 c.2 := by
      unfold appendCalls
      rw [List.foldl_append, List.foldl_cons, List.foldl_nil]
    obtain ⟨bc, -, hcr⟩ := AppendBreadCrumb_crumbs (appendCalls cs) c.1 c.2
    rw [hstep, hcr, clearLast_append_singleton]
    refine ⟨?_, ?_⟩
    · intro x hx
      simp only [List.mem_append, List.mem_singleton] at hx
      rcases hx with hx | rfl
      · exact ih.1 x hx
      · rfl
    · rw [List.length_append, clearLast_length, ih.2, List.length_append]
      rfl

/-- C20: after any sequence of AppendBreadCrumb calls on a fresh builder that
ends with the call (param, qf), the trail is one crumb per call; its last
crumb, the one the last call appended and the one GetLast returns, has
IsLast = true, and every crumb before it has IsLast = false. -/
theorem AppendBreadCrumb_single_last (calls : List (GoString × QueryFilter))
    (param : GoString) (qf : QueryFilter) :
    ∃ init last,
      (appendCalls (calls ++ [(param, qf)])).crumbs = init ++ [last]
        ∧ last.IsLast = true
        ∧ (∀ bc ∈ init, bc.IsLast = false)
        ∧ init.length = calls.length
        ∧ (appendCalls (calls ++ [(param, qf)])).GetLast = some last := by
  have hstep : appendCalls (calls ++ [(param, qf)])
      = (appendCalls calls).AppendBreadCrumb param qf := by
    unfold appendCalls
    rw [List.foldl_append, List.foldl_cons, List.foldl_nil]
  obtain ⟨bc, hlast, hcr⟩ := AppendBreadCrumb_crumbs (appendCalls calls) param qf
  obtain ⟨hfalse, hlen⟩ := appendCalls_crumbs calls
  refine ⟨clearLast (appendCalls calls).crumbs, bc, ?_, hlast, hfalse, ?_, ?_⟩
  · rw [hstep, hcr]
  · rw [clearLast_length, hlen]
  · rw [BreadCrumbBuilder.GetLast, hstep, hcr, List.getLast?_append, List.getLast?_singleton]
    rfl

/-- C19 on the request with Query cats and the filters dc_title:x and
tree.type:series: three crumbs, the query first. -/
theorem NewUserQuery_trail_witness :
    (SearchRequest.NewUserQuery
        { Query := "cats".toList,
          QueryFilter :=
            [{ SearchLabel := "dc_title".toList, Value := "x".toList },
             { SearchLabel := "tree.type".toList, Value := "series".toList }] }).1.BreadCrumbs.map
        BreadCrumb.shown
      = [("cats".toList, [], "cats".toList),
         ("dc_title:x".toList, "dc_title".toList, "x".toList),
         ("tree.type:series".toList, "tree.type".toList, "series".toList)] :=
  (NewUserQuery_trail
    { Query := "cats".toList,
      QueryFilter :=
        [{ SearchLabel := "dc_title".toList, Value := "x".toList },
         { SearchLabel := "tree.type".toList, Value := "series".toList }] }).2.2

/-- C20 on the calls query cats, qf[] dc_title:x and an unknown parameter name:
three crumbs, the last one alone has IsLast = true. -/
theorem AppendBreadCrumb_single_last_witness :
    (appendCalls
        [("query".toList, { Value := "cats".toList }),
         ("qf[]".toList, { SearchLabel := "dc_title".toList, Value := "x".toList }),
         ("other".toList, ({} : QueryFilter))]).crumbs.map (fun bc => bc.IsLast) = [false, false, true]
    ∧ ∃ init last,
      (appendCalls
        ([("query".toList, { Value := "cats".toList }),
          ("qf[]".toList, { SearchLabel := "dc_title".toList, Value := "x".toList })]
          ++ [("other".toList, ({} : QueryFilter))])).crumbs = init ++ [last]
        ∧ last.IsLast = true ∧ (∀ bc ∈ init, bc.IsLast = false) ∧ init.length = 2 := by
  obtain ⟨init, last, h1, h2, h3, h4, -⟩ := AppendBreadCrumb_single_last
    [("query".toList, { Value := "cats".toList }),
     ("qf[]".toList, { SearchLabel := "dc_title".toList, Value := "x".toList })]
    "other".toList {}
  exact ⟨by decide, init, last, h1, h2, h3, h4⟩

/-! ## FilterCodec: the value, the token count and the wildcard -/

theorem replace_brackets_head (d : Char) (rest : GoString) :
    (stringsReplace (d :: rest) ['[', ']'] ['[', 'a', ']'] (-1)).head? = some d := by
  by_cases h : d = '[' ∧ rest.head? = some ']'
  · obtain ⟨rfl, h2⟩ := h
    cases rest with
    | nil => simp at h2
    | cons e rest =>
      simp only [List.head?_cons, Option.some.injEq] at h2
      subst h2
      rw [replace_brackets_pair]
      rfl
  · rw [replace_brackets_cons d rest h]
    rfl

theorem replace_brackets_idem :
    ∀ s : GoString,
      stringsReplace (stringsReplace s ['[', ']'] ['[', 'a', ']'] (-1)) ['[', ']']
          ['[', 'a', ']'] (-1)
        = stringsReplace s ['[', ']'] ['[', 'a', ']'] (-1)
  | [] => rfl
  | [c] => by
    rw [replace_brackets_cons c [] (by simp), replace_brackets_nil,
      replace_brackets_cons c [] (by simp), replace_brackets_nil]
  | c :: d :: rest => by
    by_cases h : c = '[' ∧ d = ']'
    · obtain ⟨rfl, rfl⟩ := h
      rw [replace_brackets_pair, replace_brackets_cons '[' _ (by simp),
        replace_brackets_cons 'a' _ (by simp), replace_brackets_cons ']' _ (by simp),
        replace_brackets_idem rest]
    · rw [replace_brackets_cons c (d :: rest) (by simpa using h),
        replace_brackets_cons c _ (by rw [replace_brackets_head]; simpa using h),
        replace_brackets_idem (d :: rest)]

theorem replace_brackets_colon :
    ∀ head value : GoString,
      stringsReplace (head ++ ':' :: value) ['[', ']'] ['[', 'a', ']'] (-1)
        = stringsReplace head ['[', ']'] ['[', 'a', ']'] (-1)
          ++ ':' :: stringsReplace value ['[', ']'] ['[', 'a', ']'] (-1)
  | [], value => by
    rw [List.nil_append, replace_brackets_cons ':' value (by simp), replace_brackets_nil,
      List.nil_append]
  | [c], value => by
    rw [List.singleton_append, replace_brackets_cons c (':' :: value) (by simp),
      replace_brackets_cons c [] (by simp), replace_brackets_nil,
      replace_brackets_cons ':' value (by simp)]
    rfl
  | c :: d :: rest, value => by
    by_cases h : c = '[' ∧ d = ']'
    · obtain ⟨rfl, rfl⟩ := h
      rw [List.cons_append, List.cons_append, replace_brackets_pair, replace_brackets_pair,
        replace_brackets_colon rest value]
      rfl
    · rw [List.cons_append, replace_brackets_cons c (d :: rest ++ ':' :: value)
          (by simpa using h),
        replace_brackets_cons c (d :: rest) (by simpa using h),
        replace_brackets_colon (d :: rest) value]
      rfl

theorem fieldsFuncAux_ne_nil (f : Char → Bool) :
    ∀ (s cur : GoString), ∀ t ∈ stringsFieldsFuncAux f s cur, t ≠ []
  | [], cur, t, ht => by
    unfold stringsFieldsFuncAux at ht
    split at ht
    · simp at ht
    · rename_i hcur
      simp only [List.mem_singleton] at ht
      subst ht
      simpa using hcur
  | c :: cs, cur, t, ht => by
    unfold stringsFieldsFuncAux at ht
    split at ht
    · split at ht
      · exact fieldsFuncAux_ne_nil f cs [] t ht
      · rename_i hcur
        simp only [List.mem_cons] at ht
        rcases ht with rfl | ht
        · simpa using hcur
        · exact fieldsFuncAux_ne_nil f cs [] t ht
    · exact fieldsFuncAux_ne_nil f cs (c :: cur) t ht

theorem fieldsFunc_ne_nil (f : Char → Bool) (s : GoString) :
    ∀ t ∈ stringsFieldsFunc s f, t ≠ [] :=
  fieldsFuncAux_ne_nil f s []

theorem takeWhile_ne_colon (head value : GoString) (h : ':' ∉ head) :
    (head ++ ':' :: value).takeWhile (fun c => c != ':') = head := by
  have := span_ne_colon head value h
  rw [List.span_eq_take_drop] at this
  exact congrArg Prod.fst this

theorem validateTypeClass_ne_wildcard (tc : GoString) :
    validateTypeClass tc ≠ "a".toList := by
  unfold validateTypeClass
  split
  · decide
  · assumption

/-- C23 fails in the code: the replacement of `[]` by `[a]` that fills empty
type classes runs on the whole filter string, the value included.  For every
value, the parse of `title:` followed by the value carries the value with every
`[]` replaced by `[a]`; the filter string `title:[]` gets the Value `[a]`
instead of `[]`. -/
theorem NewQueryFilter_rewrites_brackets_in_value (value : GoString) :
    NewQueryFilter ("title:".toList ++ value)
        = (some { SearchLabel := "title".toList,
                  Value := stringsReplace value "[]".toList "[a]".toList (-1) }, none)
      ∧ NewQueryFilter "title:[]".toList
        = (some { SearchLabel := "title".toList, Value := "[a]".toList }, none)
      ∧ "[a]".toList ≠ "[]".toList := by
  refine ⟨?_, by decide, by decide⟩
  have hrep : stringsReplace ("title:".toList ++ value) ['[', ']'] ['[', 'a', ']'] (-1)
      = "title".toList ++ ':' :: stringsReplace value ['[', ']'] ['[', 'a', ']'] (-1) := by
    have := replace_brackets_colon "title".toList value
    rw [replace_brackets_id "title".toList (by decide)] at this
    exact this
  rw [NewQueryFilter_of_fields _ _ _ hrep (by decide)]
  rfl

/-- C24, amended: for every filter string that contains a colon, take the
string with every `[]` replaced by `[a]`; when its head (the text before its
first colon) yields zero tokens or more than six tokens, NewQueryFilter returns
no error and a filter in which only Value, the text after that colon, is
populated. -/
theorem NewQueryFilter_other_token_counts (filter head value : GoString)
    (hsplit : stringsReplace filter "[]".toList "[a]".toList (-1) = head ++ ':' :: value)
    (hhead : ':' ∉ head)
    (hcount : (stringsFieldsFunc head qfSplit).length = 0
      ∨ 6 < (stringsFieldsFunc head qfSplit).length) :
    NewQueryFilter filter = (some { Value := value }, none) := by
  rw [NewQueryFilter_of_fields filter head value hsplit hhead]
  split <;> rename_i heq <;> first
    | rfl
    | (rw [heq] at hcount
       simp only [List.length_cons, List.length_nil] at hcount
       omega)

/-- C24, amended, on a head without tokens and on a head with eight tokens. -/
theorem NewQueryFilter_other_token_counts_witness :
    NewQueryFilter ":v".toList = (some { Value := "v".toList }, none)
      ∧ NewQueryFilter "[a]b[c]d[e]f[g]h:v".toList = (some { Value := "v".toList }, none) :=
  ⟨NewQueryFilter_other_token_counts ":v".toList [] "v".toList (by decide) (by decide)
      (Or.inl (by decide)),
    NewQueryFilter_other_token_counts "[a]b[c]d[e]f[g]h:v".toList "[a]b[c]d[e]f[g]h".toList
      "v".toList (by decide) (by decide) (Or.inr (by decide))⟩

/-- C24, as stated, fails: the head of `[]:v` is `[]`, which splits on the
brackets into zero tokens, yet NewQueryFilter first rewrites `[]` to `[a]`, reads
the token a, and populates SearchLabel with it. -/
theorem NewQueryFilter_empty_bracket_head_counterexample :
    ':' ∈ "[]:v".toList
      ∧ "[]:v".toList.takeWhile (fun c => c != ':') = "[]".toList
      ∧ (stringsFieldsFunc "[]".toList qfSplit).length = 0
      ∧ NewQueryFilter "[]:v".toList
        = (some { SearchLabel := "a".toList, Value := "v".toList }, none) := by
  decide

/-- The head and the value of a filter string with a colon, after the empty
brackets are filled. -/
theorem NewQueryFilter_head (filter : GoString) (h : ':' ∈ filter) :
    ∃ head value,
      stringsReplace filter ['[', ']'] ['[', 'a', ']'] (-1) = head ++ ':' :: value
        ∧ ':' ∉ head
        ∧ (stringsReplace filter ['[', ']'] ['[', 'a', ']'] (-1)).takeWhile
            (fun c => c != ':') = head := by
  obtain ⟨head, value, e, hh⟩ := exists_first_colon _ ((mem_colon_replace_brackets filter).mpr h)
  exact ⟨head, value, e, hh, by rw [e, takeWhile_ne_colon head value hh]⟩

theorem NewQueryFilter_no_colon (filter : GoString) (h : ':' ∉ filter) :
    NewQueryFilter filter
      = (none, some (GoError.noQueryField
          (stringsReplace filter ['[', ']'] ['[', 'a', ']'] (-1)))) := by
  have h' : ':' ∉ stringsReplace filter ['[', ']'] ['[', 'a', ']'] (-1) :=
    fun e => h ((mem_colon_replace_brackets filter).mp e)
  have hs := splitN_no_colon _ h'
  have hs' : stringsSplitN ':' 2 (stringsReplace filter "[]".toList "[a]".toList (-1))
      = [stringsReplace filter "[]".toList "[a]".toList (-1)] := hs
  simp only [NewQueryFilter, hs']
  rfl

/-- C25: no TypeClass of a filter that NewQueryFilter returns, the filter's
own, Level2's or Level1's, is the wildcard a; and parsing a string with every
`[]` replaced by `[a]` gives the same result as parsing the string. -/
theorem NewQueryFilter_wildcard_normalized (filter : GoString) :
    (∀ qf, (NewQueryFilter filter).1 = some qf →
        qf.TypeClass ≠ "a".toList
          ∧ (∀ l2, qf.Level2 = some l2 → l2.TypeClass ≠ "a".toList)
          ∧ (∀ l1, qf.Level1 = some l1 → l1.TypeClass ≠ "a".toList))
      ∧ NewQueryFilter (stringsReplace filter "[]".toList "[a]".toList (-1))
        = NewQueryFilter filter := by
  constructor
  · intro qf hqf
    by_cases h : ':' ∈ filter
    · obtain ⟨head, value, e, hh, -⟩ := NewQueryFilter_head filter h
      rw [NewQueryFilter_of_fields filter head value e hh] at hqf
      have hv := validateTypeClass_ne_wildcard
      have ha : ([] : GoString) ≠ "a".toList := by decide
      split at hqf <;> simp only [Option.some.injEq] at hqf <;> subst hqf <;>
        refine ⟨?_, ?_, ?_⟩ <;>
        first
          | exact hv _
          | exact ha
          | (intro l hl
             cases hl
             first | exact hv _ | exact ha)
          | (intro l hl
             cases hl)
    · rw [NewQueryFilter_no_colon filter h] at hqf
      exact absurd hqf (by simp)
  · have hid := replace_brackets_idem filter
    have hid' : stringsReplace (stringsReplace filter "[]".toList "[a]".toList (-1))
        "[]".toList "[a]".toList (-1)
          = stringsReplace filter "[]".toList "[a]".toList (-1) := hid
    simp only [NewQueryFilter, hid']

/-- C25 on `[]x[a]title:v`: the empty bracket and the wildcard both give an
empty TypeClass, and `[a]x[a]title:v` parses to the same filter. -/
theorem NewQueryFilter_wildcard_normalized_witness :
    NewQueryFilter "[]x[a]title:v".toList
        = (some { SearchLabel := "title".toList, Value := "v".toList,
                  Level2 := some { SearchLabel := "x".toList } }, none)
      ∧ ([] : GoString) ≠ "a".toList
      ∧ NewQueryFilter "[a]x[a]title:v".toList = NewQueryFilter "[]x[a]title:v".toList :=
  ⟨by decide,
    ((NewQueryFilter_wildcard_normalized "[]x[a]title:v".toList).1
      { SearchLabel := "title".toList, Value := "v".toList,
        Level2 := some { SearchLabel := "x".toList } } (by decide)).1,
    (NewQueryFilter_wildcard_normalized "[]x[a]title:v".toList).2⟩

/-- C26, amended: a QueryFilter that NewQueryFilter returns without error has a
non-empty SearchLabel exactly when the head of the filter string (the text
before the first colon, after every `[]` has been replaced by `[a]`) yields
between one and six tokens. -/
theorem NewQueryFilter_SearchLabel_nonempty_iff (filter : GoString) (qf : QueryFilter)
    (hok : NewQueryFilter filter = (some qf, none)) :
    qf.SearchLabel ≠ []
      ↔ 1 ≤ (stringsFieldsFunc
              ((stringsReplace filter "[]".toList "[a]".toList (-1)).takeWhile
                (fun c => c != ':')) qfSplit).length
          ∧ (stringsFieldsFunc
              ((stringsReplace filter "[]".toList "[a]".toList (-1)).takeWhile
                (fun c => c != ':')) qfSplit).length ≤ 6 := by
  by_cases h : ':' ∈ filter
  · obtain ⟨head, value, e, hh, ht⟩ := NewQueryFilter_head filter h
    have ht' : (stringsReplace filter "[]".toList "[a]".toList (-1)).takeWhile
        (fun c => c != ':') = head := ht
    rw [ht']
    rw [NewQueryFilter_of_fields filter head value e hh] at hok
    have hne := fieldsFunc_ne_nil qfSplit head
    split at hok <;> rename_i heq <;>
      simp only [Prod.mk.injEq, Option.some.injEq, and_true] at hok <;> subst hok
    · rw [heq] at hne ⊢
      exact ⟨fun _ => by simp, fun _ => hne _ (by simp)⟩
    · rw [heq] at hne ⊢
      exact ⟨fun _ => by simp, fun _ => hne _ (by simp)⟩
    · rw [heq] at hne ⊢
      exact ⟨fun _ => by simp, fun _ => hne _ (by simp)⟩
    · rw [heq] at hne ⊢
      exact ⟨fun _ => by simp, fun _ => hne _ (by simp)⟩
    · rw [heq] at hne ⊢
      exact ⟨fun _ => by simp, fun _ => hne _ (by simp)⟩
    · rw [heq] at hne ⊢
      exact ⟨fun _ => by simp, fun _ => hne _ (by simp)⟩
    · simp only [ne_eq, not_true_eq_false, false_iff, not_and, not_le]
      intro h1
      rename_i x n1 n2 n3 n4 n5
      rcases hl : stringsFieldsFunc head qfSplit with _ | ⟨p0, _ | ⟨p1, _ | ⟨p2, _ | ⟨p3, _ |
        ⟨p4, _ | ⟨p5, _ | ⟨p6, rest⟩⟩⟩⟩⟩⟩⟩
      · rw [hl] at h1; simp at h1
      · exact absurd hl (n1 p0)
      · exact absurd hl (n2 p0 p1)
      · exact absurd hl (n3 p0 p1 p2)
      · exact absurd hl (n4 p0 p1 p2 p3)
      · exact absurd hl (n5 p0 p1 p2 p3 p4)
      · exact absurd hl (heq p0 p1 p2 p3 p4 p5)
      · simp only [List.length_cons]
        omega
  · rw [NewQueryFilter_no_colon filter h] at hok
    exact absurd hok (by simp)

/-- C26, amended, on `spec:demo`: one token, SearchLabel spec. -/
theorem NewQueryFilter_SearchLabel_nonempty_iff_witness :
    ("spec".toList ≠ []
      ↔ 1 ≤ (stringsFieldsFunc
              ((stringsReplace "spec:demo".toList "[]".toList "[a]".toList (-1)).takeWhile
                (fun c => c != ':')) qfSplit).length
          ∧ (stringsFieldsFunc
              ((stringsReplace "spec:demo".toList "[]".toList "[a]".toList (-1)).takeWhile
                (fun c => c != ':')) qfSplit).length ≤ 6)
      ∧ NewQueryFilter "spec:demo".toList
        = (some { SearchLabel := "spec".toList, Value := "demo".toList }, none) :=
  ⟨NewQueryFilter_SearchLabel_nonempty_iff "spec:demo".toList
      { SearchLabel := "spec".toList, Value := "demo".toList } (by decide),
    by decide⟩

/-- C26, as stated, fails: `:v` parses without error to a filter whose
SearchLabel is empty, and so does a filter string with eight tokens. -/
theorem NewQueryFilter_empty_SearchLabel_counterexample :
    NewQueryFilter ":v".toList = (some { Value := "v".toList }, none)
      ∧ ({ Value := "v".toList } : QueryFilter).SearchLabel = []
      ∧ NewQueryFilter "[a]b[c]d[e]f[g]h:v".toList = (some { Value := "v".toList }, none) := by
  decide

/-- C27: every QueryFilter that NewQueryFilter returns has Level1 only when it
has Level2, and each level it has carries a non-empty SearchLabel. -/
theorem NewQueryFilter_ancestor_chain (filter : GoString) (qf : QueryFilter)
    (hqf : (NewQueryFilter filter).1 = some qf) :
    (qf.Level1 ≠ none → qf.Level2 ≠ none)
      ∧ (∀ l2, qf.Level2 = some l2 → l2.SearchLabel ≠ [])
      ∧ (∀ l1, qf.Level1 = some l1 → l1.SearchLabel ≠ []) := by
  by_cases h : ':' ∈ filter
  · obtain ⟨head, value, e, hh, -⟩ := NewQueryFilter_head filter h
    rw [NewQueryFilter_of_fields filter head value e hh] at hqf
    have hne := fieldsFunc_ne_nil qfSplit head
    split at hqf <;> rename_i heq <;> simp only [Option.some.injEq] at hqf <;> subst hqf <;>
      (try rw [heq] at hne) <;>
      refine ⟨by simp, ?_, ?_⟩ <;>
      intro l hl <;>
      first
        | (cases hl
           apply hne
           simp)
        | cases hl
  · rw [NewQueryFilter_no_colon filter h] at hqf
    exact absurd hqf (by simp)

/-- C27 on `[a]x[b]y[c]z:v`: five tokens, Level1 x and Level2 y. -/
theorem NewQueryFilter_ancestor_chain_witness :
    NewQueryFilter "[a]x[b]y[c]z:v".toList
        = (some { SearchLabel := "z".toList, TypeClass := "c".toList, Value := "v".toList,
                  Level2 := some { SearchLabel := "y".toList, TypeClass := "b".toList },
                  Level1 := some { SearchLabel := "x".toList } }, none)
      ∧ "y".toList ≠ [] ∧ "x".toList ≠ [] :=
  ⟨by decide,
    (NewQueryFilter_ancestor_chain "[a]x[b]y[c]z:v".toList
      { SearchLabel := "z".toList, TypeClass := "c".toList, Value := "v".toList,
        Level2 := some { SearchLabel := "y".toList, TypeClass := "b".toList },
        Level1 := some { SearchLabel := "x".toList } } (by decide)).2.1
      { SearchLabel := "y".toList, TypeClass := "b".toList } rfl,
    (NewQueryFilter_ancestor_chain "[a]x[b]y[c]z:v".toList
      { SearchLabel := "z".toList, TypeClass := "c".toList, Value := "v".toList,
        Level2 := some { SearchLabel := "y".toList, TypeClass := "b".toList },
        Level1 := some { SearchLabel := "x".toList } } (by decide)).2.2
      { SearchLabel := "x".toList } rfl⟩

/-! ## Filter-to-query translation -/

theorem exists_first_sep (sep : Char) (t : GoString) (h : sep ∈ t) :
    ∃ pre rest, t = pre ++ sep :: rest ∧ sep ∉ pre := by
  induction t with
  | nil => simp at h
  | cons c cs ih =>
    by_cases hc : c = sep
    · exact ⟨[], cs, by simp [hc], by simp⟩
    · have hcs : sep ∈ cs := by
        rcases List.mem_cons.mp h with e | e
        · exact absurd e.symm hc
        · exact e
      obtain ⟨pre, rest, e, hh⟩ := ih hcs
      refine ⟨c :: pre, rest, by simp [e], ?_⟩
      intro hm
      rcases List.mem_cons.mp hm with e' | e'
      · exact hc e'.symm
      · exact hh e'

theorem span_sep (sep : Char) (pre rest : GoString) (h : sep ∉ pre) :
    (pre ++ sep :: rest).span (fun c => c != sep) = (pre, sep :: rest) := by
  have hp : ∀ a ∈ pre, (fun c => c != sep) a = true := by
    intro a ha
    simp only [bne_iff_ne, ne_eq]
    rintro rfl
    exact h ha
  rw [List.span_eq_take_drop, List.takeWhile_append_of_pos hp, List.dropWhile_append_of_pos hp]
  simp

theorem span_no_sep (sep : Char) (t : GoString) (h : sep ∉ t) :
    t.span (fun c => c != sep) = (t, []) := by
  have hp : ∀ a ∈ t, (fun c => c != sep) a = true := by
    intro a ha
    simp only [bne_iff_ne, ne_eq]
    rintro rfl
    exact h ha
  rw [List.span_eq_take_drop, List.takeWhile_eq_self_iff.mpr hp,
    List.dropWhile_eq_nil_iff.mpr hp]

theorem TypeClassAsURI_error_iff (cfg : Config) (uri : GoString) :
    (TypeClassAsURI cfg uri).2 ≠ none ↔ unresolvable cfg uri := by
  unfold unresolvable
  by_cases h : '_' ∈ uri
  · obtain ⟨pre, label, e, hp⟩ := exists_first_sep '_' uri h
    have hs : stringsSplitN '_' 2 uri = [pre, label] := by
      simp only [stringsSplitN, e, span_sep '_' pre label hp]
    have ht : uri.takeWhile (fun c => c != '_') = pre := by
      have := span_sep '_' pre label hp
      rw [List.span_eq_take_drop] at this
      rw [e]
      exact congrArg Prod.fst this
    simp only [TypeClassAsURI, hs, ht, h, not_true_eq_false, false_or]
    cases hb : cfg.GetBaseURI pre with
    | none => simp
    | some base =>
      simp only [reduceCtorEq, iff_false, ne_eq, not_not]
      split <;> rfl
  · have hs : stringsSplitN '_' 2 uri = [uri] := by
      simp only [stringsSplitN, span_no_sep '_' uri h]
    simp only [TypeClassAsURI, hs, h, not_false_eq_true, true_or, iff_true]
    simp

/-- C22: ElasticFilter returns an error exactly when a type class it must
resolve is unresolvable, that is, when the filter's own non-empty TypeClass, or
the non-empty TypeClass of a present Level2, contains no underscore or has a
prefix unknown to the namespace registry; with or without error it returns the
nested query over resources. -/
theorem ElasticFilter_error_iff (cfg : Config) (qf : QueryFilter) :
    ((qf.ElasticFilter cfg).2 ≠ none
      ↔ (qf.TypeClass ≠ [] ∧ unresolvable cfg qf.TypeClass)
          ∨ ∃ level2, qf.Level2 = some level2 ∧ level2.TypeClass ≠ []
              ∧ unresolvable cfg level2.TypeClass)
    ∧ ∃ query, (qf.ElasticFilter cfg).1 = EsQuery.nested "resources".toList query := by
  have key : ∀ tc : GoString, (∃ u, TypeClassAsURI cfg tc = (u, none) ∧ ¬ unresolvable cfg tc)
      ∨ (∃ u err, TypeClassAsURI cfg tc = (u, some err) ∧ unresolvable cfg tc) := by
    intro tc
    have hiff := TypeClassAsURI_error_iff cfg tc
    rcases hr : TypeClassAsURI cfg tc with ⟨u, _ | err⟩
    · left
      rw [hr] at hiff
      exact ⟨u, rfl, fun hu => absurd rfl (hiff.mpr hu)⟩
    · right
      rw [hr] at hiff
      exact ⟨u, err, rfl, hiff.mp (by simp)⟩
  unfold QueryFilter.ElasticFilter
  by_cases h1 : qf.TypeClass = []
  · cases h2 : qf.Level2 with
    | none => simp [h1]
    | some level2 =>
      by_cases h3 : level2.TypeClass = []
      · simp [h1, h3]
      · rcases key level2.TypeClass with ⟨u, hu, hn⟩ | ⟨u, err, hu, hy⟩
        · simp [h1, h3, hu, hn]
        · simp [h1, h3, hu, hy]
  · rcases key qf.TypeClass with ⟨u, hu, hn⟩ | ⟨u, err, hu, hy⟩
    · cases h2 : qf.Level2 with
      | none => simp [h1, hu, hn]
      | some level2 =>
        by_cases h3 : level2.TypeClass = []
        · simp [h1, h3, hu, hn]
        · rcases key level2.TypeClass with ⟨u2, hu2, hn2⟩ | ⟨u2, err2, hu2, hy2⟩
          · simp [h1, h3, hu, hn, hu2, hn2]
          · simp [h1, h3, hu, hn, hu2, hy2]
    · simp [h1, hu, hy]

/-- C22 with the registry that knows rdf and dc: the prefix foo is unknown, and
a Level2 type class without underscore is malformed. -/
theorem ElasticFilter_error_iff_witness :
    (QueryFilter.ElasticFilter refConfig
        { SearchLabel := "title".toList, TypeClass := "foo_type".toList,
          Value := "x".toList }).2 ≠ none
      ∧ (QueryFilter.ElasticFilter refConfig
          { SearchLabel := "title".toList, TypeClass := "rdf_type".toList, Value := "x".toList,
            Level2 := some { SearchLabel := "creator".toList,
                             TypeClass := "person".toList } }).2 ≠ none
      ∧ (QueryFilter.ElasticFilter refConfig
          { SearchLabel := "title".toList, TypeClass := "rdf_type".toList,
            Value := "x".toList }).2 = none :=
  ⟨(ElasticFilter_error_iff refConfig
      { SearchLabel := "title".toList, TypeClass := "foo_type".toList,
        Value := "x".toList }).1.mpr
      (Or.inl ⟨by decide, by unfold unresolvable; exact Or.inr (by decide)⟩),
    (ElasticFilter_error_iff refConfig
      { SearchLabel := "title".toList, TypeClass := "rdf_type".toList, Value := "x".toList,
        Level2 := some { SearchLabel := "creator".toList,
                         TypeClass := "person".toList } }).1.mpr
      (Or.inr ⟨{ SearchLabel := "creator".toList, TypeClass := "person".toList }, rfl,
        by decide, by unfold unresolvable; exact Or.inl (by decide)⟩),
    rfl⟩

/-! ## BreadCrumbBuilder: the hrefs -/

theorem clearLast_href : ∀ l : List BreadCrumb,
    (clearLast l).map (fun bc => bc.Href) = l.map (fun bc => bc.Href)
  | [] => rfl
  | [a] => rfl
  | a :: b :: l => by
    rw [clearLast, List.map_cons, clearLast_href (b :: l), List.map_cons, List.map_cons,
      List.map_cons]

theorem stringsJoin_append_singleton (sep x : GoString) :
    ∀ l : List GoString, l ≠ [] →
      stringsJoin (l ++ [x]) sep = stringsJoin l sep ++ sep ++ x
  | [], h => absurd rfl h
  | [a], _ => by simp [stringsJoin, List.intercalate]
  | a :: b :: l, _ => by
    have ih := stringsJoin_append_singleton sep x (b :: l) (by simp)
    simp only [stringsJoin, List.intercalate, List.cons_append, List.intersperse_cons_cons,
      List.flatten_cons, List.append_assoc] at ih ⊢
    rw [ih]

theorem AppendBreadCrumb_filter_href (bcb : BreadCrumbBuilder) (qf : QueryFilter) :
    (bcb.AppendBreadCrumb "qf[]".toList qf).crumbs.map (fun bc => bc.Href)
        = bcb.crumbs.map (fun bc => bc.Href)
          ++ [if bcb.GetPath ≠ [] then
                bcb.GetPath ++ "&".toList
                  ++ ("qf[]=".toList ++ (qf.SearchLabel ++ ":".toList ++ qf.Value))
              else "qf[]=".toList ++ (qf.SearchLabel ++ ":".toList ++ qf.Value)]
      ∧ (bcb.AppendBreadCrumb "qf[]".toList qf).hrefPath
        = bcb.hrefPath ++ ["qf[]=".toList ++ (qf.SearchLabel ++ ":".toList ++ qf.Value)] := by
  unfold BreadCrumbBuilder.AppendBreadCrumb
  have hp : ¬ "qf[]".toList = "query".toList := by decide
  obtain ⟨hrefPath, crumbs⟩ := bcb
  cases crumbs with
  | nil =>
    simp only [if_neg hp, if_true, BreadCrumbBuilder.GetLast, List.getLast?_nil, List.map_append]
    constructor
    · split_ifs <;> rfl
    · trivial
  | cons a l =>
    simp only [if_neg hp, if_true, BreadCrumbBuilder.GetLast, List.getLast?_cons,
      List.map_append, clearLast_href]
    constructor
    · split_ifs <;> rfl
    · trivial

theorem AppendBreadCrumb_query_href (bcb : BreadCrumbBuilder) (qf : QueryFilter)
    (hv : qf.Value ≠ []) :
    (bcb.AppendBreadCrumb "query".toList qf).crumbs.map (fun bc => bc.Href)
        = bcb.crumbs.map (fun bc => bc.Href) ++ ["q=".toList ++ qf.Value]
      ∧ (bcb.AppendBreadCrumb "query".toList qf).hrefPath
        = bcb.hrefPath ++ ["q=".toList ++ qf.Value] := by
  unfold BreadCrumbBuilder.AppendBreadCrumb
  obtain ⟨hrefPath, crumbs⟩ := bcb
  cases crumbs with
  | nil =>
    simp only [if_true, if_pos hv, BreadCrumbBuilder.GetLast, List.getLast?_nil, List.map_append]
    exact ⟨rfl, trivial⟩
  | cons a l =>
    simp only [if_true, if_pos hv, BreadCrumbBuilder.GetLast, List.getLast?_cons,
      List.map_append, clearLast_href]
    exact ⟨rfl, trivial⟩

/-- The loop of NewUserQuery from a builder whose path is non-empty. -/
theorem NewUserQuery_loop_hrefs :
    ∀ (qfs : List QueryFilter) (bcb : BreadCrumbBuilder),
      bcb.hrefPath ≠ [] → bcb.GetPath ≠ [] →
      (NewUserQuery.loop bcb qfs).crumbs.map (fun bc => bc.Href)
        = bcb.crumbs.map (fun bc => bc.Href)
            ++ laterHrefs bcb.GetPath
                (qfs.map (fun qf =>
                  "qf[]=".toList ++ (qf.SearchLabel ++ ":".toList ++ qf.Value)))
  | [], bcb, _, _ => by simp [NewUserQuery.loop, laterHrefs]
  | qf :: rest, bcb, hpath, hget => by
    obtain ⟨hcr, hhp⟩ := AppendBreadCrumb_filter_href bcb qf
    have hget' : (bcb.AppendBreadCrumb "qf[]".toList qf).GetPath
        = bcb.GetPath ++ "&".toList
            ++ ("qf[]=".toList ++ (qf.SearchLabel ++ ":".toList ++ qf.Value)) := by
      unfold BreadCrumbBuilder.GetPath
      rw [hhp, stringsJoin_append_singleton _ _ _ hpath]
    have hne : (bcb.AppendBreadCrumb "qf[]".toList qf).GetPath ≠ [] := by
      rw [hget']
      simp
    have hne' : (bcb.AppendBreadCrumb "qf[]".toList qf).hrefPath ≠ [] := by
      rw [hhp]
      simp
    rw [NewUserQuery.loop, NewUserQuery_loop_hrefs rest _ hne' hne, hcr, if_pos hget, hget',
      List.map_cons, laterHrefs, List.append_assoc, List.singleton_append]

/-- C21: in the trail built by NewUserQuery the hrefs of the crumbs are the
accumulated hrefs of the crumbs' own parameters, `q=<query>` for the free-text
query when it is non-empty and `qf[]=<label>:<value>` for each filter in list
order: the first href is the first crumb's own parameter, every later href is
the href of the crumb before it, an ampersand, and the crumb's own parameter. -/
theorem NewUserQuery_hrefs (sr : SearchRequest) :
    (sr.NewUserQuery).1.BreadCrumbs.map (fun bc => bc.Href)
      = accumulatedHrefs
          ((if sr.Query ≠ [] then ["q=".toList ++ sr.Query] else [])
            ++ sr.QueryFilter.map
                (fun qf => "qf[]=".toList ++ (qf.SearchLabel ++ ":".toList ++ qf.Value))) := by
  unfold SearchRequest.NewUserQuery
  simp only
  by_cases hq : sr.Query = []
  · have hq' : ¬ sr.Query ≠ [] := fun h => h hq
    rw [if_neg hq', if_neg hq', List.nil_append]
    cases hf : sr.QueryFilter with
    | nil => rfl
    | cons qf rest =>
      obtain ⟨hcr, hhp⟩ := AppendBreadCrumb_filter_href {} qf
      have hget' : (BreadCrumbBuilder.AppendBreadCrumb {} "qf[]".toList qf).GetPath
          = "qf[]=".toList ++ (qf.SearchLabel ++ ":".toList ++ qf.Value) := by
        unfold BreadCrumbBuilder.GetPath
        rw [hhp]
        simp [stringsJoin, List.intercalate]
      have hne : (BreadCrumbBuilder.AppendBreadCrumb {} "qf[]".toList qf).GetPath ≠ [] := by
        rw [hget']
        simp
      have hne' : (BreadCrumbBuilder.AppendBreadCrumb {} "qf[]".toList qf).hrefPath ≠ [] := by
        rw [hhp]
        simp
      rw [NewUserQuery.loop, NewUserQuery_loop_hrefs rest _ hne' hne, hcr, hget']
      rfl
  · have hq' : sr.Query ≠ [] := hq
    rw [if_pos hq', if_pos hq']
    obtain ⟨hcr, hhp⟩ := AppendBreadCrumb_query_href {} { Value := sr.Query } hq'
    have hget' : (BreadCrumbBuilder.AppendBreadCrumb {} "query".toList
        { Value := sr.Query }).GetPath = "q=".toList ++ sr.Query := by
      unfold BreadCrumbBuilder.GetPath
      rw [hhp]
      simp [stringsJoin, List.intercalate]
    have hne : (BreadCrumbBuilder.AppendBreadCrumb {} "query".toList
        { Value := sr.Query }).GetPath ≠ [] := by
      rw [hget']
      simp
    have hne' : (BreadCrumbBuilder.AppendBreadCrumb {} "query".toList
        { Value := sr.Query }).hrefPath ≠ [] := by
      rw [hhp]
      simp
    rw [NewUserQuery_loop_hrefs _ _ hne' hne, hcr, hget']
    rfl

/-- C21 on the request with Query cats and the filters dc_title:x and
tree.type:series. -/
theorem NewUserQuery_hrefs_witness :
    (SearchRequest.NewUserQuery
        { Query := "cats".toList,
          QueryFilter :=
            [{ SearchLabel := "dc_title".toList, Value := "x".toList },
             { SearchLabel := "tree.type".toList, Value := "series".toList }] }).1.BreadCrumbs.map
        (fun bc => bc.Href)
      = ["q=cats".toList, "q=cats&qf[]=dc_title:x".toList,
         "q=cats&qf[]=dc_title:x&qf[]=tree.type:series".toList] :=
  (NewUserQuery_hrefs
    { Query := "cats".toList,
      QueryFilter :=
        [{ SearchLabel := "dc_title".toList, Value := "x".toList },
         { SearchLabel := "tree.type".toList, Value := "series".toList }] }).trans (by decide)

/-! ## SearchRequest construction: tree navigation -/

theorem param_tree (env : Env) (params : Values) (st st' : LoopState)
    (pv : GoString × List GoString)
    (h : NewSearchRequest.param env params st pv = Except.ok st')
    (htree : pv.1 ∈ treeParameters) :
    st'.1.ResponseSize = st.1.ResponseSize ∧ st'.1.Tree ≠ none := by
  simp only [treeParameters, List.mem_cons, List.mem_singleton, List.not_mem_nil,
    or_false] at htree
  unfold NewSearchRequest.param at h
  dsimp only at h
  rcases htree with hp | hp | hp | hp | hp | hp <;> rw [hp] at h
  · have hc : paramCase "byLeaf".toList = ParamCase.byLeaf := by decide
    rw [hc] at h
    simp only [Except.ok.injEq] at h
    subst h
    exact ⟨rfl, by simp⟩
  · have hc : paramCase "byDepth".toList = ParamCase.byDepth := by decide
    rw [hc] at h
    simp only [Except.ok.injEq] at h
    subst h
    exact ⟨rfl, by simp⟩
  · have hc : paramCase "byChildCount".toList = ParamCase.byChildCount := by decide
    rw [hc] at h
    simp only [Except.ok.injEq] at h
    subst h
    exact ⟨rfl, by simp⟩
  · have hc : paramCase "byParent".toList = ParamCase.byParent := by decide
    rw [hc] at h
    simp only [Except.ok.injEq] at h
    subst h
    exact ⟨rfl, by simp⟩
  · have hc : paramCase "byType".toList = ParamCase.byType := by decide
    rw [hc] at h
    simp only [Except.ok.injEq] at h
    subst h
    exact ⟨rfl, by simp⟩
  · have hc : paramCase "byLabel".toList = ParamCase.byLabel := by decide
    rw [hc] at h
    simp only [Except.ok.injEq] at h
    subst h
    exact ⟨rfl, by simp⟩

theorem rows_not_tree : "rows".toList ∉ treeParameters := by decide

/-- One iteration of the parameter loop: the response size changes only at
rows, and the tree, once attached, stays attached. -/
theorem param_step (env : Env) (params : Values) (st st' : LoopState)
    (pv : GoString × List GoString)
    (h : NewSearchRequest.param env params st pv = Except.ok st') :
    (pv.1 ≠ "rows".toList → st'.1.ResponseSize = st.1.ResponseSize)
      ∧ (pv.1 = "rows".toList →
          st'.1.ResponseSize
            = wrapInt32 (if (strconvAtoi (params.Get "rows".toList)).1 > 1000 then 1000
                else (strconvAtoi (params.Get "rows".toList)).1))
      ∧ (st.1.Tree ≠ none → st'.1.Tree ≠ none)
      ∧ (pv.1 ∈ treeParameters → st'.1.Tree ≠ none) := by
  by_cases hr : pv.1 = "rows".toList
  · have hok := param_rows_ok env params st st' pv h hr
    have hat : strconvAtoi (params.Get "rows".toList)
        = ((strconvAtoi (params.Get "rows".toList)).1, none) := by
      rw [← hok]
    have hs := param_rows env params st st' pv _ h hr hat
    refine ⟨fun hne => absurd hr hne, fun _ => hs.1, fun ht => by rw [hs.2]; exact ht, ?_⟩
    intro ht
    rw [hr] at ht
    exact absurd ht rows_not_tree
  · by_cases ht : pv.1 ∈ treeParameters
    · have hs := param_tree env params st st' pv h ht
      exact ⟨fun _ => hs.1, fun e => absurd e hr, fun _ => hs.2, fun _ => hs.2⟩
    · have hs := param_frame env params st st' pv h hr ht
      exact ⟨fun _ => hs.1, fun e => absurd e hr, fun hn => by rw [hs.2]; exact hn,
        fun e => absurd e ht⟩

theorem loop_step (env : Env) (params : Values) :
    ∀ (l : List (GoString × List GoString)) (st st' : LoopState),
      NewSearchRequest.loop env params l st = Except.ok st' →
      ("rows".toList ∉ l.map Prod.fst → st'.1.ResponseSize = st.1.ResponseSize)
        ∧ ("rows".toList ∈ l.map Prod.fst →
            st'.1.ResponseSize
              = wrapInt32 (if (strconvAtoi (params.Get "rows".toList)).1 > 1000 then 1000
                  else (strconvAtoi (params.Get "rows".toList)).1))
        ∧ (st.1.Tree ≠ none → st'.1.Tree ≠ none)
        ∧ ((∃ pv ∈ l, pv.1 ∈ treeParameters) → st'.1.Tree ≠ none)
  | [], st, st', h => by
    simp only [NewSearchRequest.loop, Except.ok.injEq] at h
    subst h
    simp
  | pv :: rest, st, st', h => by
    unfold NewSearchRequest.loop at h
    split at h
    · exact absurd h (by simp)
    · rename_i st1 hstep
      obtain ⟨i1, i2, i3, i4⟩ := loop_step env params rest st1 st' h
      obtain ⟨s1, s2, s3, s4⟩ := param_step env params st st1 pv hstep
      refine ⟨?_, ?_, fun ht => i3 (s3 ht), ?_⟩
      · intro hnot
        simp only [List.map_cons, List.mem_cons, not_or] at hnot
        rw [i1 hnot.2, s1 (fun e => hnot.1 e.symm)]
      · intro hmem
        by_cases hr : "rows".toList ∈ rest.map Prod.fst
        · exact i2 hr
        · simp only [List.map_cons, List.mem_cons] at hmem
          rcases hmem with e | e
          · rw [i1 hr, s2 e.symm]
          · exact absurd e hr
      · rintro ⟨x, hx, hxt⟩
        simp only [List.mem_cons] at hx
        rcases hx with rfl | hx
        · exact i3 (s4 hxt)
        · exact i4 ⟨x, hx, hxt⟩

/-- C28, amended: for every cursor-less parameter set that carries a
tree-navigation parameter and on which NewSearchRequest succeeds, the request
has a TreeQuery and a ResponseSize of 1 or 1000; ResponseSize is 1000 when
there is no rows parameter, and when the rows value reads as an integer
n ≥ -2147483648 it is 1 for n = 1 and 1000 for every other n. -/
theorem NewSearchRequest_tree_response_size (env : Env) (params : Values)
    (sr : SearchRequest)
    (hcursor : NewSearchRequest.hexRequest params = [])
    (htree : ∃ pv ∈ params, pv.1 ∈ treeParameters)
    (hok : NewSearchRequest env params = (some sr, none)) :
    sr.Tree ≠ none
      ∧ (sr.ResponseSize = 1 ∨ sr.ResponseSize = 1000)
      ∧ ("rows".toList ∉ params.map Prod.fst → sr.ResponseSize = 1000)
      ∧ (∀ n : Int, strconvAtoi (params.Get "rows".toList) = (n, none) →
          -2147483648 ≤ n → sr.ResponseSize = if n = 1 then 1 else 1000) := by
  unfold NewSearchRequest at hok
  simp only [hcursor, ne_eq, not_true_eq_false, if_false] at hok
  split at hok
  · simp at hok
  · rename_i sr1 tree1 hloop
    obtain ⟨l1, l2, -, l4⟩ := loop_step env params params _ _ hloop
    have htr : sr1.Tree ≠ none := l4 htree
    have hfinal : sr = if sr1.ResponseSize ≠ 1 then { sr1 with ResponseSize := 1000 }
        else sr1 := by
      by_cases h1 : sr1.ResponseSize = 1
      · simp only [h1, ne_eq, not_true_eq_false, and_false, if_false, Prod.mk.injEq,
          Option.some.injEq, and_true] at hok
        simp only [h1, ne_eq, not_true_eq_false, if_false]
        exact hok.symm
      · simp only [htr, h1, ne_eq, not_false_eq_true, and_self, if_true, Prod.mk.injEq,
          Option.some.injEq, and_true] at hok
        simp only [h1, ne_eq, not_false_eq_true, if_true]
        exact hok.symm
    have hsize : sr.ResponseSize = if sr1.ResponseSize = 1 then 1 else 1000 := by
      rw [hfinal]
      by_cases h1 : sr1.ResponseSize = 1
      · simp [h1]
      · simp [h1]
    have htree' : sr.Tree = sr1.Tree := by
      rw [hfinal]
      split <;> rfl
    refine ⟨by rw [htree']; exact htr, ?_, ?_, ?_⟩
    · rw [hsize]
      split
      · exact Or.inl rfl
      · exact Or.inr rfl
    · intro hno
      rw [hsize, l1 hno]
      rfl
    · intro n hat hn
      have hmem : "rows".toList ∈ params.map Prod.fst := by
        apply mem_keys_of_get_ne_nil
        intro e
        rw [e] at hat
        have h2 : (strconvAtoi []).2 = none := by rw [hat]
        exact absurd h2 (by decide)
      rw [hsize, l2 hmem, hat]
      simp only
      by_cases hbig : n > 1000
      · simp only [hbig, if_true]
        rw [wrapInt32_of_range _ (by omega) (by omega)]
        have : ¬ n = 1 := by omega
        simp [this]
      · simp only [hbig, if_false]
        rw [wrapInt32_of_range _ hn (by omega)]

/-- C28, amended, on byLeaf with rows=5 (ResponseSize 1000) and on byType with
rows=1 (ResponseSize 1). -/
theorem NewSearchRequest_tree_response_size_witness :
    NewSearchRequest refEnv [("byLeaf".toList, ["1~2".toList]), ("rows".toList, ["5".toList])]
        = (some { ResponseSize := 1000, Tree := some { Leaf := "1~2".toList } }, none)
      ∧ NewSearchRequest refEnv [("rows".toList, ["1".toList]), ("byType".toList, ["file".toList])]
        = (some { ResponseSize := 1, Tree := some { Type_ := "file".toList } }, none)
      ∧ ({ ResponseSize := 1000, Tree := some { Leaf := "1~2".toList } } :
          SearchRequest).ResponseSize = (if (5 : Int) = 1 then 1 else 1000)
      ∧ ({ ResponseSize := 1, Tree := some { Type_ := "file".toList } } :
          SearchRequest).ResponseSize = (if (1 : Int) = 1 then 1 else 1000) :=
  ⟨by decide, by decide,
    (NewSearchRequest_tree_response_size refEnv
      [("byLeaf".toList, ["1~2".toList]), ("rows".toList, ["5".toList])]
      { ResponseSize := 1000, Tree := some { Leaf := "1~2".toList } } (by decide)
      ⟨("byLeaf".toList, ["1~2".toList]), by decide, by decide⟩ (by decide)).2.2.2 5
      (by decide) (by decide),
    (NewSearchRequest_tree_response_size refEnv
      [("rows".toList, ["1".toList]), ("byType".toList, ["file".toList])]
      { ResponseSize := 1, Tree := some { Type_ := "file".toList } } (by decide)
      ⟨("byType".toList, ["file".toList]), by decide, by decide⟩ (by decide)).2.2.2 1
      (by decide) (by decide)⟩

/-- C28, as stated, fails: with byLeaf and rows=-4294967295 the rows value is
not 1, yet its conversion to int32 wraps to 1, and NewSearchRequest returns
ResponseSize 1 instead of 1000. -/
theorem NewSearchRequest_tree_rows_wraps_to_one_counterexample :
    NewSearchRequest.hexRequest
        [("rows".toList, ["-4294967295".toList]), ("byLeaf".toList, ["1".toList])] = []
      ∧ strconvAtoi (Values.Get
          [("rows".toList, ["-4294967295".toList]), ("byLeaf".toList, ["1".toList])]
          "rows".toList) = (-4294967295, none)
      ∧ NewSearchRequest refEnv
          [("rows".toList, ["-4294967295".toList]), ("byLeaf".toList, ["1".toList])]
        = (some { ResponseSize := 1, Tree := some { Leaf := "1".toList } }, none) := by
  decide

/-! ## QueryCompiler: what a compile writes to the request -/

theorem stringsSplitAux_ne_nil (sep : Char) :
    ∀ s cur : GoString, stringsSplitAux sep s cur ≠ []
  | [], cur => by simp [stringsSplitAux]
  | c :: cs, cur => by
    unfold stringsSplitAux
    split
    · simp
    · exact stringsSplitAux_ne_nil sep cs (c :: cur)

theorem exactTree_tree (cfg : Config) (tree : TreeQuery) (must : List EsQuery) :
    (ElasticQuery.exactTree cfg tree must).2
      = if 2 ≤ tree.Depth.length then { tree with FillTree := true } else tree := by
  unfold ElasticQuery.exactTree
  simp only
  split
  · rename_i d hd
    rw [hd]
    rfl
  · rename_i hd
    rw [hd]
    rfl
  · rename_i h1 h0
    have hlen : 2 ≤ tree.Depth.length := by
      rcases hd : tree.Depth with _ | ⟨a, _ | ⟨b, rest⟩⟩
      · exact absurd hd h0
      · exact absurd hd (h1 a)
      · simp
    rw [if_pos hlen]

/-- The compile of a request whose SortBy does not start with `random`. -/
theorem ElasticQuery_of_not_random (cfg : Config) (rand : Nat → Nat) (pos : Nat)
    (sr : SearchRequest) (hrandom : stringsHasPrefix sr.SortBy "random".toList = false) :
    sr.ElasticQuery cfg rand pos
      = (match sr.Tree with
        | some tree =>
          if tree.FillTree then
            ((EsQuery.bool
                (ElasticQuery.freeText cfg sr.Query
                    [EsQuery.term "meta.docType".toList cfg.FragmentGraphDocType,
                      EsQuery.term cfg.OrgIDKey cfg.OrgID]
                  ++ [EsQuery.bool [] [] (ElasticQuery.fillTree (stringsSplit tree.Leaf '~'))])
                [] [], none), sr, pos)
          else
            ((EsQuery.bool
                (ElasticQuery.exactTree cfg tree
                  (ElasticQuery.freeText cfg sr.Query
                    [EsQuery.term "meta.docType".toList cfg.FragmentGraphDocType,
                      EsQuery.term cfg.OrgIDKey cfg.OrgID])).1 [] [], none),
              { sr with Tree := some (ElasticQuery.exactTree cfg tree
                  (ElasticQuery.freeText cfg sr.Query
                    [EsQuery.term "meta.docType".toList cfg.FragmentGraphDocType,
                      EsQuery.term cfg.OrgIDKey cfg.OrgID])).2 }, pos)
        | none =>
          ((EsQuery.bool
              (ElasticQuery.freeText cfg sr.Query
                [EsQuery.term "meta.docType".toList cfg.FragmentGraphDocType,
                  EsQuery.term cfg.OrgIDKey cfg.OrgID]) [] [], none), sr, pos)) := by
  unfold SearchRequest.ElasticQuery
  simp only [hrandom, Bool.false_eq_true, if_false]
  cases ht : sr.Tree with
  | none => rfl
  | some tree =>
    cases hf : tree.FillTree with
    | true => simp [hf]
    | false => simp [hf]

/-- C29, amended: ElasticQuery changes no field of the request other than
SortBy and the FillTree flag of its TreeQuery.  SortBy changes only when it
starts with `random` and does not split on the underscore into exactly two
parts; an absent TreeQuery stays absent, and a present one keeps every field
except that FillTree becomes true when SortBy does not start with `random` and
the tree query has two or more depths. -/
theorem ElasticQuery_frame (cfg : Config) (rand : Nat → Nat) (pos : Nat)
    (sr : SearchRequest) :
    { (sr.ElasticQuery cfg rand pos).2.1 with SortBy := sr.SortBy, Tree := sr.Tree } = sr
      ∧ ((sr.ElasticQuery cfg rand pos).2.1.SortBy ≠ sr.SortBy →
          stringsHasPrefix sr.SortBy "random".toList = true
            ∧ (stringsSplit sr.SortBy '_').length ≠ 2)
      ∧ (sr.Tree = none → (sr.ElasticQuery cfg rand pos).2.1.Tree = none)
      ∧ (∀ tree, sr.Tree = some tree →
          (sr.ElasticQuery cfg rand pos).2.1.Tree
            = some { tree with
                FillTree := tree.FillTree
                  || (!stringsHasPrefix sr.SortBy "random".toList
                      && decide (2 ≤ tree.Depth.length)) }) := by
  cases hrandom : stringsHasPrefix sr.SortBy "random".toList with
  | true =>
    by_cases hseed : (stringsSplit sr.SortBy '_').length = 2
    · have hstate : (sr.ElasticQuery cfg rand pos).2.1 = sr := by
        unfold SearchRequest.ElasticQuery
        simp only [hrandom, if_true]
        split
        · rfl
        · rename_i hne
          rcases hl : stringsSplit sr.SortBy '_' with _ | ⟨a, _ | ⟨b, _ | ⟨c, rest⟩⟩⟩
          · rw [hl] at hseed; simp at hseed
          · rw [hl] at hseed; simp at hseed
          · exact absurd hl (hne a b)
          · rw [hl] at hseed; simp at hseed
      rw [hstate]
      refine ⟨rfl, fun h => absurd rfl h, fun h => h, ?_⟩
      intro tree ht
      rw [ht]
      simp
    · rw [ElasticQuery_of_no_seed cfg rand pos sr hrandom hseed]
      refine ⟨rfl, fun _ => ⟨rfl, hseed⟩, fun h => h, ?_⟩
      intro tree ht
      simp only [ht]
      simp
  | false =>
    rw [ElasticQuery_of_not_random cfg rand pos sr hrandom]
    cases ht : sr.Tree with
    | none =>
      simp only
      refine ⟨?_, fun h => absurd rfl h, fun _ => ht, ?_⟩
      · rw [← ht]
      · intro tree h
        exact absurd h (by simp)
    | some tree =>
      cases hf : tree.FillTree with
      | true =>
        simp only [hf, if_true]
        refine ⟨?_, fun h => absurd rfl h, fun h => absurd h (by simp), ?_⟩
        · rw [← ht]
        · intro tree' h
          simp only [Option.some.injEq] at h
          subst h
          rw [ht]
          obtain ⟨a, b, c, d, e, f, g⟩ := tree
          simp only at hf
          subst hf
          simp
      | false =>
        simp only [hf, Bool.false_eq_true, if_false, exactTree_tree]
        refine ⟨?_, fun h => absurd rfl h, fun h => absurd h (by simp), ?_⟩
        · rw [← ht]
        · intro tree' h
          simp only [Option.some.injEq] at h
          subst h
          obtain ⟨a, b, c, d, e, f, g⟩ := tree
          simp only at hf
          subst hf
          by_cases hd : 2 ≤ f.length
          · simp [hd, hrandom]
          · simp [hd, hrandom]

/-- C29, amended, on the request with Query cats, SortBy random and a tree
query: the compile writes the generated seed to SortBy and nothing else. -/
theorem ElasticQuery_frame_witness :
    { (SearchRequest.ElasticQuery refConfig (fun i => i) 0
          { Query := "cats".toList, SortBy := "random".toList,
            Tree := some { Depth := ["1".toList, "2".toList] } }).2.1 with
        SortBy := "random".toList, Tree := some { Depth := ["1".toList, "2".toList] } }
      = { Query := "cats".toList, SortBy := "random".toList,
          Tree := some { Depth := ["1".toList, "2".toList] } }
    ∧ (SearchRequest.ElasticQuery refConfig (fun i => i) 0
          { Query := "cats".toList, SortBy := "random".toList,
            Tree := some { Depth := ["1".toList, "2".toList] } }).2.1.SortBy
      = "random_abcdefghij".toList :=
  ⟨(ElasticQuery_frame refConfig (fun i => i) 0
      { Query := "cats".toList, SortBy := "random".toList,
        Tree := some { Depth := ["1".toList, "2".toList] } }).1,
    by decide⟩

/-- C29, as stated, fails: compiling a request whose TreeQuery has the depths 1
and 2 and no FillTree leaves the request with FillTree = true. -/
theorem ElasticQuery_sets_FillTree_counterexample :
    (SearchRequest.ElasticQuery refConfig (fun i => i) 0
        { Tree := some { Depth := ["1".toList, "2".toList] } }).2.1
      = { Tree := some { Depth := ["1".toList, "2".toList], FillTree := true } }
    ∧ ({ Tree := some { Depth := ["1".toList, "2".toList], FillTree := true } } : SearchRequest)
      ≠ { Tree := some { Depth := ["1".toList, "2".toList] } } := by
  exact ⟨rfl, by decide⟩

/-- The last must clause of the exact-mode block for a tree query with two or
more depths: the disjunction over the depths, or the term on tree.type after
it. -/
theorem exactTree_getLast (cfg : Config) (tree : TreeQuery) (must : List EsQuery)
    (a b : GoString) (rest : List GoString) (hd : tree.Depth = a :: b :: rest) :
    (ElasticQuery.exactTree cfg tree must).1.getLast?
        = some (EsQuery.bool [] []
            (EsQuery.matchQuery "tree.depth".toList (QueryValue.str a) []
              :: (b :: rest).map
                  (fun d => EsQuery.matchQuery "tree.depth".toList (QueryValue.str d) [])))
      ∨ (ElasticQuery.exactTree cfg tree must).1.getLast?
        = some (EsQuery.term "tree.type".toList tree.Type_) := by
  unfold ElasticQuery.exactTree
  simp only [hd]
  by_cases hT : tree.Type_ = []
  · left
    simp only [hT, ne_eq, not_true_eq_false, if_false, List.getLast?_append, List.map_cons,
      List.getLast?_singleton]
    rfl
  · right
    simp only [hT, ne_eq, not_false_eq_true, if_true, List.getLast?_append,
      List.getLast?_singleton]
    rfl

/-- The compile leaves the request and the random source as they are when the
sort is random with an embedded seed, and when it is not random and the tree
query is absent, in fill mode, or has at most one depth. -/
theorem ElasticQuery_fixed (cfg : Config) (rand : Nat → Nat) (pos : Nat) (sr : SearchRequest)
    (h : (stringsHasPrefix sr.SortBy "random".toList = true
            ∧ (stringsSplit sr.SortBy '_').length = 2)
        ∨ (stringsHasPrefix sr.SortBy "random".toList = false
            ∧ ∀ tree, sr.Tree = some tree → tree.FillTree = true ∨ tree.Depth.length ≤ 1)) :
    (sr.ElasticQuery cfg rand pos).2 = (sr, pos) := by
  rcases h with ⟨hrandom, hseed⟩ | ⟨hrandom, htree⟩
  · unfold SearchRequest.ElasticQuery
    simp only [hrandom, if_true]
    split
    · rfl
    · rename_i hne
      rcases hl : stringsSplit sr.SortBy '_' with _ | ⟨a, _ | ⟨b, _ | ⟨c, rest⟩⟩⟩
      · rw [hl] at hseed; simp at hseed
      · rw [hl] at hseed; simp at hseed
      · exact absurd hl (hne a b)
      · rw [hl] at hseed; simp at hseed
  · rw [ElasticQuery_of_not_random cfg rand pos sr hrandom]
    cases ht : sr.Tree with
    | none => rfl
    | some tree =>
      cases hf : tree.FillTree with
      | true => simp only [hf, if_true]
      | false =>
        have hd : ¬ 2 ≤ tree.Depth.length := by
          rcases htree tree ht with h1 | h1
          · rw [hf] at h1
            exact absurd h1 (by simp)
          · omega
        simp only [hf, Bool.false_eq_true, if_false, exactTree_tree, if_neg hd, Prod.mk.injEq,
          and_true]
        rw [← ht]

/-- C30, amended: a second compile of the request as the first compile left it
returns the same query and error as the first one, except for a request whose
SortBy does not start with `random` and whose TreeQuery is present without
FillTree and has two or more depths: for such a request, and only for such a
request, the two results differ. -/
theorem ElasticQuery_repeatable (cfg : Config) (rand : Nat → Nat) (pos : Nat)
    (sr : SearchRequest) :
    (SearchRequest.ElasticQuery cfg rand (sr.ElasticQuery cfg rand pos).2.2
        (sr.ElasticQuery cfg rand pos).2.1).1 = (sr.ElasticQuery cfg rand pos).1
      ↔ ¬ (stringsHasPrefix sr.SortBy "random".toList = false
            ∧ ∃ tree, sr.Tree = some tree ∧ tree.FillTree = false
                ∧ 2 ≤ tree.Depth.length) := by
  cases hrandom : stringsHasPrefix sr.SortBy "random".toList with
  | true =>
    simp only [Bool.true_eq_false, false_and, not_false_eq_true, iff_true]
    by_cases hseed : (stringsSplit sr.SortBy '_').length = 2
    · rw [ElasticQuery_fixed cfg rand pos sr (Or.inl ⟨hrandom, hseed⟩)]
    · rw [ElasticQuery_of_no_seed cfg rand pos sr hrandom hseed]
      simp only
      rw [ElasticQuery_of_seed cfg rand (RandSeq rand pos 10).2
        { sr with SortBy := "random_".toList ++ (RandSeq rand pos 10).1 }
        (RandSeq rand pos 10).1 (RandSeq_no_underscore rand 10 pos) rfl]
  | false =>
    simp only [true_and]
    by_cases hbad : ∃ tree, sr.Tree = some tree ∧ tree.FillTree = false
        ∧ 2 ≤ tree.Depth.length
    · simp only [hbad, not_true_eq_false, iff_false]
      obtain ⟨tree, ht, hf, hdepth⟩ := hbad
      obtain ⟨a, b, rest, hd⟩ : ∃ a b rest, tree.Depth = a :: b :: rest := by
        rcases hl : tree.Depth with _ | ⟨a, _ | ⟨b, rest⟩⟩
        · rw [hl] at hdepth; simp at hdepth
        · rw [hl] at hdepth; simp at hdepth
        · exact ⟨a, b, rest, rfl⟩
      have h1 := ElasticQuery_of_not_random cfg rand pos sr hrandom
      simp only [ht, hf, Bool.false_eq_true, if_false, exactTree_tree, if_pos hdepth] at h1
      rw [h1]
      simp only
      have h2 := ElasticQuery_of_not_random cfg rand pos
        { sr with Tree := some { tree with FillTree := true } } hrandom
      simp only [if_true] at h2
      rw [h2]
      intro heq
      simp only [Prod.mk.injEq, EsQuery.bool.injEq, and_true] at heq
      have hlast := congrArg List.getLast? heq
      simp only [List.getLast?_append, List.getLast?_singleton] at hlast
      change some _ = _ at hlast
      obtain ⟨x, xs, hx⟩ : ∃ x xs, stringsSplit tree.Leaf '~' = x :: xs := by
        rcases hl : stringsSplit tree.Leaf '~' with _ | ⟨x, xs⟩
        · exact absurd hl (stringsSplitAux_ne_nil '~' tree.Leaf [])
        · exact ⟨x, xs, rfl⟩
      rw [hx] at hlast
      rcases exactTree_getLast cfg tree _ a b rest hd with h2 | h2
      · rw [h2] at hlast
        simp [ElasticQuery.fillTree] at hlast
      · rw [h2] at hlast
        simp at hlast
    · simp only [hbad, not_false_eq_true, iff_true]
      rw [ElasticQuery_fixed cfg rand pos sr (Or.inr ⟨hrandom, ?_⟩)]
      intro tree ht
      by_contra hcon
      simp only [not_or, Bool.not_eq_true, not_le] at hcon
      exact hbad ⟨tree, ht, hcon.1, by omega⟩

/-- C30, amended, on a request with Query cats and a tree query in fill mode:
the second compile returns the query of the first. -/
theorem ElasticQuery_repeatable_witness :
    (SearchRequest.ElasticQuery refConfig (fun i => i)
        (SearchRequest.ElasticQuery refConfig (fun i => i) 0
          { Query := "cats".toList,
            Tree := some { Leaf := "1~2".toList, FillTree := true } }).2.2
        (SearchRequest.ElasticQuery refConfig (fun i => i) 0
          { Query := "cats".toList,
            Tree := some { Leaf := "1~2".toList, FillTree := true } }).2.1).1
      = (SearchRequest.ElasticQuery refConfig (fun i => i) 0
          { Query := "cats".toList,
            Tree := some { Leaf := "1~2".toList, FillTree := true } }).1 :=
  (ElasticQuery_repeatable refConfig (fun i => i) 0
    { Query := "cats".toList,
      Tree := some { Leaf := "1~2".toList, FillTree := true } }).mpr
    (by decide)

/-- C30, as stated, fails: for a request whose TreeQuery has the depths 1 and 2
the first compile returns the exact-mode query with the disjunction over the
depths and sets FillTree, so the second compile returns the fill-mode query
over the leaf path. -/
theorem ElasticQuery_second_compile_differs_counterexample :
    (SearchRequest.ElasticQuery refConfig (fun i => i) 0
        { Tree := some { Depth := ["1".toList, "2".toList] } }).1
      = (EsQuery.bool
          [EsQuery.term "meta.docType".toList "fragmentGraph".toList,
            EsQuery.term "meta.orgID".toList "demo".toList,
            EsQuery.bool [] []
              [EsQuery.matchQuery "tree.depth".toList (QueryValue.str "1".toList) [],
                EsQuery.matchQuery "tree.depth".toList (QueryValue.str "2".toList) []]]
          [] [], none)
    ∧ (SearchRequest.ElasticQuery refConfig (fun i => i)
        (SearchRequest.ElasticQuery refConfig (fun i => i) 0
          { Tree := some { Depth := ["1".toList, "2".toList] } }).2.2
        (SearchRequest.ElasticQuery refConfig (fun i => i) 0
          { Tree := some { Depth := ["1".toList, "2".toList] } }).2.1).1
      = (EsQuery.bool
          [EsQuery.term "meta.docType".toList "fragmentGraph".toList,
            EsQuery.term "meta.orgID".toList "demo".toList,
            EsQuery.bool [] []
              [EsQuery.matchQuery "tree.depth".toList (QueryValue.int 1) [],
                EsQuery.term "tree.leaf".toList []]]
          [] [], none)
    ∧ (SearchRequest.ElasticQuery refConfig (fun i => i)
        (SearchRequest.ElasticQuery refConfig (fun i => i) 0
          { Tree := some { Depth := ["1".toList, "2".toList] } }).2.2
        (SearchRequest.ElasticQuery refConfig (fun i => i) 0
          { Tree := some { Depth := ["1".toList, "2".toList] } }).2.1).1
      ≠ (SearchRequest.ElasticQuery refConfig (fun i => i) 0
        { Tree := some { Depth := ["1".toList, "2".toList] } }).1 := by
  have e1 : (SearchRequest.ElasticQuery refConfig (fun i => i) 0
        { Tree := some { Depth := ["1".toList, "2".toList] } }).1
      = (EsQuery.bool
          [EsQuery.term "meta.docType".toList "fragmentGraph".toList,
            EsQuery.term "meta.orgID".toList "demo".toList,
            EsQuery.bool [] []
              [EsQuery.matchQuery "tree.depth".toList (QueryValue.str "1".toList) [],
                EsQuery.matchQuery "tree.depth".toList (QueryValue.str "2".toList) []]]
          [] [], none) := rfl
  have e2 : (SearchRequest.ElasticQuery refConfig (fun i => i)
        (SearchRequest.ElasticQuery refConfig (fun i => i) 0
          { Tree := some { Depth := ["1".toList, "2".toList] } }).2.2
        (SearchRequest.ElasticQuery refConfig (fun i => i) 0
          { Tree := some { Depth := ["1".toList, "2".toList] } }).2.1).1
      = (EsQuery.bool
          [EsQuery.term "meta.docType".toList "fragmentGraph".toList,
            EsQuery.term "meta.orgID".toList "demo".toList,
            EsQuery.bool [] []
              [EsQuery.matchQuery "tree.depth".toList (QueryValue.int 1) [],
                EsQuery.term "tree.leaf".toList []]]
          [] [], none) := rfl
  refine ⟨e1, e2, ?_⟩
  rw [e1, e2]
  intro h
  simp at h

/-! ## The hex layer, the type class shorthand and Level1 -/

theorem hexDigit_range : ∀ n < 16,
    ('0' ≤ hexDigit n ∧ hexDigit n ≤ '9') ∨ ('a' ≤ hexDigit n ∧ hexDigit n ≤ 'f') := by
  decide

/-- C40: the hex layer of the cursor codec is lossless.  For every byte
sequence b the text that formatting b with the verb %x gives has length
2*len(b), consists only of the characters 0-9 and a-f, and is decoded back to
exactly b, without error, by hex.DecodeString; the token of SearchRequestToHex
is that text for the marshalled bytes, and SearchRequestFromHex decodes its
argument with hex.DecodeString: on the text of b it hands exactly b to the
unmarshaller, and on a text that does not decode it returns the decoding
error. -/
theorem hex_layer_lossless (b : List Byte) :
    (fmtSprintfHex b).length = 2 * b.length
      ∧ (∀ c ∈ fmtSprintfHex b, ('0' ≤ c ∧ c ≤ '9') ∨ ('a' ≤ c ∧ c ≤ 'f'))
      ∧ hexDecodeString (fmtSprintfHex b) = (b, none)
      ∧ (∀ env sr, (SearchRequestToHex env sr).1 = fmtSprintfHex (env.protoMarshal sr).1)
      ∧ (∀ env, SearchRequestFromHex env (fmtSprintfHex b) = env.protoUnmarshal b)
      ∧ (∀ env s, SearchRequestFromHex env s
          = match (hexDecodeString s).2 with
            | some err => ({}, some err)
            | none => env.protoUnmarshal (hexDecodeString s).1) := by
  refine ⟨?_, ?_, hexDecodeString_fmtSprintfHex b, fun _ _ => rfl, ?_, fun _ _ => rfl⟩
  · induction b with
    | nil => rfl
    | cons x xs ih =>
      have hcons : fmtSprintfHex (x :: xs)
          = hexDigit (x.val / 16) :: hexDigit (x.val % 16) :: fmtSprintfHex xs := rfl
      rw [hcons, List.length_cons, List.length_cons, ih, List.length_cons]
      omega
  · intro c hc
    simp only [fmtSprintfHex, List.mem_flatMap, List.mem_cons, List.mem_singleton,
      List.not_mem_nil, or_false] at hc
    obtain ⟨x, -, rfl | rfl⟩ := hc
    · exact hexDigit_range _ (by omega)
    · exact hexDigit_range _ (by omega)
  · intro env
    simp only [SearchRequestFromHex, hexDecodeString_fmtSprintfHex]

/-- C38: Level1 is not consumed by the translation of a filter to a query: for
two filters that differ only in Level1, ElasticFilter returns the same query
and the same error. -/
theorem ElasticFilter_ignores_Level1 (cfg : Config) (qf : QueryFilter)
    (level1 : Option ContextQueryFilter) :
    QueryFilter.ElasticFilter cfg { qf with Level1 := level1 } = qf.ElasticFilter cfg := by
  rfl

theorem hasSuffix_singleton (b : GoString) (c : Char) :
    stringsHasSuffix b [c] = true ↔ b.getLast? = some c := by
  unfold stringsHasSuffix
  rw [List.isSuffixOf_iff_suffix]
  constructor
  · rintro ⟨t, rfl⟩
    simp
  · intro h
    rw [List.getLast?_eq_some_iff] at h
    obtain ⟨t, rfl⟩ := h
    exact ⟨t, rfl⟩

/-- C37: for a shorthand made of a prefix, the first underscore and a label
(the label may hold further underscores) whose prefix the registry resolves to
a base URI b, TypeClassAsURI returns b followed at once by the label when b
ends in a hash or a slash, and b, a slash and the label otherwise, without
error; it returns an error exactly when the shorthand has no underscore or the
prefix is unknown, and the URI is then empty. -/
theorem TypeClassAsURI_resolves (cfg : Config) :
    (∀ pre label b, '_' ∉ pre → cfg.GetBaseURI pre = some b →
        TypeClassAsURI cfg (pre ++ '_' :: label)
          = (if b.getLast? = some '#' ∨ b.getLast? = some '/' then b ++ label
             else b ++ "/".toList ++ label, none))
      ∧ (∀ uri, ((TypeClassAsURI cfg uri).2 ≠ none ↔ unresolvable cfg uri)
          ∧ ((TypeClassAsURI cfg uri).2 ≠ none → (TypeClassAsURI cfg uri).1 = [])) := by
  constructor
  · intro pre label b hpre hb
    have hs : stringsSplitN '_' 2 (pre ++ '_' :: label) = [pre, label] := by
      simp only [stringsSplitN, span_sep '_' pre label hpre]
    simp only [TypeClassAsURI, hs, hb]
    have h1 := hasSuffix_singleton b '#'
    have h2 := hasSuffix_singleton b '/'
    by_cases hc : b.getLast? = some '#' ∨ b.getLast? = some '/'
    · rw [if_pos hc, if_pos]
      rcases hc with hc | hc
      · simp [h1.mpr hc]
      · simp [h2.mpr hc]
    · rw [if_neg hc, if_neg]
      simp only [not_or] at hc
      simp only [Bool.or_eq_true, not_or]
      exact ⟨fun e => hc.1 (h1.mp e), fun e => hc.2 (h2.mp e)⟩
  · intro uri
    refine ⟨TypeClassAsURI_error_iff cfg uri, ?_⟩
    intro herr
    unfold TypeClassAsURI at herr ⊢
    split
    · rename_i pre label hs
      simp only [hs] at herr
      cases hb : cfg.GetBaseURI pre with
      | none => rfl
      | some base =>
        simp only [hb] at herr
        split at herr <;> exact absurd rfl herr
    · rfl

/-- The shorthands rdf_type and dc_a_b resolve against the reference registry,
the second with an underscore in its label; foo_type has an unknown prefix and
gives an error and the empty URI. -/
theorem TypeClassAsURI_resolves_witness :
    TypeClassAsURI refConfig "rdf_type".toList
        = ("http://www.w3.org/1999/02/22-rdf-syntax-ns#type".toList, none)
      ∧ TypeClassAsURI refConfig "dc_a_b".toList
        = ("http://purl.org/dc/elements/1.1/a_b".toList, none)
      ∧ (TypeClassAsURI refConfig "foo_type".toList).2 ≠ none
      ∧ (TypeClassAsURI refConfig "foo_type".toList).1 = [] :=
  ⟨((TypeClassAsURI_resolves refConfig).1 "rdf".toList "type".toList
      "http://www.w3.org/1999/02/22-rdf-syntax-ns#".toList (by decide) (by decide)).trans
      (by decide),
    ((TypeClassAsURI_resolves refConfig).1 "dc".toList "a_b".toList
      "http://purl.org/dc/elements/1.1/".toList (by decide) (by decide)).trans (by decide),
    ((TypeClassAsURI_resolves refConfig).2 "foo_type".toList).1.mpr
      (by unfold unresolvable; exact Or.inr (by decide)),
    ((TypeClassAsURI_resolves refConfig).2 "foo_type".toList).2
      (((TypeClassAsURI_resolves refConfig).2 "foo_type".toList).1.mpr
        (by unfold unresolvable; exact Or.inr (by decide)))⟩

/-! ## QueryCompiler: the tree modes -/

/-- The must clauses of the exact-mode block: the clauses on leaf, parent,
child count and label, the depth clauses, and the clause on type. -/
theorem exactTree_clauses (cfg : Config) (tree : TreeQuery) (must : List EsQuery) :
    (ElasticQuery.exactTree cfg tree must).1
      = must
        ++ (if tree.Leaf ≠ [] then [EsQuery.term "tree.leaf".toList tree.Leaf] else [])
        ++ (if tree.Parent ≠ [] then [EsQuery.term "tree.parent".toList tree.Parent] else [])
        ++ (if tree.ChildCount ≠ [] then
              [EsQuery.matchQuery "tree.childCount".toList (QueryValue.str tree.ChildCount) []]
            else [])
        ++ (if tree.Label ≠ [] then
              [EsQuery.matchQuery "tree.label".toList (QueryValue.str tree.Label)
                cfg.MimimumShouldMatch]
            else [])
        ++ depthClauses tree.Depth
        ++ (if tree.Type_ ≠ [] then [EsQuery.term "tree.type".toList tree.Type_] else []) := by
  unfold ElasticQuery.exactTree
  rcases hd : tree.Depth with _ | ⟨a, _ | ⟨b, rest⟩⟩ <;>
    simp only [depthClauses] <;>
    split_ifs <;> simp only [List.append_assoc, List.append_nil, List.nil_append]

/-- C34: tree exact mode.  For a request whose Tree has FillTree unset and
whose SortBy does not start with `random`, the required clauses of ElasticQuery
are those of the free-text block, the clauses on leaf, parent, child count and
label, the depth clauses and the clause on type; the depth clauses are none when
Depth is empty, one exact match on tree.depth when Depth has one value, and one
disjunction with one alternative per depth, in order, when Depth has two or
more values; FillTree of the request's Tree becomes true exactly in the last
case and stays false with at most one depth. -/
theorem ElasticQuery_exact_depth (cfg : Config) (rand : Nat → Nat) (pos : Nat)
    (sr : SearchRequest) (tree : TreeQuery)
    (htree : sr.Tree = some tree) (hfill : tree.FillTree = false)
    (hrandom : stringsHasPrefix sr.SortBy "random".toList = false) :
    (sr.ElasticQuery cfg rand pos).1
        = (EsQuery.bool
            (ElasticQuery.freeText cfg sr.Query
                [EsQuery.term "meta.docType".toList cfg.FragmentGraphDocType,
                  EsQuery.term cfg.OrgIDKey cfg.OrgID]
              ++ (if tree.Leaf ≠ [] then [EsQuery.term "tree.leaf".toList tree.Leaf] else [])
              ++ (if tree.Parent ≠ [] then [EsQuery.term "tree.parent".toList tree.Parent]
                  else [])
              ++ (if tree.ChildCount ≠ [] then
                    [EsQuery.matchQuery "tree.childCount".toList
                      (QueryValue.str tree.ChildCount) []]
                  else [])
              ++ (if tree.Label ≠ [] then
                    [EsQuery.matchQuery "tree.label".toList (QueryValue.str tree.Label)
                      cfg.MimimumShouldMatch]
                  else [])
              ++ depthClauses tree.Depth
              ++ (if tree.Type_ ≠ [] then [EsQuery.term "tree.type".toList tree.Type_]
                  else [])) [] [], none)
      ∧ (sr.ElasticQuery cfg rand pos).2.1.Tree
        = some { tree with FillTree := decide (2 ≤ tree.Depth.length) }
      ∧ (tree.Depth = [] → depthClauses tree.Depth = [])
      ∧ (∀ d, tree.Depth = [d] →
          depthClauses tree.Depth
            = [EsQuery.matchQuery "tree.depth".toList (QueryValue.str d) []])
      ∧ (2 ≤ tree.Depth.length →
          depthClauses tree.Depth
            = [EsQuery.bool [] []
                (tree.Depth.map
                  (fun d => EsQuery.matchQuery "tree.depth".toList (QueryValue.str d) []))]) := by
  rw [ElasticQuery_of_not_random cfg rand pos sr hrandom]
  simp only [htree, hfill, Bool.false_eq_true, if_false, exactTree_clauses, exactTree_tree]
  refine ⟨trivial, ?_, ?_, ?_, ?_⟩
  · obtain ⟨a, b, c, d, e, f, g⟩ := tree
    simp only at hfill
    subst hfill
    by_cases hd : 2 ≤ f.length
    · simp [hd]
    · simp [hd]
  · intro h
    rw [h]
    rfl
  · intro d h
    rw [h]
    rfl
  · intro h
    rcases hd : tree.Depth with _ | ⟨a, _ | ⟨b, rest⟩⟩
    · rw [hd] at h; simp at h
    · rw [hd] at h; simp at h
    · rfl

/-- A tree query with the leaf 1~2 and the single depth 3: ElasticQuery requires
the leaf and one exact match on tree.depth, and FillTree stays false. -/
theorem ElasticQuery_exact_depth_witness :
    (SearchRequest.ElasticQuery refConfig (fun i => i) 0
        { Tree := some { Leaf := "1~2".toList, Depth := ["3".toList] } }).1
        = (EsQuery.bool
            [EsQuery.term "meta.docType".toList "fragmentGraph".toList,
              EsQuery.term "meta.orgID".toList "demo".toList,
              EsQuery.term "tree.leaf".toList "1~2".toList,
              EsQuery.matchQuery "tree.depth".toList (QueryValue.str "3".toList) []] [] [],
           none)
      ∧ (SearchRequest.ElasticQuery refConfig (fun i => i) 0
          { Tree := some { Leaf := "1~2".toList, Depth := ["3".toList] } }).2.1.Tree
        = some { Leaf := "1~2".toList, Depth := ["3".toList], FillTree := false } :=
  ⟨(ElasticQuery_exact_depth refConfig (fun i => i) 0
      { Tree := some { Leaf := "1~2".toList, Depth := ["3".toList] } }
      { Leaf := "1~2".toList, Depth := ["3".toList] } rfl rfl (by decide)).1.trans rfl,
    (ElasticQuery_exact_depth refConfig (fun i => i) 0
      { Tree := some { Leaf := "1~2".toList, Depth := ["3".toList] } }
      { Leaf := "1~2".toList, Depth := ["3".toList] } rfl rfl (by decide)).2.1.trans rfl⟩

/-! ## QueryCompiler: the fill mode -/

theorem stringsJoin_cons (sep a : GoString) (l : List GoString) :
    stringsJoin (a :: l) sep = a ++ (l.map (fun x => sep ++ x)).flatten := by
  induction l generalizing a with
  | nil => simp [stringsJoin, List.intercalate]
  | cons b l ih =>
    have h := ih b
    simp only [stringsJoin, List.intercalate, List.intersperse_cons_cons, List.flatten_cons,
      List.map_cons, List.append_assoc] at h ⊢
    rw [h]

theorem stringsJoin_cons_cons (sep a b : GoString) (l : List GoString) :
    stringsJoin (a :: b :: l) sep = a ++ sep ++ stringsJoin (b :: l) sep := by
  rw [stringsJoin_cons, stringsJoin_cons, List.map_cons, List.flatten_cons]
  simp only [List.append_assoc]

theorem stringsJoin_splitAux (sep : Char) :
    ∀ s cur : GoString, stringsJoin (stringsSplitAux sep s cur) [sep] = cur.reverse ++ s
  | [], cur => by simp [stringsSplitAux, stringsJoin, List.intercalate]
  | c :: cs, cur => by
    unfold stringsSplitAux
    split
    · rename_i hc
      have ih := stringsJoin_splitAux sep cs []
      rcases hl : stringsSplitAux sep cs [] with _ | ⟨b, l⟩
      · exact absurd hl (stringsSplitAux_ne_nil sep cs [])
      · rw [hl] at ih
        rw [stringsJoin_cons_cons, ih, hc]
        simp
    · rw [stringsJoin_splitAux sep cs (c :: cur)]
      simp

theorem stringsJoin_stringsSplit (s : GoString) (sep : Char) :
    stringsJoin (stringsSplit s sep) [sep] = s := by
  unfold stringsSplit
  rw [stringsJoin_splitAux]
  rfl

theorem fillLoop_eq :
    ∀ (rest : List GoString) (path : GoString),
      ElasticQuery.fillLoop rest path
        = (List.range rest.length).map
            (fun i => EsQuery.term "tree.leaf".toList
              (path ++ ((rest.take (i + 1)).map (fun x => "~".toList ++ x)).flatten))
  | [], _ => rfl
  | x :: rest, path => by
    rw [ElasticQuery.fillLoop, fillLoop_eq rest, List.length_cons, List.range_succ_eq_map,
      List.map_cons, List.map_map]
    congr 1
    · simp
    · apply List.map_congr_left
      intro i _
      simp

theorem fillTree_eq (a : GoString) (rest : List GoString) :
    ElasticQuery.fillTree (a :: rest)
      = EsQuery.matchQuery "tree.depth".toList (QueryValue.int 1) []
        :: (ancestorPaths (a :: rest)).map (fun p => EsQuery.term "tree.leaf".toList p) := by
  unfold ElasticQuery.fillTree ancestorPaths
  simp only
  rw [fillLoop_eq, List.length_cons, List.range_succ_eq_map, List.map_cons, List.map_cons,
    List.map_map, List.map_map]
  congr 2
  · simp [stringsJoin, List.intercalate]
  · apply List.map_congr_left
    intro i _
    simp only [Function.comp, List.take_succ_cons, stringsJoin_cons]

theorem ancestorPaths_getLast (segments : List GoString) (h : segments ≠ []) :
    (ancestorPaths segments).getLast? = some (stringsJoin segments "~".toList) := by
  unfold ancestorPaths
  obtain ⟨n, hn⟩ : ∃ n, segments.length = n + 1 := by
    cases segments with
    | nil => exact absurd rfl h
    | cons a l => exact ⟨l.length, rfl⟩
  rw [hn, List.range_succ, List.map_append, List.map_singleton, List.getLast?_append,
    List.getLast?_singleton, ← hn, List.take_length]
  rfl

/-- C33: tree fill mode.  For a request whose Tree has FillTree set and whose
SortBy does not start with `random`, with the Leaf split on the tilde into the
segments s1..sn, the required clauses of ElasticQuery are those of the free-text
block and one disjunction whose alternatives are, in order, depth = 1 and then
tree.leaf = p for each of the n prefix-accumulated ancestor paths p; there is at
least one segment, the segments joined by the tilde are the Leaf, the last path
is the Leaf itself, and no exact-mode clause is added. -/
theorem ElasticQuery_fill_tree (cfg : Config) (rand : Nat → Nat) (pos : Nat)
    (sr : SearchRequest) (tree : TreeQuery)
    (htree : sr.Tree = some tree) (hfill : tree.FillTree = true)
    (hrandom : stringsHasPrefix sr.SortBy "random".toList = false) :
    (sr.ElasticQuery cfg rand pos).1
        = (EsQuery.bool
            (ElasticQuery.freeText cfg sr.Query
                [EsQuery.term "meta.docType".toList cfg.FragmentGraphDocType,
                  EsQuery.term cfg.OrgIDKey cfg.OrgID]
              ++ [EsQuery.bool [] []
                    (EsQuery.matchQuery "tree.depth".toList (QueryValue.int 1) []
                      :: (ancestorPaths (stringsSplit tree.Leaf '~')).map
                          (fun p => EsQuery.term "tree.leaf".toList p))]) [] [], none)
      ∧ (ancestorPaths (stringsSplit tree.Leaf '~')).length
        = (stringsSplit tree.Leaf '~').length
      ∧ 1 ≤ (stringsSplit tree.Leaf '~').length
      ∧ stringsJoin (stringsSplit tree.Leaf '~') "~".toList = tree.Leaf
      ∧ (ancestorPaths (stringsSplit tree.Leaf '~')).getLast? = some tree.Leaf := by
  have hne : stringsSplit tree.Leaf '~' ≠ [] := stringsSplitAux_ne_nil '~' tree.Leaf []
  have hjoin : stringsJoin (stringsSplit tree.Leaf '~') "~".toList = tree.Leaf :=
    stringsJoin_stringsSplit tree.Leaf '~'
  refine ⟨?_, by simp [ancestorPaths], ?_, hjoin, ?_⟩
  · rw [ElasticQuery_of_not_random cfg rand pos sr hrandom]
    simp only [htree, hfill, if_true]
    rcases hl : stringsSplit tree.Leaf '~' with _ | ⟨a, rest⟩
    · exact absurd hl hne
    · rw [fillTree_eq]
  · rcases hl : stringsSplit tree.Leaf '~' with _ | ⟨a, rest⟩
    · exact absurd hl hne
    · simp
  · rw [ancestorPaths_getLast _ hne, hjoin]

/-- The leaf 1~2~3 in fill mode: the disjunction holds depth = 1 and the paths
1, 1~2 and 1~2~3, and the type of the tree query adds no clause. -/
theorem ElasticQuery_fill_tree_witness :
    (SearchRequest.ElasticQuery refConfig (fun i => i) 0
        { Tree := some { Leaf := "1~2~3".toList, FillTree := true, Type_ := "file".toList } }).1
      = (EsQuery.bool
          [EsQuery.term "meta.docType".toList "fragmentGraph".toList,
            EsQuery.term "meta.orgID".toList "demo".toList,
            EsQuery.bool [] []
              [EsQuery.matchQuery "tree.depth".toList (QueryValue.int 1) [],
                EsQuery.term "tree.leaf".toList "1".toList,
                EsQuery.term "tree.leaf".toList "1~2".toList,
                EsQuery.term "tree.leaf".toList "1~2~3".toList]] [] [], none) :=
  (ElasticQuery_fill_tree refConfig (fun i => i) 0
    { Tree := some { Leaf := "1~2~3".toList, FillTree := true, Type_ := "file".toList } }
    { Leaf := "1~2~3".toList, FillTree := true, Type_ := "file".toList } rfl rfl
    (by decide)).1.trans rfl

/-! ## AggregationCompiler -/

/-! ## AggregationCompiler: the builder of Echo -/

theorem Aggregations_loop_some (cfg : Config) (sr : SearchRequest) (fub : FacetURIBuilder) :
    ∀ (facets : List FacetField) (aggs : List (GoString × EsAggregation)),
      ∃ r, Aggregations.loop cfg sr (some fub) facets aggs = GoResult.returns r
  | [], aggs => ⟨_, rfl⟩
  | facetField :: rest, aggs => by
    unfold Aggregations.loop SearchRequest.CreateAggregationBySearchLabel
      Hub3.CreateAggregationBySearchLabel
    simp only
    rcases hq : fub.CreateFacetFilterQuery cfg "resources.entries".toList facetField.Field
        sr.FacetAndBoolType with ⟨q, _ | err⟩
    · simp only
      exact Aggregations_loop_some cfg sr fub rest _
    · exact ⟨_, rfl⟩

/-- C32: Echo with the echo type aggs passes no builder to Aggregations.  On a
request with at least one facet field CreateAggregationBySearchLabel
dereferences the absent builder and the call panics; on a request without facet
fields the call returns the empty map; with a builder, as ElasticSearchService
passes one, Aggregations returns.  The last part evaluates Echo on a request
with the one facet field dc_subject. -/
theorem Echo_aggs_dereferences_nil_builder (cfg : Config) (rand : Nat → Nat) (pos : Nat)
    (sr : SearchRequest) (facet : FacetField) (rest : List FacetField) (total : Int) :
    SearchRequest.Echo cfg rand pos { sr with FacetField := facet :: rest } "aggs".toList total
        = GoResult.panics
      ∧ SearchRequest.Echo cfg rand pos { sr with FacetField := [] } "aggs".toList total
        = GoResult.returns
            ((EchoValue.sourceMap [], none), { sr with FacetField := [] }, pos)
      ∧ (∀ fub : FacetURIBuilder, ∃ r, sr.Aggregations cfg (some fub) = GoResult.returns r)
      ∧ SearchRequest.Echo refConfig (fun i => i) 0
          { FacetField := [{ Field := "dc_subject".toList, Name := "dc_subject".toList }] }
          "aggs".toList 0 = GoResult.panics := by
  refine ⟨rfl, rfl, fun fub => Aggregations_loop_some cfg sr fub _ _, rfl⟩

/-! ## FilterCodec: serialization as a normal form -/

theorem replace_brackets_no_pair :
    ∀ s : GoString, ¬ ['[', ']'] <:+: stringsReplace s ['[', ']'] ['[', 'a', ']'] (-1)
  | [] => by
    rw [replace_brackets_nil]
    simp
  | [c] => by
    rw [replace_brackets_cons c [] (by simp), replace_brackets_nil]
    rintro ⟨pre, post, e⟩
    have := congrArg List.length e
    simp at this
    omega
  | c :: d :: rest => by
    by_cases h : c = '[' ∧ d = ']'
    · obtain ⟨rfl, rfl⟩ := h
      rw [replace_brackets_pair]
      have ih := replace_brackets_no_pair rest
      simp only [List.infix_cons_iff, List.cons_prefix_cons, not_or]
      refine ⟨by simp, by simp, by simp, ih⟩
    · rw [replace_brackets_cons c (d :: rest) (by simpa using h)]
      have ih := replace_brackets_no_pair (d :: rest)
      rw [List.infix_cons_iff, not_or]
      refine ⟨?_, ih⟩
      have hhead := replace_brackets_head d rest
      rcases hr : stringsReplace (d :: rest) ['[', ']'] ['[', 'a', ']'] (-1) with _ | ⟨x, xs⟩
      · simp
      · rw [hr] at hhead
        simp only [List.head?_cons, Option.some.injEq] at hhead
        subst hhead
        simp only [List.cons_prefix_cons, not_and]
        intro hc hx
        exact absurd ⟨hc.symm, hx.symm⟩ h

theorem fieldsFuncAux_chars (f : Char → Bool) :
    ∀ (s cur : GoString), (∀ c ∈ cur, f c = false) →
      ∀ t ∈ stringsFieldsFuncAux f s cur, ∀ c ∈ t, (c ∈ s ∨ c ∈ cur) ∧ f c = false
  | [], cur, hcur, t, ht, c, hc => by
    unfold stringsFieldsFuncAux at ht
    split at ht
    · simp at ht
    · simp only [List.mem_singleton] at ht
      subst ht
      have hc' : c ∈ cur := List.mem_reverse.mp hc
      exact ⟨Or.inr hc', hcur c hc'⟩
  | x :: xs, cur, hcur, t, ht, c, hc => by
    unfold stringsFieldsFuncAux at ht
    split at ht
    · split at ht
      · obtain ⟨h1, h2⟩ := fieldsFuncAux_chars f xs [] (by simp) t ht c hc
        rcases h1 with h1 | h1
        · exact ⟨Or.inl (List.mem_cons_of_mem _ h1), h2⟩
        · simp at h1
      · simp only [List.mem_cons] at ht
        rcases ht with rfl | ht
        · have hc' : c ∈ cur := List.mem_reverse.mp hc
          exact ⟨Or.inr hc', hcur c hc'⟩
        · obtain ⟨h1, h2⟩ := fieldsFuncAux_chars f xs [] (by simp) t ht c hc
          rcases h1 with h1 | h1
          · exact ⟨Or.inl (List.mem_cons_of_mem _ h1), h2⟩
          · simp at h1
    · rename_i hx
      have hcur' : ∀ c ∈ x :: cur, f c = false := by
        intro y hy
        simp only [List.mem_cons] at hy
        rcases hy with rfl | hy
        · simpa using hx
        · exact hcur y hy
      obtain ⟨h1, h2⟩ := fieldsFuncAux_chars f xs (x :: cur) hcur' t ht c hc
      refine ⟨?_, h2⟩
      rcases h1 with h1 | h1
      · exact Or.inl (List.mem_cons_of_mem _ h1)
      · simp only [List.mem_cons] at h1
        rcases h1 with rfl | h1
        · exact Or.inl (List.mem_cons_self _ _)
        · exact Or.inr h1

/-- The tokens of a head without colon are tokens of the filter grammar. -/
theorem fieldsFunc_isToken (head : GoString) (hhead : ':' ∉ head) :
    ∀ t ∈ stringsFieldsFunc head qfSplit, isToken t := by
  intro t ht
  refine ⟨fieldsFunc_ne_nil qfSplit head t ht, ?_⟩
  intro c hc
  obtain ⟨h1, h2⟩ := fieldsFuncAux_chars qfSplit head [] (by simp) t ht c hc
  have hmem : c ∈ head := by
    rcases h1 with h1 | h1
    · exact h1
    · simp at h1
  simp only [qfSplit, Bool.or_eq_false_iff, beq_eq_false_iff_ne, ne_eq] at h2
  refine ⟨h2.2, h2.1, ?_⟩
  rintro rfl
  exact hhead hmem

theorem isTypeClass_validateTypeClass (t : GoString) (h : isToken t) :
    isTypeClass (validateTypeClass t) := by
  unfold validateTypeClass
  split
  · exact Or.inl rfl
  · rename_i hne
    exact Or.inr ⟨h, hne⟩

/-- C39, amended: serialization is a normal form for parsed filters.  For every
filter string that contains a colon and whose head, the text before the first
colon after the rewrite of `[]` to `[a]`, yields between one and six tokens,
NewQueryFilter succeeds, and NewQueryFilter of the AsString of the parsed filter
succeeds and gives the same filter. -/
theorem NewQueryFilter_AsString_normal_form (filter head value : GoString)
    (hsplit : stringsReplace filter "[]".toList "[a]".toList (-1) = head ++ ':' :: value)
    (hhead : ':' ∉ head)
    (hmin : 1 ≤ (stringsFieldsFunc head qfSplit).length)
    (hmax : (stringsFieldsFunc head qfSplit).length ≤ 6) :
    ∃ qf, NewQueryFilter filter = (some qf, none)
      ∧ NewQueryFilter qf.AsString = (some qf, none) := by
  have htok := fieldsFunc_isToken head hhead
  have hvalue : ¬ "[]".toList <:+: value := by
    intro h
    have h1 : value <:+: head ++ ':' :: value :=
      (List.suffix_append (head ++ [':']) value).isInfix |> fun x => by simpa using x
    have h2 := replace_brackets_no_pair filter
    have hsplit' : stringsReplace filter ['[', ']'] ['[', 'a', ']'] (-1)
        = head ++ ':' :: value := hsplit
    rw [hsplit'] at h2
    exact h2 (h.trans h1)
  have hempty : isTypeClass [] := Or.inl rfl
  rw [NewQueryFilter_of_fields filter head value hsplit hhead]
  rcases hl : stringsFieldsFunc head qfSplit with _ | ⟨p0, _ | ⟨p1, _ | ⟨p2, _ | ⟨p3, _ |
    ⟨p4, _ | ⟨p5, _ | ⟨p6, rest⟩⟩⟩⟩⟩⟩⟩
  · rw [hl] at hmin
    simp at hmin
  all_goals rw [hl] at htok
  · refine ⟨_, rfl, ?_⟩
    exact NewQueryFilter_AsString_round_trip _ (htok _ (by simp)) hempty
      (by intro l h; cases h) (by intro l h; cases h) (by simp) hvalue
  · refine ⟨_, rfl, ?_⟩
    exact NewQueryFilter_AsString_round_trip _ (htok _ (by simp))
      (isTypeClass_validateTypeClass _ (htok _ (by simp)))
      (by intro l h; cases h) (by intro l h; cases h) (by simp) hvalue
  · refine ⟨_, rfl, ?_⟩
    exact NewQueryFilter_AsString_round_trip _ (htok _ (by simp))
      (isTypeClass_validateTypeClass _ (htok _ (by simp)))
      (by intro l h; cases h; exact ⟨htok _ (by simp), hempty⟩)
      (by intro l h; cases h) (by simp) hvalue
  · refine ⟨_, rfl, ?_⟩
    exact NewQueryFilter_AsString_round_trip _ (htok _ (by simp))
      (isTypeClass_validateTypeClass _ (htok _ (by simp)))
      (by intro l h; cases h
          exact ⟨htok _ (by simp), isTypeClass_validateTypeClass _ (htok _ (by simp))⟩)
      (by intro l h; cases h) (by simp) hvalue
  · refine ⟨_, rfl, ?_⟩
    exact NewQueryFilter_AsString_round_trip _ (htok _ (by simp))
      (isTypeClass_validateTypeClass _ (htok _ (by simp)))
      (by intro l h; cases h
          exact ⟨htok _ (by simp), isTypeClass_validateTypeClass _ (htok _ (by simp))⟩)
      (by intro l h; cases h; exact ⟨htok _ (by simp), hempty⟩) (by simp) hvalue
  · refine ⟨_, rfl, ?_⟩
    exact NewQueryFilter_AsString_round_trip _ (htok _ (by simp))
      (isTypeClass_validateTypeClass _ (htok _ (by simp)))
      (by intro l h; cases h
          exact ⟨htok _ (by simp), isTypeClass_validateTypeClass _ (htok _ (by simp))⟩)
      (by intro l h; cases h
          exact ⟨htok _ (by simp), isTypeClass_validateTypeClass _ (htok _ (by simp))⟩)
      (by simp) hvalue
  · rw [hl] at hmax
    simp only [List.length_cons] at hmax
    omega

/-- The filter string spec:demo: it parses, its parsed filter serializes to
`[]spec:demo`, not to the string itself, and that text parses to the same
filter. -/
theorem NewQueryFilter_AsString_normal_form_witness :
    (∃ qf, NewQueryFilter "spec:demo".toList = (some qf, none)
      ∧ NewQueryFilter qf.AsString = (some qf, none))
    ∧ NewQueryFilter "spec:demo".toList
        = (some { SearchLabel := "spec".toList, Value := "demo".toList }, none)
    ∧ QueryFilter.AsString { SearchLabel := "spec".toList, Value := "demo".toList }
        = "[]spec:demo".toList
    ∧ NewQueryFilter "[]spec:demo".toList
        = (some { SearchLabel := "spec".toList, Value := "demo".toList }, none) :=
  ⟨NewQueryFilter_AsString_normal_form "spec:demo".toList "spec".toList "demo".toList
      (by decide) (by decide) (by decide) (by decide),
    by decide, by decide, by decide⟩

/-- C39, counterexample: the filter string `a[]b[]c[]d:v` contains a colon and
its head yields four tokens, but the rewrite of `[]` to `[a]` makes them seven:
NewQueryFilter keeps only the value, the parsed filter serializes to `[]:v`,
and that text parses to a filter with the search label a, which is not the
parsed filter. -/
theorem NewQueryFilter_AsString_raw_head_counterexample :
    ':' ∈ "a[]b[]c[]d:v".toList
      ∧ stringsFieldsFunc ("a[]b[]c[]d:v".toList.takeWhile (fun c => c != ':')) qfSplit
        = ["a".toList, "b".toList, "c".toList, "d".toList]
      ∧ NewQueryFilter "a[]b[]c[]d:v".toList = (some { Value := "v".toList }, none)
      ∧ QueryFilter.AsString { Value := "v".toList } = "[]:v".toList
      ∧ NewQueryFilter "[]:v".toList
        = (some { SearchLabel := "a".toList, Value := "v".toList }, none)
      ∧ NewQueryFilter (QueryFilter.AsString { Value := "v".toList })
        ≠ NewQueryFilter "a[]b[]c[]d:v".toList := by
  decide

/-- The eight bytes of the cats request: their text is `0a0463617473100a`, of
length sixteen, its first character is a digit, the text decodes back to the
bytes, and SearchRequestFromHex on the text gives the cats request. -/
theorem hex_layer_lossless_witness :
    fmtSprintfHex [(10 : Byte), 4, 99, 97, 116, 115, 16, 10] = "0a0463617473100a".toList
      ∧ (fmtSprintfHex [(10 : Byte), 4, 99, 97, 116, 115, 16, 10]).length = 2 * 8
      ∧ (('0' ≤ '0' ∧ '0' ≤ '9') ∨ ('a' ≤ '0' ∧ '0' ≤ 'f'))
      ∧ hexDecodeString (fmtSprintfHex [(10 : Byte), 4, 99, 97, 116, 115, 16, 10])
        = ([(10 : Byte), 4, 99, 97, 116, 115, 16, 10], none)
      ∧ SearchRequestFromHex refEnv (fmtSprintfHex [(10 : Byte), 4, 99, 97, 116, 115, 16, 10])
        = (catsRequest, none) :=
  ⟨by decide, (hex_layer_lossless [(10 : Byte), 4, 99, 97, 116, 115, 16, 10]).1,
    (hex_layer_lossless [(10 : Byte), 4, 99, 97, 116, 115, 16, 10]).2.1 '0' (by decide),
    (hex_layer_lossless [(10 : Byte), 4, 99, 97, 116, 115, 16, 10]).2.2.1,
    ((hex_layer_lossless [(10 : Byte), 4, 99, 97, 116, 115, 16, 10]).2.2.2.2.1 refEnv).trans
      (by decide)⟩

/-! ## QueryCompiler: the free-text block -/

theorem specValue_eq_some (t v : GoString) :
    specValue t = some v ↔ t = "meta.spec:".toList ++ v := by
  unfold specValue stringsHasPrefix
  constructor
  · intro h
    split at h
    · rename_i hp
      rw [List.isPrefixOf_iff_prefix] at hp
      obtain ⟨w, rfl⟩ := hp
      simp only [Option.some.injEq] at h
      rw [← h]
      rfl
    · cases h
  · rintro rfl
    rw [if_pos (by rw [List.isPrefixOf_iff_prefix]; exact List.prefix_append _ _)]
    rfl

theorem specLoop_eq :
    ∀ (parts : List GoString) (st : List EsQuery × List GoString),
      ElasticQuery.specLoop parts st
        = (st.1 ++ (parts.filterMap specValue).map (EsQuery.term "meta.spec".toList),
            st.2 ++ parts.filter (fun t => (specValue t).isNone))
  | [], st => by simp [ElasticQuery.specLoop]
  | part :: rest, st => by
    unfold ElasticQuery.specLoop
    by_cases hp : stringsHasPrefix part "meta.spec:".toList = true
    · have hv : specValue part = some (part.drop 10) := by
        unfold specValue
        rw [if_pos hp]
      have ht : stringsTrimPrefix part "meta.spec:".toList = part.drop 10 := by
        unfold stringsTrimPrefix
        unfold stringsHasPrefix at hp
        rw [if_pos hp]
        rfl
      rw [if_pos hp]
      simp only [ht]
      rw [specLoop_eq rest, List.filterMap_cons_some hv, List.filter_cons_of_neg (by simp [hv])]
      simp
    · have hv : specValue part = none := by
        unfold specValue
        rw [if_neg hp]
      rw [if_neg hp, specLoop_eq rest, List.filterMap_cons_none hv,
        List.filter_cons_of_pos (by simp [hv])]
      simp

theorem stringsContains_of_part :
    ∀ (s sub : GoString), sub <:+: s → stringsContains s sub = true
  | [], sub, h => by
    have e : sub = [] := List.infix_nil.mp h
    subst e
    rfl
  | c :: cs, sub, h => by
    unfold stringsContains
    rw [List.infix_cons_iff] at h
    rcases h with h | h
    · rw [List.isPrefixOf_iff_prefix.mpr h]
      rfl
    · rw [stringsContains_of_part cs sub h]
      simp

theorem stringsSplitAux_part (sep : Char) :
    ∀ (s cur t : GoString), t ∈ stringsSplitAux sep s cur → t <:+: cur.reverse ++ s
  | [], cur, t, h => by
    unfold stringsSplitAux at h
    simp only [List.mem_singleton] at h
    subst h
    simp
  | c :: cs, cur, t, h => by
    unfold stringsSplitAux at h
    split at h
    · simp only [List.mem_cons] at h
      rcases h with rfl | h
      · exact (List.prefix_append _ _).isInfix
      · have ih := stringsSplitAux_part sep cs [] t h
        simp only [List.reverse_nil, List.nil_append] at ih
        have h1 : cs <:+: cur.reverse ++ c :: cs :=
          (show cs <:+ cur.reverse ++ c :: cs from ⟨cur.reverse ++ [c], by simp⟩).isInfix
        exact ih.trans h1
    · have ih := stringsSplitAux_part sep cs (c :: cur) t h
      simpa using ih

theorem stringsSplitAux_no_sep (sep : Char) :
    ∀ (s cur t : GoString), sep ∉ cur → t ∈ stringsSplitAux sep s cur → sep ∉ t
  | [], cur, t, hcur, h => by
    unfold stringsSplitAux at h
    simp only [List.mem_singleton] at h
    subst h
    simpa using hcur
  | c :: cs, cur, t, hcur, h => by
    unfold stringsSplitAux at h
    split at h
    · simp only [List.mem_cons] at h
      rcases h with rfl | h
      · simpa using hcur
      · exact stringsSplitAux_no_sep sep cs [] t (by simp) h
    · rename_i hc
      refine stringsSplitAux_no_sep sep cs (c :: cur) t ?_ h
      simp only [List.mem_cons, not_or]
      exact ⟨fun e => hc e.symm, hcur⟩

theorem stringsSplit_stringsJoin (sep : Char) :
    ∀ parts : List GoString, parts ≠ [] → (∀ p ∈ parts, sep ∉ p) →
      stringsSplit (stringsJoin parts [sep]) sep = parts
  | [], h, _ => absurd rfl h
  | [p], _, hp => by
    have e : stringsJoin [p] [sep] = p ++ [] := by
      simp [stringsJoin, List.intercalate, List.intersperse]
    unfold stringsSplit
    rw [e, stringsSplitAux_token sep p [] [] (hp p (by simp))]
    simp [stringsSplitAux]
  | p :: q :: rest, _, hp => by
    have ih := stringsSplit_stringsJoin sep (q :: rest) (by simp)
      (fun x hx => hp x (List.mem_cons_of_mem _ hx))
    unfold stringsSplit at ih ⊢
    rw [stringsJoin_cons_cons, List.append_assoc,
      stringsSplitAux_token sep p _ [] (hp p (by simp))]
    simp only [List.singleton_append, List.append_nil]
    rw [stringsSplitAux, if_pos rfl, ih]
    simp

/-- The clauses of the free-text block for a non-empty text: a term on
meta.spec for each spec value, then the free-text clause when the remainder is
not empty. -/
theorem freeText_eq (cfg : Config) (text : GoString) (must : List EsQuery)
    (htext : text ≠ []) :
    ElasticQuery.freeText cfg text must
      = must
        ++ (specValues (stringsReplace text "delving_spec:".toList "meta.spec:".toList 1)).map
            (EsQuery.term "meta.spec".toList)
        ++ (if freeTextRemainder
                (stringsReplace text "delving_spec:".toList "meta.spec:".toList 1) ≠ [] then
              [EsQuery.queryString
                (freeTextRemainder
                  (stringsReplace text "delving_spec:".toList "meta.spec:".toList 1))
                "full_text".toList cfg.MimimumShouldMatch]
            else []) := by
  unfold ElasticQuery.freeText
  rw [if_pos htext]
  generalize stringsReplace text "delving_spec:".toList "meta.spec:".toList 1 = raw
  by_cases hc : stringsContains raw "meta.spec".toList = true
  · simp only [hc, if_true, specLoop_eq, List.nil_append]
    unfold specValues freeTextRemainder
    split_ifs <;> simp
  · have hnone : ∀ t ∈ stringsSplit raw ' ', specValue t = none := by
      intro t ht
      unfold specValue
      rw [if_neg]
      intro hp
      apply hc
      apply stringsContains_of_part
      unfold stringsHasPrefix at hp
      rw [List.isPrefixOf_iff_prefix] at hp
      have h1 : "meta.spec".toList <+: "meta.spec:".toList := ⟨[':'], rfl⟩
      have h2 := stringsSplitAux_part ' ' raw [] t ht
      simp only [List.reverse_nil, List.nil_append] at h2
      exact ((h1.trans hp).isInfix).trans h2
    have hvalues : specValues raw = [] := by
      unfold specValues
      rw [List.filterMap_eq_nil_iff]
      exact hnone
    have hrem : freeTextRemainder raw = raw := by
      unfold freeTextRemainder
      rw [List.filter_eq_self.mpr (fun t ht => by simp [hnone t ht])]
      exact stringsJoin_stringsSplit raw ' '
    simp only [hc, Bool.false_eq_true, if_false, hvalues, hrem, List.map_nil, List.append_nil]
    split_ifs <;> simp

/-- The tokens of the free-text remainder are no spec tokens. -/
theorem freeTextRemainder_tokens (rawQuery : GoString) :
    ∀ t ∈ stringsSplit (freeTextRemainder rawQuery) ' ', specValue t = none := by
  intro t ht
  unfold freeTextRemainder at ht
  rcases hl : (stringsSplit rawQuery ' ').filter (fun t => (specValue t).isNone) with
    _ | ⟨p, rest⟩
  · rw [hl] at ht
    have e : t = [] := by simpa [stringsJoin, stringsSplit, stringsSplitAux] using ht
    subst e
    rfl
  · rw [hl] at ht
    have hsub : ∀ x ∈ p :: rest, x ∈ stringsSplit rawQuery ' ' ∧ (specValue x).isNone = true := by
      intro x hx
      rw [← hl] at hx
      simpa [List.mem_filter] using hx
    have e : (" ".toList : GoString) = [' '] := rfl
    rw [e, stringsSplit_stringsJoin ' ' (p :: rest) (by simp)
      (fun x hx => stringsSplitAux_no_sep ' ' rawQuery [] x (by simp) (hsub x hx).1)] at ht
    have := (hsub t ht).2
    simpa [Option.isNone_iff_eq_none] using this

theorem mem_ite_singleton {α : Type} (c : Prop) [Decidable c] (x q : α)
    (h : q ∈ (if c then [x] else [])) : q = x := by
  split at h
  · simpa using h
  · cases h

/-- The required clauses of ElasticQuery when SortBy does not start with
`random`: the clauses of the free-text block, then the clauses of the tree
query, none of which is a term on meta.spec or a free-text clause. -/
theorem ElasticQuery_clauses (cfg : Config) (rand : Nat → Nat) (pos : Nat)
    (sr : SearchRequest)
    (hrandom : stringsHasPrefix sr.SortBy "random".toList = false) :
    ∃ rest : List EsQuery,
      (sr.ElasticQuery cfg rand pos).1
          = (EsQuery.bool
              (ElasticQuery.freeText cfg sr.Query
                  [EsQuery.term "meta.docType".toList cfg.FragmentGraphDocType,
                    EsQuery.term cfg.OrgIDKey cfg.OrgID]
                ++ rest) [] [], none)
        ∧ (∀ q ∈ rest, (∀ v, q ≠ EsQuery.term "meta.spec".toList v)
            ∧ ∀ text field m, q ≠ EsQuery.queryString text field m)
        ∧ (sr.Tree = none → rest = []) := by
  rw [ElasticQuery_of_not_random cfg rand pos sr hrandom]
  cases ht : sr.Tree with
  | none =>
    refine ⟨[], ?_, by simp, fun _ => rfl⟩
    simp only [List.append_nil]
  | some tree =>
    cases hf : tree.FillTree with
    | true =>
      refine ⟨[EsQuery.bool [] [] (ElasticQuery.fillTree (stringsSplit tree.Leaf '~'))], ?_, ?_,
        (fun h => by cases h)⟩
      · simp only [hf, if_true]
      · intro q hq
        simp only [List.mem_singleton] at hq
        subst hq
        exact ⟨fun v h => (by cases h), fun _ _ _ h => (by cases h)⟩
    | false =>
      refine ⟨(if tree.Leaf ≠ [] then [EsQuery.term "tree.leaf".toList tree.Leaf] else [])
          ++ (if tree.Parent ≠ [] then [EsQuery.term "tree.parent".toList tree.Parent] else [])
          ++ (if tree.ChildCount ≠ [] then
                [EsQuery.matchQuery "tree.childCount".toList (QueryValue.str tree.ChildCount) []]
              else [])
          ++ (if tree.Label ≠ [] then
                [EsQuery.matchQuery "tree.label".toList (QueryValue.str tree.Label)
                  cfg.MimimumShouldMatch]
              else [])
          ++ depthClauses tree.Depth
          ++ (if tree.Type_ ≠ [] then [EsQuery.term "tree.type".toList tree.Type_] else []),
        ?_, ?_, (fun h => by cases h)⟩
      · simp only [hf, Bool.false_eq_true, if_false, exactTree_clauses, List.append_assoc]
      · intro q hq
        simp only [List.mem_append] at hq
        rcases hq with ((((hq | hq) | hq) | hq) | hq) | hq
        · rw [mem_ite_singleton _ _ _ hq]
          exact ⟨fun v h => (by simp at h), fun _ _ _ h => (by cases h)⟩
        · rw [mem_ite_singleton _ _ _ hq]
          exact ⟨fun v h => (by simp at h), fun _ _ _ h => (by cases h)⟩
        · rw [mem_ite_singleton _ _ _ hq]
          exact ⟨fun v h => (by cases h), fun _ _ _ h => (by cases h)⟩
        · rw [mem_ite_singleton _ _ _ hq]
          exact ⟨fun v h => (by cases h), fun _ _ _ h => (by cases h)⟩
        · rcases hd : tree.Depth with _ | ⟨a, _ | ⟨b, l⟩⟩
          · rw [hd] at hq
            cases hq
          · rw [hd] at hq
            simp only [depthClauses, List.mem_singleton] at hq
            subst hq
            exact ⟨fun v h => (by cases h), fun _ _ _ h => (by cases h)⟩
          · rw [hd] at hq
            simp only [depthClauses, List.mem_singleton] at hq
            subst hq
            exact ⟨fun v h => (by cases h), fun _ _ _ h => (by cases h)⟩
        · rw [mem_ite_singleton _ _ _ hq]
          exact ⟨fun v h => (by simp at h), fun _ _ _ h => (by cases h)⟩

/-- C35: the free-text block.  For every request with a non-empty Query whose
SortBy does not start with `random`, with rawQuery the Query after the rewrite
of the spec field, the required clauses of ElasticQuery are the two fixed
terms, one exact-match term on meta.spec for each space-delimited token
`meta.spec:v` of rawQuery, with that v and in token order, the free-text clause
over full_text exactly when the remaining tokens joined by single spaces are a
non-empty string, with that string as its text, and the clauses of the tree
query, none of which is a term on meta.spec or a free-text clause.  The token
`meta.spec:v` is the only token with the spec value v, and no token of the text
of the free-text clause starts with `meta.spec:`. -/
theorem ElasticQuery_free_text (cfg : Config) (rand : Nat → Nat) (pos : Nat)
    (sr : SearchRequest) (rawQuery : GoString)
    (hquery : sr.Query ≠ [])
    (hrandom : stringsHasPrefix sr.SortBy "random".toList = false)
    (hraw : rawQuery = stringsReplace sr.Query "delving_spec:".toList "meta.spec:".toList 1) :
    ∃ rest : List EsQuery,
      (sr.ElasticQuery cfg rand pos).1
          = (EsQuery.bool
              ([EsQuery.term "meta.docType".toList cfg.FragmentGraphDocType,
                  EsQuery.term cfg.OrgIDKey cfg.OrgID]
                ++ (specValues rawQuery).map (EsQuery.term "meta.spec".toList)
                ++ (if freeTextRemainder rawQuery ≠ [] then
                      [EsQuery.queryString (freeTextRemainder rawQuery) "full_text".toList
                        cfg.MimimumShouldMatch]
                    else [])
                ++ rest) [] [], none)
        ∧ (∀ q ∈ rest, (∀ v, q ≠ EsQuery.term "meta.spec".toList v)
            ∧ ∀ text field m, q ≠ EsQuery.queryString text field m)
        ∧ (sr.Tree = none → rest = [])
        ∧ (∀ t v, specValue t = some v ↔ t = "meta.spec:".toList ++ v)
        ∧ (∀ t ∈ stringsSplit (freeTextRemainder rawQuery) ' ', specValue t = none) := by
  subst hraw
  obtain ⟨rest, h, hrest, hnone⟩ := ElasticQuery_clauses cfg rand pos sr hrandom
  refine ⟨rest, ?_, hrest, hnone, specValue_eq_some, freeTextRemainder_tokens _⟩
  rw [h, freeText_eq cfg sr.Query _ hquery]

/-- The Query `a meta.spec:x b delving_spec:y`: ElasticQuery requires the terms
x and y on meta.spec and the free text `a b`. -/
theorem ElasticQuery_free_text_witness :
    (SearchRequest.ElasticQuery refConfig (fun i => i) 0
        { Query := "a meta.spec:x b delving_spec:y".toList }).1
      = (EsQuery.bool
          [EsQuery.term "meta.docType".toList "fragmentGraph".toList,
            EsQuery.term "meta.orgID".toList "demo".toList,
            EsQuery.term "meta.spec".toList "x".toList,
            EsQuery.term "meta.spec".toList "y".toList,
            EsQuery.queryString "a b".toList "full_text".toList
              refConfig.MimimumShouldMatch] [] [], none) := by
  obtain ⟨rest, h, -, hrest, -, -⟩ := ElasticQuery_free_text refConfig (fun i => i) 0
    { Query := "a meta.spec:x b delving_spec:y".toList } "a meta.spec:x b meta.spec:y".toList
    (by decide) (by decide) (by decide)
  rw [h, hrest rfl]
  rfl

/-! ## QueryCompiler: the rewrite of delving_spec -/

theorem occurrences_eq_zero (pat : GoString) (hpat : pat ≠ []) :
    ∀ s : GoString, occurrences pat s = 0 ↔ ¬ pat <:+: s
  | [] => by
    simp only [occurrences, List.infix_nil, true_iff]
    exact hpat
  | c :: cs => by
    have ih := occurrences_eq_zero pat hpat cs
    unfold occurrences
    rw [List.infix_cons_iff, not_or, ← ih, ← List.isPrefixOf_iff_prefix]
    by_cases hp : pat.isPrefixOf (c :: cs) = true
    · simp [hp]
    · simp [hp]

theorem occurrences_append_le (pat : GoString) (rest : GoString) :
    ∀ x : GoString, occurrences pat rest ≤ occurrences pat (x ++ rest)
  | [] => le_refl _
  | c :: cs => by
    have ih := occurrences_append_le pat rest cs
    rw [List.cons_append, occurrences]
    omega

theorem occurrences_pos (pat rest : GoString) (hpat : pat ≠ []) :
    ∀ pre : GoString, 1 ≤ occurrences pat (pre ++ pat ++ rest) := by
  intro pre
  have h : ¬ occurrences pat (pre ++ pat ++ rest) = 0 := by
    rw [occurrences_eq_zero pat hpat]
    intro hn
    exact hn ⟨pre, rest, rfl⟩
  omega

theorem isPrefix_of_not_mem (m : Char) (y : GoString) :
    ∀ (pat p : GoString), m ∉ pat → pat <+: p ++ m :: y → pat <+: p
  | [], p, _, _ => List.nil_prefix
  | a :: pat, [], hm, h => by
    rw [List.nil_append, List.cons_prefix_cons] at h
    exact absurd (by simp [h.1]) hm
  | a :: pat, b :: p, hm, h => by
    rw [List.cons_append, List.cons_prefix_cons] at h
    rw [List.cons_prefix_cons]
    exact ⟨h.1, isPrefix_of_not_mem m y pat p (fun e => hm (List.mem_cons_of_mem _ e)) h.2⟩

theorem replaceAux_skip (old new : GoString) (limit : Option Nat) (rest : GoString) :
    ∀ x : GoString, stringsReplaceAux old new limit x.length (x ++ rest)
      = stringsReplaceAux old new limit 0 rest
  | [] => rfl
  | c :: cs => by
    rw [List.length_cons, List.cons_append, stringsReplaceAux]
    exact replaceAux_skip old new limit rest cs

theorem replaceAux_limit_zero (old new : GoString) :
    ∀ s : GoString, stringsReplaceAux old new (some 0) 0 s = s
  | [] => rfl
  | c :: cs => by
    rw [stringsReplaceAux, if_neg (by simp), replaceAux_limit_zero old new cs]

theorem replaceAux_no_occurrence (old new : GoString) (limit : Option Nat) :
    ∀ s : GoString, ¬ old <:+: s → stringsReplaceAux old new limit 0 s = s
  | [], _ => rfl
  | c :: cs, h => by
    rw [List.infix_cons_iff, not_or] at h
    rw [stringsReplaceAux, if_neg (fun e => h.1 e.2), replaceAux_no_occurrence old new limit cs h.2]

/-- The rewrite with limit one replaces the first occurrence, which is the only
one when the text occurs once. -/
theorem replaceAux_once (c : Char) (old new rest : GoString) :
    ∀ pre : GoString, occurrences (c :: old) (pre ++ (c :: old) ++ rest) ≤ 1 →
      stringsReplaceAux (c :: old) new (some 1) 0 (pre ++ (c :: old) ++ rest)
        = pre ++ new ++ rest
  | [], _ => by
    rw [List.nil_append, List.cons_append, stringsReplaceAux,
      if_pos ⟨by simp, List.prefix_append _ _⟩]
    have e : (c :: old).length - 1 = old.length := by simp
    rw [e, replaceAux_skip]
    simp only [Option.map_some', Nat.pred_eq_sub_one, Nat.sub_self, List.nil_append]
    rw [replaceAux_limit_zero]
  | d :: pre, h => by
    have hpos := occurrences_pos (c :: old) rest (by simp) pre
    simp only [List.cons_append, List.append_assoc] at h hpos ⊢
    rw [occurrences] at h
    have hnp : ¬ (c :: old) <+: d :: (pre ++ c :: (old ++ rest)) := by
      intro hp
      rw [← List.isPrefixOf_iff_prefix] at hp
      rw [if_pos hp] at h
      omega
    have hle : occurrences (c :: old) (pre ++ c :: (old ++ rest)) ≤ 1 := by omega
    have ih := replaceAux_once c old new rest pre
      (by simpa only [List.cons_append, List.append_assoc] using hle)
    simp only [List.cons_append, List.append_assoc] at ih
    rw [stringsReplaceAux, if_neg (fun e => hnp e.2), ih]

theorem occurrences_of_no_head (c : Char) (old rest : GoString)
    (hrest : occurrences (c :: old) rest = 0) :
    ∀ x : GoString, c ∉ x → occurrences (c :: old) (x ++ rest) = 0
  | [], _ => hrest
  | a :: x, h => by
    have ih := occurrences_of_no_head c old rest hrest x
      (fun e => h (List.mem_cons_of_mem _ e))
    rw [List.cons_append, occurrences, ih, if_neg]
    intro hp
    rw [List.isPrefixOf_iff_prefix, List.cons_prefix_cons] at hp
    exact h (by simp [hp.1])

/-- After the rewrite of the only occurrence nothing of the old text is left,
when the new text does not hold the first character of the old text and starts
with a character that the old text does not hold. -/
theorem occurrences_rewritten (c m : Char) (old new rest : GoString)
    (hc : c ∉ m :: new) (hm : m ∉ c :: old) :
    ∀ pre : GoString, occurrences (c :: old) (pre ++ (c :: old) ++ rest) ≤ 1 →
      occurrences (c :: old) (pre ++ (m :: new) ++ rest) = 0
  | [], h => by
    have h1 : occurrences (c :: old) rest ≤ occurrences (c :: old) (old ++ rest) :=
      occurrences_append_le _ _ _
    have hp : (c :: old).isPrefixOf (c :: (old ++ rest)) = true :=
      List.isPrefixOf_iff_prefix.mpr (by simp)
    rw [List.nil_append, List.cons_append, occurrences, if_pos hp] at h
    rw [List.nil_append]
    exact occurrences_of_no_head c old rest (by omega) (m :: new) hc
  | d :: pre, h => by
    have hpos := occurrences_pos (c :: old) rest (by simp) pre
    simp only [List.cons_append, List.append_assoc] at h hpos ⊢
    rw [occurrences] at h ⊢
    have hnp : ¬ (c :: old) <+: d :: (pre ++ c :: (old ++ rest)) := by
      intro hp
      rw [← List.isPrefixOf_iff_prefix] at hp
      rw [if_pos hp] at h
      omega
    have hle : occurrences (c :: old) (pre ++ c :: (old ++ rest)) ≤ 1 := by omega
    have ih := occurrences_rewritten c m old new rest hc hm pre
      (by simpa only [List.cons_append, List.append_assoc] using hle)
    simp only [List.cons_append, List.append_assoc] at ih
    rw [ih, if_neg]
    intro hp
    rw [List.isPrefixOf_iff_prefix] at hp
    have hp1 : (c :: old) <+: (d :: pre) ++ m :: (new ++ rest) := by simpa using hp
    have hp2 := isPrefix_of_not_mem m (new ++ rest) (c :: old) (d :: pre) hm hp1
    apply hnp
    have := hp2.trans (List.prefix_append (d :: pre) (c :: (old ++ rest)))
    simpa using this

theorem infix_of_sep (sep : Char) (pat b : GoString) (hsep : sep ∉ pat) :
    ∀ a : GoString, pat <:+: a ++ sep :: b → pat <:+: a ∨ pat <:+: b
  | [], h => by
    rw [List.nil_append, List.infix_cons_iff] at h
    rcases h with h | h
    · rcases pat with _ | ⟨x, pat⟩
      · exact Or.inl List.nil_infix
      · rw [List.cons_prefix_cons] at h
        exact absurd (by simp [h.1]) hsep
    · exact Or.inr h
  | c :: a, h => by
    rw [List.cons_append, List.infix_cons_iff] at h
    rcases h with h | h
    · have h1 : pat <+: (c :: a) ++ sep :: b := by simpa using h
      exact Or.inl (isPrefix_of_not_mem sep b pat (c :: a) hsep h1).isInfix
    · rcases infix_of_sep sep pat b hsep a h with h | h
      · exact Or.inl (h.trans (List.suffix_cons c a).isInfix)
      · exact Or.inr h

theorem infix_stringsJoin (sep : Char) (pat : GoString) (hsep : sep ∉ pat) (hpat : pat ≠ []) :
    ∀ parts : List GoString, pat <:+: stringsJoin parts [sep] → ∃ p ∈ parts, pat <:+: p
  | [], h => by
    have e : stringsJoin [] [sep] = [] := rfl
    rw [e, List.infix_nil] at h
    exact absurd h hpat
  | [p], h => by
    have e : stringsJoin [p] [sep] = p := by
      simp [stringsJoin, List.intercalate, List.intersperse]
    rw [e] at h
    exact ⟨p, by simp, h⟩
  | p :: q :: rest, h => by
    rw [stringsJoin_cons_cons] at h
    simp only [List.append_assoc, List.singleton_append] at h
    rcases infix_of_sep sep pat _ hsep p h with h | h
    · exact ⟨p, by simp, h⟩
    · obtain ⟨x, hx, hxp⟩ := infix_stringsJoin sep pat hsep hpat (q :: rest) h
      exact ⟨x, List.mem_cons_of_mem _ hx, hxp⟩

/-- A token of a split stands between separators: the string is the text
before the token, the token and the text after it, the text before is empty or
ends with the separator, and the text after is empty or starts with it. -/
theorem stringsSplitAux_mem (sep : Char) :
    ∀ (s cur t : GoString), t ∈ stringsSplitAux sep s cur →
      (∃ post, cur.reverse ++ s = t ++ post ∧ (post = [] ∨ post.head? = some sep))
        ∨ (∃ pre post, s = pre ++ sep :: (t ++ post) ∧ (post = [] ∨ post.head? = some sep))
  | [], cur, t, h => by
    unfold stringsSplitAux at h
    simp only [List.mem_singleton] at h
    subst h
    exact Or.inl ⟨[], by simp, Or.inl rfl⟩
  | c :: cs, cur, t, h => by
    unfold stringsSplitAux at h
    split at h
    · rename_i hc
      subst hc
      simp only [List.mem_cons] at h
      rcases h with rfl | h
      · exact Or.inl ⟨c :: cs, rfl, Or.inr rfl⟩
      · rcases stringsSplitAux_mem c cs [] t h with ⟨post, e, hpost⟩ | ⟨pre, post, e, hpost⟩
        · simp only [List.reverse_nil, List.nil_append] at e
          exact Or.inr ⟨[], post, by rw [e]; rfl, hpost⟩
        · exact Or.inr ⟨c :: pre, post, by rw [e]; rfl, hpost⟩
    · rcases stringsSplitAux_mem sep cs (c :: cur) t h with ⟨post, e, hpost⟩ | ⟨pre, post, e, hpost⟩
      · refine Or.inl ⟨post, ?_, hpost⟩
        rw [← e]
        simp
      · exact Or.inr ⟨c :: pre, post, by rw [e]; rfl, hpost⟩

/-- A text without separator that stands at the start of the string or after a
separator, and at the end of the string or before a separator, is a token of
the split. -/
theorem mem_stringsSplitAux (sep : Char) (t post : GoString) (ht : sep ∉ t)
    (hpost : post = [] ∨ post.head? = some sep) :
    (t ∈ stringsSplitAux sep (t ++ post) [])
      ∧ ∀ (pre cur : GoString), t ∈ stringsSplitAux sep (pre ++ sep :: (t ++ post)) cur := by
  have h0 : t ∈ stringsSplitAux sep (t ++ post) [] := by
    rw [stringsSplitAux_token sep t post [] ht]
    rcases hpost with rfl | hpost
    · simp [stringsSplitAux]
    · rcases post with _ | ⟨x, post⟩
      · cases hpost
      · simp only [List.head?_cons, Option.some.injEq] at hpost
        subst hpost
        simp [stringsSplitAux]
  refine ⟨h0, ?_⟩
  intro pre
  induction pre with
  | nil =>
    intro cur
    rw [List.nil_append, stringsSplitAux, if_pos rfl]
    exact List.mem_cons_of_mem _ h0
  | cons c pre ih =>
    intro cur
    rw [List.cons_append, stringsSplitAux]
    split
    · exact List.mem_cons_of_mem _ (ih [])
    · exact ih (c :: cur)

theorem stringsReplace_once (s pre rest : GoString)
    (hs : s = pre ++ "delving_spec:".toList ++ rest)
    (honce : occurrences "delving_spec:".toList s ≤ 1) :
    stringsReplace s "delving_spec:".toList "meta.spec:".toList 1
      = pre ++ "meta.spec:".toList ++ rest := by
  subst hs
  exact replaceAux_once 'd' "elving_spec:".toList "meta.spec:".toList rest pre honce

/-- With at most one occurrence of `delving_spec:` in the text, none is left
after the rewrite. -/
theorem stringsReplace_no_delving_spec (s : GoString)
    (honce : occurrences "delving_spec:".toList s ≤ 1) :
    ¬ "delving_spec:".toList
      <:+: stringsReplace s "delving_spec:".toList "meta.spec:".toList 1 := by
  by_cases h : "delving_spec:".toList <:+: s
  · obtain ⟨pre, rest, e⟩ := h
    rw [stringsReplace_once s pre rest e.symm honce,
      ← occurrences_eq_zero _ (by decide)]
    rw [← e] at honce
    exact occurrences_rewritten 'd' 'm' "elving_spec:".toList "eta.spec:".toList rest
      (by decide) (by decide) pre honce
  · have e : stringsReplace s "delving_spec:".toList "meta.spec:".toList 1 = s :=
      replaceAux_no_occurrence _ _ _ s h
    rw [e]
    exact h

/-- C36, amended: the rewrite of `delving_spec:` reaches one occurrence.  For
every request whose Query holds `delving_spec:` at most once, whatever its
SortBy, each space-delimited token `delving_spec:v` of the Query yields a
required exact-match term on meta.spec with the value v, and the text of no
free-text clause holds `delving_spec:`; the required clauses are those of the
compiled bool query, which the randomized-score query wraps when SortBy starts
with `random`. -/
theorem ElasticQuery_rewrites_single_delving_spec (cfg : Config) (rand : Nat → Nat)
    (pos : Nat) (sr : SearchRequest)
    (honce : occurrences "delving_spec:".toList sr.Query ≤ 1) :
    ∃ must : List EsQuery,
      ((stringsHasPrefix sr.SortBy "random".toList = false
          ∧ (sr.ElasticQuery cfg rand pos).1 = (EsQuery.bool must [] [], none))
        ∨ (stringsHasPrefix sr.SortBy "random".toList = true
          ∧ ∃ seed, (sr.ElasticQuery cfg rand pos).1
              = (EsQuery.functionScore seed (EsQuery.bool must [] []), none)))
        ∧ (∀ v, "delving_spec:".toList ++ v ∈ stringsSplit sr.Query ' ' →
            EsQuery.term "meta.spec".toList v ∈ must)
        ∧ (∀ text field m, EsQuery.queryString text field m ∈ must →
            ¬ "delving_spec:".toList <:+: text) := by
  have hform : ∃ rest : List EsQuery,
      ((stringsHasPrefix sr.SortBy "random".toList = false
          ∧ (sr.ElasticQuery cfg rand pos).1
            = (EsQuery.bool
                (ElasticQuery.freeText cfg sr.Query
                    [EsQuery.term "meta.docType".toList cfg.FragmentGraphDocType,
                      EsQuery.term cfg.OrgIDKey cfg.OrgID]
                  ++ rest) [] [], none))
        ∨ (stringsHasPrefix sr.SortBy "random".toList = true
          ∧ ∃ seed, (sr.ElasticQuery cfg rand pos).1
              = (EsQuery.functionScore seed
                  (EsQuery.bool
                    (ElasticQuery.freeText cfg sr.Query
                        [EsQuery.term "meta.docType".toList cfg.FragmentGraphDocType,
                          EsQuery.term cfg.OrgIDKey cfg.OrgID]
                      ++ rest) [] []), none)))
        ∧ (∀ q ∈ rest, (∀ v, q ≠ EsQuery.term "meta.spec".toList v)
            ∧ ∀ text field m, q ≠ EsQuery.queryString text field m) := by
    cases hrandom : stringsHasPrefix sr.SortBy "random".toList with
    | false =>
      obtain ⟨rest, h, hrest, -⟩ := ElasticQuery_clauses cfg rand pos sr hrandom
      exact ⟨rest, Or.inl ⟨rfl, h⟩, hrest⟩
    | true =>
      obtain ⟨seed, h⟩ := ElasticQuery_random_inner cfg rand pos sr hrandom
      refine ⟨[], Or.inr ⟨rfl, seed, ?_⟩, by simp⟩
      rw [h, List.append_nil]
  obtain ⟨rest, h, hrest⟩ := hform
  refine ⟨_, h, ?_, ?_⟩
  · intro v hv
    have hsp : ' ' ∉ "delving_spec:".toList ++ v :=
      stringsSplitAux_no_sep ' ' sr.Query [] _ (by simp) hv
    have hsp' : ' ' ∉ "meta.spec:".toList ++ v := by
      intro hmem
      rw [List.mem_append] at hmem hsp
      rcases hmem with hmem | hmem
      · exact absurd hmem (by decide)
      · exact hsp (Or.inr hmem)
    have hquery : sr.Query ≠ [] := by
      intro e
      rw [e] at hv
      simp [stringsSplit, stringsSplitAux] at hv
    have hmem : "meta.spec:".toList ++ v
        ∈ stringsSplit (stringsReplace sr.Query "delving_spec:".toList "meta.spec:".toList 1)
          ' ' := by
      rcases stringsSplitAux_mem ' ' sr.Query [] _ hv with ⟨post, e, hpost⟩ | ⟨pre, post, e, hpost⟩
      · simp only [List.reverse_nil, List.nil_append] at e
        rw [stringsReplace_once sr.Query [] (v ++ post) (by rw [e]; simp) honce]
        have := (mem_stringsSplitAux ' ' ("meta.spec:".toList ++ v) post hsp' hpost).1
        simpa [stringsSplit] using this
      · rw [stringsReplace_once sr.Query (pre ++ [' ']) (v ++ post) (by rw [e]; simp) honce]
        have := (mem_stringsSplitAux ' ' ("meta.spec:".toList ++ v) post hsp' hpost).2 pre []
        simpa [stringsSplit] using this
    rw [freeText_eq cfg sr.Query _ hquery]
    simp only [List.mem_append, List.mem_map]
    refine Or.inl (Or.inl (Or.inr ⟨v, ?_, rfl⟩))
    unfold specValues
    rw [List.mem_filterMap]
    exact ⟨_, hmem, (specValue_eq_some _ v).mpr rfl⟩
  · intro text field m hmem
    by_cases hquery : sr.Query = []
    · have e : ElasticQuery.freeText cfg sr.Query
          [EsQuery.term "meta.docType".toList cfg.FragmentGraphDocType,
            EsQuery.term cfg.OrgIDKey cfg.OrgID]
          = [EsQuery.term "meta.docType".toList cfg.FragmentGraphDocType,
            EsQuery.term cfg.OrgIDKey cfg.OrgID] := by
        unfold ElasticQuery.freeText
        rw [if_neg (by simpa using hquery)]
      rw [e] at hmem
      simp only [List.mem_append, List.mem_cons, List.mem_singleton, List.not_mem_nil,
        or_false] at hmem
      rcases hmem with (hmem | hmem) | hmem
      · cases hmem
      · cases hmem
      · exact absurd rfl ((hrest _ hmem).2 text field m)
    · rw [freeText_eq cfg sr.Query _ hquery] at hmem
      simp only [List.mem_append, List.mem_map, List.mem_cons, List.mem_singleton,
        List.not_mem_nil, or_false] at hmem
      rcases hmem with (((hmem | hmem) | ⟨v, -, hmem⟩) | hmem) | hmem
      · cases hmem
      · cases hmem
      · cases hmem
      · have hq := mem_ite_singleton _ _ _ hmem
        simp only [EsQuery.queryString.injEq] at hq
        rw [hq.1]
        intro hin
        have e : (" ".toList : GoString) = [' '] := rfl
        unfold freeTextRemainder at hin
        rw [e] at hin
        obtain ⟨p, hp, hpin⟩ := infix_stringsJoin ' ' _ (by decide) (by decide) _ hin
        have hp' := (List.mem_filter.mp hp).1
        have hpraw := stringsSplitAux_part ' ' _ [] p hp'
        simp only [List.reverse_nil, List.nil_append] at hpraw
        exact stringsReplace_no_delving_spec sr.Query honce (hpin.trans hpraw)
      · exact absurd rfl ((hrest _ hmem).2 text field m)

/-- The Query `a delving_spec:x b` holds `delving_spec:` once: ElasticQuery
requires the term x on meta.spec and the free text `a b`, also under the SortBy
random_abc. -/
theorem ElasticQuery_rewrites_single_delving_spec_witness :
    occurrences "delving_spec:".toList "a delving_spec:x b".toList ≤ 1
      ∧ (∃ must : List EsQuery,
          (SearchRequest.ElasticQuery refConfig (fun i => i) 0
              { Query := "a delving_spec:x b".toList }).1 = (EsQuery.bool must [] [], none)
            ∧ EsQuery.term "meta.spec".toList "x".toList ∈ must
            ∧ (∀ text field m, EsQuery.queryString text field m ∈ must →
                ¬ "delving_spec:".toList <:+: text))
      ∧ (SearchRequest.ElasticQuery refConfig (fun i => i) 0
            { Query := "a delving_spec:x b".toList }).1
          = (EsQuery.bool
              [EsQuery.term "meta.docType".toList "fragmentGraph".toList,
                EsQuery.term "meta.orgID".toList "demo".toList,
                EsQuery.term "meta.spec".toList "x".toList,
                EsQuery.queryString "a b".toList "full_text".toList
                  refConfig.MimimumShouldMatch] [] [], none)
      ∧ (∃ must : List EsQuery,
          (SearchRequest.ElasticQuery refConfig (fun i => i) 0
              { Query := "a delving_spec:x b".toList, SortBy := "random_abc".toList }).1
            = (EsQuery.functionScore "abc".toList (EsQuery.bool must [] []), none)
            ∧ EsQuery.term "meta.spec".toList "x".toList ∈ must
            ∧ (∀ text field m, EsQuery.queryString text field m ∈ must →
                ¬ "delving_spec:".toList <:+: text)) := by
  refine ⟨by decide, ?_, rfl, ?_⟩
  · obtain ⟨must, h, hterm, htext⟩ := ElasticQuery_rewrites_single_delving_spec refConfig
      (fun i => i) 0 { Query := "a delving_spec:x b".toList } (by decide)
    rcases h with ⟨-, h⟩ | ⟨hr, -⟩
    · exact ⟨must, h, hterm "x".toList (by decide), htext⟩
    · exact absurd hr (by decide)
  · obtain ⟨must, h, hterm, htext⟩ := ElasticQuery_rewrites_single_delving_spec refConfig
      (fun i => i) 0 { Query := "a delving_spec:x b".toList, SortBy := "random_abc".toList }
      (by decide)
    rcases h with ⟨hr, -⟩ | ⟨-, seed, h⟩
    · exact absurd hr (by decide)
    · have hs : (SearchRequest.ElasticQuery refConfig (fun i => i) 0
          { Query := "a delving_spec:x b".toList, SortBy := "random_abc".toList }).1
          = (EsQuery.functionScore "abc".toList
              (EsQuery.bool
                [EsQuery.term "meta.docType".toList "fragmentGraph".toList,
                  EsQuery.term "meta.orgID".toList "demo".toList,
                  EsQuery.term "meta.spec".toList "x".toList,
                  EsQuery.queryString "a b".toList "full_text".toList
                    refConfig.MimimumShouldMatch] [] []), none) := rfl
      rw [hs] at h
      simp only [Prod.mk.injEq, EsQuery.functionScore.injEq, EsQuery.bool.injEq, and_true,
        true_and] at h
      refine ⟨must, ?_, hterm "x".toList (by decide), htext⟩
      rw [hs, ← h.2]

/-- C36, counterexample: the Query `delving_spec:a delving_spec:b` has the
space-delimited token `delving_spec:b`, but ElasticQuery rewrites only the
first occurrence: it requires the term a on meta.spec, no term b, and the
free-text clause with the text `delving_spec:b`. -/
theorem ElasticQuery_second_delving_spec_counterexample :
    "delving_spec:b".toList ∈ stringsSplit "delving_spec:a delving_spec:b".toList ' '
      ∧ (SearchRequest.ElasticQuery refConfig (fun i => i) 0
            { Query := "delving_spec:a delving_spec:b".toList }).1
          = (EsQuery.bool
              [EsQuery.term "meta.docType".toList "fragmentGraph".toList,
                EsQuery.term "meta.orgID".toList "demo".toList,
                EsQuery.term "meta.spec".toList "a".toList,
                EsQuery.queryString "delving_spec:b".toList "full_text".toList
                  refConfig.MimimumShouldMatch] [] [], none)
      ∧ EsQuery.term "meta.spec".toList "b".toList
          ∉ [EsQuery.term "meta.docType".toList "fragmentGraph".toList,
              EsQuery.term "meta.orgID".toList "demo".toList,
              EsQuery.term "meta.spec".toList "a".toList,
              EsQuery.queryString "delving_spec:b".toList "full_text".toList
                refConfig.MimimumShouldMatch]
      ∧ "delving_spec:".toList <:+: "delving_spec:b".toList := by
  refine ⟨by decide, rfl, ?_, ⟨[], "b".toList, rfl⟩⟩
  simp

/-! ## SearchRequest construction: the order of the parameters -/

theorem lookup_perm {β : Type} {l l' : List (GoString × β)} (h : l.Perm l')
    (hnd : (l.map Prod.fst).Nodup) (k : GoString) : l.lookup k = l'.lookup k := by
  induction h with
  | nil => rfl
  | cons x _ ih =>
    obtain ⟨a, b⟩ := x
    rw [List.map_cons, List.nodup_cons] at hnd
    rw [List.lookup_cons, List.lookup_cons, ih hnd.2]
  | swap x y l =>
    obtain ⟨a, b⟩ := x
    obtain ⟨c, d⟩ := y
    simp only [List.map_cons, List.nodup_cons, List.mem_cons, not_or] at hnd
    have hne : c ≠ a := hnd.1.1
    simp only [List.lookup_cons]
    cases hka : k == a <;> cases hkc : k == c <;> simp only
    exact absurd ((beq_iff_eq.mp hkc).symm.trans (beq_iff_eq.mp hka)) hne
  | trans h1 _ ih1 ih2 =>
    rw [ih1 hnd, ih2 (((h1.map Prod.fst).nodup_iff).mp hnd)]

theorem Get_perm {params params' : Values} (h : params.Perm params')
    (hnd : (params.map Prod.fst).Nodup) (k : GoString) : params.Get k = params'.Get k := by
  unfold Values.Get
  rw [lookup_perm h hnd k]

theorem param_congr (env : Env) (params params' : Values)
    (hget : ∀ k, params.Get k = params'.Get k) (st : LoopState)
    (pv : GoString × List GoString) :
    NewSearchRequest.param env params st pv = NewSearchRequest.param env params' st pv := by
  have e : Values.Get params = Values.Get params' := funext hget
  unfold NewSearchRequest.param
  simp only [e]

theorem loop_congr (env : Env) (params params' : Values)
    (hget : ∀ k, params.Get k = params'.Get k) :
    ∀ (l : List (GoString × List GoString)) (st : LoopState),
      NewSearchRequest.loop env params l st = NewSearchRequest.loop env params' l st
  | [], _ => rfl
  | pv :: rest, st => by
    unfold NewSearchRequest.loop
    rw [param_congr env params params' hget st pv]
    split
    · rfl
    · exact loop_congr env params params' hget rest _

theorem queryFilters_shape :
    ∀ v : List GoString,
      (∀ sr, ∃ e, NewSearchRequest.queryFilters sr v = Except.error e)
        ∨ ∃ l : List QueryFilter, ∀ sr, NewSearchRequest.queryFilters sr v
            = Except.ok { sr with QueryFilter := sr.QueryFilter ++ l }
  | [] => Or.inr ⟨[], fun sr => by simp [NewSearchRequest.queryFilters]⟩
  | qf :: rest => by
    rcases hq : NewQueryFilter qf with ⟨f, _ | err⟩
    · rcases queryFilters_shape rest with h | ⟨l, h⟩
      · left
        intro sr
        unfold NewSearchRequest.queryFilters SearchRequest.AddQueryFilter
        rw [hq]
        cases f with
        | none => exact h sr
        | some f => exact h _
      · cases f with
        | none =>
          right
          refine ⟨l, fun sr => ?_⟩
          unfold NewSearchRequest.queryFilters SearchRequest.AddQueryFilter
          rw [hq]
          exact h sr
        | some f =>
          right
          refine ⟨f :: l, fun sr => ?_⟩
          unfold NewSearchRequest.queryFilters SearchRequest.AddQueryFilter
          rw [hq]
          simp only [h, List.append_assoc, List.singleton_append]
    · left
      intro sr
      unfold NewSearchRequest.queryFilters SearchRequest.AddQueryFilter
      rw [hq]
      cases f <;> exact ⟨_, rfl⟩

theorem facetFields_shape (env : Env) :
    ∀ v : List GoString,
      (∀ sr, ∃ e, NewSearchRequest.facetFields env sr v = Except.error e)
        ∨ ∃ l : List FacetField, ∀ sr, NewSearchRequest.facetFields env sr v
            = Except.ok { sr with FacetField := sr.FacetField ++ l }
  | [] => Or.inr ⟨[], fun sr => by simp [NewSearchRequest.facetFields]⟩
  | ff :: rest => by
    rcases hq : NewFacetField env ff with ⟨f, _ | err⟩
    · rcases facetFields_shape env rest with h | ⟨l, h⟩
      · left
        intro sr
        unfold NewSearchRequest.facetFields
        rw [hq]
        cases f with
        | none => exact h sr
        | some f => exact h _
      · cases f with
        | none =>
          right
          refine ⟨l, fun sr => ?_⟩
          unfold NewSearchRequest.facetFields
          rw [hq]
          exact h sr
        | some f =>
          right
          refine ⟨f :: l, fun sr => ?_⟩
          unfold NewSearchRequest.facetFields
          rw [hq]
          simp only [h, List.append_assoc, List.singleton_append]
    · left
      intro sr
      unfold NewSearchRequest.facetFields
      rw [hq]
      cases f <;> exact ⟨_, rfl⟩

/-- The names that select each case of the parameter switch. -/
theorem paramCase_key (p : GoString) (c : ParamCase) (h : paramCase p = c) :
    (c = ParamCase.query → p = "q".toList ∨ p = "query".toList)
      ∧ (c = ParamCase.qf → p = "qf".toList ∨ p = "qf[]".toList)
      ∧ (c = ParamCase.facetField → p = "facet.field".toList)
      ∧ (c = ParamCase.facetBoolType → p = "facetBoolType".toList)
      ∧ (c = ParamCase.format → p = "format".toList)
      ∧ (c = ParamCase.rows → p = "rows".toList)
      ∧ (c = ParamCase.itemFormat → p = "itemFormat".toList)
      ∧ (c = ParamCase.sortBy → p = "sortBy".toList)
      ∧ (c = ParamCase.sortAsc → p = "sortAsc".toList)
      ∧ (c = ParamCase.sortOrder → p = "sortOrder".toList)
      ∧ (c = ParamCase.collapseOn → p = "collapseOn".toList)
      ∧ (c = ParamCase.collapseSort → p = "collapseSort".toList)
      ∧ (c = ParamCase.collapseSize → p = "collapseSize".toList)
      ∧ (c = ParamCase.peek → p = "peek".toList)
      ∧ (c = ParamCase.byLeaf → p = "byLeaf".toList)
      ∧ (c = ParamCase.byDepth → p = "byDepth".toList)
      ∧ (c = ParamCase.byChildCount → p = "byChildCount".toList)
      ∧ (c = ParamCase.byParent → p = "byParent".toList)
      ∧ (c = ParamCase.byType → p = "byType".toList)
      ∧ (c = ParamCase.byLabel → p = "byLabel".toList) := by
  unfold paramCase at h
  by_cases c0 : p = "q".toList ∨ p = "query".toList
  · rw [if_pos c0] at h
    subst h
    refine ⟨?_, ?_, ?_, ?_, ?_, ?_, ?_, ?_, ?_, ?_, ?_, ?_, ?_, ?_, ?_, ?_, ?_, ?_, ?_, ?_⟩ <;> intro e <;>
      first | exact c0 | cases e
  rw [if_neg c0] at h
  by_cases c1 : p = "qf".toList ∨ p = "qf[]".toList
  · rw [if_pos c1] at h
    subst h
    refine ⟨?_, ?_, ?_, ?_, ?_, ?_, ?_, ?_, ?_, ?_, ?_, ?_, ?_, ?_, ?_, ?_, ?_, ?_, ?_, ?_⟩ <;> intro e <;>
      first | exact c1 | cases e
  rw [if_neg c1] at h
  by_cases c2 : p = "facet.field".toList
  · rw [if_pos c2] at h
    subst h
    refine ⟨?_, ?_, ?_, ?_, ?_, ?_, ?_, ?_, ?_, ?_, ?_, ?_, ?_, ?_, ?_, ?_, ?_, ?_, ?_, ?_⟩ <;> intro e <;>
      first | exact c2 | cases e
  rw [if_neg c2] at h
  by_cases c3 : p = "facetBoolType".toList
  · rw [if_pos c3] at h
    subst h
    refine ⟨?_, ?_, ?_, ?_, ?_, ?_, ?_, ?_, ?_, ?_, ?_, ?_, ?_, ?_, ?_, ?_, ?_, ?_, ?_, ?_⟩ <;> intro e <;>
      first | exact c3 | cases e
  rw [if_neg c3] at h
  by_cases c4 : p = "format".toList
  · rw [if_pos c4] at h
    subst h
    refine ⟨?_, ?_, ?_, ?_, ?_, ?_, ?_, ?_, ?_, ?_, ?_, ?_, ?_, ?_, ?_, ?_, ?_, ?_, ?_, ?_⟩ <;> intro e <;>
      first | exact c4 | cases e
  rw [if_neg c4] at h
  by_cases c5 : p = "rows".toList
  · rw [if_pos c5] at h
    subst h
    refine ⟨?_, ?_, ?_, ?_, ?_, ?_, ?_, ?_, ?_, ?_, ?_, ?_, ?_, ?_, ?_, ?_, ?_, ?_, ?_, ?_⟩ <;> intro e <;>
      first | exact c5 | cases e
  rw [if_neg c5] at h
  by_cases c6 : p = "itemFormat".toList
  · rw [if_pos c6] at h
    subst h
    refine ⟨?_, ?_, ?_, ?_, ?_, ?_, ?_, ?_, ?_, ?_, ?_, ?_, ?_, ?_, ?_, ?_, ?_, ?_, ?_, ?_⟩ <;> intro e <;>
      first | exact c6 | cases e
  rw [if_neg c6] at h
  by_cases c7 : p = "sortBy".toList
  · rw [if_pos c7] at h
    subst h
    refine ⟨?_, ?_, ?_, ?_, ?_, ?_, ?_, ?_, ?_, ?_, ?_, ?_, ?_, ?_, ?_, ?_, ?_, ?_, ?_, ?_⟩ <;> intro e <;>
      first | exact c7 | cases e
  rw [if_neg c7] at h
  by_cases c8 : p = "sortAsc".toList
  · rw [if_pos c8] at h
    subst h
    refine ⟨?_, ?_, ?_, ?_, ?_, ?_, ?_, ?_, ?_, ?_, ?_, ?_, ?_, ?_, ?_, ?_, ?_, ?_, ?_, ?_⟩ <;> intro e <;>
      first | exact c8 | cases e
  rw [if_neg c8] at h
  by_cases c9 : p = "sortOrder".toList
  · rw [if_pos c9] at h
    subst h
    refine ⟨?_, ?_, ?_, ?_, ?_, ?_, ?_, ?_, ?_, ?_, ?_, ?_, ?_, ?_, ?_, ?_, ?_, ?_, ?_, ?_⟩ <;> intro e <;>
      first | exact c9 | cases e
  rw [if_neg c9] at h
  by_cases c10 : p = "collapseOn".toList
  · rw [if_pos c10] at h
    subst h
    refine ⟨?_, ?_, ?_, ?_, ?_, ?_, ?_, ?_, ?_, ?_, ?_, ?_, ?_, ?_, ?_, ?_, ?_, ?_, ?_, ?_⟩ <;> intro e <;>
      first | exact c10 | cases e
  rw [if_neg c10] at h
  by_cases c11 : p = "collapseSort".toList
  · rw [if_pos c11] at h
    subst h
    refine ⟨?_, ?_, ?_, ?_, ?_, ?_, ?_, ?_, ?_, ?_, ?_, ?_, ?_, ?_, ?_, ?_, ?_, ?_, ?_, ?_⟩ <;> intro e <;>
      first | exact c11 | cases e
  rw [if_neg c11] at h
  by_cases c12 : p = "collapseSize".toList
  · rw [if_pos c12] at h
    subst h
    refine ⟨?_, ?_, ?_, ?_, ?_, ?_, ?_, ?_, ?_, ?_, ?_, ?_, ?_, ?_, ?_, ?_, ?_, ?_, ?_, ?_⟩ <;> intro e <;>
      first | exact c12 | cases e
  rw [if_neg c12] at h
  by_cases c13 : p = "peek".toList
  · rw [if_pos c13] at h
    subst h
    refine ⟨?_, ?_, ?_, ?_, ?_, ?_, ?_, ?_, ?_, ?_, ?_, ?_, ?_, ?_, ?_, ?_, ?_, ?_, ?_, ?_⟩ <;> intro e <;>
      first | exact c13 | cases e
  rw [if_neg c13] at h
  by_cases c14 : p = "byLeaf".toList
  · rw [if_pos c14] at h
    subst h
    refine ⟨?_, ?_, ?_, ?_, ?_, ?_, ?_, ?_, ?_, ?_, ?_, ?_, ?_, ?_, ?_, ?_, ?_, ?_, ?_, ?_⟩ <;> intro e <;>
      first | exact c14 | cases e
  rw [if_neg c14] at h
  by_cases c15 : p = "byDepth".toList
  · rw [if_pos c15] at h
    subst h
    refine ⟨?_, ?_, ?_, ?_, ?_, ?_, ?_, ?_, ?_, ?_, ?_, ?_, ?_, ?_, ?_, ?_, ?_, ?_, ?_, ?_⟩ <;> intro e <;>
      first | exact c15 | cases e
  rw [if_neg c15] at h
  by_cases c16 : p = "byChildCount".toList
  · rw [if_pos c16] at h
    subst h
    refine ⟨?_, ?_, ?_, ?_, ?_, ?_, ?_, ?_, ?_, ?_, ?_, ?_, ?_, ?_, ?_, ?_, ?_, ?_, ?_, ?_⟩ <;> intro e <;>
      first | exact c16 | cases e
  rw [if_neg c16] at h
  by_cases c17 : p = "byParent".toList
  · rw [if_pos c17] at h
    subst h
    refine ⟨?_, ?_, ?_, ?_, ?_, ?_, ?_, ?_, ?_, ?_, ?_, ?_, ?_, ?_, ?_, ?_, ?_, ?_, ?_, ?_⟩ <;> intro e <;>
      first | exact c17 | cases e
  rw [if_neg c17] at h
  by_cases c18 : p = "byType".toList
  · rw [if_pos c18] at h
    subst h
    refine ⟨?_, ?_, ?_, ?_, ?_, ?_, ?_, ?_, ?_, ?_, ?_, ?_, ?_, ?_, ?_, ?_, ?_, ?_, ?_, ?_⟩ <;> intro e <;>
      first | exact c18 | cases e
  rw [if_neg c18] at h
  by_cases c19 : p = "byLabel".toList
  · rw [if_pos c19] at h
    subst h
    refine ⟨?_, ?_, ?_, ?_, ?_, ?_, ?_, ?_, ?_, ?_, ?_, ?_, ?_, ?_, ?_, ?_, ?_, ?_, ?_, ?_⟩ <;> intro e <;>
      first | exact c19 | cases e
  rw [if_neg c19] at h
  subst h
  refine ⟨?_, ?_, ?_, ?_, ?_, ?_, ?_, ?_, ?_, ?_, ?_, ?_, ?_, ?_, ?_, ?_, ?_, ?_, ?_, ?_⟩ <;> intro e <;> cases e

/-- One iteration of the parameter loop either fails whatever the state, or
leaves every state as it is, or writes one slot of the state that its case
selects, with a value that does not depend on the state. -/
theorem param_shape (env : Env) (params : Values) (pv : GoString × List GoString) :
    (∀ st, ∃ e, NewSearchRequest.param env params st pv = Except.error e)
      ∨ (∀ st, NewSearchRequest.param env params st pv = Except.ok st)
      ∨ (paramCase pv.1 = ParamCase.query ∧ ∃ q : GoString, ∀ st, NewSearchRequest.param env params st pv
          = Except.ok ({ st.1 with Query := q }, st.2))
      ∨ (paramCase pv.1 = ParamCase.qf ∧ ∃ l : List QueryFilter, ∀ st, NewSearchRequest.param env params st pv
          = Except.ok ({ st.1 with QueryFilter := st.1.QueryFilter ++ l }, st.2))
      ∨ (paramCase pv.1 = ParamCase.facetField ∧ ∃ l : List FacetField, ∀ st, NewSearchRequest.param env params st pv
          = Except.ok ({ st.1 with FacetField := st.1.FacetField ++ l }, st.2))
      ∨ (paramCase pv.1 = ParamCase.facetBoolType ∧ ∃ b : Bool, ∀ st, NewSearchRequest.param env params st pv
          = Except.ok ({ st.1 with FacetAndBoolType := b }, st.2))
      ∨ (paramCase pv.1 = ParamCase.format ∧ ∃ f : ResponseFormatType, ∀ st, NewSearchRequest.param env params st pv
          = Except.ok ({ st.1 with ResponseFormatType := f }, st.2))
      ∨ (paramCase pv.1 = ParamCase.rows ∧ ∃ n : Int, ∀ st, NewSearchRequest.param env params st pv
          = Except.ok ({ st.1 with ResponseSize := n }, st.2))
      ∨ (paramCase pv.1 = ParamCase.itemFormat ∧ ∃ f : ItemFormatType, ∀ st, NewSearchRequest.param env params st pv
          = Except.ok ({ st.1 with ItemFormat := f }, st.2))
      ∨ (paramCase pv.1 = ParamCase.sortBy ∧ ∃ s : GoString, ∀ st, NewSearchRequest.param env params st pv
          = Except.ok ({ st.1 with SortBy := s }, st.2))
      ∨ (∀ st, NewSearchRequest.param env params st pv
          = Except.ok ({ st.1 with SortAsc := true }, st.2))
      ∨ (paramCase pv.1 = ParamCase.collapseOn ∧ ∃ s : GoString, ∀ st, NewSearchRequest.param env params st pv
          = Except.ok ({ st.1 with CollapseOn := s }, st.2))
      ∨ (paramCase pv.1 = ParamCase.collapseSort ∧ ∃ s : GoString, ∀ st, NewSearchRequest.param env params st pv
          = Except.ok ({ st.1 with CollapseSort := s }, st.2))
      ∨ (paramCase pv.1 = ParamCase.collapseSize ∧ ∃ n : Int, ∀ st, NewSearchRequest.param env params st pv
          = Except.ok ({ st.1 with CollapseSize := n }, st.2))
      ∨ (paramCase pv.1 = ParamCase.peek ∧ ∃ s : GoString, ∀ st, NewSearchRequest.param env params st pv
          = Except.ok ({ st.1 with Peek := s }, st.2))
      ∨ (paramCase pv.1 = ParamCase.byLeaf ∧ ∃ (a : GoString) (b : Bool), ∀ st, NewSearchRequest.param env params st pv
          = Except.ok ({ st.1 with Tree := some { st.2 with Leaf := a, FillTree := b } }, { st.2 with Leaf := a, FillTree := b }))
      ∨ (paramCase pv.1 = ParamCase.byDepth ∧ ∃ d : List GoString, ∀ st, NewSearchRequest.param env params st pv
          = Except.ok ({ st.1 with Tree := some { st.2 with Depth := d } }, { st.2 with Depth := d }))
      ∨ (paramCase pv.1 = ParamCase.byChildCount ∧ ∃ s : GoString, ∀ st, NewSearchRequest.param env params st pv
          = Except.ok ({ st.1 with Tree := some { st.2 with ChildCount := s } }, { st.2 with ChildCount := s }))
      ∨ (paramCase pv.1 = ParamCase.byParent ∧ ∃ s : GoString, ∀ st, NewSearchRequest.param env params st pv
          = Except.ok ({ st.1 with Tree := some { st.2 with Parent := s } }, { st.2 with Parent := s }))
      ∨ (paramCase pv.1 = ParamCase.byType ∧ ∃ s : GoString, ∀ st, NewSearchRequest.param env params st pv
          = Except.ok ({ st.1 with Tree := some { st.2 with Type_ := s } }, { st.2 with Type_ := s }))
      ∨ (paramCase pv.1 = ParamCase.byLabel ∧ ∃ s : GoString, ∀ st, NewSearchRequest.param env params st pv
          = Except.ok ({ st.1 with Tree := some { st.2 with Label := s } }, { st.2 with Label := s })) := by
  cases hc : paramCase pv.1
  case query =>
    exact Or.inr (Or.inr (Or.inl (⟨rfl, params.Get pv.1, fun st => by unfold NewSearchRequest.param; simp only [hc]⟩)))
  case qf =>
    rcases queryFilters_shape pv.2 with h | ⟨l, h⟩
    · refine Or.inl (?_)
      intro st
      obtain ⟨e, he⟩ := h st.1
      exact ⟨e, by unfold NewSearchRequest.param; simp only [hc, he]⟩
    · refine Or.inr (Or.inr (Or.inr (Or.inl (?_))))
      exact ⟨rfl, l, fun st => by unfold NewSearchRequest.param; simp only [hc, h]⟩
  case facetField =>
    rcases facetFields_shape env pv.2 with h | ⟨l, h⟩
    · refine Or.inl (?_)
      intro st
      obtain ⟨e, he⟩ := h st.1
      exact ⟨e, by unfold NewSearchRequest.param; simp only [hc, he]⟩
    · refine Or.inr (Or.inr (Or.inr (Or.inr (Or.inl (?_)))))
      exact ⟨rfl, l, fun st => by unfold NewSearchRequest.param; simp only [hc, h]⟩
  case facetBoolType =>
    by_cases hv : params.Get pv.1 ≠ []
    · refine Or.inr (Or.inr (Or.inr (Or.inr (Or.inr (Or.inl (?_))))))
      exact ⟨rfl, decide (stringsToLower (params.Get pv.1) = "false".toList), fun st => by
        unfold NewSearchRequest.param; simp only [hc, if_pos hv]⟩
    · refine Or.inr (Or.inl (?_))
      exact fun st => by unfold NewSearchRequest.param; simp only [hc, if_neg hv]
  case format =>
    by_cases h1 : params.Get pv.1 = "protobuf".toList
    · refine Or.inr (Or.inr (Or.inr (Or.inr (Or.inr (Or.inr (Or.inl (?_)))))))
      exact ⟨rfl, ResponseFormatType.PROTOBUF, fun st => by
        unfold NewSearchRequest.param; simp only [hc, if_pos h1]⟩
    by_cases h2 : params.Get pv.1 = "jsonld".toList
    · refine Or.inr (Or.inr (Or.inr (Or.inr (Or.inr (Or.inr (Or.inl (?_)))))))
      exact ⟨rfl, ResponseFormatType.LDJSON, fun st => by
        unfold NewSearchRequest.param; simp only [hc, if_neg h1, if_pos h2]⟩
    by_cases h3 : params.Get pv.1 = "bulkaction".toList
    · refine Or.inr (Or.inr (Or.inr (Or.inr (Or.inr (Or.inr (Or.inl (?_)))))))
      exact ⟨rfl, ResponseFormatType.BULKACTION, fun st => by
        unfold NewSearchRequest.param; simp only [hc, if_neg h1, if_neg h2, if_pos h3]⟩
    · refine Or.inr (Or.inl (?_))
      exact fun st => by
        unfold NewSearchRequest.param; simp only [hc, if_neg h1, if_neg h2, if_neg h3]
  case rows =>
    rcases h : strconvAtoi (params.Get pv.1) with ⟨n, _ | err⟩
    · refine Or.inr (Or.inr (Or.inr (Or.inr (Or.inr (Or.inr (Or.inr (Or.inl (?_))))))))
      exact ⟨rfl, wrapInt32 (if n > 1000 then 1000 else n), fun st => by
        unfold NewSearchRequest.param; simp only [hc, h]⟩
    · refine Or.inl (?_)
      exact fun st => ⟨(some st.1, err), by unfold NewSearchRequest.param; simp only [hc, h]⟩
  case itemFormat =>
    refine Or.inr (Or.inr (Or.inr (Or.inr (Or.inr (Or.inr (Or.inr (Or.inr (Or.inl (?_)))))))))
    refine ⟨rfl, (if params.Get "itemFormat".toList = "fragmentGraph".toList then
        ItemFormatType.FRAGMENTGRAPH
      else if params.Get "itemFormat".toList = "grouped".toList then ItemFormatType.GROUPED
      else if params.Get "itemFormat".toList = "jsonld".toList then ItemFormatType.JSONLD
      else if params.Get "itemFormat".toList = "flat".toList then ItemFormatType.FLAT
      else if params.Get "itemFormat".toList = "tree".toList then ItemFormatType.TREE
      else ItemFormatType.SUMMARY), fun st => ?_⟩
    unfold NewSearchRequest.param
    simp only [hc]
    split_ifs <;> rfl
  case sortBy =>
    exact Or.inr (Or.inr (Or.inr (Or.inr (Or.inr (Or.inr (Or.inr (Or.inr (Or.inr (Or.inl (⟨rfl, params.Get pv.1, fun st => by unfold NewSearchRequest.param; simp only [hc]⟩))))))))))
  case sortAsc =>
    by_cases hv : params.Get pv.1 = "true".toList
    · refine Or.inr (Or.inr (Or.inr (Or.inr (Or.inr (Or.inr (Or.inr (Or.inr (Or.inr (Or.inr (Or.inl (?_)))))))))))
      exact fun st => by unfold NewSearchRequest.param; simp only [hc, if_pos hv]
    · refine Or.inr (Or.inl (?_))
      exact fun st => by unfold NewSearchRequest.param; simp only [hc, if_neg hv]
  case sortOrder =>
    by_cases hv : params.Get pv.1 = "asc".toList
    · refine Or.inr (Or.inr (Or.inr (Or.inr (Or.inr (Or.inr (Or.inr (Or.inr (Or.inr (Or.inr (Or.inl (?_)))))))))))
      exact fun st => by unfold NewSearchRequest.param; simp only [hc, if_pos hv]
    · refine Or.inr (Or.inl (?_))
      exact fun st => by unfold NewSearchRequest.param; simp only [hc, if_neg hv]
  case collapseOn =>
    exact Or.inr (Or.inr (Or.inr (Or.inr (Or.inr (Or.inr (Or.inr (Or.inr (Or.inr (Or.inr (Or.inr (Or.inl (⟨rfl, params.Get pv.1, fun st => by unfold NewSearchRequest.param; simp only [hc]⟩))))))))))))
  case collapseSort =>
    exact Or.inr (Or.inr (Or.inr (Or.inr (Or.inr (Or.inr (Or.inr (Or.inr (Or.inr (Or.inr (Or.inr (Or.inr (Or.inl (⟨rfl, params.Get pv.1, fun st => by unfold NewSearchRequest.param; simp only [hc]⟩)))))))))))))
  case collapseSize =>
    rcases h : strconvAtoi (params.Get pv.1) with ⟨n, _ | err⟩
    · refine Or.inr (Or.inr (Or.inr (Or.inr (Or.inr (Or.inr (Or.inr (Or.inr (Or.inr (Or.inr (Or.inr (Or.inr (Or.inr (Or.inl (?_))))))))))))))
      exact ⟨rfl, wrapInt32 n, fun st => by
        unfold NewSearchRequest.param; simp only [hc, h]⟩
    · refine Or.inl (?_)
      exact fun st => ⟨(some st.1, err), by unfold NewSearchRequest.param; simp only [hc, h]⟩
  case peek =>
    exact Or.inr (Or.inr (Or.inr (Or.inr (Or.inr (Or.inr (Or.inr (Or.inr (Or.inr (Or.inr (Or.inr (Or.inr (Or.inr (Or.inr (Or.inl (⟨rfl, params.Get pv.1, fun st => by unfold NewSearchRequest.param; simp only [hc]⟩)))))))))))))))
  case byLeaf =>
    exact Or.inr (Or.inr (Or.inr (Or.inr (Or.inr (Or.inr (Or.inr (Or.inr (Or.inr (Or.inr (Or.inr (Or.inr (Or.inr (Or.inr (Or.inr (Or.inl (⟨rfl, params.Get pv.1, decide (stringsToLower (params.Get "fillTree".toList) = "true".toList), fun st => by unfold NewSearchRequest.param; simp only [hc]⟩))))))))))))))))
  case byDepth =>
    exact Or.inr (Or.inr (Or.inr (Or.inr (Or.inr (Or.inr (Or.inr (Or.inr (Or.inr (Or.inr (Or.inr (Or.inr (Or.inr (Or.inr (Or.inr (Or.inr (Or.inl (⟨rfl, pv.2, fun st => by unfold NewSearchRequest.param; simp only [hc]⟩)))))))))))))))))
  case byChildCount =>
    exact Or.inr (Or.inr (Or.inr (Or.inr (Or.inr (Or.inr (Or.inr (Or.inr (Or.inr (Or.inr (Or.inr (Or.inr (Or.inr (Or.inr (Or.inr (Or.inr (Or.inr (Or.inl (⟨rfl, params.Get pv.1, fun st => by unfold NewSearchRequest.param; simp only [hc]⟩))))))))))))))))))
  case byParent =>
    exact Or.inr (Or.inr (Or.inr (Or.inr (Or.inr (Or.inr (Or.inr (Or.inr (Or.inr (Or.inr (Or.inr (Or.inr (Or.inr (Or.inr (Or.inr (Or.inr (Or.inr (Or.inr (Or.inl (⟨rfl, params.Get pv.1, fun st => by unfold NewSearchRequest.param; simp only [hc]⟩)))))))))))))))))))
  case byType =>
    exact Or.inr (Or.inr (Or.inr (Or.inr (Or.inr (Or.inr (Or.inr (Or.inr (Or.inr (Or.inr (Or.inr (Or.inr (Or.inr (Or.inr (Or.inr (Or.inr (Or.inr (Or.inr (Or.inr (Or.inl (⟨rfl, params.Get pv.1, fun st => by unfold NewSearchRequest.param; simp only [hc]⟩))))))))))))))))))))
  case byLabel =>
    exact Or.inr (Or.inr (Or.inr (Or.inr (Or.inr (Or.inr (Or.inr (Or.inr (Or.inr (Or.inr (Or.inr (Or.inr (Or.inr (Or.inr (Or.inr (Or.inr (Or.inr (Or.inr (Or.inr (Or.inr (⟨rfl, params.Get pv.1, fun st => by unfold NewSearchRequest.param; simp only [hc]⟩))))))))))))))))))))
  case other =>
    refine Or.inr (Or.inl (?_))
    exact fun st => by unfold NewSearchRequest.param; simp only [hc]

/-- Two iterations of the parameter loop that select different cases of the
switch, or the default case, can be exchanged. -/
theorem param_comm (env : Env) (params : Values) (x y : GoString × List GoString)
    (st s1 s2 : LoopState)
    (hc : paramCase x.1 ≠ paramCase y.1 ∨ paramCase x.1 = ParamCase.other)
    (h1 : NewSearchRequest.param env params st y = Except.ok s1)
    (h2 : NewSearchRequest.param env params s1 x = Except.ok s2) :
    ∃ s1', NewSearchRequest.param env params st x = Except.ok s1'
      ∧ NewSearchRequest.param env params s1' y = Except.ok s2 := by
  have key : ∀ Ux Uy : LoopState → LoopState,
      (∀ st, NewSearchRequest.param env params st x = Except.ok (Ux st)) →
      (∀ st, NewSearchRequest.param env params st y = Except.ok (Uy st)) →
      (∀ st, Uy (Ux st) = Ux (Uy st)) →
      ∃ s1', NewSearchRequest.param env params st x = Except.ok s1'
        ∧ NewSearchRequest.param env params s1' y = Except.ok s2 := by
    intro Ux Uy hx hy hcomm
    have e1 := hy st
    rw [h1] at e1
    cases e1
    have e2 := hx (Uy st)
    rw [h2] at e2
    cases e2
    exact ⟨Ux st, hx st, by rw [hy, hcomm]⟩
  rcases param_shape env params x with
    hxe | hxi | ⟨cx, dx0, hx⟩ | ⟨cx, dx0, hx⟩ | ⟨cx, dx0, hx⟩ | ⟨cx, dx0, hx⟩ | ⟨cx, dx0, hx⟩ | ⟨cx, dx0, hx⟩ | ⟨cx, dx0, hx⟩ | ⟨cx, dx0, hx⟩ | hx | ⟨cx, dx0, hx⟩ | ⟨cx, dx0, hx⟩ | ⟨cx, dx0, hx⟩ | ⟨cx, dx0, hx⟩ | ⟨cx, dx0, dx1, hx⟩ | ⟨cx, dx0, hx⟩ | ⟨cx, dx0, hx⟩ | ⟨cx, dx0, hx⟩ | ⟨cx, dx0, hx⟩ | ⟨cx, dx0, hx⟩ <;>
  rcases param_shape env params y with
    hye | hyi | ⟨cy, dy0, hy⟩ | ⟨cy, dy0, hy⟩ | ⟨cy, dy0, hy⟩ | ⟨cy, dy0, hy⟩ | ⟨cy, dy0, hy⟩ | ⟨cy, dy0, hy⟩ | ⟨cy, dy0, hy⟩ | ⟨cy, dy0, hy⟩ | hy | ⟨cy, dy0, hy⟩ | ⟨cy, dy0, hy⟩ | ⟨cy, dy0, hy⟩ | ⟨cy, dy0, hy⟩ | ⟨cy, dy0, dy1, hy⟩ | ⟨cy, dy0, hy⟩ | ⟨cy, dy0, hy⟩ | ⟨cy, dy0, hy⟩ | ⟨cy, dy0, hy⟩ | ⟨cy, dy0, hy⟩ <;>
  first
    | (obtain ⟨e, he⟩ := hxe s1; rw [he] at h2; cases h2)
    | (obtain ⟨e, he⟩ := hye st; rw [he] at h1; cases h1)
    | (have e := hxi s1; rw [h2] at e; cases e; exact ⟨st, hxi st, h1⟩)
    | (have e := hyi st; rw [h1] at e; cases e; exact ⟨s2, h2, hyi s2⟩)
    | exact key _ _ hx hy (fun _ => rfl)
    | (exfalso
       rcases hc with h | h
       · exact h (cx.trans cy.symm)
       · rw [cx] at h
         cases h)

/-- The parameter loop gives the same state for every order of the names, when
any two of them select different cases of the switch or the default case. -/
theorem loop_perm (env : Env) (params : Values) {l l' : List (GoString × List GoString)}
    (h : l.Perm l') :
    l.Pairwise (fun x y => paramCase x.1 ≠ paramCase y.1 ∨ paramCase x.1 = ParamCase.other) →
    ∀ st s, NewSearchRequest.loop env params l st = Except.ok s →
      NewSearchRequest.loop env params l' st = Except.ok s := by
  have hsymm : ∀ x y : GoString × List GoString,
      (paramCase x.1 ≠ paramCase y.1 ∨ paramCase x.1 = ParamCase.other) →
      (paramCase y.1 ≠ paramCase x.1 ∨ paramCase y.1 = ParamCase.other) := by
    intro x y hxy
    by_cases e : paramCase y.1 = paramCase x.1
    · rcases hxy with hxy | hxy
      · exact absurd e.symm hxy
      · exact Or.inr (e.trans hxy)
    · exact Or.inl e
  induction h with
  | nil => exact fun _ _ _ h => h
  | cons x _ ih =>
    intro hp st s hl
    rw [List.pairwise_cons] at hp
    unfold NewSearchRequest.loop at hl ⊢
    cases hx : NewSearchRequest.param env params st x with
    | error e =>
      rw [hx] at hl
      cases hl
    | ok s1 =>
      rw [hx] at hl
      exact ih hp.2 s1 s hl
  | swap x y l =>
    intro hp st s hl
    rw [List.pairwise_cons, List.pairwise_cons] at hp
    have hyx := hp.1 x (List.mem_cons_self _ _)
    unfold NewSearchRequest.loop at hl
    cases hy : NewSearchRequest.param env params st y with
    | error e =>
      rw [hy] at hl
      cases hl
    | ok s1 =>
      rw [hy] at hl
      simp only at hl
      unfold NewSearchRequest.loop at hl
      cases hx : NewSearchRequest.param env params s1 x with
      | error e =>
        rw [hx] at hl
        cases hl
      | ok s2 =>
        rw [hx] at hl
        simp only at hl
        obtain ⟨s1', hx', hy'⟩ := param_comm env params x y st s1 s2 (hsymm y x hyx) hy hx
        unfold NewSearchRequest.loop
        rw [hx']
        simp only
        unfold NewSearchRequest.loop
        rw [hy']
        exact hl
  | trans h1 _ ih1 ih2 =>
    intro hp st s hl
    exact ih2 ((h1.pairwise_iff (fun {x y} hxy => hsymm x y hxy)).mp hp) st s (ih1 hp st s hl)

/-- With each name once, not both of q and query and not both of qf and qf[],
any two names select different cases of the switch or the default case. -/
theorem params_pairwise (params : Values)
    (hkeys : (params.map Prod.fst).Nodup)
    (hquery : ¬ ("q".toList ∈ params.map Prod.fst ∧ "query".toList ∈ params.map Prod.fst))
    (hqf : ¬ ("qf".toList ∈ params.map Prod.fst ∧ "qf[]".toList ∈ params.map Prod.fst)) :
    params.Pairwise
      (fun x y => paramCase x.1 ≠ paramCase y.1 ∨ paramCase x.1 = ParamCase.other) := by
  have hne : params.Pairwise (fun x y => x.1 ≠ y.1) := by
    simpa [List.Nodup, List.pairwise_map] using hkeys
  refine hne.imp_of_mem ?_
  intro x y hx hy hxy
  have mx : x.1 ∈ params.map Prod.fst := List.mem_map_of_mem _ hx
  have my : y.1 ∈ params.map Prod.fst := List.mem_map_of_mem _ hy
  by_cases e : paramCase x.1 = paramCase y.1
  swap
  · exact Or.inl e
  right
  obtain ⟨k0, k1, k2, k3, k4, k5, k6, k7, k8, k9, k10, k11, k12, k13, k14, k15, k16, k17, k18,
    k19⟩ := paramCase_key x.1 _ rfl
  obtain ⟨j0, j1, j2, j3, j4, j5, j6, j7, j8, j9, j10, j11, j12, j13, j14, j15, j16, j17, j18,
    j19⟩ := paramCase_key y.1 _ rfl
  cases hc : paramCase x.1 with
  | other => rfl
  | query =>
    exfalso
    rcases k0 hc with a | a <;> rcases j0 (e.symm.trans hc) with b | b
    · exact hxy (a.trans b.symm)
    · exact hquery ⟨a ▸ mx, b ▸ my⟩
    · exact hquery ⟨b ▸ my, a ▸ mx⟩
    · exact hxy (a.trans b.symm)
  | qf =>
    exfalso
    rcases k1 hc with a | a <;> rcases j1 (e.symm.trans hc) with b | b
    · exact hxy (a.trans b.symm)
    · exact hqf ⟨a ▸ mx, b ▸ my⟩
    · exact hqf ⟨b ▸ my, a ▸ mx⟩
    · exact hxy (a.trans b.symm)
  | _ =>
    exfalso
    have hcy := e.symm.trans hc
    first
      | exact hxy ((k2 hc).trans (j2 hcy).symm)
      | exact hxy ((k3 hc).trans (j3 hcy).symm)
      | exact hxy ((k4 hc).trans (j4 hcy).symm)
      | exact hxy ((k5 hc).trans (j5 hcy).symm)
      | exact hxy ((k6 hc).trans (j6 hcy).symm)
      | exact hxy ((k7 hc).trans (j7 hcy).symm)
      | exact hxy ((k8 hc).trans (j8 hcy).symm)
      | exact hxy ((k9 hc).trans (j9 hcy).symm)
      | exact hxy ((k10 hc).trans (j10 hcy).symm)
      | exact hxy ((k11 hc).trans (j11 hcy).symm)
      | exact hxy ((k12 hc).trans (j12 hcy).symm)
      | exact hxy ((k13 hc).trans (j13 hcy).symm)
      | exact hxy ((k14 hc).trans (j14 hcy).symm)
      | exact hxy ((k15 hc).trans (j15 hcy).symm)
      | exact hxy ((k16 hc).trans (j16 hcy).symm)
      | exact hxy ((k17 hc).trans (j17 hcy).symm)
      | exact hxy ((k18 hc).trans (j18 hcy).symm)
      | exact hxy ((k19 hc).trans (j19 hcy).symm)

/-- C31, amended: NewSearchRequest does not depend on the order in which the
parameter names are visited when it returns no error.  For all url.Values with
each name once that do not hold both q and query, nor both qf and qf[], and
that carry a cursor token (scrollID or qs) or for which NewSearchRequest
returns no error in one order, NewSearchRequest returns the same request and
the same error outcome in every order of the names. -/
theorem NewSearchRequest_order_independent (env : Env) (params params' : Values)
    (hperm : params.Perm params')
    (hkeys : (params.map Prod.fst).Nodup)
    (hquery : ¬ ("q".toList ∈ params.map Prod.fst ∧ "query".toList ∈ params.map Prod.fst))
    (hqf : ¬ ("qf".toList ∈ params.map Prod.fst ∧ "qf[]".toList ∈ params.map Prod.fst))
    (hok : NewSearchRequest.hexRequest params ≠ [] ∨ (NewSearchRequest env params).2 = none) :
    NewSearchRequest env params' = NewSearchRequest env params := by
  have hget : ∀ k, params.Get k = params'.Get k := Get_perm hperm hkeys
  have hhex : NewSearchRequest.hexRequest params' = NewSearchRequest.hexRequest params := by
    unfold NewSearchRequest.hexRequest
    simp only [hget]
  by_cases hx : NewSearchRequest.hexRequest params ≠ []
  · unfold NewSearchRequest
    simp only [hhex]
    rw [if_pos hx, if_pos hx]
  · have hnone : (NewSearchRequest env params).2 = none := by
      rcases hok with h | h
      · exact absurd h hx
      · exact h
    unfold NewSearchRequest at hnone ⊢
    simp only [hhex] at hnone ⊢
    rw [if_neg hx] at hnone
    rw [if_neg hx, if_neg hx]
    rw [← loop_congr env params params' hget params']
    cases hl : NewSearchRequest.loop env params params (DefaultSearchRequest, {}) with
    | error e =>
      rw [hl] at hnone
      simp at hnone
    | ok s =>
      rw [loop_perm env params hperm (params_pairwise params hkeys hquery hqf) _ s hl]

/-- The parameters q=a and rows=5 give the same request in both orders: the
default request with the Query a and the ResponseSize 5. -/
theorem NewSearchRequest_order_independent_witness :
    NewSearchRequest refEnv [("rows".toList, ["5".toList]), ("q".toList, ["a".toList])]
        = NewSearchRequest refEnv [("q".toList, ["a".toList]), ("rows".toList, ["5".toList])]
      ∧ NewSearchRequest refEnv [("q".toList, ["a".toList]), ("rows".toList, ["5".toList])]
        = (some { DefaultSearchRequest with Query := "a".toList, ResponseSize := 5 }, none) :=
  ⟨NewSearchRequest_order_independent refEnv
      [("q".toList, ["a".toList]), ("rows".toList, ["5".toList])]
      [("rows".toList, ["5".toList]), ("q".toList, ["a".toList])]
      (List.Perm.swap _ _ _) (by decide) (by decide) (by decide) (Or.inr (by decide)),
    by decide⟩

/-- C31, counterexample: the parameters q=a and query=b are two names of one
url.Values; visited as q, query the request has the Query b, visited as query,
q it has the Query a.  With rows=x, which is no number, and sortBy=a the error
return hands out the request built so far: the default request when rows is
visited first, the request with SortBy a when sortBy is visited first. -/
theorem NewSearchRequest_alias_order_counterexample :
    List.Perm [("q".toList, ["a".toList]), ("query".toList, ["b".toList])]
        [("query".toList, ["b".toList]), ("q".toList, ["a".toList])]
      ∧ ([("q".toList, ["a".toList]), ("query".toList, ["b".toList])].map Prod.fst).Nodup
      ∧ NewSearchRequest refEnv [("q".toList, ["a".toList]), ("query".toList, ["b".toList])]
        = (some { DefaultSearchRequest with Query := "b".toList }, none)
      ∧ NewSearchRequest refEnv [("query".toList, ["b".toList]), ("q".toList, ["a".toList])]
        = (some { DefaultSearchRequest with Query := "a".toList }, none)
      ∧ NewSearchRequest refEnv [("q".toList, ["a".toList]), ("query".toList, ["b".toList])]
        ≠ NewSearchRequest refEnv [("query".toList, ["b".toList]), ("q".toList, ["a".toList])]
      ∧ (NewSearchRequest refEnv
            [("rows".toList, ["x".toList]), ("sortBy".toList, ["a".toList])]).1
        = some DefaultSearchRequest
      ∧ (NewSearchRequest refEnv
            [("sortBy".toList, ["a".toList]), ("rows".toList, ["x".toList])]).1
        = some { DefaultSearchRequest with SortBy := "a".toList }
      ∧ (NewSearchRequest refEnv
            [("rows".toList, ["x".toList]), ("sortBy".toList, ["a".toList])]).2 ≠ none :=
  ⟨List.Perm.swap _ _ _, by decide, by decide, by decide, by decide, by decide, by decide,
    by decide⟩

end Hub3
